import Mathlib

/-!
# runn: the scenario execution engine (operator.go)

A shallow embedding of the operator of `operator.go`: the store of recorded
frames, `record`, the step body with its dispatch and post-hooks, the loop
controller, `runInternal`, `run` and `Run`.

Conventions of the embedding.

* Go mutates the operator in place and returns an `error`; here every
  operation maps an `OpState` to the next `OpState` together with an
  `Outcome` (`ok` for a `nil` error, `error msg`, or `panic msg` for a Go
  run-time panic such as an index out of range).
* The protocol runners, the expression engine, the request parsers and the
  `Loop(ctx)` back-off are collaborators that `operator.go` only calls; they
  are parameters (fields of `Oracles`, of `Step` and of `Loop`).
* `OpState.trace` is a ghost log of the calls the operator makes, in order.
  It has no counterpart in the Go state; it is what the ordering properties
  are stated over.
* `time.Sleep`, the stop-watch spans and the `Debugf`/`Debugln` output do not
  influence the store or the control flow and are left out.
-/

namespace Runn

/-! ## Data model -/

/-- A recorded frame, Go's `map[string]interface{}`; `none` is the `nil` map. -/
abbrev Frame := Option (List (String × String))

/-- A value of a step-map as the loader delivers it, Go's `interface{}`: a
string, a bool, a `map[string]interface{}`, or a value of another type, kept
as its rendering. -/
inductive Raw where
  | str (s : String)
  | bool (b : Bool)
  | map (m : List (String × Raw))
  | other (repr : String)

/-- A step payload before expansion (`httpRequest`, `dbQuery`, ...), a
`map[string]interface{}`. -/
abbrev Payload := List (String × Raw)

/-- A parsed request handed to a runner. -/
abbrev Request := String

/-- Go's `time.Duration`, in nanoseconds. -/
abbrev Duration := Int

/-- The result of `evalExpand`: an `interface{}` that is a map or something else. -/
inductive Value where
  | map (m : Payload)
  | other (repr : String)

/-- How a call ends: `nil`, an `error`, or a run-time panic. -/
inductive Outcome where
  | ok
  | error (msg : String)
  | panic (msg : String)
deriving DecidableEq, Repr

/-- The five dispatch kinds of a step. -/
inductive Kind where
  | http
  | db
  | grpc
  | exec
  | incl
deriving DecidableEq, Repr

/-- The fields of `store` that `operator.go` reads or writes. -/
structure Store where
  steps : List Frame
  stepMap : List (String × Frame)
  bindVars : List (String × String)
  loopIndex : Option Int
  useMap : Bool
deriving DecidableEq, Repr

/-- Assignment `m[k] = v` on a Go map kept as an association list with
pairwise distinct keys: an existing key keeps its place. -/
def mapAssign (m : List (String × Frame)) (k : String) (v : Frame) : List (String × Frame) :=
  if m.any (fun p => p.1 == k) then
    m.map (fun p => if p.1 == k then (k, v) else p)
  else
    m ++ [(k, v)]

/-- Go's `delete(m, k)`. -/
def mapDelete (m : List (String × Frame)) (k : String) : List (String × Frame) :=
  m.filter (fun p => p.1 != k)

/-- Modelled from the spec: `store.recortAsListed` (store.go is not among the
sources), "in list mode, appends to `steps`". -/
def Store.recortAsListed (s : Store) (v : Frame) : Store :=
  { s with steps := s.steps ++ [v] }

/-- Modelled from the spec: `store.recortAsMapped` (store.go is not among the
sources), "in map mode, assigns into `stepMap`" at the given key. -/
def Store.recortAsMapped (s : Store) (k : String) (v : Frame) : Store :=
  { s with stepMap := mapAssign s.stepMap k v }

/-- Modelled from the spec: `store.latest` (store.go is not among the sources),
"`latest() → frame|nil`", the most recently recorded frame and `nil` when
there is none. -/
def Store.latest (s : Store) : Frame :=
  if s.useMap then
    match s.stepMap.getLast? with
    | some p => p.2
    | none => none
  else
    match s.steps.getLast? with
    | some f => f
    | none => none

/-- The number of frames the store holds. -/
def Store.frameCount (s : Store) : Nat :=
  if s.useMap then s.stepMap.length else s.steps.length

/-- The map handed to the expression engine: `store.toMap()` with the two keys
`operator.go` overrides (`included`, `current`). -/
structure Snapshot where
  store : Store
  included : Option Bool
  current : Option Frame
deriving DecidableEq, Repr

/-- Modelled from the spec: `store.toMap` (store.go is not among the sources),
the read-only view of the store; the overridden keys start unset. -/
def Store.toMap (s : Store) : Snapshot :=
  { store := s, included := none, current := none }

/-- The map the loop hands to the expression engine: `store := o.store.toMap()`
followed by `store[storeCurrentKey] = o.store.latest()`. -/
def Store.withCurrent (s : Store) : Snapshot :=
  { store := s, included := none, current := some s.latest }

/-- What a runner call does as far as the operator can see: the frames it
hands to `operator.record`, in order, and the error it returns. -/
structure RunOut where
  frames : List Frame
  err : Option String
deriving DecidableEq, Repr

/-- The ghost log of calls. Runner and hook events carry the step index and
the error the call returned. -/
inductive Event where
  | captureStart
  | captureEnd
  | captureSuccess
  | captureSkipped
  | captureFailed (err : String)
  | setCurrentIDs (ids : List String)
  | close
  | beforeFunc (i : Nat) (err : Option String)
  | afterFunc (i : Nat) (err : Option String)
  | stepFn (i : Nat) (loopIndex : Option Int)
  | dispatch (kind : Kind) (i : Nat) (err : Option String)
  | dump (i : Nat) (err : Option String)
  | bind (i : Nat) (err : Option String)
  | test (i : Nat) (err : Option String)
  | record (v : Frame)
  | untilChecked (snap : Snapshot) (tf : Bool)
deriving DecidableEq, Repr

/-- The loop section of a step. `cont n` is the result of the call number `n`
(from 0) of `Loop(ctx)`, which waits and reports whether to go on. -/
structure Loop where
  Count : String
  Until : String
  interval : Option Duration
  minInterval : Option Duration
  maxInterval : Option Duration
  cont : Nat → Bool

/-- The collaborators of `operator.go`: the expression engine, the request
parsers and the `%v` renderings used in messages. -/
structure Oracles where
  evalCond : String → Snapshot → Except String Bool
  evalCount : String → Snapshot → Except String Int
  buildTree : String → Snapshot → Except String String
  evalExpand : Payload → Snapshot → Except String Value
  parseHTTPRequest : Payload → Except String Request
  parseDBQuery : Payload → Except String Request
  parseGrpcRequest : Payload → Snapshot → Except String Request
  parseExecCommand : Payload → Except String Request
  showValue : Value → String
  showDuration : Duration → String

/-- A parsed step. A runner is the function from its request and the current
store to what the call does. -/
structure Step where
  key : String
  runnerKey : String
  desc : String
  cond : String
  loop : Option Loop
  httpRunner : Option (Request → Store → RunOut)
  httpRequest : Option Payload
  dbRunner : Option (Request → Store → RunOut)
  dbQuery : Option Payload
  grpcRunner : Option (Request → Store → RunOut)
  grpcRequest : Option Payload
  execRunner : Option (Request → Store → RunOut)
  execCommand : Option Payload
  testRunner : Option (String → Bool → Store → Option String)
  testCond : String
  dumpRunner : Option (String → Store → Option String)
  dumpCond : String
  bindRunner : Option (List (String × String) → Store → List (String × String) × Option String)
  bindCond : Option (List (String × String))
  includeRunner : Option (String → Store → RunOut)
  includeConfig : Option String

/-- The fields of `operator` that do not change during a run. The runner maps
are lists of key and runner with pairwise distinct keys, in the order a
`range` over the Go map visits them. -/
structure Operator where
  id : String
  ids : List String
  httpRunners : List (String × (Request → Store → RunOut))
  dbRunners : List (String × (Request → Store → RunOut))
  grpcRunners : List (String × (Request → Store → RunOut))
  steps : List Step
  desc : String
  useMap : Bool
  included : Bool
  cond : String
  skipTest : Bool
  failFast : Bool
  bookPath : String
  beforeFuncs : List (Store → Option String)
  afterFuncs : List (Store → Option String)

/-- The fields of `operator` that a run changes, and the ghost log. -/
structure OpState where
  store : Store
  skipped : Bool
  trace : List Event
deriving DecidableEq, Repr

/-- Append one event to the ghost log. -/
def OpState.log (st : OpState) (e : Event) : OpState :=
  { st with trace := st.trace ++ [e] }

/-! ## record -/

/-- The test `o.store.loopIndex != nil && *o.store.loopIndex > 0`. -/
def Store.loopAgain (s : Store) : Bool :=
  match s.loopIndex with
  | some j => decide (j > 0)
  | none => false

/-- `operator.recortAsListed`: inside loop iteration `k > 0` the last frame is
sliced off first; slicing an empty list panics. -/
def Operator.recortAsListed (_o : Operator) (s : Store) (v : Frame) : Except String Store :=
  if s.loopAgain then
    if s.steps.length = 0 then
      .error "slice bounds out of range [:-1]"
    else
      .ok (Store.recortAsListed { s with steps := s.steps.take (s.steps.length - 1) } v)
  else
    .ok (s.recortAsListed v)

/-- The first statement of `operator.recortAsMapped`: inside loop iteration
`k > 0` the entry of the step at position `len(stepMap) - 1` is deleted; an
index outside `o.steps` panics. -/
def Operator.deletePrevious (o : Operator) (s : Store) : Except String Store :=
  if s.loopAgain then
    if s.stepMap.length = 0 then
      .error "index out of range [-1]"
    else
      match o.steps[s.stepMap.length - 1]? with
      | some p => .ok { s with stepMap := mapDelete s.stepMap p.key }
      | none => .error "index out of range"
  else
    .ok s

/-- `operator.recortAsMapped`: the key of the frame is the key of the step at
position `len(stepMap)`; an index outside `o.steps` panics. -/
def Operator.recortAsMapped (o : Operator) (s : Store) (v : Frame) : Except String Store :=
  match o.deletePrevious s with
  | .error m => .error m
  | .ok s1 =>
    match o.steps[s1.stepMap.length]? with
    | some p => .ok (s1.recortAsMapped p.key v)
    | none => .error "index out of range"

/-- `operator.record`. -/
def Operator.record (o : Operator) (s : Store) (v : Frame) : Except String Store :=
  if o.useMap then o.recortAsMapped s v else o.recortAsListed s v

/-- One call of `operator.record` on the run state. -/
def Operator.recordSt (o : Operator) (st : OpState) (v : Frame) : OpState × Outcome :=
  match o.record st.store v with
  | .ok s1 => ({ st with store := s1, trace := st.trace ++ [Event.record v] }, .ok)
  | .error m => (st.log (Event.record v), .panic m)

/-- The `record` calls a runner makes, in order. -/
def Operator.recordAll (o : Operator) : List Frame → OpState → OpState × Outcome
  | [], st => (st, .ok)
  | v :: vs, st =>
    match o.recordSt st v with
    | (st1, .ok) => o.recordAll vs st1
    | r => r

/-- `operator.stepName`. -/
def Operator.stepName (o : Operator) (s : Store) (i : Nat) : String :=
  let pfx : String :=
    match s.loopIndex with
    | some j => ".loop[" ++ toString j ++ "]"
    | none => ""
  if o.useMap then
    "\x27" ++ o.desc ++ "\x27.steps." ++ (match o.steps[i]? with | some p => p.key | none => "") ++ pfx
  else
    "\x27" ++ o.desc ++ "\x27.steps[" ++ toString i ++ "]" ++ pfx

/-! ## The step body (`stepFn`) -/

/-- Where control goes after a part of the step body: on to the next part with
the current value of `runned`, or out of `stepFn` with a result. -/
inductive Flow where
  | next (runned : Bool)
  | ret (out : Outcome)
deriving DecidableEq, Repr

/-- Continue with `f` after a call that ended with `out`, or leave with `out`. -/
def Flow.after (out : Outcome) (f : Flow) : Flow :=
  match out with
  | .ok => f
  | .error m => .ret (.error m)
  | .panic m => .ret (.panic m)

/-- The statement `if !runned { o.record(nil) }`. -/
def Operator.recordIfNot (o : Operator) (runned : Bool) (st : OpState) : OpState × Outcome :=
  if runned then (st, .ok) else o.recordSt st none

/-- The call `runner.Run(ctx, req)` of a dispatch runner and the wrapping of
its error: `"<failed> on <stepName>: <err>"`. -/
def Operator.callRunner (o : Operator) (kind : Kind) (i : Nat) (failed : String)
    (r : RunOut) (st : OpState) : OpState × Flow :=
  match o.recordAll r.frames (st.log (Event.dispatch kind i r.err)) with
  | (st1, .ok) =>
    match r.err with
    | none => (st1, .next true)
    | some e => (st1, .ret (.error (failed ++ " on " ++ o.stepName st1.store i ++ ": " ++ e)))
  | (st1, .error m) => (st1, .ret (.error m))
  | (st1, .panic m) => (st1, .ret (.panic m))

/-- The shape shared by the http, db and exec cases of the dispatch switch:
expand the payload, assert that the result is a map, parse it, call the
runner. A parse error is returned as it is (`wrapParse = false`, http) or
replaced by `"invalid <stepName>: <map>"` (db, exec). -/
def Operator.expandParseRun (o : Operator) (env : Oracles) (kind : Kind) (i : Nat)
    (failed : String) (parse : Payload → Except String Request) (wrapParse : Bool)
    (run : Request → Store → RunOut) (p : Payload) (st : OpState) : OpState × Flow :=
  match env.evalExpand p st.store.toMap with
  | .error e => (st, .ret (.error e))
  | .ok (.other x) =>
    (st, .ret (.error ("invalid " ++ o.stepName st.store i ++ ": " ++ env.showValue (.other x))))
  | .ok (.map m) =>
    match parse m with
    | .error e =>
      if wrapParse then
        (st, .ret (.error ("invalid " ++ o.stepName st.store i ++ ": " ++ env.showValue (.map m))))
      else
        (st, .ret (.error e))
    | .ok req => o.callRunner kind i failed (run req st.store) st

/-- One `case r != nil && p != nil:` of a switch: `hit r p` when both are
set, and the remaining cases `rest` otherwise. -/
def caseBoth {α β γ : Type} (r : Option α) (p : Option β) (hit : α → β → γ) (rest : γ) : γ :=
  match r, p with
  | some x, some y => hit x y
  | _, _ => rest

/-- The dispatch `switch` of `stepFn`: the first kind whose runner and payload
are both set is run; with none set, `runned` stays false. -/
def Operator.dispatch (o : Operator) (env : Oracles) (i : Nat) (s : Step) (st : OpState) :
    OpState × Flow :=
  caseBoth s.httpRunner s.httpRequest
    (fun r p =>
      o.expandParseRun env .http i "http request failed" env.parseHTTPRequest false r p st) <|
  caseBoth s.dbRunner s.dbQuery
    (fun r p => o.expandParseRun env .db i "db query failed" env.parseDBQuery true r p st) <|
  caseBoth s.grpcRunner s.grpcRequest
    (fun r p =>
      match env.parseGrpcRequest p st.store.toMap with
      | .error _ =>
        (st, .ret (.error ("invalid " ++ o.stepName st.store i ++ ": " ++ env.showValue (.map p))))
      | .ok req => o.callRunner .grpc i "gRPC request failed" (r req st.store) st) <|
  caseBoth s.execRunner s.execCommand
    (fun r p =>
      o.expandParseRun env .exec i "exec command failed" env.parseExecCommand true r p st) <|
  caseBoth s.includeRunner s.includeConfig
    (fun r c => o.callRunner .incl i "include failed" (r c st.store) st)
    (st, .next false)

/-- The dump hook of `stepFn`. -/
def Operator.dumpHook (o : Operator) (i : Nat) (s : Step) (runned : Bool) (st : OpState) :
    OpState × Flow :=
  match s.dumpRunner with
  | none => (st, .next runned)
  | some dr =>
    if s.dumpCond = "" then (st, .next runned)
    else
      match dr s.dumpCond st.store with
      | some e =>
        (st.log (Event.dump i (some e)),
          .ret (.error ("dump failed on " ++ o.stepName st.store i ++ ": " ++ e)))
      | none =>
        let r := o.recordIfNot runned (st.log (Event.dump i none))
        (r.1, Flow.after r.2 (.next true))

/-- The bind hook of `stepFn`; the bind runner returns the new `bindVars`. -/
def Operator.bindHook (o : Operator) (i : Nat) (s : Step) (runned : Bool) (st : OpState) :
    OpState × Flow :=
  match s.bindRunner, s.bindCond with
  | some br, some cond =>
    let st1 : OpState :=
      { st with store := { st.store with bindVars := (br cond st.store).1 } }
    match (br cond st.store).2 with
    | some e =>
      (st1.log (Event.bind i (some e)),
        .ret (.error ("bind failed on " ++ o.stepName st.store i ++ ": " ++ e)))
    | none =>
      let r := o.recordIfNot runned (st1.log (Event.bind i none))
      (r.1, Flow.after r.2 (.next true))
  | _, _ => (st, .next runned)

/-- The test hook of `stepFn`; with `skipTest` the body returns `nil` here. -/
def Operator.testHook (o : Operator) (i : Nat) (s : Step) (runned : Bool) (st : OpState) :
    OpState × Flow :=
  match s.testRunner with
  | none => (st, .next runned)
  | some tr =>
    if s.testCond = "" then (st, .next runned)
    else if o.skipTest then
      let r := o.recordIfNot runned st
      (r.1, Flow.after r.2 (.ret .ok))
    else
      match tr s.testCond runned st.store with
      | some e =>
        (st.log (Event.test i (some e)),
          .ret (.error ("test failed on " ++ o.stepName st.store i ++ ": " ++ e)))
      | none =>
        let r := o.recordIfNot runned (st.log (Event.test i none))
        (r.1, Flow.after r.2 (.next true))

/-- The closing check of `stepFn`: `if !runned { return "invalid runner" }`. -/
def Operator.finish (o : Operator) (i : Nat) (runned : Bool) (st : OpState) : OpState × Outcome :=
  if runned then (st, .ok)
  else (st, .error ("invalid runner: " ++ o.stepName st.store i))

/-- The closure `stepFn` of `runInternal`: dispatch, then dump, bind, test. -/
def Operator.stepFn (o : Operator) (env : Oracles) (i : Nat) (s : Step) (st : OpState) :
    OpState × Outcome :=
  match o.dispatch env i s (st.log (Event.stepFn i st.store.loopIndex)) with
  | (st1, .ret out) => (st1, out)
  | (st1, .next r1) =>
    match o.dumpHook i s r1 st1 with
    | (st2, .ret out) => (st2, out)
    | (st2, .next r2) =>
      match o.bindHook i s r2 st2 with
      | (st3, .ret out) => (st3, out)
      | (st3, .next r3) =>
        match o.testHook i s r3 st3 with
        | (st4, .ret out) => (st4, out)
        | (st4, .next r4) => o.finish i r4 st4

/-! ## The loop controller -/

/-- How the `for s.loop.Loop(ctx)` statement is left: past its end with the
values of `retrySuccess` and of the tree `t`, or by a `return`. -/
inductive LoopExit where
  | done (retrySuccess : Bool) (t : String)
  | ret (out : Outcome)
deriving DecidableEq, Repr

/-- Set `o.store.loopIndex`. -/
def OpState.setLoopIndex (st : OpState) (j : Option Int) : OpState :=
  { st with store := { st.store with loopIndex := j } }

/-- The `for s.loop.Loop(ctx)` statement from iteration `j` on. `fuel` bounds
the number of iterations; `runLoop` supplies `count + 1`, which is never used
up because every iteration but the last raises `j` while `j < count`. -/
def Operator.loopIter (o : Operator) (env : Oracles) (i : Nat) (s : Step) (l : Loop) (c : Int) :
    Nat → Nat → Bool → String → OpState → OpState × LoopExit
  | 0, _, _, _, st => (st, .ret (.panic "loop fuel exhausted"))
  | fuel + 1, j, retrySuccess, t, st =>
    if l.cont j = false then (st, .done retrySuccess t)
    else if (j : Int) ≥ c then (st, .done retrySuccess t)
    else
      match o.stepFn env i s (st.setLoopIndex (some (j : Int))) with
      | (st1, .error e) => (st1, .ret (.error ("loop failed: " ++ e)))
      | (st1, .panic m) => (st1, .ret (.panic m))
      | (st1, .ok) =>
        if l.Until = "" then o.loopIter env i s l c fuel (j + 1) retrySuccess t st1
        else
          match env.buildTree l.Until
              st1.store.withCurrent with
          | .error e =>
            (st1, .ret (.error ("loop failed on " ++ o.stepName st1.store i ++ ": " ++ e)))
          | .ok t1 =>
            match env.evalCond l.Until
                st1.store.withCurrent with
            | .error e =>
              (st1, .ret (.error ("loop failed on " ++ o.stepName st1.store i ++ ": " ++ e)))
            | .ok tf =>
              if tf then
                (st1.log (Event.untilChecked
                  st1.store.withCurrent tf),
                  .done true t1)
              else
                o.loopIter env i s l c fuel (j + 1) retrySuccess t1
                  (st1.log (Event.untilChecked
                    st1.store.withCurrent tf))

/-- The error `"(<until>) is not true\n<tree>"` of an exhausted loop. -/
def notTrueMessage (l : Loop) (t : String) : String :=
  "(" ++ l.Until ++ ") is not true\n" ++ t

/-- The `if !retrySuccess` block after the loop: `loopIndex` is cleared, then
the message is built; dereferencing a nil interval panics. -/
def Operator.retryFailed (o : Operator) (env : Oracles) (i : Nat) (l : Loop) (c : Int)
    (t : String) (st : OpState) : OpState × Outcome :=
  match l.interval with
  | some iv =>
    (st.setLoopIndex none,
      .error ("retry loop failed on " ++ o.stepName (st.setLoopIndex none).store i
        ++ ".loop (count: " ++ toString c ++ ", interval: " ++ env.showDuration iv ++ "): "
        ++ notTrueMessage l t))
  | none =>
    match l.minInterval, l.maxInterval with
    | some mn, some mx =>
      (st.setLoopIndex none,
        .error ("retry loop failed on " ++ o.stepName (st.setLoopIndex none).store i
          ++ ".loop (count: " ++ toString c ++ ", minInterval: " ++ env.showDuration mn
          ++ ", maxInterval: " ++ env.showDuration mx ++ "): " ++ notTrueMessage l t))
    | _, _ => (st.setLoopIndex none, .panic "nil pointer dereference")

/-- The loop branch of a step, before the deferred reset of `loopIndex`. -/
def Operator.loopBody (o : Operator) (env : Oracles) (i : Nat) (s : Step) (l : Loop)
    (st : OpState) : OpState × Outcome :=
  match env.evalCount l.Count st.store.toMap with
  | .error e => (st, .error e)
  | .ok c =>
    match o.loopIter env i s l c (c.toNat + 1) 0 (l.Until == "") "" st with
    | (st1, .ret out) => (st1, out)
    | (st1, .done true _) => (st1, .ok)
    | (st1, .done false t) => o.retryFailed env i l c t st1

/-- The loop branch of a step: `defer func() { o.store.loopIndex = nil }()`
runs on every way out. -/
def Operator.runLoop (o : Operator) (env : Oracles) (i : Nat) (s : Step) (l : Loop)
    (st : OpState) : OpState × Outcome :=
  ((o.loopBody env i s l st).1.setLoopIndex none, (o.loopBody env i s l st).2)

/-! ## runInternal, run, Run -/

/-- One pass of the `for i, s := range o.steps` body: the guard, then the loop
or the plain body. -/
def Operator.runStep (o : Operator) (env : Oracles) (i : Nat) (s : Step) (st : OpState) :
    OpState × Outcome :=
  let st0 := st.log (Event.setCurrentIDs (o.ids ++ [s.key]))
  let body : OpState × Outcome :=
    match s.loop with
    | some l => o.runLoop env i s l st0
    | none => o.stepFn env i s st0
  if s.cond = "" then body
  else
    match env.evalCond s.cond
        { store := st0.store, included := some o.included, current := none } with
    | .error e => (st0, .error e)
    | .ok false => o.recordSt st0 none
    | .ok true => body

/-- The `for i, s := range o.steps` statement from step `i` on. -/
def Operator.runSteps (o : Operator) (env : Oracles) : Nat → List Step → OpState → OpState × Outcome
  | _, [], st => (st, .ok)
  | i, s :: ss, st =>
    match o.runStep env i s st with
    | (st1, .ok) => o.runSteps env (i + 1) ss st1
    | (st1, .error m) => (st1, .error m)
    | (st1, .panic m) => (st1, .panic m)

/-- The loops over `beforeFuncs` and `afterFuncs`; `ev` makes the log entry. -/
def runFuncs (ev : Nat → Option String → Event) :
    Nat → List (Store → Option String) → OpState → OpState × Outcome
  | _, [], st => (st, .ok)
  | i, f :: fs, st =>
    match f st.store with
    | some m => (st.log (ev i (some m)), .error m)
    | none => runFuncs ev (i + 1) fs (st.log (ev i none))

/-- `operator.runInternal` after the top-level `if`. -/
def Operator.runGuarded (o : Operator) (env : Oracles) (st : OpState) : OpState × Outcome :=
  match runFuncs Event.beforeFunc 0 o.beforeFuncs st with
  | (st1, .error m) => (st1, .error m)
  | (st1, .panic m) => (st1, .panic m)
  | (st1, .ok) =>
    match o.runSteps env 0 o.steps st1 with
    | (st2, .error m) => (st2, .error m)
    | (st2, .panic m) => (st2, .panic m)
    | (st2, .ok) => runFuncs Event.afterFunc 0 o.afterFuncs st2

/-- `operator.runInternal`. -/
def Operator.runInternal (o : Operator) (env : Oracles) (st : OpState) : OpState × Outcome :=
  if o.cond = "" then o.runGuarded env st
  else
    match env.evalCond o.cond
        { store := st.store, included := some o.included, current := none } with
    | .error e => (st, .error e)
    | .ok false => ({ st with skipped := true }, .ok)
    | .ok true => o.runGuarded env st

/-- `operator.run`; with a test handle `t.Run` calls the same `runInternal`
and the same wrapping applies. -/
def Operator.run (o : Operator) (env : Oracles) (st : OpState) : OpState × Outcome :=
  match o.runInternal env st with
  | (st1, .ok) => (st1, .ok)
  | (st1, .error e) => (st1, .error ("failed to run " ++ o.id ++ ": " ++ e))
  | (st1, .panic m) => (st1, .panic m)

/-- `operator.Run`: the deferred `Close` and `captureEnd` run on every way out. -/
def Operator.Run (o : Operator) (env : Oracles) (st : OpState) : OpState × Outcome :=
  match o.run env (st.log Event.captureStart) with
  | (st1, .error e) =>
    ((((st1.log (Event.captureFailed e)).log Event.close).log Event.captureEnd), .error e)
  | (st1, .ok) =>
    if st1.skipped then
      ((((st1.log Event.captureSkipped).log Event.close).log Event.captureEnd), .ok)
    else
      ((((st1.log Event.captureSuccess).log Event.close).log Event.captureEnd), .ok)
  | (st1, .panic m) => (((st1.log Event.close).log Event.captureEnd), .panic m)

/-- `operator.Skipped`. -/
def Operator.Skipped (st : OpState) : Bool :=
  st.skipped

/-- The run state `New` leaves behind: an empty store, nothing logged. -/
def OpState.init (o : Operator) : OpState :=
  { store := { steps := [], stepMap := [], bindVars := [], loopIndex := none, useMap := o.useMap },
    skipped := false, trace := [] }

/-! ## New and AppendStep -/

/-- Modelled from the spec: the reserved keys of a step-map (their constants
are declared outside operator.go), "`if`, `desc`, `loop` (also recognizes a
deprecated alias `retry`), `test`, `dump`, `bind`". -/
def ifSectionKey : String := "if"

/-- Modelled from the spec: the reserved key `desc`. -/
def descSectionKey : String := "desc"

/-- Modelled from the spec: the reserved key `loop`. -/
def loopSectionKey : String := "loop"

/-- Modelled from the spec: the deprecated alias `retry` of `loop`. -/
def deprecatedRetrySectionKey : String := "retry"

/-- Modelled from the spec: the reserved key `test`. -/
def testRunnerKey : String := "test"

/-- Modelled from the spec: the reserved key `dump`. -/
def dumpRunnerKey : String := "dump"

/-- Modelled from the spec: the reserved key `bind`. -/
def bindRunnerKey : String := "bind"

/-- Modelled from the spec: the reserved dispatch key `include`. -/
def includeRunnerKey : String := "include"

/-- Modelled from the spec: the reserved dispatch key `exec`. -/
def execRunnerKey : String := "exec"

/-- A step-map, Go's `map[string]interface{}`: pairwise distinct keys, in the
order a `range` over the map visits them. -/
abbrev StepMap := List (String × Raw)

/-- The lookup `v, ok := s[k]`. -/
def StepMap.get (s : StepMap) (k : String) : Option Raw :=
  match s with
  | [] => none
  | (k1, v) :: rest => if k1 = k then some v else StepMap.get rest k

/-- Go's `delete(s, k)`. -/
def StepMap.delete (s : StepMap) (k : String) : StepMap :=
  s.filter (fun p => p.1 != k)

/-- `pop`: the first entry a `range` over the map visits, if there is one. -/
def pop (s : StepMap) : Option (String × Raw) :=
  s.head?

/-- The lookup `r, ok := runners[k]` in a runner map. -/
def lookupRunner {α : Type} (m : List (String × α)) (k : String) : Option α :=
  match m with
  | [] => none
  | (k1, r) :: rest => if k1 = k then some r else lookupRunner rest k

/-- The loop over the `bind` map: every value has to be a string. -/
def bindStrings : List (String × Raw) → Option (List (String × String))
  | [] => some []
  | (k, .str x) :: rest =>
    match bindStrings rest with
    | some cond => some ((k, x) :: cond)
    | none => none
  | _ :: _ => none

/-- The constructors and parsers `AppendStep` calls, and the `%v` rendering
of a value. -/
structure Builders where
  newLoop : Raw → Except String Loop
  newTestRunner : Except String (String → Bool → Store → Option String)
  newDumpRunner : Except String (String → Store → Option String)
  newBindRunner :
    Except String (List (String × String) → Store → List (String × String) × Option String)
  newIncludeRunner : Except String (String → Store → RunOut)
  newExecRunner : Except String (Request → Store → RunOut)
  parseIncludeConfig : Raw → Except String String
  showRaw : Raw → String

/-- Modelled from the spec: `parseIncludeConfig`, which `AppendStep` calls on
the value of an `include` entry and which is not among the sources. The spec
gives the value of an include step as
`include: {path: <string>, vars: <map>, skipTest: <bool>}`: a map whose `path`
is a string is accepted and gives the path, every other value is rejected. -/
def parseIncludeConfig (v : Raw) : Except String String :=
  match v with
  | .map m =>
    match StepMap.get m "path" with
    | some (.str p) => .ok p
    | _ => .error "invalid include config"
  | _ => .error "invalid include config"

/-- The builders `b` with the include parser of the spec in the place of the
parameter. -/
def specBuilders (b : Builders) : Builders :=
  { b with parseIncludeConfig := parseIncludeConfig }

/-- The step `&step{key: key, parent: o, debug: o.debug}`. -/
def Step.new (key : String) : Step where
  key := key
  runnerKey := ""
  desc := ""
  cond := ""
  loop := none
  httpRunner := none
  httpRequest := none
  dbRunner := none
  dbQuery := none
  grpcRunner := none
  grpcRequest := none
  execRunner := none
  execCommand := none
  testRunner := none
  testCond := ""
  dumpRunner := none
  dumpCond := ""
  bindRunner := none
  bindCond := none
  includeRunner := none
  includeConfig := none

/-- The `if` and `desc` sections of `AppendStep`. -/
def sectionIfDesc (b : Builders) (step : Step) (s : StepMap) : Except String (Step × StepMap) := do
  let mut step := step
  let mut s := s
  if let some v := s.get ifSectionKey then
    match v with
    | .str c => step := { step with cond := c }
    | _ => throw ("invalid if condition: " ++ b.showRaw v)
    s := s.delete ifSectionKey
  if let some v := s.get descSectionKey then
    match v with
    | .str d => step := { step with desc := d }
    | _ => throw ("invalid desc: " ++ b.showRaw v)
    s := s.delete descSectionKey
  return (step, s)

/-- The `loop` section of `AppendStep` and its deprecated alias `retry`. -/
def sectionLoop (b : Builders) (step : Step) (s : StepMap) : Except String (Step × StepMap) := do
  let mut step := step
  let mut s := s
  if let some v := s.get loopSectionKey then
    match b.newLoop v with
    | .ok r => step := { step with loop := some r }
    | .error e => throw ("invalid loop: " ++ e ++ "\n" ++ b.showRaw v)
    s := s.delete loopSectionKey
  if let some v := s.get deprecatedRetrySectionKey then
    match b.newLoop v with
    | .ok r => step := { step with loop := some r }
    | .error e => throw ("invalid loop: " ++ e ++ "\n" ++ b.showRaw v)
    s := s.delete deprecatedRetrySectionKey
  return (step, s)

/-- The `test`, `dump` and `bind` sections of `AppendStep`. -/
def sectionHooks (b : Builders) (step : Step) (s : StepMap) : Except String (Step × StepMap) := do
  let mut step := step
  let mut s := s
  if let some v := s.get testRunnerKey then
    let tr ← b.newTestRunner
    step := { step with testRunner := some tr }
    match v with
    | .bool true => step := { step with testCond := "true" }
    | .bool false => step := { step with testCond := "false" }
    | .str c => step := { step with testCond := c }
    | _ => throw ("invalid test condition: " ++ b.showRaw v)
    s := s.delete testRunnerKey
  if let some v := s.get dumpRunnerKey then
    let dr ← b.newDumpRunner
    step := { step with dumpRunner := some dr }
    match v with
    | .str c => step := { step with dumpCond := c }
    | _ => throw ("invalid dump condition: " ++ b.showRaw v)
    s := s.delete dumpRunnerKey
  if let some v := s.get bindRunnerKey then
    let br ← b.newBindRunner
    step := { step with bindRunner := some br }
    match v with
    | .map vv =>
      match bindStrings vv with
      | some cond => step := { step with bindCond := some cond }
      | none => throw ("invalid bind condition: " ++ b.showRaw v)
    | _ => throw ("invalid bind condition: " ++ b.showRaw v)
    s := s.delete bindRunnerKey
  return (step, s)

/-- The `default:` case of the dispatch switch of `AppendStep`: the key is
looked up in the http, db and gRPC runner maps, in this order. -/
def sectionClient (o : Operator) (b : Builders) (step : Step) (k : String) (v : Raw) :
    Except String Step := do
  let mut step := step
  let mut detected := false
  if let some h := lookupRunner o.httpRunners k then
    step := { step with httpRunner := some h }
    match v with
    | .map vv => step := { step with httpRequest := some vv }
    | _ => throw ("invalid http request: " ++ b.showRaw v)
    detected := true
  if let some d := lookupRunner o.dbRunners k then
    if !detected then
      step := { step with dbRunner := some d }
      match v with
      | .map vv => step := { step with dbQuery := some vv }
      | _ => throw ("invalid db query: " ++ b.showRaw v)
      detected := true
  if let some g := lookupRunner o.grpcRunners k then
    if !detected then
      step := { step with grpcRunner := some g }
      match v with
      | .map vv => step := { step with grpcRequest := some vv }
      | _ => throw ("invalid gRPC request: " ++ b.showRaw v)
      detected := true
  if !detected then
    throw ("cannot find client: " ++ k)
  return step

/-- The part of `AppendStep` from `pop` on: the dispatch of the popped entry. -/
def sectionDispatch (o : Operator) (b : Builders) (step : Step) (s : StepMap) :
    Except String Step := do
  match pop s with
  | none => return step
  | some (k, v) =>
    let step := { step with runnerKey := k }
    if k = includeRunnerKey then
      let ir ← b.newIncludeRunner
      let c ← b.parseIncludeConfig v
      return { step with includeRunner := some ir, includeConfig := some c }
    else if k = execRunnerKey then
      let er ← b.newExecRunner
      match v with
      | .map vv => return { step with execRunner := some er, execCommand := some vv }
      | _ => throw ("invalid exec command: " ++ b.showRaw v)
    else
      sectionClient o b step k v

/-- `operator.AppendStep`: the operator with the parsed step appended, or the
error, in which case the operator is as before. -/
def Operator.AppendStep (o : Operator) (b : Builders) (key : String) (s : StepMap) :
    Except String Operator := do
  let (step1, s1) ← sectionIfDesc b (Step.new key) s
  let (step2, s2) ← sectionLoop b step1 s1
  let (step3, s3) ← sectionHooks b step2 s2
  let step4 ← sectionDispatch o b step3 s3
  return { o with steps := o.steps ++ [step4] }

/-- The loop `for k := range m` of the duplicate check of `New`: a key already
in `keys` ends `New` with an error, any other key is added. -/
def addRunnerNames : List String → List String → Except String (List String)
  | keys, [] => .ok keys
  | keys, k :: rest =>
    if k ∈ keys then .error ("duplicate runner names: " ++ k)
    else addRunnerNames (keys ++ [k]) rest

/-- The duplicate check of `New` on the keys of the http, db and gRPC runner
maps: `keys` starts with the http keys, then the db keys and the gRPC keys
are added one by one. -/
def checkRunnerNames (http db grpc : List String) : Except String (List String) :=
  match addRunnerNames http db with
  | .error e => .error e
  | .ok keys => addRunnerNames keys grpc

/-- The book `New` builds the operator from, after `applyOptions`; `applied`
is the error of `applyOptions`, `root` the result of `generateOperatorRoot`
and `id` that of `generateOperatorId`. -/
structure Book where
  applied : Option String
  id : String
  root : Except String String
  desc : String
  useMap : Bool
  included : Bool
  ifCond : String
  skipTest : Bool
  failFast : Bool
  path : String
  beforeFuncs : List (Store → Option String)
  afterFuncs : List (Store → Option String)
  httpRunners : List (String × (Request → Store → RunOut))
  dbRunners : List (String × (Request → Store → RunOut))
  grpcRunners : List (String × (Request → Store → RunOut))
  runnerErrs : List (String × String)
  rawSteps : List StepMap
  stepKeys : List String

/-- The loop `for i, s := range bk.rawSteps` of `New`, from position `i` on;
in map mode a missing `bk.stepKeys[i]` is an index out of range. -/
def appendSteps (bk : Book) (b : Builders) : Nat → List StepMap → Operator → Except String Operator
  | _, [], o => .ok o
  | i, s :: rest, o =>
    if o.useMap then
      match bk.stepKeys[i]? with
      | none => .error "index out of range"
      | some key =>
        match o.AppendStep b key s with
        | .error e => .error e
        | .ok o1 => appendSteps bk b (i + 1) rest o1
    else
      match o.AppendStep b (toString i) s with
      | .error e => .error e
      | .ok o1 => appendSteps bk b (i + 1) rest o1

/-- The error `New` returns when `bk.runnerErrs` is not empty. -/
def runnerErrsMessage (errs : List (String × String)) : String :=
  "; ".intercalate (errs.map (fun p => "runner " ++ p.1 ++ " error: " ++ p.2))

/-- `New`: the operator built from the book, or the error. -/
def New (bk : Book) (b : Builders) : Except String Operator :=
  match bk.applied with
  | some e => .error e
  | none =>
    match bk.root with
    | .error e => .error e
    | .ok _ =>
      match checkRunnerNames (bk.httpRunners.map Prod.fst) (bk.dbRunners.map Prod.fst)
          (bk.grpcRunners.map Prod.fst) with
      | .error e => .error e
      | .ok _ =>
        if bk.runnerErrs ≠ [] then .error (runnerErrsMessage bk.runnerErrs)
        else
          appendSteps bk b 0 bk.rawSteps
            { id := bk.id, ids := [bk.id],
              httpRunners := bk.httpRunners, dbRunners := bk.dbRunners,
              grpcRunners := bk.grpcRunners,
              steps := [], desc := bk.desc, useMap := bk.useMap, included := bk.included,
              cond := bk.ifCond, skipTest := bk.skipTest,
              failFast := bk.failFast, bookPath := bk.path,
              beforeFuncs := bk.beforeFuncs, afterFuncs := bk.afterFuncs }

/-! ## The batch: sortOperators, partOperators, sampleOperators, Load, RunN -/

/-- Go's `<` on strings, byte by byte; on the characters of valid UTF-8 text
this is the order of the code points. -/
def ltChars : List Char → List Char → Bool
  | _, [] => false
  | [], _ :: _ => true
  | a :: as, b :: bs =>
    if a.toNat < b.toNat then true
    else if b.toNat < a.toNat then false
    else ltChars as bs

/-- Go's `a < b` on strings. -/
def strLess (a b : String) : Bool :=
  ltChars a.data b.data

/-- The `less` function of `sortOperators`: by `bookPath`, then by `desc`. -/
def operatorLess (a b : Operator) : Bool :=
  if a.bookPath = b.bookPath then strLess a.desc b.desc
  else strLess a.bookPath b.bookPath

/-- The place of `a` in a sorted list when `a` stood before all its elements:
before the first element that is not less than `a`. -/
def stableInsert {α : Type} (less : α → α → Bool) (a : α) : List α → List α
  | [] => [a]
  | b :: l => if less b a then b :: stableInsert less a l else a :: b :: l

/-- The library function `sort.SliceStable`, as the stable insertion sort: for
a strict weak order every stable sort returns the same list. -/
def sliceStable {α : Type} (less : α → α → Bool) : List α → List α
  | [] => []
  | a :: l => stableInsert less a (sliceStable less l)

/-- `sortOperators`. -/
def sortOperators (ops : List Operator) : List Operator :=
  sliceStable operatorLess ops

/-- The test `math.Mod(float64(ii), float64(n)) == float64(i)` of
`partOperators` for an index `ii ≥ 0`: the conversions are exact for the
values a slice index can take, `Mod` by zero is NaN, which equals nothing, and
otherwise `Mod` is the remainder of `ii` by `|n|`. -/
def shardHit (ii : Nat) (n i : Int) : Bool :=
  if n = 0 then false else decide ((ii : Int) % n = i)

/-- The loop `for ii, o := range all` of `partOperators`, from index `ii` on. -/
def partFrom {α : Type} (n i : Int) : Nat → List α → List α
  | _, [] => []
  | ii, o :: rest =>
    if shardHit ii n i then o :: partFrom n i (ii + 1) rest
    else partFrom n i (ii + 1) rest

/-- `partOperators`: the input is copied and the copy is read only. -/
def partOperators {α : Type} (ops : List α) (n i : Int) : List α :=
  partFrom n i 0 ops

/-- The loop `for i := 0; i < num; i++` of `sampleOperators`, with `k` rounds
to go; `draw j m` is the value the call number `j` of `rand.Intn(m)` returns,
taken modulo `m` as `Intn` returns a value below `m`. -/
def sampleLoop {α : Type} (draw : Nat → Nat → Nat) : Nat → Nat → List α → List α → List α
  | 0, _, _, sample => sample
  | k + 1, j, n, sample =>
    match n[draw j n.length % n.length]? with
    | none => sample
    | some o =>
      sampleLoop draw k (j + 1) (n.eraseIdx (draw j n.length % n.length)) (sample ++ [o])

/-- `sampleOperators`. -/
def sampleOperators {α : Type} (draw : Nat → Nat → Nat) (ops : List α) (num : Int) : List α :=
  if (ops.length : Int) ≤ num then ops
  else sampleLoop draw num.toNat 0 ops []

/-- The end of `Load` before sampling (from "Fix order of running" on): the
operators that passed the filters are sorted, then sharded. -/
def loadSharded (runShardN runShardIndex : Int) (ops : List Operator) : List Operator :=
  if runShardN > 0 then partOperators (sortOperators ops) runShardN runShardIndex
  else sortOperators ops

/-- The end of `Load`: sorted, sharded, then sampled. -/
def loadOrder (draw : Nat → Nat → Nat) (runShardN runShardIndex runSample : Int)
    (ops : List Operator) : List Operator :=
  if runSample > 0 then
    sampleOperators draw (loadSharded runShardN runShardIndex ops) runSample
  else
    loadSharded runShardN runShardIndex ops

/-- The tallies of `RunN`. -/
structure RunNResult where
  Total : Int
  Success : Int
  Failed : Int
  Skipped : Int
deriving DecidableEq, Repr

/-- `operators.clearResult`. -/
def clearResult {α : Type} (ops : List α) : RunNResult :=
  { Total := (ops.length : Int), Success := 0, Failed := 0, Skipped := 0 }

/-- The loop `for _, o := range ops.ops` of `RunN`. Every operator comes with
its own run state; the result lists the states of the operators that were
started, in order, then the tallies and the value `RunN` returns. -/
def runNFrom (env : Oracles) :
    List (Operator × OpState) → RunNResult → List OpState × RunNResult × Outcome
  | [], res => ([], res, .ok)
  | (o, st) :: rest, res =>
    match o.run env (st.log Event.captureStart) with
    | (st1, .error e) =>
      if o.failFast then
        ([(st1.log (Event.captureFailed e)).log Event.captureEnd],
          { res with Failed := res.Failed + 1 }, .error e)
      else
        (((st1.log (Event.captureFailed e)).log Event.captureEnd) ::
            (runNFrom env rest { res with Failed := res.Failed + 1 }).1,
          (runNFrom env rest { res with Failed := res.Failed + 1 }).2)
    | (st1, .ok) =>
      if st1.skipped then
        (((st1.log Event.captureSkipped).log Event.captureEnd) ::
            (runNFrom env rest { res with Skipped := res.Skipped + 1 }).1,
          (runNFrom env rest { res with Skipped := res.Skipped + 1 }).2)
      else
        (((st1.log Event.captureSuccess).log Event.captureEnd) ::
            (runNFrom env rest { res with Success := res.Success + 1 }).1,
          (runNFrom env rest { res with Success := res.Success + 1 }).2)
    | (st1, .panic m) => ([st1], res, .panic m)

/-- `operators.RunN`: the tallies are cleared, the operators run in order, and
the deferred `ops.Close()` closes every operator, started or not. -/
def RunN (env : Oracles) (ops : List (Operator × OpState)) :
    List OpState × RunNResult × Outcome :=
  (((runNFrom env ops (clearResult ops)).1 ++
      (ops.drop (runNFrom env ops (clearResult ops)).1.length).map Prod.snd).map
      (fun st => st.log Event.close),
    (runNFrom env ops (clearResult ops)).2)

/-! ## Reading the life cycle and the steps off the ghost log -/

/-- The capture calls of the life cycle of an operator. -/
def Event.lifecycle : Event → Bool
  | .captureStart => true
  | .captureEnd => true
  | .captureSuccess => true
  | .captureSkipped => true
  | .captureFailed _ => true
  | _ => false

/-- The events logged by step `i` after its `setCurrentIDs`: the executions of
its body, its runner and hook calls, its `record` calls and the evaluations of
its `until`. -/
def Event.ofStep (i : Nat) : Event → Bool
  | .stepFn j _ => j == i
  | .dispatch _ j _ => j == i
  | .dump j _ => j == i
  | .bind j _ => j == i
  | .test j _ => j == i
  | .record _ => true
  | .untilChecked _ _ => true
  | _ => false

/-- The ids passed to `setCurrentIDs`, the first statement of a step. -/
def Event.started : Event → Option (List String)
  | .setCurrentIDs ids => some ids
  | _ => none

/-- The index and the result of a call of an `afterFuncs` entry. -/
def Event.after : Event → Option (Nat × Option String)
  | .afterFunc i e => some (i, e)
  | _ => none

/-- The step index of a body execution or of a runner or hook call. -/
def Event.stepIndex : Event → Option Nat
  | .stepFn j _ => some j
  | .dispatch _ j _ => some j
  | .dump j _ => some j
  | .bind j _ => some j
  | .test j _ => some j
  | _ => none

/-- The ids of the steps started, in order. -/
def started (evs : List Event) : List (List String) :=
  evs.filterMap Event.started

/-- The calls of `afterFuncs` entries, in order. -/
def afters (evs : List Event) : List (Nat × Option String) :=
  evs.filterMap Event.after

/-- The step indexes of the body executions and runner and hook calls, in order. -/
def stepIndexes (evs : List Event) : List Nat :=
  evs.filterMap Event.stepIndex

/-- The run went from `st` to `st1` logging only events that satisfy `p`. -/
def Grows (p : Event → Bool) (st st1 : OpState) : Prop :=
  ∃ evs, st1.trace = st.trace ++ evs ∧ ∀ e ∈ evs, p e = true

/-- The state after the steps before step `k` have run in order from `st`. -/
def Operator.afterSteps (o : Operator) (env : Oracles) (st : OpState) : Nat → OpState
  | 0 => st
  | k + 1 =>
    match o.steps[k]? with
    | some s => (o.runStep env k s (o.afterSteps env st k)).1
    | none => o.afterSteps env st k

/-- What step `k` returns when the steps before it have run in order from `st`. -/
def Operator.stepOut (o : Operator) (env : Oracles) (st : OpState) (k : Nat) : Outcome :=
  match o.steps[k]? with
  | some s => (o.runStep env k s (o.afterSteps env st k)).2
  | none => .ok

/-- The state in which `runInternal` enters the loop over the steps. -/
def Operator.entry (o : Operator) (st : OpState) : OpState :=
  (runFuncs Event.beforeFunc 0 o.beforeFuncs st).1

/-- The events logged inside `operator.run`: everything but the life-cycle
captures and `Close`. -/
def Event.ofRun : Event → Bool
  | .captureStart => false
  | .captureEnd => false
  | .captureSuccess => false
  | .captureSkipped => false
  | .captureFailed _ => false
  | .close => false
  | _ => true

/-- What `o.run` returns in the pass of the `RunN` loop for `o`. -/
def Operator.passOut (o : Operator) (env : Oracles) (st : OpState) : Outcome :=
  (o.run env (st.log Event.captureStart)).2

/-- The state of `o` at the end of its pass of the `RunN` loop. -/
def Operator.passState (o : Operator) (env : Oracles) (st : OpState) : OpState :=
  match o.run env (st.log Event.captureStart) with
  | (st1, .error e) => (st1.log (Event.captureFailed e)).log Event.captureEnd
  | (st1, .ok) =>
    if st1.skipped then (st1.log Event.captureSkipped).log Event.captureEnd
    else (st1.log Event.captureSuccess).log Event.captureEnd
  | (st1, .panic _) => st1

/-- The tallies after the pass of the `RunN` loop for `p`. -/
def tallyPass (env : Oracles) (res : RunNResult) (p : Operator × OpState) : RunNResult :=
  match p.1.run env (p.2.log Event.captureStart) with
  | (_, .error _) => { res with Failed := res.Failed + 1 }
  | (st1, .ok) =>
    if st1.skipped then { res with Skipped := res.Skipped + 1 }
    else { res with Success := res.Success + 1 }
  | (_, .panic _) => res

/-- The pass for `p` ends the `RunN` loop by `return err`: the run fails and
`failFast` is set. -/
def aborts (env : Oracles) (p : Operator × OpState) : Bool :=
  p.1.failFast &&
    match p.1.passOut env p.2 with
    | .error _ => true
    | _ => false

/-- The run of `p` panics. -/
def panics (env : Oracles) (p : Operator × OpState) : Bool :=
  match p.1.passOut env p.2 with
  | .panic _ => true
  | _ => false

/-- What the log `evs` of the first `k` steps looks like: the steps were
started in declared order, no `afterFuncs` entry was called, and the body
executions and runner and hook calls come in the order of their steps. -/
def StepsLog (o : Operator) (k : Nat) (evs : List Event) : Prop :=
  started evs = (o.steps.take k).map (fun s => o.ids ++ [s.key]) ∧ afters evs = [] ∧
    (stepIndexes evs).Pairwise (fun a b => a ≤ b) ∧ ∀ j ∈ stepIndexes evs, j < k

/-! ## The sections of AppendStep, one key at a time -/

/-- The body of the `if` section: the value has to be a string. -/
def setIf (b : Builders) (step : Step) (v : Raw) : Except String Step :=
  match v with
  | .str c => .ok { step with cond := c }
  | _ => .error ("invalid if condition: " ++ b.showRaw v)

/-- The body of the `desc` section: the value has to be a string. -/
def setDesc (b : Builders) (step : Step) (v : Raw) : Except String Step :=
  match v with
  | .str d => .ok { step with desc := d }
  | _ => .error ("invalid desc: " ++ b.showRaw v)

/-- The body of the `loop` section and of its alias `retry`. -/
def setLoop (b : Builders) (step : Step) (v : Raw) : Except String Step :=
  match b.newLoop v with
  | .ok r => .ok { step with loop := some r }
  | .error e => .error ("invalid loop: " ++ e ++ "\n" ++ b.showRaw v)

/-- The body of the `test` section: the value has to be a bool or a string. -/
def setTest (b : Builders) (step : Step) (v : Raw) : Except String Step :=
  match b.newTestRunner with
  | .error e => .error e
  | .ok tr =>
    match v with
    | .bool true => .ok { step with testRunner := some tr, testCond := "true" }
    | .bool false => .ok { step with testRunner := some tr, testCond := "false" }
    | .str c => .ok { step with testRunner := some tr, testCond := c }
    | _ => .error ("invalid test condition: " ++ b.showRaw v)

/-- The body of the `dump` section: the value has to be a string. -/
def setDump (b : Builders) (step : Step) (v : Raw) : Except String Step :=
  match b.newDumpRunner with
  | .error e => .error e
  | .ok dr =>
    match v with
    | .str c => .ok { step with dumpRunner := some dr, dumpCond := c }
    | _ => .error ("invalid dump condition: " ++ b.showRaw v)

/-- The body of the `bind` section: the value has to be a map of strings. -/
def setBind (b : Builders) (step : Step) (v : Raw) : Except String Step :=
  match b.newBindRunner with
  | .error e => .error e
  | .ok br =>
    match v with
    | .map vv =>
      match bindStrings vv with
      | some cond => .ok { step with bindRunner := some br, bindCond := some cond }
      | none => .error ("invalid bind condition: " ++ b.showRaw v)
    | _ => .error ("invalid bind condition: " ++ b.showRaw v)

/-- One section `if v, ok := s[k]; ok { ...; delete(s, k) }` of `AppendStep`
with the body `f`. -/
def keyBlock (k : String) (f : Step → Raw → Except String Step) (r : Step × StepMap) :
    Except String (Step × StepMap) :=
  match r.2.get k with
  | none => .ok r
  | some v =>
    match f r.1 v with
    | .error e => .error e
    | .ok step1 => .ok (step1, r.2.delete k)

/-- Sections one after the other, up to the first that returns an error. -/
def runBlocks :
    List (String × (Step → Raw → Except String Step)) → Step × StepMap →
      Except String (Step × StepMap)
  | [], r => .ok r
  | (k, f) :: rest, r =>
    match keyBlock k f r with
    | .error e => .error e
    | .ok r1 => runBlocks rest r1

/-- The sections of `AppendStep` before `pop`, in the order of the source. -/
def sectionBlocks (b : Builders) : List (String × (Step → Raw → Except String Step)) :=
  [(ifSectionKey, setIf b), (descSectionKey, setDesc b), (loopSectionKey, setLoop b),
    (deprecatedRetrySectionKey, setLoop b), (testRunnerKey, setTest b),
    (dumpRunnerKey, setDump b), (bindRunnerKey, setBind b)]

/-- The keys the sections before `pop` extract. -/
def reservedKeys : List String :=
  [ifSectionKey, descSectionKey, loopSectionKey, deprecatedRetrySectionKey, testRunnerKey,
    dumpRunnerKey, bindRunnerKey]

/-- The entries of a step-map that are left when `AppendStep` calls `pop`. -/
def StepMap.remaining (s : StepMap) : StepMap :=
  reservedKeys.foldl StepMap.delete s

/-- The conditions of the dispatch switch of `stepFn` on a step, in the order
http, db, gRPC, exec, include: for every kind, runner and payload are set. -/
def Step.dispatchFlags (s : Step) : List Bool :=
  [s.httpRunner.isSome && s.httpRequest.isSome, s.dbRunner.isSome && s.dbQuery.isSome,
    s.grpcRunner.isSome && s.grpcRequest.isSome, s.execRunner.isSome && s.execCommand.isSome,
    s.includeRunner.isSome && s.includeConfig.isSome]

/-- The dispatch kinds that are set on a step. -/
def Step.kinds (s : Step) : List Kind :=
  (if s.httpRunner.isSome && s.httpRequest.isSome then [Kind.http] else []) ++
  (if s.dbRunner.isSome && s.dbQuery.isSome then [Kind.db] else []) ++
  (if s.grpcRunner.isSome && s.grpcRequest.isSome then [Kind.grpc] else []) ++
  (if s.execRunner.isSome && s.execCommand.isSome then [Kind.exec] else []) ++
  (if s.includeRunner.isSome && s.includeConfig.isSome then [Kind.incl] else [])

/-- No dispatch field of the step is set. -/
def Step.bare (s : Step) : Prop :=
  s.httpRunner = none ∧ s.httpRequest = none ∧ s.dbRunner = none ∧ s.dbQuery = none ∧
    s.grpcRunner = none ∧ s.grpcRequest = none ∧ s.execRunner = none ∧ s.execCommand = none ∧
    s.includeRunner = none ∧ s.includeConfig = none

/-! ## runbook.go: NewRunbook, AppendStep, setRunner, joinCommands -/

/-- The type `runbook`: `Runners` is a `yaml.MapSlice`, whose keys and values
are `interface{}`; `Steps` is a list of step maps. -/
structure Runbook where
  Desc : String
  Runners : List (Raw × Raw)
  Steps : List StepMap

/-- `NewRunbook`. -/
def NewRunbook (desc : String) : Runbook :=
  { Desc := desc, Runners := [], Steps := [] }

/-- Go's `strings.HasPrefix`, on the characters of the two strings. -/
def hasPrefix (s p : String) : Bool :=
  p.data.isPrefixOf s.data

/-- The characters of `strings.TrimSuffix(s, "\n")`: one trailing newline is
cut off. -/
def trimNewlineChars : List Char → List Char
  | [] => []
  | [c] => if c = '\n' then [] else [c]
  | c :: d :: cs => c :: trimNewlineChars (d :: cs)

/-- `strings.TrimSuffix(i, "\n")`. -/
def trimNewline (s : String) : String :=
  String.mk (trimNewlineChars s.data)

/-- `strings.Contains(i, " ")`. -/
def containsSpace (s : String) : Bool :=
  s.data.contains ' '

/-- Go's `strings.Join(elems, sep)`. -/
def joinStrings (sep : String) : List String → String
  | [] => ""
  | [a] => a
  | a :: b :: rest => a ++ sep ++ joinStrings sep (b :: rest)

/-- The loop of `joinCommands`: `cmd` collects the pieces; `quote` is the
rendering `fmt.Sprintf("%#v", i)` of a string. -/
def joinLoop (quote : String → String) : List String → List String → List String
  | [], cmd => cmd
  | i :: rest, cmd =>
    if containsSpace (trimNewline i) then joinLoop quote rest (cmd ++ [quote (trimNewline i)])
    else joinLoop quote rest (cmd ++ [trimNewline i])

/-- `joinCommands`. -/
def joinCommands (quote : String → String) (tokens : List String) : String :=
  joinStrings " " (joinLoop quote tokens []) ++ "\n"

/-- `runbook.cmdToStep`: the step `{exec: {command: ...}}` is appended. -/
def Runbook.cmdToStep (rb : Runbook) (quote : String → String) (tokens : List String) :
    Runbook × Outcome :=
  ({ rb with
      Steps := rb.Steps ++
        [[(execRunnerKey, Raw.map [("command", Raw.str (joinCommands quote tokens))])]] },
    .ok)

/-- How the loop over `rb.Runners` in `setRunner` ends: by `return r.Key`, past
its end with the three counters, or by the panic of a failed type assertion. -/
inductive Scan where
  | found (key : String)
  | counts (hc gc dc : Nat)
  | panic (msg : String)
deriving DecidableEq, Repr

/-- The loop `for _, r := range rb.Runners` of `setRunner`. -/
def scanRunners (dsn : String) : List (Raw × Raw) → Nat → Nat → Nat → Scan
  | [], hc, gc, dc => .counts hc gc dc
  | (k, v) :: rest, hc, gc, dc =>
    match v with
    | .str v =>
      if v = dsn then
        match k with
        | .str key => .found key
        | _ => .panic "interface conversion: interface {} is not string"
      else if hasPrefix v "http" then scanRunners dsn rest (hc + 1) gc dc
      else if hasPrefix v "grpc" then scanRunners dsn rest hc (gc + 1) dc
      else scanRunners dsn rest hc gc (dc + 1)
    | _ => .panic "interface conversion: interface {} is not string"

/-- The key `setRunner` makes from a key prefix and the count `c` of the
runners of the class: `fmt.Sprintf("%s%d", pfx, c+1)` if `c > 0`, else `pfx`. -/
def runnerKey (pfx : String) (c : Nat) : String :=
  if c > 0 then pfx ++ toString (c + 1) else pfx

/-- `runbook.setRunner`: the runbook after the call and the key returned; an
error stands for the panic of a failed type assertion. -/
def Runbook.setRunner (rb : Runbook) (dsn : String) : Runbook × Except String String :=
  match scanRunners dsn rb.Runners 0 0 0 with
  | .panic m => (rb, .error m)
  | .found key => (rb, .ok key)
  | .counts hc gc dc =>
    let key :=
      if hasPrefix dsn "http" then runnerKey "req" hc
      else if hasPrefix dsn "grpc" then runnerKey "greq" gc
      else runnerKey "db" dc
    ({ rb with Runners := rb.Runners ++ [(Raw.str key, Raw.str dsn)] }, .ok key)

/-- A request parsed from a curl command line: its URL and the host of the URL. -/
structure CurlRequest where
  url : String
  host : String
deriving DecidableEq, Repr

/-- The collaborators of `curlToStep`: `curlreq.NewRequest`, `strings.Split`
and `CreateHTTPStepMapSlice`. -/
structure Curl where
  newRequest : List String → Except String CurlRequest
  split : String → String → List String
  createHTTPStep : String → CurlRequest → Except String StepMap

/-- `runbook.curlToStep`. -/
def Runbook.curlToStep (rb : Runbook) (cu : Curl) (tokens : List String) : Runbook × Outcome :=
  match cu.newRequest tokens with
  | .error e => (rb, .error e)
  | .ok req =>
    match cu.split req.url req.host with
    | [] => (rb, .panic "index out of range [0] with length 0")
    | first :: _ =>
      match rb.setRunner (first ++ req.host) with
      | (rb1, .error m) => (rb1, .panic m)
      | (rb1, .ok key) =>
        match cu.createHTTPStep key req with
        | .error e => (rb1, .error e)
        | .ok step => ({ rb1 with Steps := rb1.Steps ++ [step] }, .ok)

/-- `runbook.AppendStep`. -/
def Runbook.AppendStep (rb : Runbook) (cu : Curl) (quote : String → String)
    (tokens : List String) : Runbook × Outcome :=
  match tokens with
  | [] => (rb, .error "no argument")
  | t :: _ =>
    if hasPrefix t "curl" then rb.curlToStep cu tokens
    else rb.cmdToStep quote tokens

/-- The class of a DSN in `setRunner`: by its first four characters. -/
inductive DsnClass where
  | http
  | grpc
  | db
deriving DecidableEq, Repr

/-- The class `setRunner` puts a DSN in. -/
def dsnClass (dsn : String) : DsnClass :=
  if hasPrefix dsn "http" then .http
  else if hasPrefix dsn "grpc" then .grpc
  else .db

/-- The key prefix of a class: `req`, `greq`, `db`. -/
def classPrefix : DsnClass → String
  | .http => "req"
  | .grpc => "greq"
  | .db => "db"

/-- The runners given by their string keys and string DSNs. -/
def strRunners (L : List (String × String)) : List (Raw × Raw) :=
  L.map (fun p => (Raw.str p.1, Raw.str p.2))

/-- The number of runners of class `c`. -/
def classCount (c : DsnClass) (L : List (String × String)) : Nat :=
  L.countP (fun p => decide (dsnClass p.2 = c))

/-- The key of a new runner for `dsn` next to the runners `L`: the prefix of
its class if `L` has no runner of the class, else the prefix followed by the
number of runners of the class plus one. -/
def newKey (L : List (String × String)) (dsn : String) : String :=
  runnerKey (classPrefix (dsnClass dsn)) (classCount (dsnClass dsn) L)

/-- The runbook after a sequence of `setRunner` calls. -/
def setRunners (rb : Runbook) (dsns : List String) : Runbook :=
  dsns.foldl (fun r d => (r.setRunner d).1) rb

/-- The value of a decimal digit character. -/
def digitVal (c : Char) : Nat :=
  c.toNat - 48

/-- The number written by a list of decimal digits. -/
def parseDec (cs : List Char) : Nat :=
  cs.foldl (fun a c => a * 10 + digitVal c) 0

/-- Runner lists that `setRunner` builds from the empty list: every runner was
added with the key made for it, for a DSN that was not there yet. -/
inductive Built : List (String × String) → Prop where
  | nil : Built []
  | snoc (L : List (String × String)) (d : String) :
      Built L → d ∉ L.map Prod.snd → Built (L ++ [(newKey L d, d)])

/-! ## Sequences of record calls, in list mode and in map mode -/

/-- The test `loopIndex != nil && *loopIndex > 0` on the loop index a call is
made with. -/
def again (j : Option Int) : Bool :=
  match j with
  | some j => decide (j > 0)
  | none => false

/-- A sequence of `record` calls on a store: every call is made with the loop
index and the frame given; an error stands for a run-time panic. -/
def Operator.recordCalls (o : Operator) : List (Option Int × Frame) → Store → Except String Store
  | [], s => .ok s
  | (j, v) :: rest, s =>
    match o.record { s with loopIndex := j } v with
    | .error e => .error e
    | .ok s1 => o.recordCalls rest s1

/-- The operator in list mode. -/
def Operator.listed (o : Operator) : Operator :=
  { o with useMap := false }

/-- The operator in map mode. -/
def Operator.mapped (o : Operator) : Operator :=
  { o with useMap := true }

/-- The store of a new operator. -/
def emptyStore (useMap : Bool) : Store :=
  { steps := [], stepMap := [], bindVars := [], loopIndex := none, useMap := useMap }

/-- The frames after one `record` call, in the words of the specification: a
call with loop index nil or 0 adds a frame, a call with a loop index above 0
replaces the latest frame. -/
def applyCall (frames : List Frame) (c : Option Int × Frame) : List Frame :=
  if again c.1 then frames.dropLast ++ [c.2] else frames ++ [c.2]

/-- The frames after a sequence of `record` calls, in the words of the
specification. -/
def framesOf (calls : List (Option Int × Frame)) : List Frame :=
  calls.foldl applyCall []

/-- The number of calls that add a frame. -/
def adds (calls : List (Option Int × Frame)) : Nat :=
  calls.countP (fun c => !again c.1)

/-- The first call of the sequence, if there is one, is made with a loop index
that is nil or not above 0: no call with a loop index above 0 comes before any
other record. -/
def startsFresh (calls : List (Option Int × Frame)) : Bool :=
  match calls with
  | [] => true
  | c :: _ => !again c.1

/-! ## cmd/reportportal.go -/

/-- Go's `strings.TrimSuffix`, on the characters of the two strings. -/
def trimSuffix (s suf : String) : String :=
  if suf.data.isSuffixOf s.data then String.mk (s.data.take (s.data.length - suf.data.length))
  else s

/-- The flag variables of the reportportal command. -/
structure RpFlags where
  rpEndpoint : String
  rpToken : String
  rpProject : String
  rpLaunchName : String
  rpDescription : String
deriving DecidableEq, Repr

/-- The type `attribute` of reportportal.go. -/
structure RpAttribute where
  Key : String
  Value : String
deriving DecidableEq, Repr

/-- The type `launchImportRq`. -/
structure launchImportRq where
  Name : String
  Description : String
  Attributes : List RpAttribute
deriving DecidableEq, Repr

/-- An HTTP request as `sendToReportPortal` builds it. -/
structure HttpRequest where
  method : String
  url : String
  headers : List (String × String)
  body : String
deriving DecidableEq, Repr

/-- The response `client.Do` returns: the status code and what `io.ReadAll`
makes of the body. -/
structure HttpResponse where
  StatusCode : Int
  body : Except String String

/-- The outside world of the reportportal command: the environment, the file
system, the multipart writer, the JSON encoder and the HTTP client. -/
structure RpWorld where
  getenv : String → String
  statNotExist : String → Bool
  openFile : String → Except String String
  base : String → String
  ext : String → String
  createFormFile : String → Option String
  copy : String → Option String
  marshal : launchImportRq → Except String String
  writeField : String → String → Option String
  closeWriter : Option String
  formBody : String → String → String → String
  contentType : String
  newRequest : String → String → Option String
  send : HttpRequest → Except String HttpResponse

/-- What the command does to the outside world, in order. -/
inductive RpEvent where
  | stat (path : String)
  | opened (path : String)
  | print (line : String)
  | send (req : HttpRequest)
deriving DecidableEq, Repr

/-- The requests sent, in order, among what the command did. -/
def sent (evs : List RpEvent) : List HttpRequest :=
  evs.filterMap (fun e =>
    match e with
    | .send req => some req
    | _ => none)

/-- The first part of `sendToReportPortal`, up to the request that is ready to
be sent: the file is opened, the multipart form is written, the URL and the
request are built. -/
def prepareUpload (w : RpWorld) (endpoint token project xmlFile launchName description : String) :
    Except String HttpRequest :=
  match w.openFile xmlFile with
  | .error e => .error ("failed to open file: " ++ e)
  | .ok content =>
    match w.createFormFile (w.base xmlFile) with
    | some e => .error ("failed to create form file: " ++ e)
    | none =>
      match w.copy content with
      | some e => .error ("failed to copy file: " ++ e)
      | none =>
        match w.marshal
            { Name := launchName, Description := description,
              Attributes := [{ Key := "source", Value := "runn" },
                { Key := "type", Value := "junit-import" }] } with
        | .error e => .error ("failed to marshal launch request: " ++ e)
        | .ok json =>
          match w.writeField "launchImportRq" json with
          | some e => .error ("failed to write launch request: " ++ e)
          | none =>
            match w.closeWriter with
            | some e => .error ("failed to close writer: " ++ e)
            | none =>
              match w.newRequest "POST"
                  (trimSuffix endpoint "/" ++ "/api/v1/plugin/" ++ project ++ "/junit/import") with
              | some e => .error ("failed to create request: " ++ e)
              | none =>
                .ok
                  { method := "POST",
                    url := trimSuffix endpoint "/" ++ "/api/v1/plugin/" ++ project ++
                      "/junit/import",
                    headers := [("Content-Type", w.contentType),
                      ("Authorization", "Bearer " ++ token)],
                    body := w.formBody (w.base xmlFile) content json }

/-- The lines `sendToReportPortal` prints before it sends the request. -/
def uploadBanner (endpoint project xmlFile launchName : String) : List RpEvent :=
  [.print "Sending test results to ReportPortal...\n",
    .print ("  Endpoint: " ++ endpoint ++ "\n"),
    .print ("  Project:  " ++ project ++ "\n"),
    .print ("  File:     " ++ xmlFile ++ "\n"),
    .print ("  Launch:   " ++ launchName ++ "\n")]

/-- `sendToReportPortal`: what it does and the error it returns. -/
def sendToReportPortal (w : RpWorld)
    (endpoint token project xmlFile launchName description : String) :
    List RpEvent × Option String :=
  match prepareUpload w endpoint token project xmlFile launchName description with
  | .error e => ([.opened xmlFile], some e)
  | .ok req =>
    match w.send req with
    | .error e =>
      (.opened xmlFile :: uploadBanner endpoint project xmlFile launchName ++ [.send req],
        some ("failed to send request: " ++ e))
    | .ok resp =>
      match resp.body with
      | .error e =>
        (.opened xmlFile :: uploadBanner endpoint project xmlFile launchName ++ [.send req],
          some ("failed to read response: " ++ e))
      | .ok body =>
        if resp.StatusCode ≥ 200 ∧ resp.StatusCode < 300 then
          (.opened xmlFile :: uploadBanner endpoint project xmlFile launchName ++
              [.send req, .print ("Success! Response: " ++ body ++ "\n")],
            none)
        else
          (.opened xmlFile :: uploadBanner endpoint project xmlFile launchName ++ [.send req],
            some ("failed to upload: HTTP " ++ toString resp.StatusCode ++ ": " ++ body))

/-- A setting of the command: its flag if the flag is not empty, else the
environment variable. -/
def flagOrEnv (w : RpWorld) (flag name : String) : String :=
  if flag = "" then w.getenv name else flag

/-- `reportportalCmd.RunE` on the arguments of the command line; cobra checks
`ExactArgs(1)` before it calls `RunE`. -/
def RunE (w : RpWorld) (fl : RpFlags) (args : List String) : List RpEvent × Option String :=
  match args with
  | [] => ([], some "index out of range [0] with length 0")
  | xmlFile :: _ =>
    if flagOrEnv w fl.rpEndpoint "RP_ENDPOINT" = "" then
      ([], some "endpoint is required: use --endpoint flag or RP_ENDPOINT environment variable")
    else if flagOrEnv w fl.rpToken "RP_TOKEN" = "" then
      ([], some "token is required: use --token flag or RP_TOKEN environment variable")
    else if flagOrEnv w fl.rpProject "RP_PROJECT" = "" then
      ([], some "project is required: use --project flag or RP_PROJECT environment variable")
    else if w.statNotExist xmlFile then
      ([.stat xmlFile], some ("file not found: " ++ xmlFile))
    else
      (.stat xmlFile ::
          (sendToReportPortal w (flagOrEnv w fl.rpEndpoint "RP_ENDPOINT")
            (flagOrEnv w fl.rpToken "RP_TOKEN") (flagOrEnv w fl.rpProject "RP_PROJECT") xmlFile
            (if fl.rpLaunchName = "" then trimSuffix (w.base xmlFile) (w.ext xmlFile)
              else fl.rpLaunchName)
            fl.rpDescription).1,
        (sendToReportPortal w (flagOrEnv w fl.rpEndpoint "RP_ENDPOINT")
            (flagOrEnv w fl.rpToken "RP_TOKEN") (flagOrEnv w fl.rpProject "RP_PROJECT") xmlFile
            (if fl.rpLaunchName = "" then trimSuffix (w.base xmlFile) (w.ext xmlFile)
              else fl.rpLaunchName)
            fl.rpDescription).2)

/-! ## The loop, iteration by iteration -/

/-- The state after `k` iterations of the loop of a step, each of which ran the
body without error and, when there is an `until`, found it false. -/
def Operator.iterState (o : Operator) (env : Oracles) (i : Nat) (s : Step) (l : Loop) :
    Nat → OpState → OpState
  | 0, st => st
  | k + 1, st =>
    if l.Until = "" then
      (o.stepFn env i s ((o.iterState env i s l k st).setLoopIndex (some (k : Int)))).1
    else
      (o.stepFn env i s ((o.iterState env i s l k st).setLoopIndex (some (k : Int)))).1.log
        (Event.untilChecked
          (o.stepFn env i s
            ((o.iterState env i s l k st).setLoopIndex (some (k : Int)))).1.store.withCurrent
          false)

/-- The state right after the body execution of iteration `k` (from 0). -/
def Operator.bodyState (o : Operator) (env : Oracles) (i : Nat) (s : Step) (l : Loop)
    (k : Nat) (st : OpState) : OpState :=
  (o.stepFn env i s ((o.iterState env i s l k st).setLoopIndex (some (k : Int)))).1

/-- The result of the body execution of iteration `k` (from 0). -/
def Operator.bodyOut (o : Operator) (env : Oracles) (i : Nat) (s : Step) (l : Loop)
    (k : Nat) (st : OpState) : Outcome :=
  (o.stepFn env i s ((o.iterState env i s l k st).setLoopIndex (some (k : Int)))).2

/-- The value of the variable `t` after `k` iterations: the tree built in
iteration `k - 1`, and the empty string before any evaluation of `until`. -/
def Operator.treeAfter (o : Operator) (env : Oracles) (i : Nat) (s : Step) (l : Loop)
    (k : Nat) (st : OpState) : String :=
  match k with
  | 0 => ""
  | j + 1 =>
    if l.Until = "" then ""
    else
      match env.buildTree l.Until (o.bodyState env i s l j st).store.withCurrent with
      | .ok t => t
      | .error _ => ""

/-- Iteration `j` ran and the loop went on: `Loop(ctx)` was true, `j < count`,
the body returned no error and `until`, if any, was evaluated to false. -/
def IterGood (o : Operator) (env : Oracles) (i : Nat) (s : Step) (l : Loop) (c : Int)
    (st : OpState) (j : Nat) : Prop :=
  l.cont j = true ∧ (j : Int) < c ∧ o.bodyOut env i s l j st = .ok ∧
    (l.Until ≠ "" →
      (∃ t, env.buildTree l.Until (o.bodyState env i s l j st).store.withCurrent = .ok t) ∧
      env.evalCond l.Until (o.bodyState env i s l j st).store.withCurrent = .ok false)

/-- The ways the `for` statement is left at iteration `k`, with its result `r`
(`rs` is the value of `retrySuccess` before the loop). -/
def IterExit (o : Operator) (env : Oracles) (i : Nat) (s : Step) (l : Loop) (c : Int)
    (rs : Bool) (st : OpState) (k : Nat) (r : OpState × LoopExit) : Prop :=
  (r = (o.iterState env i s l k st, .done rs (o.treeAfter env i s l k st)) ∧
      (l.cont k = false ∨ c ≤ (k : Int))) ∨
  (l.cont k = true ∧ (k : Int) < c ∧
    ((∃ e, o.bodyOut env i s l k st = .error e ∧
        r = (o.bodyState env i s l k st, .ret (.error ("loop failed: " ++ e)))) ∨
     (∃ m, o.bodyOut env i s l k st = .panic m ∧
        r = (o.bodyState env i s l k st, .ret (.panic m))) ∨
     (o.bodyOut env i s l k st = .ok ∧ l.Until ≠ "" ∧
       ((∃ e, env.buildTree l.Until (o.bodyState env i s l k st).store.withCurrent = .error e ∧
          r = (o.bodyState env i s l k st, .ret (.error ("loop failed on " ++
            o.stepName (o.bodyState env i s l k st).store i ++ ": " ++ e)))) ∨
        (∃ t e, env.buildTree l.Until (o.bodyState env i s l k st).store.withCurrent = .ok t ∧
          env.evalCond l.Until (o.bodyState env i s l k st).store.withCurrent = .error e ∧
          r = (o.bodyState env i s l k st, .ret (.error ("loop failed on " ++
            o.stepName (o.bodyState env i s l k st).store i ++ ": " ++ e)))) ∨
        (∃ t, env.buildTree l.Until (o.bodyState env i s l k st).store.withCurrent = .ok t ∧
          env.evalCond l.Until (o.bodyState env i s l k st).store.withCurrent = .ok true ∧
          r = ((o.bodyState env i s l k st).log (Event.untilChecked
                (o.bodyState env i s l k st).store.withCurrent true), .done true t))))))

/-- The events logged between two states of a run. -/
def newEvents (st st1 : OpState) : List Event :=
  st1.trace.drop st.trace.length

/-- The store with one more frame `v`: appended in list mode, and in map mode
entered under the key of the step at position `len(stepMap)`. -/
def Operator.push (o : Operator) (s : Store) (v : Frame) : Store :=
  if o.useMap then
    match o.steps[s.stepMap.length]? with
    | some p => { s with stepMap := s.stepMap ++ [(p.key, v)] }
    | none => s
  else
    { s with steps := s.steps ++ [v] }

/-- In map mode the step at position `len(stepMap)` exists and its key is not
yet in `stepMap`. -/
def Operator.Fresh (o : Operator) (s : Store) : Prop :=
  o.useMap = true → ∃ p, o.steps[s.stepMap.length]? = some p ∧ ∀ q ∈ s.stepMap, q.1 ≠ p.key

/-! ## Reading the ghost log -/

/-- The runner and hook calls of the step body: rank (dispatch 0, dump 1,
bind 2, test 3) and whether the call returned an error. -/
def Event.call : Event → Option (Nat × Bool)
  | .dispatch _ _ err => some (0, err.isSome)
  | .dump _ err => some (1, err.isSome)
  | .bind _ err => some (2, err.isSome)
  | .test _ err => some (3, err.isSome)
  | _ => none

/-- The frame of a `record` call. -/
def Event.frame : Event → Option Frame
  | .record v => some v
  | _ => none

/-- The `loopIndex` at a call of `stepFn`. -/
def Event.body : Event → Option (Option Int)
  | .stepFn _ li => some li
  | _ => none

/-- The result of an evaluation of `until`. -/
def Event.checked : Event → Option (Snapshot × Bool)
  | .untilChecked snap tf => some (snap, tf)
  | _ => none

/-- The runner and hook calls in a piece of the log. -/
def calls (evs : List Event) : List (Nat × Bool) :=
  evs.filterMap Event.call

/-- The frames handed to `record` in a piece of the log. -/
def recorded (evs : List Event) : List Frame :=
  evs.filterMap Event.frame

/-- The executions of the step body in a piece of the log. -/
def bodies (evs : List Event) : List (Option Int) :=
  evs.filterMap Event.body

/-- The evaluations of `until` in a piece of the log. -/
def checks (evs : List Event) : List (Snapshot × Bool) :=
  evs.filterMap Event.checked

/-- A sequence of `record` calls on a store. -/
def Operator.replay (o : Operator) : List Frame → Store → Except String Store
  | [], s => .ok s
  | v :: vs, s =>
    match o.record s v with
    | .ok s1 => o.replay vs s1
    | .error m => .error m

/-- The dump hook runs: `s.dumpRunner != nil && s.dumpCond != ""`. -/
def Step.dumpOn (s : Step) : Bool :=
  s.dumpRunner.isSome && decide (s.dumpCond ≠ "")

/-- The bind hook runs: `s.bindRunner != nil && s.bindCond != nil`. -/
def Step.bindOn (s : Step) : Bool :=
  s.bindRunner.isSome && s.bindCond.isSome

/-- The test hook is present: `s.testRunner != nil && s.testCond != ""`. -/
def Step.testOn (s : Step) : Bool :=
  s.testRunner.isSome && decide (s.testCond ≠ "")

/-- No case of the dispatch switch applies to the step. -/
def Step.noDispatch (s : Step) : Bool :=
  !(s.httpRunner.isSome && s.httpRequest.isSome) &&
  !(s.dbRunner.isSome && s.dbQuery.isSome) &&
  !(s.grpcRunner.isSome && s.grpcRequest.isSome) &&
  !(s.execRunner.isSome && s.execCommand.isSome) &&
  !(s.includeRunner.isSome && s.includeConfig.isSome)

/-- A runner call that returns no error has recorded exactly one frame. -/
def RunOut.recordsOne (r : RunOut) : Prop :=
  r.err = none → ∃ f, r.frames = [f]

/-- The contract of the dispatch runners of a step: a call that returns no
error has recorded exactly one frame. -/
def Step.recordsOne (s : Step) : Prop :=
  (∀ r, s.httpRunner = some r → ∀ req st, (r req st).recordsOne) ∧
  (∀ r, s.dbRunner = some r → ∀ req st, (r req st).recordsOne) ∧
  (∀ r, s.grpcRunner = some r → ∀ req st, (r req st).recordsOne) ∧
  (∀ r, s.execRunner = some r → ∀ req st, (r req st).recordsOne) ∧
  (∀ r, s.includeRunner = some r → ∀ c st, (r c st).recordsOne)

/-- The run went from `st` to `st1` logging `evs`: the store changed by the
logged `record` calls and by assignments to `bindVars`, and by nothing else. -/
def Reaches (o : Operator) (st st1 : OpState) (evs : List Event) : Prop :=
  st1.trace = st.trace ++ evs ∧ st1.skipped = st.skipped ∧
    ∃ s1, o.replay (recorded evs) st.store = .ok s1 ∧
      st1.store = { s1 with bindVars := st1.store.bindVars }

/-- What every part of the step body does to the log and the store: it logs
`evs`, none of them a body execution or an `until` evaluation, and unless it
panics the store moves by the logged `record` calls. -/
def PartFacts (o : Operator) (st : OpState) (r : OpState × Flow) (evs : List Event) : Prop :=
  r.1.trace = st.trace ++ evs ∧ bodies evs = [] ∧ checks evs = [] ∧
    ((∀ m, r.2 ≠ .ret (.panic m)) → Reaches o st r.1 evs)

/-- What a post-hook of rank `k` does, by the way it ends. `act` says that the
hook is present, `skip` that it is skipped by `skipTest`, `runned` is the flag
on entry. -/
def HookFacts (o : Operator) (k : Nat) (act skip runned : Bool) (st : OpState)
    (r : OpState × Flow) (evs : List Event) : Prop :=
  PartFacts o st r evs ∧
    match r.2 with
    | .next b =>
      (act = true → skip = false) ∧ b = (runned || act) ∧
        calls evs = (if act then [(k, false)] else []) ∧
        recorded evs = (if act && !runned then [none] else [])
    | .ret .ok =>
      act = true ∧ skip = true ∧ calls evs = [] ∧
        recorded evs = (if runned then [] else [none])
    | .ret (.error _) =>
      act = true ∧ skip = false ∧ calls evs = [(k, true)] ∧ recorded evs = []
    | .ret (.panic _) =>
      act = true ∧ runned = false ∧ (∀ s1, o.record st.store none ≠ .ok s1) ∧
        calls evs = (if skip then [] else [(k, false)])

/-- What the dispatch switch does, by the way it ends. -/
def DispatchFacts (o : Operator) (s : Step) (st : OpState)
    (r : OpState × Flow) (evs : List Event) : Prop :=
  PartFacts o st r evs ∧
    match r.2 with
    | .next b =>
      (b = false → s.noDispatch = true ∧ evs = [] ∧ r.1 = st) ∧
        (b = true → s.noDispatch = false ∧ calls evs = [(0, false)] ∧
          (s.recordsOne → ∃ f, recorded evs = [f]))
    | .ret .ok => False
    | .ret (.error _) => s.noDispatch = false ∧ (calls evs = [] ∨ calls evs = [(0, true)])
    | .ret (.panic _) => s.noDispatch = false ∧ ∃ b, calls evs = [(0, b)]

/-- The order of two calls of one execution of the step body: the earlier has
the smaller rank and did not return an error. -/
def callBefore (a b : Nat × Bool) : Prop :=
  a.1 < b.1 ∧ a.2 = false

/-- The step has a post-hook. -/
def Step.hasHook (s : Step) : Bool :=
  s.dumpOn || s.bindOn || s.testOn

/-- The payload of a dispatch case gets as far as the runner: it expands to a
map and the parser of the case accepts the map. -/
def Oracles.expands (env : Oracles) (parse : Payload → Except String Request) (p : Payload)
    (store : Store) : Bool :=
  match env.evalExpand p store.toMap with
  | .ok (.map m) => (parse m).toBool
  | _ => false

/-- The dispatch switch of the step gets as far as the call of its runner in
`store`: the payload of the case that applies expands and parses (http, db,
exec) or is accepted by `parseGrpcRequest` (gRPC); the include case and a step
without dispatch have nothing to prepare. -/
def Step.prepared (s : Step) (env : Oracles) (store : Store) : Bool :=
  caseBoth s.httpRunner s.httpRequest (fun _ p => env.expands env.parseHTTPRequest p store) <|
  caseBoth s.dbRunner s.dbQuery (fun _ p => env.expands env.parseDBQuery p store) <|
  caseBoth s.grpcRunner s.grpcRequest
    (fun _ p => (env.parseGrpcRequest p store.toMap).toBool) <|
  caseBoth s.execRunner s.execCommand (fun _ p => env.expands env.parseExecCommand p store) <|
  caseBoth s.includeRunner s.includeConfig (fun _ _ => true) true

/-- The parts of the step body that are present on a step, by rank: the
dispatch runner (0) when a case of the switch applies, dump (1), bind (2), and
test (3) unless the operator skips tests. -/
def Operator.planned (o : Operator) (s : Step) : List Nat :=
  (if s.noDispatch then [] else [0]) ++ (if s.dumpOn then [1] else []) ++
    (if s.bindOn then [2] else []) ++ (if s.testOn && !o.skipTest then [3] else [])

/-- What one execution of the step body that ended with `out` has called: the
calls `cs` are a beginning of the parts present on the step; all of them, none
with an error, when the body returns `nil`; a call that returned an error is
the last one; and when the dispatch is prepared, no call returned an error and
`record` did not panic, every part present was called and the body returns
`nil` unless the step has neither dispatch nor hook. -/
def PlanEnd (o : Operator) (env : Oracles) (s : Step) (store : Store) (out : Outcome)
    (cs : List (Nat × Bool)) : Prop :=
  cs.map Prod.fst <+: o.planned s ∧
    (out = .ok → cs = (o.planned s).map (fun k => (k, false))) ∧
    (∀ c ∈ cs, c.2 = true → cs.getLast? = some c ∧ out ≠ .ok) ∧
    (s.prepared env store = true → (∀ c ∈ cs, c.2 = false) → (∀ m, out ≠ .panic m) →
      cs.map Prod.fst = o.planned s ∧ (out = .ok ↔ (s.noDispatch = false ∨ s.hasHook = true)))

/-- The state of one execution of the step body before the part of rank `k`:
it started in `st0`, is in `cur` with the flag `runned = b`, has logged `evs`,
and `anyOn` says whether a hook before `k` is present. -/
def BodyInv (o : Operator) (s : Step) (st0 : OpState) (k : Nat) (b anyOn : Bool)
    (cur : OpState) (evs : List Event) : Prop :=
  Reaches o st0 cur evs ∧ bodies evs = [] ∧ checks evs = [] ∧
    (calls evs).Pairwise callBefore ∧ (∀ c ∈ calls evs, c.1 < k ∧ c.2 = false) ∧
    (b = false → s.noDispatch = true ∧ recorded evs = [] ∧ anyOn = false) ∧
    (b = true → (s.noDispatch = true → recorded evs = [none]) ∧
      (s.recordsOne → ∃ f, recorded evs = [f]))

/-- What one execution of the step body has done when it returns `out` in
state `cur`, having started in `st0` and logged `evs`. -/
def BodyEnd (o : Operator) (s : Step) (st0 cur : OpState) (out : Outcome)
    (evs : List Event) : Prop :=
  cur.trace = st0.trace ++ evs ∧ bodies evs = [] ∧ checks evs = [] ∧
    (calls evs).Pairwise callBefore ∧
    ((∀ m, out ≠ .panic m) → Reaches o st0 cur evs) ∧
    (out = .ok → (s.noDispatch = true → recorded evs = [none]) ∧
      (s.recordsOne → ∃ f, recorded evs = [f])) ∧
    (s.noDispatch = true → s.hasHook = true → (∀ c ∈ calls evs, c.2 = false) →
      (∃ s1, o.record st0.store none = .ok s1) → out = .ok) ∧
    (o.skipTest = true → ∀ c ∈ calls evs, c.1 ≠ 3)

/-- The guard of a step lets the body run: there is no `if`, or it evaluates
to true. -/
def GuardOpen (o : Operator) (env : Oracles) (s : Step) (st : OpState) : Prop :=
  s.cond = "" ∨
    env.evalCond s.cond { store := st.store, included := some o.included, current := none } =
      .ok true

/-! ## Concrete runbooks -/

/-- An expression engine that knows a few conditions and counts. -/
def exEnv : Oracles where
  evalCond := fun c snap =>
    if c = "true" then .ok true
    else if c = "false" then .ok false
    else if c = "third" then .ok (decide (snap.store.loopIndex = some 2))
    else .error ("cannot evaluate " ++ c)
  evalCount := fun c _ =>
    if c = "0" then .ok 0
    else if c = "1" then .ok 1
    else if c = "2" then .ok 2
    else if c = "3" then .ok 3
    else .error ("cannot evaluate " ++ c)
  buildTree := fun c snap =>
    .ok ("tree of " ++ c ++ " at " ++
      (match snap.store.loopIndex with
       | some j => toString j
       | none => "-"))
  evalExpand := fun p _ => .ok (.map p)
  parseHTTPRequest := fun _ => .ok "GET /"
  parseDBQuery := fun _ => .ok "SELECT 1"
  parseGrpcRequest := fun _ _ => .ok "Hello"
  parseExecCommand := fun _ => .ok "echo"
  showValue := fun _ => "value"
  showDuration := fun d => toString d ++ "ns"

/-- A runner that records one frame telling the loop iteration it ran in. -/
def exRunner : Request → Store → RunOut :=
  fun req st =>
    { frames := [some [("req", req),
        ("loop", match st.loopIndex with
                 | some j => toString j
                 | none => "-")]],
      err := none }

/-- A step without anything set. -/
def exBlank : Step where
  key := "0"
  runnerKey := ""
  desc := ""
  cond := ""
  loop := none
  httpRunner := none
  httpRequest := none
  dbRunner := none
  dbQuery := none
  grpcRunner := none
  grpcRequest := none
  execRunner := none
  execCommand := none
  testRunner := none
  testCond := ""
  dumpRunner := none
  dumpCond := ""
  bindRunner := none
  bindCond := none
  includeRunner := none
  includeConfig := none

/-- The step `{req: {/: {get: nil}}}`. -/
def exHttp : Step :=
  { exBlank with runnerKey := "req", httpRunner := some exRunner, httpRequest := some [("/", Raw.str "get")] }

/-- A loop with a constant interval whose `Loop(ctx)` always goes on. -/
def exLoop (count cond : String) : Loop where
  Count := count
  Until := cond
  interval := some 1000000000
  minInterval := none
  maxInterval := none
  cont := fun _ => true

/-- An operator in list mode over the given steps. -/
def exOp (steps : List Step) : Operator where
  id := "op"
  ids := ["op"]
  httpRunners := [("req", exRunner)]
  dbRunners := []
  grpcRunners := []
  steps := steps
  desc := "ping"
  useMap := false
  included := false
  cond := ""
  skipTest := false
  failFast := false
  bookPath := "ping.yml"
  beforeFuncs := []
  afterFuncs := []

/-- The http step in a loop `{count: "0", until: "false"}`. -/
def exZeroUntil : Step :=
  { exHttp with loop := some (exLoop "0" "false") }

/-- A test runner that accepts the condition "true" only. -/
def exTest : String → Bool → Store → Option String :=
  fun cond _ _ => if cond = "true" then none else some "condition is not true"

/-- A dump runner that always succeeds. -/
def exDump : String → Store → Option String :=
  fun _ _ => none

/-- A bind runner that adds the bindings to `bindVars`. -/
def exBind : List (String × String) → Store → List (String × String) × Option String :=
  fun cond st => (st.bindVars ++ cond, none)

/-- The step `{dump: "steps", bind: {a: "1"}, test: "true"}` without dispatch. -/
def exHooks : Step :=
  { exBlank with
    testRunner := some exTest, testCond := "true",
    dumpRunner := some exDump, dumpCond := "steps",
    bindRunner := some exBind, bindCond := some [("a", "1")] }

/-- The http step with all three post-hooks. -/
def exFull : Step :=
  { exHooks with runnerKey := "req", httpRunner := some exRunner,
                 httpRequest := some [("/", Raw.str "get")] }

/-- The http step behind `if: "false"`, with a loop declared as well. -/
def exGuarded : Step :=
  { exFull with cond := "false", loop := some (exLoop "3" "") }

/-- A runbook with a top-level `if` that is false, before and after hooks and
one exec-like step: `{if: "false", steps: [{req: ...}]}`. -/
def exSkippedOp : Operator :=
  { exOp [exFull] with
    cond := "false",
    beforeFuncs := [fun _ => none],
    afterFuncs := [fun _ => some "after"] }

/-- The http step in a loop `{count: "3", until: "third"}`: `until` becomes
true in the third iteration. -/
def exUntilThird : Step :=
  { exHttp with loop := some (exLoop "3" "third") }

/-- The http step in a loop `{count: "2", until: "false"}`. -/
def exNever : Step :=
  { exHttp with loop := some (exLoop "2" "false") }

/-- The http step in a loop `{count: "3"}` without `until`. -/
def exThrice : Step :=
  { exHttp with loop := some (exLoop "3" "") }

/-- An operator in map mode whose two steps carry the same key. -/
def exTwins : Operator :=
  { exOp [{ exHttp with key := "a" }, { exThrice with key := "a" }] with useMap := true }

/-- The run state of `exTwins` after its first step recorded a frame. -/
def exTwinsState : OpState where
  store := { steps := [], stepMap := [("a", some [("req", "GET /"), ("loop", "-")])],
             bindVars := [], loopIndex := none, useMap := true }
  skipped := false
  trace := []

/-- The loop of a step, if it has one, runs its body at least once: the first
call of `Loop(ctx)` is true and the count never evaluates to less than 1. -/
def Step.loopRuns (s : Step) (env : Oracles) : Prop :=
  ∀ l, s.loop = some l →
    l.cont 0 = true ∧ ∀ snap c, env.evalCount l.Count snap = .ok c → 1 ≤ c

/-- The store before step `i` of a run in which every earlier step left one
frame: it holds `i` frames, `loopIndex` is nil, and in map mode the keys of
`stepMap` are the keys of the first `i` steps. -/
def StepAligned (o : Operator) (i : Nat) (s : Store) : Prop :=
  s.useMap = o.useMap ∧ s.loopIndex = none ∧ s.frameCount = i ∧
    (o.useMap = true → s.stepMap.map Prod.fst = (o.steps.take i).map Step.key)

/-- The run went from `st` to `st1` leaving exactly one more frame. -/
def Pushed (o : Operator) (st st1 : OpState) : Prop :=
  st1.skipped = st.skipped ∧
    ∃ f, st1.store = { o.push st.store f with bindVars := st1.store.bindVars }

/-- The step `{test: "true"}`. -/
def exTestOnly : Step :=
  { exBlank with key := "1", testRunner := some exTest, testCond := "true" }

/-- The runbook `steps: [{req: ...}, {test: "true"}, {req: ..., loop: {count: 3,
until: "third"}}]` in list mode. -/
def exPing : Operator :=
  exOp [exHttp, exTestOnly, { exUntilThird with key := "2" }]

/-- The runbook with the single step `{req: ..., loop: {count: "0"}}`. -/
def exIdle : Operator :=
  exOp [{ exHttp with loop := some (exLoop "0" "") }]

/-- The runbook with one http step and an afterFunc that fails. -/
def exAfter : Operator :=
  { exOp [exHttp] with afterFuncs := [fun _ => some "after failed"] }

/-- A runbook in map mode whose two http steps carry the same key. -/
def exSameKey : Operator :=
  { exOp [{ exHttp with key := "a" }, { exHttp with key := "a" }] with useMap := true }

/-- The key `k` occurs in two of the three runner maps. -/
def inTwo (k : String) (http db grpc : List String) : Prop :=
  (k ∈ http ∧ k ∈ db) ∨ (k ∈ http ∧ k ∈ grpc) ∨ (k ∈ db ∧ k ∈ grpc)

/-- Constructors that never fail and a loop parser that accepts a count. -/
def exBuilders : Builders where
  newLoop := fun v =>
    match v with
    | .str c => .ok (exLoop c "")
    | _ => .error "invalid loop"
  newTestRunner := .ok exTest
  newDumpRunner := .ok exDump
  newBindRunner := .ok exBind
  newIncludeRunner := .ok (fun _ _ => { frames := [none], err := none })
  newExecRunner := .ok exRunner
  parseIncludeConfig := fun _ => .ok "included.yml"
  showRaw := fun _ => "value"

/-- A book with the runners `{req: "http://x"}` and `{req: "grpc://x"}`: the
key `req` is used twice. -/
def exBook : Book where
  applied := none
  id := "op"
  root := .ok "."
  desc := "ping"
  useMap := false
  included := false
  ifCond := ""
  skipTest := false
  failFast := false
  path := "ping.yml"
  beforeFuncs := []
  afterFuncs := []
  httpRunners := [("req", exRunner)]
  dbRunners := [("db", exRunner)]
  grpcRunners := [("greq", exRunner), ("req", exRunner)]
  runnerErrs := []
  rawSteps := [[("req", Raw.map [("/", Raw.str "get")])]]
  stepKeys := []

/-- An operator with the given book path and description and no steps. -/
def exNamed (path desc : String) : Operator :=
  { exOp [] with bookPath := path, desc := desc }

/-- The `bookPath` and `desc` of the operators of a list. -/
def namesOf (ops : List Operator) : List (String × String) :=
  ops.map (fun o => (o.bookPath, o.desc))

/-- Three books `a.yml`, `b.yml`, `c.yml`. -/
def exBooks : List Operator :=
  [exNamed "c.yml" "third", exNamed "a.yml" "first", exNamed "b.yml" "second"]

/-- A random source whose first draw is 2 and whose later draws are 0. -/
def exDraw : Nat → Nat → Nat :=
  fun j _ => if j = 0 then 2 else 0

/-- A runbook whose only step has no runner and no hook: its run fails. -/
def exLoose : Operator :=
  exOp [exBlank]

/-- The failing runbook with `failFast` set. -/
def exStrict : Operator :=
  { exOp [exBlank] with failFast := true }

/-- A batch of four runbooks: one that fails, one that is skipped, one that
fails with `failFast`, and one that would succeed. -/
def exBatch : List (Operator × OpState) :=
  [(exLoose, OpState.init exLoose), (exSkippedOp, OpState.init exSkippedOp),
    (exStrict, OpState.init exStrict), (exPing, OpState.init exPing)]

/-- A runbook of three steps whose second step has no runner and no hook, with
an afterFunc: `steps: [{req: ...}, {}, {req: ...}]`. -/
def exBroken : Operator :=
  { exOp [exHttp, { exBlank with key := "1" }, { exHttp with key := "2" }] with
    afterFuncs := [fun _ => none] }

/-- The runner keys of the steps of the operator `AppendStep` returns, if it
returns one. -/
def appendedKeys (r : Except String Operator) : Option (List String) :=
  match r with
  | .ok o => some (o.steps.map Step.runnerKey)
  | .error _ => none

/-- The dispatch kinds of the steps of the operator `AppendStep` returns. -/
def appendedKinds (r : Except String Operator) : Option (List (List Kind)) :=
  match r with
  | .ok o => some (o.steps.map Step.kinds)
  | .error _ => none

/-- An operator without steps whose runner key `req` is in all three runner
maps. -/
def exOverlap : Operator :=
  { exOp [] with dbRunners := [("req", exRunner)], grpcRunners := [("req", exRunner)] }

/-- A rendering of `%#v` on strings that are free of quotes and escapes. -/
def exQuote : String → String :=
  fun s => "\"" ++ s ++ "\""

/-- Collaborators of `curlToStep` that reject every command line. -/
def exCurl : Curl where
  newRequest := fun _ => .error "not a curl command"
  split := fun s _ => [s]
  createHTTPStep := fun _ _ => .error "no request"

/-- A runbook whose only runner has the YAML key `true`. -/
def exOddKey : Runbook :=
  { Desc := "odd", Runners := [(Raw.bool true, Raw.str "http://x")], Steps := [] }

/-- A world in which only `RP_TOKEN` is set, the file `report.xml` exists and
the server answers 201 to a request for the project `demo` and 500 otherwise. -/
def exWorld : RpWorld where
  getenv := fun name => if name = "RP_TOKEN" then "secret" else ""
  statNotExist := fun path => path != "report.xml"
  openFile := fun path => if path = "report.xml" then .ok "<testsuite/>" else .error "no such file"
  base := fun path => path
  ext := fun _ => ".xml"
  createFormFile := fun _ => none
  copy := fun _ => none
  marshal := fun rq => .ok rq.Name
  writeField := fun _ _ => none
  closeWriter := none
  formBody := fun name content json => name ++ content ++ json
  contentType := "multipart/form-data"
  newRequest := fun _ _ => none
  send := fun req =>
    if req.url = "http://rp/api/v1/plugin/demo/junit/import" then
      .ok { StatusCode := 201, body := .ok "created" }
    else .ok { StatusCode := 500, body := .ok "boom" }

/-- The flags `--endpoint http://rp/ --project demo`. -/
def exFlags : RpFlags :=
  { rpEndpoint := "http://rp/", rpToken := "", rpProject := "demo", rpLaunchName := "",
    rpDescription := "" }

end Runn

namespace Runn

/-! ## Lemmas on `record` -/

theorem deletePrevious_bindVars (o : Operator) (s : Store) (bv : List (String × String)) :
    o.deletePrevious { s with bindVars := bv } =
      (match o.deletePrevious s with
       | .ok s1 => .ok { s1 with bindVars := bv }
       | .error m => .error m) := by
  obtain ⟨steps, stepMap, bindVars, loopIndex, useMap⟩ := s
  unfold Operator.deletePrevious Store.loopAgain
  simp only
  cases loopIndex with
  | none => simp
  | some j =>
    by_cases hj : j > 0
    · by_cases hl : stepMap.length = 0
      · simp [hj, hl]
      · cases hg : o.steps[stepMap.length - 1]? <;> simp_all
    · simp [hj]

theorem record_bindVars (o : Operator) (s : Store) (bv : List (String × String)) (v : Frame) :
    o.record { s with bindVars := bv } v =
      (match o.record s v with
       | .ok s1 => .ok { s1 with bindVars := bv }
       | .error m => .error m) := by
  unfold Operator.record
  cases o.useMap
  · simp only [Bool.false_eq_true, if_false]
    unfold Operator.recortAsListed Store.recortAsListed Store.loopAgain
    simp only
    by_cases h1 : (match s.loopIndex with | some j => decide (j > 0) | none => false) = true
    · by_cases hl : s.steps.length = 0 <;> simp [h1, hl]
    · simp [h1]
  · simp only [if_true]
    unfold Operator.recortAsMapped
    rw [deletePrevious_bindVars]
    cases hd : o.deletePrevious s with
    | error m => simp
    | ok s1 =>
      simp only
      cases hg : o.steps[s1.stepMap.length]? <;> simp [Store.recortAsMapped]

theorem replay_bindVars (o : Operator) (vs : List Frame) :
    ∀ (s : Store) (bv : List (String × String)),
      o.replay vs { s with bindVars := bv } =
        (match o.replay vs s with
         | .ok s1 => .ok { s1 with bindVars := bv }
         | .error m => .error m) := by
  induction vs with
  | nil => intro s bv; simp [Operator.replay]
  | cons v vs ih =>
    intro s bv
    simp only [Operator.replay]
    rw [record_bindVars]
    cases hr : o.record s v with
    | error m => simp
    | ok s1 => simpa using ih s1 bv

theorem replay_append (o : Operator) (a b : List Frame) :
    ∀ s : Store,
      o.replay (a ++ b) s =
        (match o.replay a s with
         | .ok s1 => o.replay b s1
         | .error m => .error m) := by
  induction a with
  | nil => intro s; simp [Operator.replay]
  | cons v vs ih =>
    intro s
    simp only [List.cons_append, Operator.replay]
    cases hr : o.record s v with
    | error m => simp
    | ok s1 => simpa using ih s1

theorem Reaches.refl (o : Operator) (st : OpState) : Reaches o st st [] := by
  refine ⟨by simp, rfl, st.store, ?_, ?_⟩
  · simp [recorded, Operator.replay]
  · rfl

theorem Reaches.trans {o : Operator} {st st1 st2 : OpState} {e1 e2 : List Event}
    (h1 : Reaches o st st1 e1) (h2 : Reaches o st1 st2 e2) : Reaches o st st2 (e1 ++ e2) := by
  obtain ⟨t1, k1, s1, r1, b1⟩ := h1
  obtain ⟨t2, k2, s2, r2, b2⟩ := h2
  refine ⟨by rw [t2, t1, List.append_assoc], by rw [k2, k1], ?_⟩
  rw [b1, replay_bindVars] at r2
  cases hr : o.replay (recorded e2) s1 with
  | error m => rw [hr] at r2; simp at r2
  | ok s3 =>
    rw [hr] at r2
    simp only [Except.ok.injEq] at r2
    refine ⟨s3, ?_, ?_⟩
    · simp only [recorded, List.filterMap_append]
      have := replay_append o (recorded e1) (recorded e2) st.store
      simp only [recorded] at this r1 hr
      rw [this, r1]
      simpa using hr
    · rw [b2, ← r2]

theorem Reaches.log (o : Operator) (st : OpState) (e : Event) (he : e.frame = none) :
    Reaches o st (st.log e) [e] := by
  refine ⟨rfl, rfl, st.store, ?_, rfl⟩
  simp [recorded, he, Operator.replay]

theorem Reaches.bindVars (o : Operator) (st : OpState) (bv : List (String × String)) :
    Reaches o st { st with store := { st.store with bindVars := bv } } [] := by
  refine ⟨by simp, rfl, st.store, ?_, rfl⟩
  simp [recorded, Operator.replay]

theorem Reaches.record (o : Operator) (st : OpState) (v : Frame) (s1 : Store)
    (h : o.record st.store v = .ok s1) :
    Reaches o st { st with store := s1, trace := st.trace ++ [Event.record v] } [Event.record v] := by
  refine ⟨rfl, rfl, s1, ?_, rfl⟩
  simp [recorded, Event.frame, Operator.replay, h]

/-! ## The parts of the step body -/

theorem recordSt_trace (o : Operator) (st : OpState) (v : Frame) :
    (o.recordSt st v).1.trace = st.trace ++ [Event.record v] := by
  unfold Operator.recordSt
  cases o.record st.store v <;> simp [OpState.log]

theorem recordSt_error (o : Operator) (st : OpState) (v : Frame) (m : String) :
    (o.recordSt st v).2 ≠ .error m := by
  unfold Operator.recordSt
  cases o.record st.store v <;> simp

theorem record_ok_any (o : Operator) (s : Store) (v w : Frame) (s1 : Store)
    (h : o.record s v = .ok s1) : ∃ s2, o.record s w = .ok s2 := by
  unfold Operator.record at h ⊢
  cases hm : o.useMap
  · simp only [hm, Bool.false_eq_true, if_false] at h ⊢
    unfold Operator.recortAsListed at h ⊢
    by_cases h1 : s.loopAgain = true
    · by_cases hl : s.steps.length = 0
      · simp [h1, hl] at h
      · simp [h1, hl]
    · simp [h1]
  · simp only [hm, if_true] at h ⊢
    unfold Operator.recortAsMapped at h ⊢
    cases hd : o.deletePrevious s with
    | error m => simp [hd] at h
    | ok s2 =>
      simp only [hd] at h ⊢
      cases hg : o.steps[s2.stepMap.length]? with
      | none => simp [hg] at h
      | some p => simp

/-- The statement `if !runned { o.record(nil) }` as a hook without a call. -/
theorem recordIfNot_facts (o : Operator) (runned : Bool) (st : OpState) :
    ∃ evs, (o.recordIfNot runned st).1.trace = st.trace ++ evs ∧
      calls evs = [] ∧ bodies evs = [] ∧ checks evs = [] ∧
      recorded evs = (if runned then [] else [none]) ∧
      (∀ m, (o.recordIfNot runned st).2 ≠ .error m) ∧
      ((o.recordIfNot runned st).2 = .ok → Reaches o st (o.recordIfNot runned st).1 evs) ∧
      (∀ m, (o.recordIfNot runned st).2 = .panic m →
        runned = false ∧ ∀ s1, o.record st.store none ≠ .ok s1) := by
  unfold Operator.recordIfNot
  cases runned with
  | true =>
    refine ⟨[], ?_⟩
    simp [calls, bodies, checks, recorded, Reaches.refl]
  | false =>
    refine ⟨[Event.record none], ?_⟩
    simp only [Bool.false_eq_true, if_false]
    unfold Operator.recordSt
    cases hr : o.record st.store none with
    | error m =>
      simp [calls, bodies, checks, recorded, Event.call, Event.body, Event.checked,
        Event.frame, OpState.log]
    | ok s1 =>
      simp only [calls, bodies, checks, recorded, Event.call, Event.body, Event.checked,
        Event.frame, List.filterMap_cons, List.filterMap_nil, true_and, ne_eq,
        not_false_eq_true, implies_true, forall_const, reduceCtorEq, false_implies, and_true]
      exact Reaches.record o st none s1 hr

theorem record_fails_bindVars (o : Operator) (s : Store) (bv : List (String × String))
    (h : ∀ s1, o.record { s with bindVars := bv } none ≠ .ok s1) :
    ∀ s1, o.record s none ≠ .ok s1 := by
  intro s1 hs
  have := record_bindVars o s bv none
  rw [hs] at this
  exact h _ this

/-- The tail of a hook that ran: `if !runned { o.record(nil); runned = true }`. -/
theorem hook_tail_facts (o : Operator) (k : Nat) (runned : Bool) (st st1 : OpState)
    (e0 : List Event) (hpre : Reaches o st st1 e0) (hcalls : calls e0 = [(k, false)])
    (hb : bodies e0 = []) (hc : checks e0 = []) (hr0 : recorded e0 = [])
    (hst : ∃ bv, st1.store = { st.store with bindVars := bv }) :
    ∃ evs, HookFacts o k true false runned st
      ((o.recordIfNot runned st1).1, Flow.after (o.recordIfNot runned st1).2 (.next true)) evs := by
  obtain ⟨e1, ht, hc1, hb1, hk1, hr1, herr, hok, hpan⟩ := recordIfNot_facts o runned st1
  obtain ⟨bv, hbv⟩ := hst
  refine ⟨e0 ++ e1, ⟨?_, ?_, ?_, ?_⟩, ?_⟩
  · rw [ht, hpre.1, List.append_assoc]
  · simp only [bodies, List.filterMap_append] at hb hb1 ⊢; rw [hb, hb1]; rfl
  · simp only [checks, List.filterMap_append] at hc hk1 ⊢; rw [hc, hk1]; rfl
  · intro hnp
    cases hout : (o.recordIfNot runned st1).2 with
    | ok => exact hpre.trans (hok hout)
    | error m => exact absurd hout (herr m)
    | panic m => simp [hout, Flow.after] at hnp
  · cases hout : (o.recordIfNot runned st1).2 with
    | ok =>
      simp only [Flow.after, calls, recorded, List.filterMap_append] at hcalls hc1 hr0 hr1 ⊢
      rw [hcalls, hc1, hr0, hr1]
      cases runned <;> simp
    | error m => exact absurd hout (herr m)
    | panic m =>
      obtain ⟨hrun, hfail⟩ := hpan m hout
      simp only [Flow.after, calls, List.filterMap_append] at hcalls hc1 ⊢
      rw [hcalls, hc1]
      refine ⟨trivial, hrun, ?_, by simp⟩
      rw [hbv] at hfail
      exact record_fails_bindVars o st.store bv hfail

theorem dumpHook_facts (o : Operator) (i : Nat) (s : Step) (runned : Bool) (st : OpState) :
    ∃ evs, HookFacts o 1 s.dumpOn false runned st (o.dumpHook i s runned st) evs := by
  unfold Operator.dumpHook Step.dumpOn
  cases hdr : s.dumpRunner with
  | none =>
    refine ⟨[], ⟨by simp, rfl, rfl, fun _ => Reaches.refl o st⟩, ?_⟩
    simp [calls, recorded]
  | some dr =>
    by_cases hcond : s.dumpCond = ""
    · refine ⟨[], ⟨by simp [hcond], rfl, rfl, fun _ => by simpa [hcond] using Reaches.refl o st⟩, ?_⟩
      simp [hcond, calls, recorded]
    · simp only [hcond, if_false]
      cases hres : dr s.dumpCond st.store with
      | some e =>
        refine ⟨[Event.dump i (some e)], ⟨by simp [OpState.log], rfl, rfl,
          fun _ => Reaches.log o st _ rfl⟩, ?_⟩
        simp [calls, recorded, Event.call, Event.frame, hcond]
      | none =>
        simp only [Option.isSome_some, Bool.true_and, ne_eq, hcond, not_false_eq_true,
          decide_True]
        exact hook_tail_facts o 1 runned st (st.log (Event.dump i none)) [Event.dump i none]
          (Reaches.log o st _ rfl) rfl rfl rfl rfl ⟨st.store.bindVars, rfl⟩

theorem Reaches.bindLog (o : Operator) (st : OpState) (bv : List (String × String))
    (e : Event) (he : e.frame = none) :
    Reaches o st (OpState.log { st with store := { st.store with bindVars := bv } } e) [e] := by
  have h := (Reaches.bindVars o st bv).trans (Reaches.log o _ e he)
  simpa using h

theorem bindHook_facts (o : Operator) (i : Nat) (s : Step) (runned : Bool) (st : OpState) :
    ∃ evs, HookFacts o 2 s.bindOn false runned st (o.bindHook i s runned st) evs := by
  unfold Operator.bindHook Step.bindOn
  cases hbr : s.bindRunner with
  | none =>
    refine ⟨[], ⟨by simp, rfl, rfl, fun _ => by simpa using Reaches.refl o st⟩, ?_⟩
    simp [calls, recorded]
  | some br =>
    cases hbc : s.bindCond with
    | none =>
      refine ⟨[], ⟨by simp, rfl, rfl, fun _ => by simpa using Reaches.refl o st⟩, ?_⟩
      simp [calls, recorded]
    | some cond =>
      simp only [Option.isSome_some, Bool.and_self]
      cases hres : (br cond st.store).2 with
      | some e =>
        refine ⟨[Event.bind i (some e)], ⟨by simp [OpState.log], rfl, rfl,
          fun _ => Reaches.bindLog o st _ _ rfl⟩, ?_⟩
        simp [calls, recorded, Event.call, Event.frame]
      | none =>
        exact hook_tail_facts o 2 runned st
          (OpState.log { st with store := { st.store with bindVars := (br cond st.store).1 } }
            (Event.bind i none))
          [Event.bind i none] (Reaches.bindLog o st _ _ rfl) rfl rfl rfl rfl
          ⟨(br cond st.store).1, rfl⟩

theorem testHook_facts (o : Operator) (i : Nat) (s : Step) (runned : Bool) (st : OpState) :
    ∃ evs, HookFacts o 3 s.testOn o.skipTest runned st (o.testHook i s runned st) evs := by
  unfold Operator.testHook Step.testOn
  cases htr : s.testRunner with
  | none =>
    refine ⟨[], ⟨by simp, rfl, rfl, fun _ => Reaches.refl o st⟩, ?_⟩
    simp [calls, recorded]
  | some tr =>
    by_cases hcond : s.testCond = ""
    · refine ⟨[], ⟨by simp [hcond], rfl, rfl, fun _ => by simpa [hcond] using Reaches.refl o st⟩, ?_⟩
      simp [hcond, calls, recorded]
    · simp only [hcond, if_false, Option.isSome_some, Bool.true_and, ne_eq, not_false_eq_true,
        decide_True]
      cases hskip : o.skipTest with
      | true =>
        simp only [if_true]
        obtain ⟨e1, ht, hc1, hb1, hk1, hr1, herr, hok, hpan⟩ := recordIfNot_facts o runned st
        refine ⟨e1, ⟨ht, hb1, hk1, ?_⟩, ?_⟩
        · intro hnp
          cases hout : (o.recordIfNot runned st).2 with
          | ok => exact hok hout
          | error m => exact absurd hout (herr m)
          | panic m => simp [hout, Flow.after] at hnp
        · cases hout : (o.recordIfNot runned st).2 with
          | ok => simp [Flow.after, hc1, hr1]
          | error m => exact absurd hout (herr m)
          | panic m =>
            obtain ⟨hrun, hfail⟩ := hpan m hout
            simp only [Flow.after]
            exact ⟨trivial, hrun, hfail, by simp [hc1]⟩
      | false =>
        simp only [Bool.false_eq_true, if_false]
        cases hres : tr s.testCond runned st.store with
        | some e =>
          refine ⟨[Event.test i (some e)], ⟨by simp [OpState.log], rfl, rfl,
            fun _ => Reaches.log o st _ rfl⟩, ?_⟩
          simp [calls, recorded, Event.call, Event.frame]
        | none =>
          exact hook_tail_facts o 3 runned st (st.log (Event.test i none)) [Event.test i none]
            (Reaches.log o st _ rfl) rfl rfl rfl rfl ⟨st.store.bindVars, rfl⟩

theorem recordAll_facts (o : Operator) (frames : List Frame) :
    ∀ st : OpState, ∃ evs, (o.recordAll frames st).1.trace = st.trace ++ evs ∧
      calls evs = [] ∧ bodies evs = [] ∧ checks evs = [] ∧
      (∀ m, (o.recordAll frames st).2 ≠ .error m) ∧
      ((o.recordAll frames st).2 = .ok →
        Reaches o st (o.recordAll frames st).1 evs ∧ recorded evs = frames) := by
  induction frames with
  | nil =>
    intro st
    exact ⟨[], by simp [Operator.recordAll, calls, bodies, checks, recorded, Reaches.refl]⟩
  | cons v vs ih =>
    intro st
    simp only [Operator.recordAll]
    unfold Operator.recordSt
    cases hr : o.record st.store v with
    | error m =>
      refine ⟨[Event.record v], ?_⟩
      simp [OpState.log, calls, bodies, checks, Event.call, Event.body, Event.checked]
    | ok s1 =>
      simp only
      obtain ⟨evs, ht, hc, hb, hk, herr, hok⟩ :=
        ih { st with store := s1, trace := st.trace ++ [Event.record v] }
      refine ⟨Event.record v :: evs, ?_, ?_, ?_, ?_, herr, ?_⟩
      · rw [ht]; simp
      · simpa [calls, Event.call] using hc
      · simpa [bodies, Event.body] using hb
      · simpa [checks, Event.checked] using hk
      · intro h
        obtain ⟨hre, hrec⟩ := hok h
        refine ⟨?_, ?_⟩
        · have := (Reaches.record o st v s1 hr).trans hre
          simpa using this
        · simp only [recorded, List.filterMap_cons, Event.frame] at hrec ⊢
          rw [hrec]

theorem callRunner_facts (o : Operator) (s : Step) (kind : Kind) (i : Nat) (failed : String)
    (r : RunOut) (st : OpState) (hnd : s.noDispatch = false) (hone : s.recordsOne → r.recordsOne) :
    ∃ evs, DispatchFacts o s st (o.callRunner kind i failed r st) evs := by
  unfold Operator.callRunner
  obtain ⟨evs, ht, hc, hb, hk, herr, hok⟩ :=
    recordAll_facts o r.frames (st.log (Event.dispatch kind i r.err))
  have hcalls : calls (Event.dispatch kind i r.err :: evs) = [(0, r.err.isSome)] := by
    simp only [calls, List.filterMap_cons, Event.call] at hc ⊢
    rw [hc]
  have hbod : bodies (Event.dispatch kind i r.err :: evs) = [] := by
    simpa [bodies, Event.body] using hb
  have hchk : checks (Event.dispatch kind i r.err :: evs) = [] := by
    simpa [checks, Event.checked] using hk
  have htr : (o.recordAll r.frames (st.log (Event.dispatch kind i r.err))).1.trace =
      st.trace ++ Event.dispatch kind i r.err :: evs := by
    rw [ht]; simp [OpState.log]
  refine ⟨Event.dispatch kind i r.err :: evs, ?_⟩
  cases hout : o.recordAll r.frames (st.log (Event.dispatch kind i r.err)) with
  | mk st1 out =>
    rw [hout] at htr hok herr
    simp only at htr hok herr
    cases out with
    | error m => exact absurd rfl (herr m)
    | panic m =>
      simp only
      exact ⟨⟨htr, hbod, hchk, fun h => absurd rfl (h m)⟩, hnd, _, hcalls⟩
    | ok =>
      obtain ⟨hre, hrec⟩ := hok rfl
      have hre2 : Reaches o st st1 (Event.dispatch kind i r.err :: evs) := by
        have := (Reaches.log o st (Event.dispatch kind i r.err) rfl).trans hre
        simpa using this
      have hrec2 : recorded (Event.dispatch kind i r.err :: evs) = r.frames := by
        simpa [recorded, Event.frame] using hrec
      cases he : r.err with
      | none =>
        rw [he] at htr hre2 hcalls hrec2 hbod hchk
        simp only
        refine ⟨⟨htr, hbod, hchk, fun _ => hre2⟩, by simp, fun _ => ⟨hnd, ?_, ?_⟩⟩
        · rw [hcalls]; rfl
        · intro h1
          rw [hrec2]
          exact hone h1 he
      | some e =>
        rw [he] at htr hre2 hcalls hrec2 hbod hchk
        simp only
        refine ⟨⟨htr, hbod, hchk, fun _ => hre2⟩, hnd, Or.inr ?_⟩
        rw [hcalls]; rfl

theorem prep_error_facts (o : Operator) (s : Step) (st : OpState) (m : String)
    (hnd : s.noDispatch = false) :
    ∃ evs, DispatchFacts o s st (st, Flow.ret (.error m)) evs :=
  ⟨[], ⟨by simp, rfl, rfl, fun _ => Reaches.refl o st⟩, hnd, Or.inl rfl⟩

theorem expandParseRun_facts (o : Operator) (env : Oracles) (s : Step) (kind : Kind) (i : Nat)
    (failed : String) (parse : Payload → Except String Request) (wrapParse : Bool)
    (run : Request → Store → RunOut) (p : Payload) (st : OpState)
    (hnd : s.noDispatch = false) (hone : s.recordsOne → ∀ req x, (run req x).recordsOne) :
    ∃ evs, DispatchFacts o s st
      (o.expandParseRun env kind i failed parse wrapParse run p st) evs := by
  unfold Operator.expandParseRun
  cases hx : env.evalExpand p st.store.toMap with
  | error e => exact prep_error_facts o s st _ hnd
  | ok v =>
    cases v with
    | other x => exact prep_error_facts o s st _ hnd
    | map m =>
      simp only
      cases hp : parse m with
      | error e =>
        cases wrapParse
        · exact prep_error_facts o s st _ hnd
        · exact prep_error_facts o s st _ hnd
      | ok req => exact callRunner_facts o s kind i failed _ st hnd (fun h => hone h req _)

theorem caseBoth_cases {α β γ : Type} (r : Option α) (p : Option β) (hit : α → β → γ)
    (rest : γ) :
    (∃ x y, r = some x ∧ p = some y ∧ caseBoth r p hit rest = hit x y) ∨
      ((r.isSome && p.isSome) = false ∧ caseBoth r p hit rest = rest) := by
  cases r <;> cases p <;> simp [caseBoth]

theorem dispatch_facts (o : Operator) (env : Oracles) (i : Nat) (s : Step) (st : OpState) :
    ∃ evs, DispatchFacts o s st (o.dispatch env i s st) evs := by
  unfold Operator.dispatch
  rcases caseBoth_cases s.httpRunner s.httpRequest _ _ with ⟨r, p, h1, h2, h⟩ | ⟨n1, h⟩
  · rw [h]
    exact expandParseRun_facts o env s _ i _ _ _ r p st (by simp [Step.noDispatch, h1, h2])
      (fun hs => hs.1 r h1)
  rw [h]
  rcases caseBoth_cases s.dbRunner s.dbQuery _ _ with ⟨r, p, h1, h2, h⟩ | ⟨n2, h⟩
  · rw [h]
    exact expandParseRun_facts o env s _ i _ _ _ r p st (by simp [Step.noDispatch, h1, h2])
      (fun hs => hs.2.1 r h1)
  rw [h]
  rcases caseBoth_cases s.grpcRunner s.grpcRequest _ _ with ⟨r, p, h1, h2, h⟩ | ⟨n3, h⟩
  · rw [h]
    have hnd : s.noDispatch = false := by simp [Step.noDispatch, h1, h2]
    cases hp : env.parseGrpcRequest p st.store.toMap with
    | error e => exact prep_error_facts o s st _ hnd
    | ok req => exact callRunner_facts o s _ i _ _ st hnd (fun hs => hs.2.2.1 r h1 req _)
  rw [h]
  rcases caseBoth_cases s.execRunner s.execCommand _ _ with ⟨r, p, h1, h2, h⟩ | ⟨n4, h⟩
  · rw [h]
    exact expandParseRun_facts o env s _ i _ _ _ r p st (by simp [Step.noDispatch, h1, h2])
      (fun hs => hs.2.2.2.1 r h1)
  rw [h]
  rcases caseBoth_cases s.includeRunner s.includeConfig _ _ with ⟨r, p, h1, h2, h⟩ | ⟨n5, h⟩
  · rw [h]
    exact callRunner_facts o s _ i _ _ st (by simp [Step.noDispatch, h1, h2])
      (fun hs => hs.2.2.2.2 r h1 p _)
  rw [h]
  refine ⟨[], ⟨by simp, rfl, rfl, fun _ => Reaches.refl o st⟩, ?_⟩
  simp [Step.noDispatch, n1, n2, n3, n4, n5]

theorem dispatch_noDispatch (o : Operator) (env : Oracles) (i : Nat) (s : Step) (st : OpState)
    (h : s.noDispatch = true) : o.dispatch env i s st = (st, .next false) := by
  obtain ⟨evs, _, hf⟩ := dispatch_facts o env i s st
  cases hr : o.dispatch env i s st with
  | mk st1 fl =>
    rw [hr] at hf
    cases fl with
    | next b =>
      cases b with
      | false => simp only at hf; rw [(hf.1 trivial).2.2]
      | true => simp only at hf; rw [h] at hf; simp at hf
    | ret out =>
      cases out with
      | ok => exact absurd hf id
      | error m => simp only at hf; rw [h] at hf; simp at hf
      | panic m => simp only at hf; rw [h] at hf; simp at hf

/-! ## One execution of the step body -/

theorem Reaches.store_of_no_record {o : Operator} {st cur : OpState} {evs : List Event}
    (h : Reaches o st cur evs) (hr : recorded evs = []) :
    cur.store = { st.store with bindVars := cur.store.bindVars } := by
  obtain ⟨_, _, s1, h1, h2⟩ := h
  rw [hr] at h1
  simp only [Operator.replay, Except.ok.injEq] at h1
  rw [h2, ← h1]

theorem hook_next {o : Operator} {s : Step} {st0 cur : OpState} {k : Nat}
    {b anyOn act skip : Bool} {evs e : List Event} {r : OpState × Flow} {b1 : Bool}
    (hinv : BodyInv o s st0 k b anyOn cur evs) (hf : HookFacts o k act skip b cur r e)
    (hr : r.2 = .next b1) : BodyInv o s st0 (k + 1) b1 (anyOn || act) r.1 (evs ++ e) := by
  obtain ⟨hre, hb, hk, hpw, hlt, hF, hT⟩ := hinv
  obtain ⟨⟨ht, hb2, hk2, hre2⟩, hm⟩ := hf
  rw [hr] at hm hre2
  obtain ⟨_, hb1, hc, hrec⟩ := hm
  have hre3 := hre.trans (hre2 (by simp))
  refine ⟨hre3, ?_, ?_, ?_, ?_, ?_, ?_⟩
  · simp only [bodies, List.filterMap_append] at hb hb2 ⊢; rw [hb, hb2]; rfl
  · simp only [checks, List.filterMap_append] at hk hk2 ⊢; rw [hk, hk2]; rfl
  · simp only [calls, List.filterMap_append] at hpw hlt hc ⊢
    rw [List.pairwise_append]
    refine ⟨hpw, ?_, ?_⟩
    · rw [hc]; cases act <;> simp
    · intro a ha c hcm
      rw [hc] at hcm
      cases act with
      | false => simp at hcm
      | true =>
        simp only [if_true, List.mem_singleton] at hcm
        subst hcm
        exact ⟨(hlt a ha).1, (hlt a ha).2⟩
  · intro c hcm
    simp only [calls, List.filterMap_append, List.mem_append] at hcm hlt hc
    rcases hcm with h | h
    · exact ⟨Nat.lt_succ_of_lt (hlt c h).1, (hlt c h).2⟩
    · rw [hc] at h
      cases act with
      | false => simp at h
      | true =>
        simp only [if_true, List.mem_singleton] at h
        subst h
        exact ⟨Nat.lt_succ_self k, rfl⟩
  · intro hb1f
    rw [hb1f] at hb1
    have hbf : b = false := by
      cases b with
      | false => rfl
      | true => simp at hb1
    have haf : act = false := by
      cases act with
      | false => rfl
      | true => rw [hbf] at hb1; simp at hb1
    obtain ⟨h1, h2, h3⟩ := hF hbf
    refine ⟨h1, ?_, by simp [h3, haf]⟩
    simp only [recorded, List.filterMap_append] at h2 hrec ⊢
    rw [h2, hrec, haf]; rfl
  · intro hb1t
    simp only [recorded, List.filterMap_append] at hrec ⊢
    cases b with
    | true =>
      obtain ⟨h1, h2⟩ := hT rfl
      have : List.filterMap Event.frame e = [] := by rw [hrec]; simp
      rw [this]
      simpa [recorded] using And.intro h1 h2
    | false =>
      obtain ⟨h1, h2, h3⟩ := hF rfl
      have hat : act = true := by
        rw [hb1t] at hb1
        simpa using hb1.symm
      simp only [recorded] at h2
      rw [h2, hrec, hat]
      simp

theorem hook_ret {o : Operator} {s : Step} {st0 cur : OpState} {k : Nat}
    {b anyOn act skip : Bool} {evs e : List Event} {r : OpState × Flow} {out : Outcome}
    (hinv : BodyInv o s st0 k b anyOn cur evs) (hf : HookFacts o k act skip b cur r e)
    (hr : r.2 = .ret out) (hk3 : k ≤ 3) (hskip : skip = true → o.skipTest = true ∧ k = 3)
    (hns : skip = false → k = 3 → o.skipTest = false) :
    BodyEnd o s st0 r.1 out (evs ++ e) := by
  obtain ⟨hre, hb, hk, hpw, hlt, hF, hT⟩ := hinv
  obtain ⟨⟨ht, hb2, hk2, hre2⟩, hm⟩ := hf
  rw [hr] at hm hre2
  have hcalls : calls e = [] ∨ ∃ f, calls e = [(k, f)] := by
    cases out with
    | ok => exact Or.inl hm.2.2.1
    | error m => exact Or.inr ⟨_, hm.2.2.1⟩
    | panic m =>
      cases skip with
      | true => exact Or.inl (by simpa using hm.2.2.2)
      | false => exact Or.inr ⟨_, by simpa using hm.2.2.2⟩
  have hpw2 : (calls (evs ++ e)).Pairwise callBefore := by
    simp only [calls, List.filterMap_append] at hpw hlt hcalls ⊢
    rw [List.pairwise_append]
    refine ⟨hpw, ?_, ?_⟩
    · rcases hcalls with h | ⟨f, h⟩ <;> rw [h] <;> simp
    · intro a ha c hcm
      rcases hcalls with h | ⟨f, h⟩
      · rw [h] at hcm; simp at hcm
      · rw [h] at hcm
        simp only [List.mem_singleton] at hcm
        subst hcm
        exact ⟨(hlt a ha).1, (hlt a ha).2⟩
  refine ⟨by rw [ht, hre.1, List.append_assoc], ?_, ?_, hpw2, ?_, ?_, ?_, ?_⟩
  · simp only [bodies, List.filterMap_append] at hb hb2 ⊢; rw [hb, hb2]; rfl
  · simp only [checks, List.filterMap_append] at hk hk2 ⊢; rw [hk, hk2]; rfl
  · intro hnp
    exact hre.trans (hre2 (by
      intro m hm2
      simp only [Flow.ret.injEq] at hm2
      exact hnp m hm2))
  · intro hok
    subst hok
    obtain ⟨_, _, _, hrec⟩ := hm
    simp only [recorded, List.filterMap_append] at hrec ⊢
    cases b with
    | true =>
      obtain ⟨h1, h2⟩ := hT rfl
      rw [hrec]
      simpa [recorded] using And.intro h1 h2
    | false =>
      obtain ⟨h1, h2, h3⟩ := hF rfl
      simp only [recorded] at h2
      rw [h2, hrec]
      simp
  · intro hnd hh hall hrecok
    cases out with
    | ok => rfl
    | error m =>
      exfalso
      have := hall (k, true) (by
        simp only [calls, List.filterMap_append, List.mem_append] at hm ⊢
        right; rw [show List.filterMap Event.call e = [(k, true)] from hm.2.2.1]; simp)
      simp at this
    | panic m =>
      exfalso
      obtain ⟨_, hbf, hfail, _⟩ := hm
      obtain ⟨_, h2, _⟩ := hF hbf
      obtain ⟨s1, hs1⟩ := hrecok
      have hst := hre.store_of_no_record h2
      rw [hst] at hfail
      exact record_fails_bindVars o st0.store _ hfail s1 hs1
  · intro hst c hcm
    simp only [calls, List.filterMap_append, List.mem_append] at hcm hlt hcalls
    rcases hcm with h | h
    · exact Nat.ne_of_lt (lt_of_lt_of_le (hlt c h).1 hk3)
    · rcases hcalls with h0 | ⟨f, h0⟩
      · rw [h0] at h; simp at h
      · rw [h0] at h
        simp only [List.mem_singleton] at h
        subst h
        simp only
        intro hk33
        cases hsk : skip with
        | false => have := hns hsk hk33; rw [hst] at this; simp at this
        | true =>
          rw [hsk] at hm
          cases out with
          | ok => have := hm.2.2.1; simp only [calls] at this; rw [h0] at this; simp at this
          | error m => have := hm.2.1; simp at this
          | panic m =>
            have := hm.2.2.2
            simp only [calls, if_true] at this
            rw [h0] at this; simp at this

theorem dispatch_next {o : Operator} {s : Step} {st0 : OpState} {r : OpState × Flow}
    {evs : List Event} {b : Bool} (hf : DispatchFacts o s st0 r evs) (hr : r.2 = .next b) :
    BodyInv o s st0 1 b false r.1 evs := by
  obtain ⟨⟨ht, hb, hk, hre⟩, hm⟩ := hf
  rw [hr] at hm hre
  obtain ⟨hF, hT⟩ := hm
  have hre1 := hre (by simp)
  cases b with
  | false =>
    obtain ⟨h1, h2, _⟩ := hF rfl
    subst h2
    exact ⟨hre1, hb, hk, by simp [calls], by simp [calls], fun _ => ⟨h1, rfl, rfl⟩,
      fun h => by simp at h⟩
  | true =>
    obtain ⟨h1, h2, h3⟩ := hT rfl
    refine ⟨hre1, hb, hk, by rw [h2]; simp, ?_, fun h => by simp at h, fun _ => ⟨?_, h3⟩⟩
    · intro c hc
      rw [h2] at hc
      simp only [List.mem_singleton] at hc
      subst hc
      exact ⟨Nat.zero_lt_one, rfl⟩
    · intro h; rw [h1] at h; simp at h

theorem dispatch_ret {o : Operator} {s : Step} {st0 : OpState} {r : OpState × Flow}
    {evs : List Event} {out : Outcome} (hf : DispatchFacts o s st0 r evs)
    (hr : r.2 = .ret out) : BodyEnd o s st0 r.1 out evs := by
  obtain ⟨⟨ht, hb, hk, hre⟩, hm⟩ := hf
  rw [hr] at hm hre
  have hnd : s.noDispatch = false ∧ (calls evs = [] ∨ ∃ f, calls evs = [(0, f)]) := by
    cases out with
    | ok => exact absurd hm id
    | error m =>
      refine ⟨hm.1, ?_⟩
      rcases hm.2 with h | h
      · exact Or.inl h
      · exact Or.inr ⟨_, h⟩
    | panic m => exact ⟨hm.1, Or.inr hm.2⟩
  have hout : out ≠ .ok := by
    intro h; subst h; exact hm
  refine ⟨ht, hb, hk, ?_, ?_, fun h => absurd h hout, ?_, ?_⟩
  · rcases hnd.2 with h | ⟨f, h⟩ <;> rw [h] <;> simp
  · intro hnp
    exact hre (by
      intro m hm2
      simp only [Flow.ret.injEq] at hm2
      exact hnp m hm2)
  · intro h; rw [hnd.1] at h; simp at h
  · intro _ c hc
    rcases hnd.2 with h | ⟨f, h⟩
    · rw [h] at hc; simp at hc
    · rw [h] at hc
      simp only [List.mem_singleton] at hc
      subst hc
      simp

theorem finish_end {o : Operator} {s : Step} {st0 cur : OpState} {b anyOn : Bool}
    {evs : List Event} (i : Nat) (hinv : BodyInv o s st0 4 b anyOn cur evs)
    (hany : anyOn = s.hasHook)
    (h3 : o.skipTest = true → ∀ c ∈ calls evs, c.1 ≠ 3) :
    BodyEnd o s st0 (o.finish i b cur).1 (o.finish i b cur).2 evs := by
  obtain ⟨hre, hb, hk, hpw, hlt, hF, hT⟩ := hinv
  unfold Operator.finish
  cases b with
  | true =>
    simp only [if_true]
    exact ⟨hre.1, hb, hk, hpw, fun _ => hre, fun _ => hT rfl, fun _ _ _ _ => rfl, h3⟩
  | false =>
    simp only [Bool.false_eq_true, if_false]
    refine ⟨hre.1, hb, hk, hpw, fun _ => hre, fun h => by simp at h, ?_, h3⟩
    intro _ hh _ _
    rw [← hany, (hF rfl).2.2] at hh
    simp at hh

/-- One execution of the step body, from the dispatch switch to the closing
check of `runned`. -/
theorem stepFn_end (o : Operator) (env : Oracles) (i : Nat) (s : Step) (st : OpState) :
    ∃ evs, BodyEnd o s (st.log (Event.stepFn i st.store.loopIndex))
      (o.stepFn env i s st).1 (o.stepFn env i s st).2 evs := by
  unfold Operator.stepFn
  obtain ⟨e0, hd⟩ := dispatch_facts o env i s (st.log (Event.stepFn i st.store.loopIndex))
  cases hr0 : o.dispatch env i s (st.log (Event.stepFn i st.store.loopIndex)) with
  | mk st1 f0 =>
  rw [hr0] at hd
  cases f0 with
  | ret out => exact ⟨e0, dispatch_ret hd rfl⟩
  | next r1 =>
  have i1 := dispatch_next hd rfl
  simp only at i1 ⊢
  obtain ⟨e1, hu⟩ := dumpHook_facts o i s r1 st1
  cases hr1 : o.dumpHook i s r1 st1 with
  | mk st2 f1 =>
  rw [hr1] at hu
  cases f1 with
  | ret out =>
    exact ⟨e0 ++ e1, hook_ret i1 hu rfl (by decide) (by simp) (by simp)⟩
  | next r2 =>
  have i2 := hook_next i1 hu rfl
  simp only at i2 ⊢
  obtain ⟨e2, hb⟩ := bindHook_facts o i s r2 st2
  cases hr2 : o.bindHook i s r2 st2 with
  | mk st3 f2 =>
  rw [hr2] at hb
  cases f2 with
  | ret out =>
    exact ⟨e0 ++ e1 ++ e2, hook_ret i2 hb rfl (by decide) (by simp) (by simp)⟩
  | next r3 =>
  have i3 := hook_next i2 hb rfl
  simp only at i3 ⊢
  obtain ⟨e3, ht⟩ := testHook_facts o i s r3 st3
  cases hr3 : o.testHook i s r3 st3 with
  | mk st4 f3 =>
  rw [hr3] at ht
  cases f3 with
  | ret out =>
    exact ⟨e0 ++ e1 ++ e2 ++ e3,
      hook_ret i3 ht rfl (by decide) (fun h => ⟨h, rfl⟩) (fun h _ => h)⟩
  | next r4 =>
  have i4 := hook_next i3 ht rfl
  simp only at i4 ⊢
  refine ⟨e0 ++ e1 ++ e2 ++ e3, finish_end i i4 (by simp [Step.hasHook]) ?_⟩
  intro hst c hc
  obtain ⟨_, hm⟩ := ht
  simp only at hm
  have hoff : s.testOn = false := by
    cases h : s.testOn with
    | false => rfl
    | true => have := hm.1 h; rw [hst] at this; simp at this
  have hc3 : calls e3 = [] := by rw [hm.2.2.1, hoff]; simp
  simp only [calls, List.filterMap_append, List.mem_append] at hc hc3
  rw [hc3] at hc
  have hlt := i3.2.2.2.2.1 c (by
    simp only [calls, List.filterMap_append, List.mem_append]
    simpa using hc)
  exact Nat.ne_of_lt hlt.1

/-! ## Adding and replacing a frame -/

theorem mapAssign_fresh (m : List (String × Frame)) (k : String) (v : Frame)
    (h : ∀ q ∈ m, q.1 ≠ k) : mapAssign m k v = m ++ [(k, v)] := by
  unfold mapAssign
  have : m.any (fun p => p.1 == k) = false := by
    rw [List.any_eq_false]
    intro q hq
    simpa using h q hq
  rw [this]; simp

theorem mapDelete_last (m : List (String × Frame)) (k : String) (v : Frame)
    (h : ∀ q ∈ m, q.1 ≠ k) : mapDelete (m ++ [(k, v)]) k = m := by
  unfold mapDelete
  rw [List.filter_append]
  have h1 : m.filter (fun p => p.1 != k) = m := by
    rw [List.filter_eq_self]
    intro q hq
    simpa using h q hq
  rw [h1]; simp

theorem record_first (o : Operator) (s : Store) (v : Frame) (hf : o.Fresh s)
    (hl : s.loopAgain = false) : o.record s v = .ok (o.push s v) := by
  unfold Operator.record Operator.push
  cases hm : o.useMap with
  | false => simp [Operator.recortAsListed, hl, Store.recortAsListed]
  | true =>
    obtain ⟨p, hp, hq⟩ := hf hm
    simp only [if_true, Operator.recortAsMapped, Operator.deletePrevious, hl,
      Bool.false_eq_true, if_false, hp, Store.recortAsMapped]
    rw [mapAssign_fresh _ _ _ hq]

theorem record_again (o : Operator) (s : Store) (v w : Frame) (j : Int)
    (bv : List (String × String)) (hf : o.Fresh s) (hj : j > 0) :
    o.record { o.push s v with loopIndex := some j, bindVars := bv } w =
      .ok { o.push s w with loopIndex := some j, bindVars := bv } := by
  unfold Operator.record Operator.push
  cases hm : o.useMap with
  | false =>
    simp [Operator.recortAsListed, Store.loopAgain, hj, Store.recortAsListed]
  | true =>
    obtain ⟨p, hp, hq⟩ := hf hm
    simp only [if_true, hp, Operator.recortAsMapped, Operator.deletePrevious,
      Store.loopAgain, hj, decide_True, List.length_append, List.length_singleton,
      Nat.add_sub_cancel, Nat.add_one_ne_zero, if_false, Store.recortAsMapped,
      mapDelete_last _ _ _ hq]
    rw [mapAssign_fresh _ _ _ hq]

theorem push_frameCount (o : Operator) (s : Store) (v : Frame) (hu : s.useMap = o.useMap)
    (hf : o.Fresh s) :
    (o.push s v).frameCount = s.frameCount + 1 ∧ (o.push s v).latest = v := by
  unfold Operator.push Store.frameCount Store.latest
  cases hm : o.useMap with
  | false =>
    rw [hm] at hu
    simp [hu]
  | true =>
    rw [hm] at hu
    obtain ⟨p, hp, _⟩ := hf hm
    simp [hu, hp]

/-! ## The loop -/

theorem iterGood_extend {o : Operator} {env : Oracles} {i : Nat} {s : Step} {l : Loop}
    {c : Int} {st : OpState} {j : Nat}
    (hprev : ∀ j1 < j, IterGood o env i s l c st j1) (hj : IterGood o env i s l c st j) :
    ∀ j1 < j + 1, IterGood o env i s l c st j1 := by
  intro j1 h1
  rcases Nat.lt_succ_iff_lt_or_eq.mp h1 with h | h
  · exact hprev j1 h
  · rw [h]; exact hj

/-- The `for` statement, started at iteration `j` after `j` good iterations,
is left at some iteration `k` in one of the ways of `IterExit`, all
iterations before `k` being good; the fuel is never used up. -/
theorem loopIter_cases (o : Operator) (env : Oracles) (i : Nat) (s : Step) (l : Loop)
    (c : Int) (rs : Bool) (st : OpState) :
    ∀ fuel j, c.toNat + 1 ≤ fuel + j → (∀ j1 < j, IterGood o env i s l c st j1) →
      ∃ k, (∀ j1 < k, IterGood o env i s l c st j1) ∧
        IterExit o env i s l c rs st k
          (o.loopIter env i s l c fuel j rs (o.treeAfter env i s l j st)
            (o.iterState env i s l j st)) := by
  intro fuel
  induction fuel with
  | zero =>
    intro j hfuel hprev
    exfalso
    have hj : 1 ≤ j := by omega
    have := (hprev (j - 1) (by omega)).2.1
    omega
  | succ fuel ih =>
    intro j hfuel hprev
    unfold Operator.loopIter
    by_cases hcont : l.cont j = false
    · exact ⟨j, hprev, Or.inl ⟨by simp [hcont], Or.inl hcont⟩⟩
    simp only [hcont, if_false]
    have hcont1 : l.cont j = true := by simpa using hcont
    by_cases hc : (j : Int) ≥ c
    · exact ⟨j, hprev, Or.inl ⟨by simp [hc], Or.inr hc⟩⟩
    simp only [hc, if_false]
    have hc1 : (j : Int) < c := by omega
    have hbs : o.stepFn env i s ((o.iterState env i s l j st).setLoopIndex (some (j : Int))) =
        (o.bodyState env i s l j st, o.bodyOut env i s l j st) := rfl
    rw [hbs]
    cases hout : o.bodyOut env i s l j st with
    | error e => exact ⟨j, hprev, Or.inr ⟨hcont1, hc1, Or.inl ⟨e, hout, rfl⟩⟩⟩
    | panic m => exact ⟨j, hprev, Or.inr ⟨hcont1, hc1, Or.inr (Or.inl ⟨m, hout, rfl⟩)⟩⟩
    | ok =>
      simp only
      by_cases hu : l.Until = ""
      · simp only [hu, if_true]
        have hgood : IterGood o env i s l c st j := ⟨hcont1, hc1, hout, fun h => absurd hu h⟩
        have hst : o.iterState env i s l (j + 1) st = o.bodyState env i s l j st := by
          simp [Operator.iterState, Operator.bodyState, hu]
        have htr : o.treeAfter env i s l (j + 1) st = o.treeAfter env i s l j st := by
          cases j <;> simp [Operator.treeAfter, hu]
        have := ih (j + 1) (by omega) (iterGood_extend hprev hgood)
        rw [hst, htr] at this
        simpa [hu] using this
      · simp only [hu, if_false]
        cases hbt : env.buildTree l.Until (o.bodyState env i s l j st).store.withCurrent with
        | error e =>
          exact ⟨j, hprev, Or.inr ⟨hcont1, hc1,
            Or.inr (Or.inr ⟨hout, hu, Or.inl ⟨e, hbt, rfl⟩⟩)⟩⟩
        | ok t1 =>
          simp only
          cases hev : env.evalCond l.Until (o.bodyState env i s l j st).store.withCurrent with
          | error e =>
            exact ⟨j, hprev, Or.inr ⟨hcont1, hc1,
              Or.inr (Or.inr ⟨hout, hu, Or.inr (Or.inl ⟨t1, e, hbt, hev, rfl⟩)⟩)⟩⟩
          | ok tf =>
            cases tf with
            | true =>
              exact ⟨j, hprev, Or.inr ⟨hcont1, hc1,
                Or.inr (Or.inr ⟨hout, hu, Or.inr (Or.inr ⟨t1, hbt, hev, rfl⟩)⟩)⟩⟩
            | false =>
              simp only [Bool.false_eq_true, if_false]
              have hgood : IterGood o env i s l c st j :=
                ⟨hcont1, hc1, hout, fun _ => ⟨⟨t1, hbt⟩, hev⟩⟩
              have hst : o.iterState env i s l (j + 1) st =
                  (o.bodyState env i s l j st).log (Event.untilChecked
                    (o.bodyState env i s l j st).store.withCurrent false) := by
                simp [Operator.iterState, Operator.bodyState, hu]
              have htr : o.treeAfter env i s l (j + 1) st = t1 := by
                simp [Operator.treeAfter, hu, hbt]
              have := ih (j + 1) (by omega) (iterGood_extend hprev hgood)
              rw [hst, htr] at this
              exact this

theorem loop_exit (o : Operator) (env : Oracles) (i : Nat) (s : Step) (l : Loop)
    (c : Int) (st : OpState) :
    ∃ k, (∀ j1 < k, IterGood o env i s l c st j1) ∧
      IterExit o env i s l c (l.Until == "") st k
        (o.loopIter env i s l c (c.toNat + 1) 0 (l.Until == "") "" st) :=
  loopIter_cases o env i s l c (l.Until == "") st (c.toNat + 1) 0 (by omega)
    (fun j1 h => absurd h (Nat.not_lt_zero j1))

theorem runStep_loop (o : Operator) (env : Oracles) (i : Nat) (s : Step) (l : Loop)
    (st : OpState) (hl : s.loop = some l) (hg : GuardOpen o env s st) :
    o.runStep env i s st = o.runLoop env i s l (st.log (Event.setCurrentIDs (o.ids ++ [s.key]))) := by
  unfold Operator.runStep
  rcases hg with h | h
  · simp [h, hl]
  · by_cases hc : s.cond = ""
    · simp [hc, hl]
    · simp only [hc, if_false, hl]
      have : (st.log (Event.setCurrentIDs (o.ids ++ [s.key]))).store = st.store := rfl
      rw [this, h]

theorem loopBody_done (o : Operator) (env : Oracles) (i : Nat) (s : Step) (l : Loop)
    (c : Int) (st st1 : OpState) (t : String)
    (hc : env.evalCount l.Count st.store.toMap = .ok c)
    (hr : o.loopIter env i s l c (c.toNat + 1) 0 (l.Until == "") "" st =
      (st1, .done (l.Until == "") t)) :
    o.loopBody env i s l st =
      if l.Until = "" then (st1, .ok) else o.retryFailed env i l c t st1 := by
  unfold Operator.loopBody
  rw [hc]
  simp only
  rw [hr]
  by_cases hu : l.Until = ""
  · simp [hu]
  · have hb : (l.Until == "") = false := by simpa using hu
    simp [hu, hb]

theorem loopBody_count_zero (o : Operator) (env : Oracles) (i : Nat) (s : Step) (l : Loop)
    (st : OpState) (hc : env.evalCount l.Count st.store.toMap = .ok 0) :
    o.loopBody env i s l st =
      if l.Until = "" then (st, .ok) else o.retryFailed env i l 0 "" st := by
  obtain ⟨k, hgood, hexit⟩ := loop_exit o env i s l 0 st
  have hk : k = 0 := by
    rcases Nat.eq_zero_or_pos k with h | h
    · exact h
    · have := (hgood 0 h).2.1
      omega
  subst hk
  rcases hexit with ⟨hr, _⟩ | ⟨_, h, _⟩
  · exact loopBody_done o env i s l 0 st st "" hc hr
  · omega

theorem retryFailed_state (o : Operator) (env : Oracles) (i : Nat) (l : Loop) (c : Int)
    (t : String) (st : OpState) :
    (o.retryFailed env i l c t st).1 = st.setLoopIndex none := by
  unfold Operator.retryFailed
  cases l.interval with
  | some iv => rfl
  | none => cases l.minInterval <;> cases l.maxInterval <;> rfl

theorem retryFailed_not_ok (o : Operator) (env : Oracles) (i : Nat) (l : Loop) (c : Int)
    (t : String) (st : OpState) :
    (o.retryFailed env i l c t st).2 ≠ .ok := by
  unfold Operator.retryFailed
  cases l.interval with
  | some iv => simp
  | none => cases l.minInterval <;> cases l.maxInterval <;> simp

theorem newEvents_append (st st1 : OpState) (evs : List Event)
    (h : st1.trace = st.trace ++ evs) : newEvents st st1 = evs := by
  simp [newEvents, h]

/-- C4 (amended): a loop step whose count evaluates to 0 and whose guard is open
executes its body zero times and records no frame; it succeeds exactly when it
has no `until`, and with an `until` it ends as the exhausted retry loop does. -/
theorem runStep_count_zero (o : Operator) (env : Oracles) (i : Nat) (s : Step) (l : Loop)
    (st : OpState) (hl : s.loop = some l) (hg : GuardOpen o env s st)
    (hc : env.evalCount l.Count st.store.toMap = .ok 0) :
    (o.runStep env i s st).1 =
        (st.log (Event.setCurrentIDs (o.ids ++ [s.key]))).setLoopIndex none ∧
      bodies (newEvents st (o.runStep env i s st).1) = [] ∧
      recorded (newEvents st (o.runStep env i s st).1) = [] ∧
      (o.runStep env i s st).1.store.steps = st.store.steps ∧
      (o.runStep env i s st).1.store.stepMap = st.store.stepMap ∧
      ((o.runStep env i s st).2 = .ok ↔ l.Until = "") ∧
      (l.Until ≠ "" → (o.runStep env i s st).2 =
        (o.retryFailed env i l 0 "" (st.log (Event.setCurrentIDs (o.ids ++ [s.key])))).2) := by
  rw [runStep_loop o env i s l st hl hg]
  have hb := loopBody_count_zero o env i s l (st.log (Event.setCurrentIDs (o.ids ++ [s.key]))) hc
  have h1 : (o.runLoop env i s l (st.log (Event.setCurrentIDs (o.ids ++ [s.key])))).1 =
      (st.log (Event.setCurrentIDs (o.ids ++ [s.key]))).setLoopIndex none := by
    unfold Operator.runLoop
    rw [hb]
    by_cases hu : l.Until = ""
    · simp [hu]
    · simp only [hu, if_false, retryFailed_state]
      rfl
  have h2 : (o.runLoop env i s l (st.log (Event.setCurrentIDs (o.ids ++ [s.key])))).2 =
      if l.Until = "" then .ok
      else (o.retryFailed env i l 0 "" (st.log (Event.setCurrentIDs (o.ids ++ [s.key])))).2 := by
    unfold Operator.runLoop
    rw [hb]
    by_cases hu : l.Until = "" <;> simp [hu]
  have hn : newEvents st ((st.log (Event.setCurrentIDs (o.ids ++ [s.key]))).setLoopIndex none) =
      [Event.setCurrentIDs (o.ids ++ [s.key])] :=
    newEvents_append _ _ _ rfl
  refine ⟨h1, ?_, ?_, ?_, ?_, ?_, ?_⟩
  · rw [h1, hn]; rfl
  · rw [h1, hn]; rfl
  · rw [h1]; rfl
  · rw [h1]; rfl
  · rw [h2]
    by_cases hu : l.Until = ""
    · simp [hu]
    · simp only [hu, if_false, iff_false]
      exact retryFailed_not_ok o env i l 0 "" _
  · intro hu
    rw [h2]
    simp [hu]

/-- Witness of C4 (amended): the looped http step with count "0" and no `until`. -/
theorem runStep_count_zero_witness :
    ({ exHttp with loop := some (exLoop "0" "") } : Step).loop = some (exLoop "0" "") ∧
    (exOp []).runStep exEnv 0 { exHttp with loop := some (exLoop "0" "") }
        (OpState.init (exOp [])) =
      ({ store := { steps := [], stepMap := [], bindVars := [], loopIndex := none,
                    useMap := false },
         skipped := false, trace := [Event.setCurrentIDs ["op", "0"]] }, .ok) ∧
    ((exOp []).runStep exEnv 0 { exHttp with loop := some (exLoop "0" "") }
        (OpState.init (exOp []))).2 = .ok :=
  ⟨rfl, rfl,
    (runStep_count_zero (exOp []) exEnv 0 { exHttp with loop := some (exLoop "0" "") }
      (exLoop "0" "") (OpState.init (exOp [])) rfl (Or.inl rfl) rfl).2.2.2.2.2.1.mpr rfl⟩

/-- C4 as stated fails: with count "0" and `until: "false"` the body does not
run and nothing is recorded, but the step returns the retry-loop error. -/
theorem count_zero_until_fails :
    (exOp [exZeroUntil]).runStep exEnv 0 exZeroUntil (OpState.init (exOp [exZeroUntil])) =
      ({ store := { steps := [], stepMap := [], bindVars := [], loopIndex := none,
                    useMap := false },
         skipped := false, trace := [Event.setCurrentIDs ["op", "0"]] },
       .error "retry loop failed on \x27ping\x27.steps[0].loop (count: 0, interval: 1000000000ns): (false) is not true\n") := by
  rfl

/-! ## The step body: order of the calls, post-hooks without dispatch -/

theorem stepFn_newEvents (o : Operator) (env : Oracles) (i : Nat) (s : Step) (st : OpState)
    (evs : List Event)
    (h : BodyEnd o s (st.log (Event.stepFn i st.store.loopIndex))
      (o.stepFn env i s st).1 (o.stepFn env i s st).2 evs) :
    (o.stepFn env i s st).1.trace = st.trace ++ Event.stepFn i st.store.loopIndex :: evs ∧
      newEvents st (o.stepFn env i s st).1 = Event.stepFn i st.store.loopIndex :: evs := by
  have h1 : (o.stepFn env i s st).1.trace =
      st.trace ++ Event.stepFn i st.store.loopIndex :: evs := by
    rw [h.1]; simp [OpState.log]
  exact ⟨h1, newEvents_append _ _ _ h1⟩

theorem callRunner_calls (o : Operator) (kind : Kind) (i : Nat) (failed : String)
    (r : RunOut) (st : OpState) :
    ∃ evs, (o.callRunner kind i failed r st).1.trace = st.trace ++ evs ∧
      calls evs = [(0, r.err.isSome)] := by
  obtain ⟨evs, ht, hc, -⟩ := recordAll_facts o r.frames (st.log (Event.dispatch kind i r.err))
  have hst : (o.callRunner kind i failed r st).1 =
      (o.recordAll r.frames (st.log (Event.dispatch kind i r.err))).1 := by
    unfold Operator.callRunner
    cases o.recordAll r.frames (st.log (Event.dispatch kind i r.err)) with
    | mk st1 out =>
      cases out with
      | ok => cases r.err <;> rfl
      | error m => rfl
      | panic m => rfl
  refine ⟨Event.dispatch kind i r.err :: evs, ?_, ?_⟩
  · rw [hst, ht]; simp [OpState.log]
  · simp only [calls, List.filterMap_cons, Event.call] at hc ⊢
    rw [hc]

theorem expandParseRun_prepared (o : Operator) (env : Oracles) (kind : Kind) (i : Nat)
    (failed : String) (parse : Payload → Except String Request) (wrapParse : Bool)
    (run : Request → Store → RunOut) (p : Payload) (st : OpState)
    (h : env.expands parse p st.store = true) :
    ∃ evs b, (o.expandParseRun env kind i failed parse wrapParse run p st).1.trace =
      st.trace ++ evs ∧ calls evs = [(0, b)] := by
  unfold Oracles.expands at h
  unfold Operator.expandParseRun
  cases hx : env.evalExpand p st.store.toMap with
  | error e => rw [hx] at h; simp at h
  | ok v =>
    cases v with
    | other x => rw [hx] at h; simp at h
    | map m =>
      rw [hx] at h
      simp only at h ⊢
      cases hp : parse m with
      | error e => rw [hp] at h; simp [Except.toBool] at h
      | ok req =>
        obtain ⟨evs, h1, h2⟩ := callRunner_calls o kind i failed (run req st.store) st
        exact ⟨evs, _, h1, h2⟩

theorem caseBoth_rel {α β γ δ : Type} (R : γ → δ → Prop) (r : Option α) (p : Option β)
    (hit1 : α → β → γ) (hit2 : α → β → δ) (rest1 : γ) (rest2 : δ)
    (hhit : ∀ x y, R (hit1 x y) (hit2 x y)) (hrest : R rest1 rest2) :
    R (caseBoth r p hit1 rest1) (caseBoth r p hit2 rest2) := by
  cases r <;> cases p <;> simp only [caseBoth] <;> first | exact hrest | exact hhit _ _

theorem dispatch_prepared (o : Operator) (env : Oracles) (i : Nat) (s : Step) (st : OpState)
    (h : s.prepared env st.store = true) :
    (∃ evs b, (o.dispatch env i s st).1.trace = st.trace ++ evs ∧ calls evs = [(0, b)]) ∨
      o.dispatch env i s st = (st, .next false) := by
  revert h
  unfold Operator.dispatch Step.prepared
  refine caseBoth_rel
    (fun (x : OpState × Flow) (y : Bool) => y = true →
      (∃ evs b, x.1.trace = st.trace ++ evs ∧ calls evs = [(0, b)]) ∨ x = (st, .next false))
    _ _ _ _ _ _ ?_ ?_
  · intro r p h
    exact Or.inl (expandParseRun_prepared o env _ i _ _ _ r p st h)
  refine caseBoth_rel
    (fun (x : OpState × Flow) (y : Bool) => y = true →
      (∃ evs b, x.1.trace = st.trace ++ evs ∧ calls evs = [(0, b)]) ∨ x = (st, .next false))
    _ _ _ _ _ _ ?_ ?_
  · intro r p h
    exact Or.inl (expandParseRun_prepared o env _ i _ _ _ r p st h)
  refine caseBoth_rel
    (fun (x : OpState × Flow) (y : Bool) => y = true →
      (∃ evs b, x.1.trace = st.trace ++ evs ∧ calls evs = [(0, b)]) ∨ x = (st, .next false))
    _ _ _ _ _ _ ?_ ?_
  · intro r p h
    cases hp : env.parseGrpcRequest p st.store.toMap with
    | error e => rw [hp] at h; simp [Except.toBool] at h
    | ok req =>
      simp only
      obtain ⟨evs, h1, h2⟩ := callRunner_calls o .grpc i "gRPC request failed" (r req st.store) st
      exact Or.inl ⟨evs, _, h1, h2⟩
  refine caseBoth_rel
    (fun (x : OpState × Flow) (y : Bool) => y = true →
      (∃ evs b, x.1.trace = st.trace ++ evs ∧ calls evs = [(0, b)]) ∨ x = (st, .next false))
    _ _ _ _ _ _ ?_ ?_
  · intro r p h
    exact Or.inl (expandParseRun_prepared o env _ i _ _ _ r p st h)
  refine caseBoth_rel
    (fun (x : OpState × Flow) (y : Bool) => y = true →
      (∃ evs b, x.1.trace = st.trace ++ evs ∧ calls evs = [(0, b)]) ∨ x = (st, .next false))
    _ _ _ _ _ _ ?_ ?_
  · intro r c _
    obtain ⟨evs, h1, h2⟩ := callRunner_calls o .incl i "include failed" (r c st.store) st
    exact Or.inl ⟨evs, _, h1, h2⟩
  · intro _
    exact Or.inr rfl

theorem map_fst_plan (pl : List Nat) :
    (pl.map (fun k => ((k, false) : Nat × Bool))).map Prod.fst = pl := by
  induction pl with
  | nil => rfl
  | cons a t ih => simp only [List.map_cons, ih]

theorem plan_all_false (pl : List Nat) :
    ∀ c ∈ pl.map (fun k => ((k, false) : Nat × Bool)), c.2 = false := by
  intro c hc
  obtain ⟨k, _, rfl⟩ := List.mem_map.mp hc
  rfl

/-- The body leaves at the dispatch switch. -/
theorem plan_dispatch_ret (o : Operator) (env : Oracles) (i : Nat) (s : Step) (st : OpState)
    (out : Outcome) (h : (o.dispatch env i s st).2 = .ret out) :
    ∃ evs, (o.dispatch env i s st).1.trace = st.trace ++ evs ∧
      PlanEnd o env s st.store out (calls evs) := by
  obtain ⟨evs, ⟨ht, -⟩, hm⟩ := dispatch_facts o env i s st
  rw [h] at hm
  refine ⟨evs, ht, ?_⟩
  have hpl : ∀ (nd : s.noDispatch = false), o.planned s = [0] ++
      ((if s.dumpOn then [1] else []) ++
        (if s.bindOn then [2] else []) ++ (if s.testOn && !o.skipTest then [3] else [])) := by
    intro nd
    simp [Operator.planned, nd]
  cases out with
  | ok => exact absurd hm id
  | error m =>
    obtain ⟨nd, hc⟩ := hm
    have hne : calls evs = [(0, true)] ∨ (calls evs = [] ∧ s.prepared env st.store = false) := by
      rcases hc with hc | hc
      · right
        refine ⟨hc, ?_⟩
        cases hp : s.prepared env st.store with
        | false => rfl
        | true =>
          rcases dispatch_prepared o env i s st hp with ⟨e2, b, ht2, hc2⟩ | hno
          · rw [ht] at ht2
            have := List.append_cancel_left ht2
            rw [this, hc2] at hc
            simp at hc
          · rw [hno] at h
            simp at h
      · exact Or.inl hc
    rcases hne with hc | ⟨hc, hp⟩
    · rw [hc]
      refine ⟨?_, by simp, ?_, ?_⟩
      · rw [hpl nd]; exact List.prefix_append _ _
      · intro c hcm _
        simp only [List.mem_singleton] at hcm
        subst hcm
        simp
      · intro _ hall
        have := hall (0, true) (by simp)
        simp at this
    · rw [hc]
      refine ⟨by simp, by simp, by simp, ?_⟩
      intro h1
      rw [hp] at h1
      simp at h1
  | panic m =>
    obtain ⟨nd, b, hc⟩ := hm
    rw [hc]
    refine ⟨?_, by simp, ?_, ?_⟩
    · rw [hpl nd]; exact List.prefix_append _ _
    · intro c hcm _
      simp only [List.mem_singleton] at hcm
      subst hcm
      simp
    · intro _ _ hnp
      exact absurd rfl (hnp m)

/-- The body leaves at a hook of rank `k`, after the calls of the parts `pl`
before it. -/
theorem plan_hook_ret {o : Operator} (env : Oracles) (s : Step) (store : Store) {k : Nat}
    {act skip runned : Bool} {st : OpState} {r : OpState × Flow} {evs : List Event}
    {pl rest : List Nat} {out : Outcome}
    (hf : HookFacts o k act skip runned st r evs) (hr : r.2 = .ret out)
    (hpl : o.planned s = pl ++ (if act && !skip then [k] else []) ++ rest)
    (hskip : skip = true → rest = []) (hact : act = true → s.hasHook = true) :
    PlanEnd o env s store out (pl.map (fun k => (k, false)) ++ calls evs) := by
  obtain ⟨-, hm⟩ := hf
  rw [hr] at hm
  cases out with
  | ok =>
    obtain ⟨ha, hs, hc, -⟩ := hm
    rw [hc, List.append_nil]
    have hp2 : o.planned s = pl := by rw [hpl, hskip hs, ha, hs]; simp
    refine ⟨by rw [map_fst_plan, hp2], fun _ => by rw [hp2], ?_, ?_⟩
    · intro c hcm hc2
      rw [plan_all_false pl c hcm] at hc2
      simp at hc2
    · intro _ _ _
      exact ⟨by rw [map_fst_plan, hp2], by simp [hact ha]⟩
  | error m =>
    obtain ⟨ha, hs, hc, -⟩ := hm
    rw [hc]
    refine ⟨?_, by simp, ?_, ?_⟩
    · rw [hpl, ha, hs]
      simp only [List.map_append, map_fst_plan, List.map_cons, List.map_nil, Bool.not_false,
        Bool.and_self, if_true]
      exact List.prefix_append _ _
    · intro c hcm hc2
      rcases List.mem_append.mp hcm with h | h
      · rw [plan_all_false pl c h] at hc2
        simp at hc2
      · simp only [List.mem_singleton] at h
        subst h
        simp
    · intro _ hall
      have := hall (k, true) (by simp)
      simp at this
  | panic m =>
    obtain ⟨ha, -, -, hc⟩ := hm
    rw [hc]
    refine ⟨?_, by simp, ?_, ?_⟩
    · rw [hpl, ha]
      cases skip with
      | true =>
        simp only [if_true, List.append_nil, map_fst_plan, Bool.not_true, Bool.and_false,
          Bool.false_eq_true, if_false, List.append_assoc]
        exact List.prefix_append _ _
      | false =>
        simp only [Bool.false_eq_true, if_false, List.map_append, map_fst_plan, List.map_cons,
          List.map_nil, Bool.not_false, Bool.and_self, if_true]
        exact List.prefix_append _ _
    · intro c hcm hc2
      rcases List.mem_append.mp hcm with h | h
      · rw [plan_all_false pl c h] at hc2
        simp at hc2
      · cases skip with
        | true => simp at h
        | false =>
          simp only [Bool.false_eq_true, if_false, List.mem_singleton] at h
          subst h
          simp at hc2
    · intro _ _ hnp
      exact absurd rfl (hnp m)

/-- The body goes on after a hook of rank `k`. -/
theorem plan_hook_next {o : Operator} {k : Nat} {act skip runned b : Bool} {st : OpState}
    {r : OpState × Flow} {evs : List Event} (pl : List Nat)
    (hf : HookFacts o k act skip runned st r evs) (hr : r.2 = .next b) :
    b = (runned || act) ∧
      pl.map (fun k => ((k, false) : Nat × Bool)) ++ calls evs =
        (pl ++ (if act && !skip then [k] else [])).map (fun k => (k, false)) := by
  obtain ⟨-, hm⟩ := hf
  rw [hr] at hm
  obtain ⟨hs, hb, hc, -⟩ := hm
  refine ⟨hb, ?_⟩
  rw [hc]
  cases act with
  | false => simp
  | true => simp [hs rfl]

/-- One execution of the step body: what it logs after its own event, and the
calls among it. -/
theorem stepFn_plan (o : Operator) (env : Oracles) (i : Nat) (s : Step) (st : OpState) :
    ∃ evs, (o.stepFn env i s st).1.trace =
        st.trace ++ Event.stepFn i st.store.loopIndex :: evs ∧
      PlanEnd o env s st.store (o.stepFn env i s st).2 (calls evs) := by
  have hlog : ∀ (x : OpState) (e : List Event),
      x.trace = (st.log (Event.stepFn i st.store.loopIndex)).trace ++ e →
      x.trace = st.trace ++ Event.stepFn i st.store.loopIndex :: e := by
    intro x e h
    rw [h]; simp [OpState.log]
  unfold Operator.stepFn
  cases hr0 : o.dispatch env i s (st.log (Event.stepFn i st.store.loopIndex)) with
  | mk st1 f0 =>
  cases f0 with
  | ret out =>
    obtain ⟨e0, ht, hp⟩ :=
      plan_dispatch_ret o env i s (st.log (Event.stepFn i st.store.loopIndex)) out
        (by rw [hr0])
    rw [hr0] at ht
    exact ⟨e0, hlog _ _ ht, hp⟩
  | next r1 =>
  obtain ⟨e0, ⟨ht0, -⟩, hd⟩ :=
    dispatch_facts o env i s (st.log (Event.stepFn i st.store.loopIndex))
  rw [hr0] at hd ht0
  simp only at hd ht0 ⊢
  have hc0 : calls e0 = (if s.noDispatch then [] else [0]).map (fun k => (k, false)) ∧
      r1 = !s.noDispatch := by
    cases r1 with
    | false =>
      obtain ⟨h1, h2, -⟩ := hd.1 rfl
      rw [h1, h2]; simp [calls]
    | true =>
      obtain ⟨h1, h2, -⟩ := hd.2 rfl
      rw [h1, h2]; simp
  obtain ⟨hc0, hr1v⟩ := hc0
  have hplan : o.planned s = (if s.noDispatch then [] else [0]) ++
      (if s.dumpOn && !false then [1] else []) ++
      ((if s.bindOn then [2] else []) ++ (if s.testOn && !o.skipTest then [3] else [])) := by
    simp [Operator.planned]
  obtain ⟨e1, hu⟩ := dumpHook_facts o i s r1 st1
  have ht1 := hu.1.1
  cases hr1 : o.dumpHook i s r1 st1 with
  | mk st2 f1 =>
  rw [hr1] at hu ht1
  simp only at ht1
  cases f1 with
  | ret out =>
    simp only
    refine ⟨e0 ++ e1, hlog _ _ (by rw [ht1, ht0, List.append_assoc]), ?_⟩
    have := plan_hook_ret env s st.store hu rfl hplan
      (by simp) (fun h => by simp [Step.hasHook, h])
    rw [← hc0] at this
    simpa [calls] using this
  | next r2 =>
  simp only
  obtain ⟨hr2v, hc1⟩ :=
    plan_hook_next (if s.noDispatch then [] else [0]) hu rfl
  rw [← hc0] at hc1
  have hplan2 : o.planned s = ((if s.noDispatch then [] else [0]) ++
      (if s.dumpOn && !false then [1] else [])) ++
      (if s.bindOn && !false then [2] else []) ++
      (if s.testOn && !o.skipTest then [3] else []) := by
    simp [Operator.planned]
  obtain ⟨e2, hb⟩ := bindHook_facts o i s r2 st2
  have ht2 := hb.1.1
  cases hr2 : o.bindHook i s r2 st2 with
  | mk st3 f2 =>
  rw [hr2] at hb ht2
  simp only at ht2
  cases f2 with
  | ret out =>
    simp only
    refine ⟨e0 ++ e1 ++ e2, hlog _ _ (by rw [ht2, ht1, ht0]; simp), ?_⟩
    have := plan_hook_ret env s st.store hb rfl hplan2
      (by simp) (fun h => by simp [Step.hasHook, h])
    rw [← hc1] at this
    simpa [calls] using this
  | next r3 =>
  simp only
  obtain ⟨hr3v, hc2⟩ :=
    plan_hook_next ((if s.noDispatch then [] else [0]) ++
      (if s.dumpOn && !false then [1] else [])) hb rfl
  rw [← hc1] at hc2
  have hplan3 : o.planned s = (((if s.noDispatch then [] else [0]) ++
      (if s.dumpOn && !false then [1] else [])) ++
      (if s.bindOn && !false then [2] else [])) ++
      (if s.testOn && !o.skipTest then [3] else []) ++ [] := by
    simp [Operator.planned]
  obtain ⟨e3, hte⟩ := testHook_facts o i s r3 st3
  have ht3 := hte.1.1
  cases hr3 : o.testHook i s r3 st3 with
  | mk st4 f3 =>
  rw [hr3] at hte ht3
  simp only at ht3
  cases f3 with
  | ret out =>
    simp only
    refine ⟨e0 ++ e1 ++ e2 ++ e3, hlog _ _ (by rw [ht3, ht2, ht1, ht0]; simp), ?_⟩
    have := plan_hook_ret env s st.store hte rfl hplan3
      (fun _ => rfl) (fun h => by simp [Step.hasHook, h])
    rw [← hc2] at this
    simpa [calls] using this
  | next r4 =>
  simp only
  obtain ⟨hr4v, hc3⟩ :=
    plan_hook_next (((if s.noDispatch then [] else [0]) ++
      (if s.dumpOn && !false then [1] else [])) ++
      (if s.bindOn && !false then [2] else [])) hte rfl
  rw [← hc2] at hc3
  have hfull : calls (e0 ++ e1 ++ e2 ++ e3) = (o.planned s).map (fun k => (k, false)) := by
    rw [hplan3, List.append_nil, ← hc3]
    simp [calls]
  have hskipoff : s.testOn = true → o.skipTest = false := by
    have := hte.2
    simp only at this
    exact this.1
  have hr4 : r4 = (!s.noDispatch || s.hasHook) := by
    rw [hr4v, hr3v, hr2v, hr1v]
    simp [Step.hasHook, Bool.or_assoc]
  refine ⟨e0 ++ e1 ++ e2 ++ e3, ?_, ?_⟩
  · have : (o.finish i r4 st4).1 = st4 := by unfold Operator.finish; split <;> rfl
    rw [this]
    exact hlog _ _ (by rw [ht3, ht2, ht1, ht0]; simp)
  · rw [hfull]
    refine ⟨by rw [map_fst_plan], fun _ => rfl, ?_, ?_⟩
    · intro c hcm hc2
      rw [plan_all_false _ c hcm] at hc2
      simp at hc2
    · intro _ _ _
      refine ⟨map_fst_plan _, ?_⟩
      unfold Operator.finish
      rw [hr4]
      cases hnd : s.noDispatch <;> cases hh : s.hasHook <;> simp

/-- C7: one execution of the step body runs exactly one `stepFn` and makes its
runner and hook calls in the order dispatch (rank 0), dump (1), bind (2),
test (3), each at most once and none after a call that returned an error: of
any two calls the earlier has the smaller rank and returned no error. The
calls are a beginning of the parts present on the step (`planned`: the
dispatch runner when a case of the switch applies, the hooks that are set,
test only without `skipTest`). When the body returns nil they are all of these
parts, each called once and without error. A call that returned an error is
the last call, and the body does not return nil. When the dispatch is
prepared (its payload expands and parses), no call returned an error and
`record` did not panic, every part present was called, and the body returns
nil unless the step has neither dispatch nor hook. -/
theorem stepFn_call_order (o : Operator) (env : Oracles) (i : Nat) (s : Step) (st : OpState) :
    st.trace <+: (o.stepFn env i s st).1.trace ∧
      bodies (newEvents st (o.stepFn env i s st).1) = [st.store.loopIndex] ∧
      (calls (newEvents st (o.stepFn env i s st).1)).Pairwise callBefore ∧
      (calls (newEvents st (o.stepFn env i s st).1)).map Prod.fst <+: o.planned s ∧
      ((o.stepFn env i s st).2 = .ok →
        calls (newEvents st (o.stepFn env i s st).1) =
          (o.planned s).map (fun k => (k, false))) ∧
      (∀ c ∈ calls (newEvents st (o.stepFn env i s st).1), c.2 = true →
        (calls (newEvents st (o.stepFn env i s st).1)).getLast? = some c ∧
          (o.stepFn env i s st).2 ≠ .ok) ∧
      (s.prepared env st.store = true →
        (∀ c ∈ calls (newEvents st (o.stepFn env i s st).1), c.2 = false) →
        (∀ m, (o.stepFn env i s st).2 ≠ .panic m) →
        (calls (newEvents st (o.stepFn env i s st).1)).map Prod.fst = o.planned s ∧
          ((o.stepFn env i s st).2 = .ok ↔ (s.noDispatch = false ∨ s.hasHook = true))) := by
  obtain ⟨evs, hend⟩ := stepFn_end o env i s st
  obtain ⟨h1, h2⟩ := stepFn_newEvents o env i s st evs hend
  obtain ⟨evs2, ht2, hplan⟩ := stepFn_plan o env i s st
  have hev : evs2 = evs := by
    rw [h1] at ht2
    exact (List.cons.inj (List.append_cancel_left ht2)).2.symm
  rw [hev] at hplan
  have hcalls : calls (newEvents st (o.stepFn env i s st).1) = calls evs := by
    rw [h2]; simp [calls, Event.call]
  refine ⟨⟨_, h1.symm⟩, ?_, ?_, ?_⟩
  · rw [h2]
    have := hend.2.1
    simp only [bodies, List.filterMap_cons, Event.body] at this ⊢
    rw [this]
  · rw [hcalls]
    exact hend.2.2.2.1
  · rw [hcalls]
    exact hplan

/-- An instance of C7: the http step with dump, bind and test returns nil, so
its calls are the four parts present, in order and without error. -/
theorem stepFn_call_order_witness :
    ((exOp [exFull]).stepFn exEnv 0 exFull (OpState.init (exOp [exFull]))).2 = .ok ∧
    (exOp [exFull]).planned exFull = [0, 1, 2, 3] ∧
    calls (newEvents (OpState.init (exOp [exFull]))
      ((exOp [exFull]).stepFn exEnv 0 exFull (OpState.init (exOp [exFull]))).1) =
      ((exOp [exFull]).planned exFull).map (fun k => (k, false)) :=
  ⟨rfl, rfl,
    (stepFn_call_order (exOp [exFull]) exEnv 0 exFull (OpState.init (exOp [exFull]))).2.2.2.2.1
      rfl⟩

/-- The calls of the http step with all three hooks, in the order made. -/
theorem stepFn_full_calls :
    calls (newEvents (OpState.init (exOp [exFull]))
      ((exOp [exFull]).stepFn exEnv 0 exFull (OpState.init (exOp [exFull]))).1) =
      [(0, false), (1, false), (2, false), (3, false)] := by
  rfl

/-- The parts present on the http step with all three hooks, with and without
`skipTest`, and the calls made when its bind hook returns an error: dispatch
and dump without error, then bind, and no test. -/
theorem stepFn_plan_example :
    (exOp [exFull]).planned exFull = [0, 1, 2, 3] ∧
    ({ exOp [exFull] with skipTest := true } : Operator).planned exFull = [0, 1, 2] ∧
    (exOp [exHooks]).planned exHooks = [1, 2, 3] ∧
    exFull.prepared exEnv (OpState.init (exOp [exFull])).store = true ∧
    calls (newEvents (OpState.init (exOp [exFull]))
      ((exOp [exFull]).stepFn exEnv 0
        { exFull with bindRunner := some (fun _ st => (st.bindVars, some "boom")) }
        (OpState.init (exOp [exFull]))).1) = [(0, false), (1, false), (2, true)] ∧
    ((exOp [exFull]).stepFn exEnv 0
        { exFull with bindRunner := some (fun _ st => (st.bindVars, some "boom")) }
        (OpState.init (exOp [exFull]))).2 =
      .error "bind failed on \x27ping\x27.steps[0]: boom" :=
  ⟨rfl, rfl, rfl, rfl, rfl, rfl⟩

/-- C8: the body of a step without dispatch and with at least one post-hook,
none of whose executed hooks returns an error, succeeds and calls `record`
exactly once, with `nil`; the store is the one that call leaves (up to the
`bindVars` a bind hook assigns), and under `skipTest` the test runner is not
called. -/
theorem stepFn_hooks_only (o : Operator) (env : Oracles) (i : Nat) (s : Step) (st : OpState)
    (hnd : s.noDispatch = true) (hh : s.hasHook = true)
    (hrec : ∃ s1, o.record st.store none = .ok s1)
    (hall : ∀ c ∈ calls (newEvents st (o.stepFn env i s st).1), c.2 = false) :
    (o.stepFn env i s st).2 = .ok ∧
      recorded (newEvents st (o.stepFn env i s st).1) = [none] ∧
      (∃ s1, o.record st.store none = .ok s1 ∧
        (o.stepFn env i s st).1.store =
          { s1 with bindVars := (o.stepFn env i s st).1.store.bindVars }) ∧
      (o.skipTest = true → ∀ c ∈ calls (newEvents st (o.stepFn env i s st).1), c.1 ≠ 3) := by
  obtain ⟨evs, hend⟩ := stepFn_end o env i s st
  obtain ⟨h1, h2⟩ := stepFn_newEvents o env i s st evs hend
  obtain ⟨_, _, _, _, hre, hok, hsucc, hskip⟩ := hend
  rw [h2] at hall ⊢
  have hcalls : calls (Event.stepFn i st.store.loopIndex :: evs) = calls evs := by
    simp [calls, Event.call]
  have hrecd : recorded (Event.stepFn i st.store.loopIndex :: evs) = recorded evs := by
    simp [recorded, Event.frame]
  rw [hcalls] at hall ⊢
  rw [hrecd]
  have hout : (o.stepFn env i s st).2 = .ok := hsucc hnd hh hall hrec
  have hr1 : recorded evs = [none] := (hok hout).1 hnd
  refine ⟨hout, hr1, ?_, hskip⟩
  obtain ⟨_, _, s1, hs1, hst⟩ := hre (by rw [hout]; simp)
  rw [hr1] at hs1
  simp only [Operator.replay] at hs1
  have hst0 : (st.log (Event.stepFn i st.store.loopIndex)).store = st.store := rfl
  rw [hst0] at hs1
  cases hr : o.record st.store none with
  | error m => rw [hr] at hs1; simp at hs1
  | ok s2 =>
    rw [hr] at hs1
    simp only [Except.ok.injEq] at hs1
    exact ⟨s2, rfl, by rw [hs1]; exact hst⟩

/-- Witness of C8: the step with dump, bind and test and no dispatch, run with
`skipTest` set. -/
theorem stepFn_hooks_only_witness :
    exHooks.noDispatch = true ∧ exHooks.hasHook = true ∧
    ({ exOp [exHooks] with skipTest := true } : Operator).stepFn exEnv 0 exHooks
        (OpState.init (exOp [exHooks])) =
      ({ store := { steps := [none], stepMap := [], bindVars := [("a", "1")],
                    loopIndex := none, useMap := false },
         skipped := false,
         trace := [Event.stepFn 0 none, Event.dump 0 none, Event.record none,
                   Event.bind 0 none] }, .ok) ∧
    recorded (newEvents (OpState.init (exOp [exHooks]))
      (({ exOp [exHooks] with skipTest := true } : Operator).stepFn exEnv 0 exHooks
        (OpState.init (exOp [exHooks]))).1) = [none] :=
  ⟨rfl, rfl, rfl,
    (stepFn_hooks_only { exOp [exHooks] with skipTest := true } exEnv 0 exHooks
      (OpState.init (exOp [exHooks])) rfl rfl ⟨_, rfl⟩ (by decide)).2.1⟩

/-! ## The guards -/

/-- C6: a step whose `if` evaluates to false makes one `record(nil)` call and
no other call (no body execution, no runner, no hook, no `until`), whether or
not it declares a loop; it returns `nil`, so the `for` statement goes on with
the next step; outside a loop in list mode the frame is appended to `steps`. -/
theorem runStep_if_false (o : Operator) (env : Oracles) (i : Nat) (s : Step) (st : OpState)
    (s1 : Store) (hc : s.cond ≠ "")
    (hf : env.evalCond s.cond
      { store := st.store, included := some o.included, current := none } = .ok false)
    (hrec : o.record st.store none = .ok s1) :
    o.runStep env i s st =
        ({ st with store := s1,
                   trace := st.trace ++
                     [Event.setCurrentIDs (o.ids ++ [s.key]), Event.record none] }, .ok) ∧
      (∀ ss, o.runSteps env i (s :: ss) st =
        o.runSteps env (i + 1) ss
          { st with store := s1,
                    trace := st.trace ++
                      [Event.setCurrentIDs (o.ids ++ [s.key]), Event.record none] }) ∧
      (o.useMap = false → st.store.loopIndex = none →
        s1 = { st.store with steps := st.store.steps ++ [none] }) := by
  have h1 : o.runStep env i s st =
      ({ st with store := s1,
                 trace := st.trace ++
                   [Event.setCurrentIDs (o.ids ++ [s.key]), Event.record none] }, .ok) := by
    unfold Operator.runStep
    have hst : (st.log (Event.setCurrentIDs (o.ids ++ [s.key]))).store = st.store := rfl
    simp only [hc, if_false, hst, hf]
    unfold Operator.recordSt
    rw [hst, hrec]
    simp [OpState.log]
  refine ⟨h1, ?_, ?_⟩
  · intro ss
    simp only [Operator.runSteps]
    rw [h1]
  · intro hm hl
    have hla : st.store.loopAgain = false := by simp [Store.loopAgain, hl]
    have := record_first o st.store none (fun h => by rw [hm] at h; simp at h) hla
    rw [hrec] at this
    simp only [Except.ok.injEq] at this
    rw [this]
    simp [Operator.push, hm]

/-- Witness of C6: the http step with hooks and a loop behind `if: "false"`. -/
theorem runStep_if_false_witness :
    exGuarded.cond ≠ "" ∧
    (exOp [exGuarded]).runStep exEnv 0 exGuarded (OpState.init (exOp [exGuarded])) =
      ({ store := { steps := [none], stepMap := [], bindVars := [], loopIndex := none,
                    useMap := false },
         skipped := false,
         trace := [Event.setCurrentIDs ["op", "0"], Event.record none] }, .ok) :=
  ⟨by decide,
    (runStep_if_false (exOp [exGuarded]) exEnv 0 exGuarded (OpState.init (exOp [exGuarded]))
      { steps := [none], stepMap := [], bindVars := [], loopIndex := none, useMap := false }
      (by decide) rfl rfl).1⟩

/-- C9: when the top-level `if` evaluates to false, `Run` returns `nil` with
`skipped` set, leaves the store as it was (no frame from an empty store), and
makes exactly the calls start, skipped, `Close`, end: no beforeFunc, step,
runner, hook or afterFunc. -/
theorem Run_skipped (o : Operator) (env : Oracles) (st : OpState) (hc : o.cond ≠ "")
    (hf : env.evalCond o.cond
      { store := st.store, included := some o.included, current := none } = .ok false) :
    o.Run env st =
        ({ store := st.store, skipped := true,
           trace := st.trace ++ [Event.captureStart, Event.captureSkipped, Event.close,
             Event.captureEnd] }, .ok) ∧
      Operator.Skipped (o.Run env st).1 = true ∧
      (st.store.frameCount = 0 → (o.Run env st).1.store.frameCount = 0) := by
  have h1 : o.Run env st =
      ({ store := st.store, skipped := true,
         trace := st.trace ++ [Event.captureStart, Event.captureSkipped, Event.close,
           Event.captureEnd] }, .ok) := by
    unfold Operator.Run Operator.run Operator.runInternal
    have hst : (st.log Event.captureStart).store = st.store := rfl
    simp only [hc, if_false, hst, hf]
    simp [OpState.log]
  refine ⟨h1, ?_, ?_⟩
  · rw [h1]; rfl
  · intro h0
    rw [h1]; exact h0

/-- Witness of C9: a runbook with `if: "false"`, a beforeFunc, a step and a
failing afterFunc. -/
theorem Run_skipped_witness :
    exSkippedOp.cond ≠ "" ∧
    exSkippedOp.Run exEnv (OpState.init exSkippedOp) =
      ({ store := { steps := [], stepMap := [], bindVars := [], loopIndex := none,
                    useMap := false },
         skipped := true,
         trace := [Event.captureStart, Event.captureSkipped, Event.close,
           Event.captureEnd] }, .ok) :=
  ⟨by decide, (Run_skipped exSkippedOp exEnv (OpState.init exSkippedOp) (by decide) rfl).1⟩

/-! ## The log and the store along the iterations of a loop -/

theorem bodyState_trace (o : Operator) (env : Oracles) (i : Nat) (s : Step) (l : Loop)
    (k : Nat) (st : OpState) :
    ∃ evs, (o.bodyState env i s l k st).trace =
        (o.iterState env i s l k st).trace ++ Event.stepFn i (some (k : Int)) :: evs ∧
      bodies evs = [] ∧ checks evs = [] ∧
      BodyEnd o s (((o.iterState env i s l k st).setLoopIndex (some (k : Int))).log
          (Event.stepFn i (some (k : Int))))
        (o.bodyState env i s l k st) (o.bodyOut env i s l k st) evs := by
  obtain ⟨evs, hend⟩ :=
    stepFn_end o env i s ((o.iterState env i s l k st).setLoopIndex (some (k : Int)))
  obtain ⟨h1, _⟩ := stepFn_newEvents o env i s _ evs hend
  exact ⟨evs, h1, hend.2.1, hend.2.2.1, hend⟩

/-- The snapshots `until` is evaluated on in the first `k` iterations, each
with the result false. -/
theorem iterState_trace (o : Operator) (env : Oracles) (i : Nat) (s : Step) (l : Loop)
    (st : OpState) :
    ∀ k, ∃ evs, (o.iterState env i s l k st).trace = st.trace ++ evs ∧
      bodies evs = (List.range k).map (fun j => some (j : Int)) ∧
      checks evs = (if l.Until = "" then []
        else (List.range k).map
          (fun j => ((o.bodyState env i s l j st).store.withCurrent, false))) := by
  intro k
  induction k with
  | zero => exact ⟨[], by simp [Operator.iterState, bodies, checks]⟩
  | succ k ih =>
    obtain ⟨e0, ht, hb, hk⟩ := ih
    obtain ⟨e1, ht1, hb1, hk1, _⟩ := bodyState_trace o env i s l k st
    by_cases hu : l.Until = ""
    · have hst : o.iterState env i s l (k + 1) st = o.bodyState env i s l k st := by
        simp [Operator.iterState, Operator.bodyState, hu]
      refine ⟨e0 ++ Event.stepFn i (some (k : Int)) :: e1, ?_, ?_, ?_⟩
      · rw [hst, ht1, ht, List.append_assoc]
      · simp only [bodies, List.filterMap_append, List.filterMap_cons, Event.body] at hb hb1 ⊢
        rw [hb, hb1, List.range_succ]
        simp
      · simp only [checks, List.filterMap_append, List.filterMap_cons, Event.checked,
          hu, if_true] at hk hk1 ⊢
        rw [hk, hk1]
        rfl
    · have hst : o.iterState env i s l (k + 1) st =
          (o.bodyState env i s l k st).log (Event.untilChecked
            (o.bodyState env i s l k st).store.withCurrent false) := by
        simp [Operator.iterState, Operator.bodyState, hu]
      refine ⟨e0 ++ Event.stepFn i (some (k : Int)) :: e1 ++
        [Event.untilChecked (o.bodyState env i s l k st).store.withCurrent false], ?_, ?_, ?_⟩
      · rw [hst]
        simp only [OpState.log]
        rw [ht1, ht]
        simp
      · simp only [bodies, List.filterMap_append, List.filterMap_cons, Event.body,
          List.filterMap_nil] at hb hb1 ⊢
        rw [hb, hb1, List.range_succ]
        simp
      · simp only [checks, List.filterMap_append, List.filterMap_cons, Event.checked,
          List.filterMap_nil, hu, if_false] at hk hk1 ⊢
        rw [hk, hk1, List.range_succ]
        simp

theorem push_with (o : Operator) (s : Store) (v : Frame) (a : Option Int)
    (bv : List (String × String)) :
    o.push { s with loopIndex := a, bindVars := bv } v =
      { o.push s v with loopIndex := a, bindVars := bv } := by
  unfold Operator.push
  cases o.useMap with
  | false => rfl
  | true =>
    simp only [if_true]
    cases o.steps[s.stepMap.length]? <;> rfl

/-- After the body execution of iteration `k`, all executions so far having
returned no error, the store is the store before the loop with one more frame:
the one frame this execution recorded. -/
theorem bodyState_store (o : Operator) (env : Oracles) (i : Nat) (s : Step) (l : Loop)
    (st : OpState) (hone : s.recordsOne) (hfresh : o.Fresh st.store) :
    ∀ k, (∀ j ≤ k, o.bodyOut env i s l j st = .ok) →
      ∃ f, recorded (newEvents (o.iterState env i s l k st) (o.bodyState env i s l k st)) = [f] ∧
        (o.bodyState env i s l k st).store =
          { o.push st.store f with
            loopIndex := some (k : Int),
            bindVars := (o.bodyState env i s l k st).store.bindVars } := by
  intro k
  induction k with
  | zero =>
    intro hok
    obtain ⟨evs, ht, _, _, hend⟩ := bodyState_trace o env i s l 0 st
    have hout : o.bodyOut env i s l 0 st = .ok := hok 0 (Nat.le_refl 0)
    obtain ⟨f, hf⟩ := (hend.2.2.2.2.2.1 hout).2 hone
    obtain ⟨_, _, s1, hs1, hst⟩ := hend.2.2.2.2.1 (by rw [hout]; simp)
    refine ⟨f, ?_, ?_⟩
    · rw [newEvents_append _ _ _ ht]
      simpa [recorded, Event.frame] using hf
    · rw [hf] at hs1
      have hx : ((OpState.setLoopIndex (o.iterState env i s l 0 st) (some ((0 : Nat) : Int))).log
          (Event.stepFn i (some ((0 : Nat) : Int)))).store =
          { st.store with loopIndex := some 0, bindVars := st.store.bindVars } := rfl
      rw [hx] at hs1
      have hfr : o.Fresh { st.store with loopIndex := some 0, bindVars := st.store.bindVars } :=
        hfresh
      have hrec := record_first o _ f hfr (by simp [Store.loopAgain])
      simp only [Operator.replay, hrec, Except.ok.injEq] at hs1
      rw [hst, ← hs1, push_with]
      rfl
  | succ k ih =>
    intro hok
    obtain ⟨f0, _, hprev⟩ := ih (fun j hj => hok j (Nat.le_succ_of_le hj))
    obtain ⟨evs, ht, _, _, hend⟩ := bodyState_trace o env i s l (k + 1) st
    have hout : o.bodyOut env i s l (k + 1) st = .ok := hok (k + 1) (Nat.le_refl _)
    obtain ⟨f, hf⟩ := (hend.2.2.2.2.2.1 hout).2 hone
    obtain ⟨_, _, s1, hs1, hst⟩ := hend.2.2.2.2.1 (by rw [hout]; simp)
    refine ⟨f, ?_, ?_⟩
    · rw [newEvents_append _ _ _ ht]
      simpa [recorded, Event.frame] using hf
    · rw [hf] at hs1
      have hit : (o.iterState env i s l (k + 1) st).store = (o.bodyState env i s l k st).store := by
        by_cases hu : l.Until = "" <;> simp [Operator.iterState, Operator.bodyState, hu, OpState.log]
      have hx : ((OpState.setLoopIndex (o.iterState env i s l (k + 1) st)
          (some ((k + 1 : Nat) : Int))).log (Event.stepFn i (some ((k + 1 : Nat) : Int)))).store =
          { o.push st.store f0 with
            loopIndex := some ((k + 1 : Nat) : Int),
            bindVars := (o.bodyState env i s l k st).store.bindVars } := by
        simp only [OpState.log, OpState.setLoopIndex, hit]
        rw [hprev]
      rw [hx] at hs1
      have hrec := record_again o st.store f0 f ((k + 1 : Nat) : Int)
        (o.bodyState env i s l k st).store.bindVars hfresh (by omega)
      simp only [Operator.replay, hrec, Except.ok.injEq] at hs1
      rw [hst, ← hs1]

/-! ## Loops with `until` -/

theorem newEvents_setLoopIndex (st st1 : OpState) (a : Option Int) :
    newEvents st (st1.setLoopIndex a) = newEvents st st1 := rfl

theorem runLoop_eq (o : Operator) (env : Oracles) (i : Nat) (s : Step) (l : Loop)
    (st st1 : OpState) (out : Outcome) (h : o.loopBody env i s l st = (st1, out)) :
    o.runLoop env i s l st = (st1.setLoopIndex none, out) := by
  unfold Operator.runLoop
  rw [h]

theorem loopBody_ret (o : Operator) (env : Oracles) (i : Nat) (s : Step) (l : Loop)
    (c : Int) (st st1 : OpState) (out : Outcome)
    (hc : env.evalCount l.Count st.store.toMap = .ok c)
    (hr : o.loopIter env i s l c (c.toNat + 1) 0 (l.Until == "") "" st = (st1, .ret out)) :
    o.loopBody env i s l st = (st1, out) := by
  unfold Operator.loopBody
  rw [hc]
  simp only
  rw [hr]

theorem loopBody_satisfied (o : Operator) (env : Oracles) (i : Nat) (s : Step) (l : Loop)
    (c : Int) (st st1 : OpState) (t : String)
    (hc : env.evalCount l.Count st.store.toMap = .ok c)
    (hr : o.loopIter env i s l c (c.toNat + 1) 0 (l.Until == "") "" st = (st1, .done true t)) :
    o.loopBody env i s l st = (st1, .ok) := by
  unfold Operator.loopBody
  rw [hc]
  simp only
  rw [hr]

/-- C3: a loop with an `until` that returns without error has run its body
`k` times with `1 ≤ k ≤ count` and `loopIndex` 0 to `k - 1`, every execution
returning no error; `until` was evaluated once after each execution, on the
store of that moment with `current` set to its latest frame, giving false
after the first `k - 1` executions and true after the last. -/
theorem runLoop_until_ok (o : Operator) (env : Oracles) (i : Nat) (s : Step) (l : Loop)
    (st : OpState) (c : Int) (hu : l.Until ≠ "")
    (hc : env.evalCount l.Count st.store.toMap = .ok c)
    (hok : (o.runLoop env i s l st).2 = .ok) :
    ∃ k : Nat, 1 ≤ k ∧ (k : Int) ≤ c ∧
      bodies (newEvents st (o.runLoop env i s l st).1) =
        (List.range k).map (fun j => some (j : Int)) ∧
      (∀ j < k, o.bodyOut env i s l j st = .ok) ∧
      (∀ j, j + 1 < k →
        env.evalCond l.Until (o.bodyState env i s l j st).store.withCurrent = .ok false) ∧
      env.evalCond l.Until (o.bodyState env i s l (k - 1) st).store.withCurrent = .ok true ∧
      checks (newEvents st (o.runLoop env i s l st).1) =
        (List.range k).map
          (fun j => ((o.bodyState env i s l j st).store.withCurrent, decide (j + 1 = k))) ∧
      (o.runLoop env i s l st).1 =
        ((o.bodyState env i s l (k - 1) st).log (Event.untilChecked
          (o.bodyState env i s l (k - 1) st).store.withCurrent true)).setLoopIndex none := by
  obtain ⟨k0, hgood, hexit⟩ := loop_exit o env i s l c st
  have hb : (l.Until == "") = false := by simpa using hu
  rw [hb] at hexit
  rcases hexit with ⟨hr, _⟩ | ⟨hcont, hlt, hrest⟩
  · exfalso
    have h1 := loopBody_done o env i s l c st _ _ hc (by rw [hb]; exact hr)
    simp only [hu, if_false] at h1
    unfold Operator.runLoop at hok
    rw [h1] at hok
    exact retryFailed_not_ok _ _ _ _ _ _ _ hok
  rcases hrest with ⟨e, _, hr⟩ | ⟨m, _, hr⟩ | ⟨hbo, _, hrest⟩
  · exfalso
    have h1 := loopBody_ret o env i s l c st _ _ hc (by rw [hb]; exact hr)
    rw [runLoop_eq _ _ _ _ _ _ _ _ h1] at hok
    simp at hok
  · exfalso
    have h1 := loopBody_ret o env i s l c st _ _ hc (by rw [hb]; exact hr)
    rw [runLoop_eq _ _ _ _ _ _ _ _ h1] at hok
    simp at hok
  rcases hrest with ⟨e, _, hr⟩ | ⟨t, e, _, _, hr⟩ | ⟨t, hbt, hev, hr⟩
  · exfalso
    have h1 := loopBody_ret o env i s l c st _ _ hc (by rw [hb]; exact hr)
    rw [runLoop_eq _ _ _ _ _ _ _ _ h1] at hok
    simp at hok
  · exfalso
    have h1 := loopBody_ret o env i s l c st _ _ hc (by rw [hb]; exact hr)
    rw [runLoop_eq _ _ _ _ _ _ _ _ h1] at hok
    simp at hok
  have h1 := loopBody_satisfied o env i s l c st _ _ hc (by rw [hb]; exact hr)
  have h2 := runLoop_eq _ _ _ _ _ _ _ _ h1
  obtain ⟨e0, ht0, hb0, hk0⟩ := iterState_trace o env i s l st k0
  obtain ⟨e1, ht1, hb1, hk1, _⟩ := bodyState_trace o env i s l k0 st
  have htr : newEvents st (((o.bodyState env i s l k0 st).log (Event.untilChecked
      (o.bodyState env i s l k0 st).store.withCurrent true)).setLoopIndex none) =
      e0 ++ Event.stepFn i (some (k0 : Int)) :: e1 ++
        [Event.untilChecked (o.bodyState env i s l k0 st).store.withCurrent true] := by
    rw [newEvents_setLoopIndex]
    apply newEvents_append
    simp only [OpState.log]
    rw [ht1, ht0]
    simp
  refine ⟨k0 + 1, by omega, by omega, ?_, ?_, ?_, ?_, ?_, ?_⟩
  · rw [h2, htr]
    simp only [bodies, List.filterMap_append, List.filterMap_cons, Event.body,
      List.filterMap_nil] at hb0 hb1 ⊢
    rw [hb0, hb1, List.range_succ]
    simp
  · intro j hj
    rcases Nat.lt_succ_iff_lt_or_eq.mp hj with h | h
    · exact (hgood j h).2.2.1
    · rw [h]; exact hbo
  · intro j hj
    exact ((hgood j (by omega)).2.2.2 hu).2
  · simpa using hev
  · rw [h2, htr]
    simp only [checks, List.filterMap_append, List.filterMap_cons, Event.checked,
      List.filterMap_nil, hu, if_false] at hk0 hk1 ⊢
    rw [hk0, hk1, List.range_succ]
    simp only [List.append_nil, List.map_append, List.map_cons, List.map_nil, decide_True]
    congr 1
    apply List.map_congr_left
    intro j hj
    have : j < k0 := List.mem_range.mp hj
    have hne : ¬ (j + 1 = k0 + 1) := by omega
    simp [hne]
  · rw [h2]
    simp

/-- Witness of C3: with `{count: "3", until: "third"}` the body runs three
times and the store gains the one frame of the third execution. -/
theorem runLoop_until_ok_witness :
    (exLoop "3" "third").Until ≠ "" ∧
    (exOp [exUntilThird]).runLoop exEnv 0 exUntilThird (exLoop "3" "third")
        (OpState.init (exOp [exUntilThird])) =
      ({ store := { steps := [some [("req", "GET /"), ("loop", "2")]], stepMap := [],
                    bindVars := [], loopIndex := none, useMap := false },
         skipped := false,
         trace :=
           [Event.stepFn 0 (some 0), Event.dispatch Kind.http 0 none,
            Event.record (some [("req", "GET /"), ("loop", "0")]),
            Event.untilChecked
              { store := { steps := [some [("req", "GET /"), ("loop", "0")]], stepMap := [],
                           bindVars := [], loopIndex := some 0, useMap := false },
                included := none,
                current := some (some [("req", "GET /"), ("loop", "0")]) } false,
            Event.stepFn 0 (some 1), Event.dispatch Kind.http 0 none,
            Event.record (some [("req", "GET /"), ("loop", "1")]),
            Event.untilChecked
              { store := { steps := [some [("req", "GET /"), ("loop", "1")]], stepMap := [],
                           bindVars := [], loopIndex := some 1, useMap := false },
                included := none,
                current := some (some [("req", "GET /"), ("loop", "1")]) } false,
            Event.stepFn 0 (some 2), Event.dispatch Kind.http 0 none,
            Event.record (some [("req", "GET /"), ("loop", "2")]),
            Event.untilChecked
              { store := { steps := [some [("req", "GET /"), ("loop", "2")]], stepMap := [],
                           bindVars := [], loopIndex := some 2, useMap := false },
                included := none,
                current := some (some [("req", "GET /"), ("loop", "2")]) } true] }, .ok) ∧
    ∃ k : Nat, 1 ≤ k ∧ (k : Int) ≤ 3 ∧
      bodies (newEvents (OpState.init (exOp [exUntilThird]))
        ((exOp [exUntilThird]).runLoop exEnv 0 exUntilThird (exLoop "3" "third")
          (OpState.init (exOp [exUntilThird]))).1) =
        (List.range k).map (fun j => some (j : Int)) := by
  refine ⟨by decide, rfl, ?_⟩
  obtain ⟨k, h1, h2, h3, _⟩ :=
    runLoop_until_ok (exOp [exUntilThird]) exEnv 0 exUntilThird (exLoop "3" "third")
      (OpState.init (exOp [exUntilThird])) 3 (by decide) rfl rfl
  exact ⟨k, h1, h2, h3⟩

/-! ## Loops that run all their iterations -/

/-- When the first `n` iterations are all good and `count = n`, the `for`
statement is left after iteration `n - 1` with `retrySuccess` unchanged. -/
theorem loop_exit_good (o : Operator) (env : Oracles) (i : Nat) (s : Step) (l : Loop)
    (st : OpState) (n : Nat) (hgood : ∀ j < n, IterGood o env i s l (n : Int) st j) :
    o.loopIter env i s l (n : Int) ((n : Int).toNat + 1) 0 (l.Until == "") "" st =
      (o.iterState env i s l n st, .done (l.Until == "") (o.treeAfter env i s l n st)) := by
  obtain ⟨k, hg, hexit⟩ := loop_exit o env i s l (n : Int) st
  have hk : k = n := by
    rcases Nat.lt_trichotomy k n with h | h | h
    · exfalso
      obtain ⟨h1, h2, h3, h4⟩ := hgood k h
      rcases hexit with ⟨_, hc | hc⟩ | ⟨_, _, hrest⟩
      · rw [h1] at hc; simp at hc
      · omega
      · rcases hrest with ⟨e, he, _⟩ | ⟨m, hm, _⟩ | ⟨_, hu, hrest⟩
        · rw [h3] at he; simp at he
        · rw [h3] at hm; simp at hm
        · obtain ⟨⟨t0, ht0⟩, hf⟩ := h4 hu
          rcases hrest with ⟨e, he, _⟩ | ⟨t, e, _, he, _⟩ | ⟨t, _, he, _⟩
          · rw [ht0] at he; simp at he
          · rw [hf] at he; simp at he
          · rw [hf] at he; simp at he
    · exact h
    · exfalso
      have := (hg n h).2.1
      omega
  subst hk
  rcases hexit with ⟨hr, _⟩ | ⟨_, h, _⟩
  · exact hr
  · omega

/-- C5: a loop with `until` and count `n` whose `Loop(ctx)` lets the body run
`n` times, each execution returning no error and each evaluation of `until`
giving false, fails with the 'retry loop failed' error: the message holds the
step name, the count, the interval (or minInterval and maxInterval), the
`until` expression and the tree of the last evaluation. The body ran exactly
`n` times and `loopIndex` is nil on return. -/
theorem runLoop_exhausted (o : Operator) (env : Oracles) (i : Nat) (s : Step) (l : Loop)
    (st : OpState) (n : Nat) (hu : l.Until ≠ "")
    (hc : env.evalCount l.Count st.store.toMap = .ok (n : Int))
    (hcont : ∀ j < n, l.cont j = true)
    (hbody : ∀ j < n, o.bodyOut env i s l j st = .ok)
    (htree : ∀ j < n, ∃ t,
      env.buildTree l.Until (o.bodyState env i s l j st).store.withCurrent = .ok t)
    (hfalse : ∀ j < n,
      env.evalCond l.Until (o.bodyState env i s l j st).store.withCurrent = .ok false) :
    (o.runLoop env i s l st).1 = (o.iterState env i s l n st).setLoopIndex none ∧
      (o.runLoop env i s l st).1.store.loopIndex = none ∧
      bodies (newEvents st (o.runLoop env i s l st).1) =
        (List.range n).map (fun j => some (j : Int)) ∧
      (∀ iv, l.interval = some iv →
        (o.runLoop env i s l st).2 =
          .error ("retry loop failed on " ++ o.stepName (o.runLoop env i s l st).1.store i
            ++ ".loop (count: " ++ toString (n : Int) ++ ", interval: " ++ env.showDuration iv
            ++ "): " ++ ("(" ++ l.Until ++ ") is not true\n" ++ o.treeAfter env i s l n st))) ∧
      (l.interval = none → ∀ mn mx, l.minInterval = some mn → l.maxInterval = some mx →
        (o.runLoop env i s l st).2 =
          .error ("retry loop failed on " ++ o.stepName (o.runLoop env i s l st).1.store i
            ++ ".loop (count: " ++ toString (n : Int) ++ ", minInterval: "
            ++ env.showDuration mn ++ ", maxInterval: " ++ env.showDuration mx
            ++ "): " ++ ("(" ++ l.Until ++ ") is not true\n" ++ o.treeAfter env i s l n st))) ∧
      (∀ j, n = j + 1 →
        env.buildTree l.Until (o.bodyState env i s l j st).store.withCurrent =
          .ok (o.treeAfter env i s l n st)) := by
  have hgood : ∀ j < n, IterGood o env i s l (n : Int) st j := fun j hj =>
    ⟨hcont j hj, by omega, hbody j hj, fun _ => ⟨htree j hj, hfalse j hj⟩⟩
  have hr := loop_exit_good o env i s l st n hgood
  have h1 := loopBody_done o env i s l (n : Int) st _ _ hc hr
  simp only [hu, if_false] at h1
  have hst : (o.runLoop env i s l st).1 = (o.iterState env i s l n st).setLoopIndex none := by
    unfold Operator.runLoop
    rw [h1, retryFailed_state]
    rfl
  have hout : (o.runLoop env i s l st).2 =
      (o.retryFailed env i l (n : Int) (o.treeAfter env i s l n st)
        (o.iterState env i s l n st)).2 := by
    unfold Operator.runLoop
    rw [h1]
  refine ⟨hst, by rw [hst]; rfl, ?_, ?_, ?_, ?_⟩
  · rw [hst, newEvents_setLoopIndex]
    obtain ⟨evs, ht, hb, _⟩ := iterState_trace o env i s l st n
    rw [newEvents_append _ _ _ ht, hb]
  · intro iv hiv
    rw [hout, hst]
    simp [Operator.retryFailed, hiv, notTrueMessage]
  · intro hiv mn mx hmn hmx
    rw [hout, hst]
    simp [Operator.retryFailed, hiv, hmn, hmx, notTrueMessage]
  · intro j hj
    subst hj
    obtain ⟨t, ht⟩ := htree j (Nat.lt_succ_self j)
    simp [Operator.treeAfter, hu, ht]

/-- Witness of C5: with `{count: "2", until: "false"}` the body runs twice and
the step fails with the retry-loop error carrying the tree of the second
evaluation. -/
theorem runLoop_exhausted_witness :
    (exLoop "2" "false").Until ≠ "" ∧
    (exOp [exNever]).runLoop exEnv 0 exNever (exLoop "2" "false")
        (OpState.init (exOp [exNever])) =
      ({ store := { steps := [some [("req", "GET /"), ("loop", "1")]], stepMap := [],
                    bindVars := [], loopIndex := none, useMap := false },
         skipped := false,
         trace :=
           [Event.stepFn 0 (some 0), Event.dispatch Kind.http 0 none,
            Event.record (some [("req", "GET /"), ("loop", "0")]),
            Event.untilChecked
              { store := { steps := [some [("req", "GET /"), ("loop", "0")]], stepMap := [],
                           bindVars := [], loopIndex := some 0, useMap := false },
                included := none,
                current := some (some [("req", "GET /"), ("loop", "0")]) } false,
            Event.stepFn 0 (some 1), Event.dispatch Kind.http 0 none,
            Event.record (some [("req", "GET /"), ("loop", "1")]),
            Event.untilChecked
              { store := { steps := [some [("req", "GET /"), ("loop", "1")]], stepMap := [],
                           bindVars := [], loopIndex := some 1, useMap := false },
                included := none,
                current := some (some [("req", "GET /"), ("loop", "1")]) } false] },
       .error "retry loop failed on \x27ping\x27.steps[0].loop (count: 2, interval: 1000000000ns): (false) is not true\ntree of false at 1") ∧
    bodies (newEvents (OpState.init (exOp [exNever]))
      ((exOp [exNever]).runLoop exEnv 0 exNever (exLoop "2" "false")
        (OpState.init (exOp [exNever]))).1) = [some 0, some 1] :=
  ⟨by decide, rfl,
    (runLoop_exhausted (exOp [exNever]) exEnv 0 exNever (exLoop "2" "false")
      (OpState.init (exOp [exNever])) 2 (by decide) rfl
      (fun _ _ => rfl)
      (fun j hj => by
        have : j = 0 ∨ j = 1 := by omega
        rcases this with h | h <;> subst h <;> rfl)
      (fun j hj => by
        have : j = 0 ∨ j = 1 := by omega
        rcases this with h | h <;> subst h <;> exact ⟨_, rfl⟩)
      (fun j hj => by
        have : j = 0 ∨ j = 1 := by omega
        rcases this with h | h <;> subst h <;> rfl)).2.2.1⟩

/-! ## Loops without `until` -/

theorem iterState_succ_store (o : Operator) (env : Oracles) (i : Nat) (s : Step) (l : Loop)
    (st : OpState) (k : Nat) :
    (o.iterState env i s l (k + 1) st).store = (o.bodyState env i s l k st).store := by
  by_cases hu : l.Until = "" <;> simp [Operator.iterState, Operator.bodyState, hu, OpState.log]

/-- C2 (amended): a loop step without `until` whose count evaluates to `n ≥ 1`,
whose `Loop(ctx)` and body succeed in each of the `n` iterations (a runner
that returns no error having recorded one frame) and, in map mode, whose next
key is not yet in `stepMap`, runs its body exactly `n` times with `loopIndex`
0 to `n - 1` and succeeds; after every iteration the store holds exactly one
frame more than before the loop, and at the end that frame, the latest one,
is the frame recorded by iteration `n - 1`. -/
theorem runLoop_count (o : Operator) (env : Oracles) (i : Nat) (s : Step) (l : Loop)
    (st : OpState) (n : Nat) (hu : l.Until = "")
    (hc : env.evalCount l.Count st.store.toMap = .ok (n : Int)) (hn : 1 ≤ n)
    (hcont : ∀ j < n, l.cont j = true)
    (hbody : ∀ j < n, o.bodyOut env i s l j st = .ok)
    (hone : s.recordsOne) (hfresh : o.Fresh st.store) (huse : st.store.useMap = o.useMap) :
    (o.runLoop env i s l st).2 = .ok ∧
      bodies (newEvents st (o.runLoop env i s l st).1) =
        (List.range n).map (fun j => some (j : Int)) ∧
      (∀ k, 1 ≤ k → k ≤ n →
        (o.iterState env i s l k st).store.frameCount = st.store.frameCount + 1) ∧
      ∃ f, recorded (newEvents (o.iterState env i s l (n - 1) st)
            (o.bodyState env i s l (n - 1) st)) = [f] ∧
        (o.runLoop env i s l st).1.store =
          { o.push st.store f with
            loopIndex := none,
            bindVars := (o.runLoop env i s l st).1.store.bindVars } ∧
        (o.runLoop env i s l st).1.store.frameCount = st.store.frameCount + 1 ∧
        (o.runLoop env i s l st).1.store.latest = f := by
  have hgood : ∀ j < n, IterGood o env i s l (n : Int) st j := fun j hj =>
    ⟨hcont j hj, by omega, hbody j hj, fun h => absurd hu h⟩
  have hr := loop_exit_good o env i s l st n hgood
  have h1 := loopBody_done o env i s l (n : Int) st _ _ hc hr
  simp only [hu, if_true] at h1
  have h2 := runLoop_eq _ _ _ _ _ _ _ _ h1
  obtain ⟨m, hm⟩ : ∃ m, n = m + 1 := ⟨n - 1, by omega⟩
  subst hm
  obtain ⟨f, hf, hstore⟩ := bodyState_store o env i s l st hone hfresh m
    (fun j hj => hbody j (by omega))
  obtain ⟨hcount, hlatest⟩ := push_frameCount o st.store f huse hfresh
  refine ⟨by rw [h2], ?_, ?_, f, ?_, ?_, ?_, ?_⟩
  · rw [h2, newEvents_setLoopIndex]
    obtain ⟨evs, ht, hb, _⟩ := iterState_trace o env i s l st (m + 1)
    rw [newEvents_append _ _ _ ht, hb]
  · intro k hk1 hk2
    obtain ⟨k0, hk0⟩ : ∃ k0, k = k0 + 1 := ⟨k - 1, by omega⟩
    subst hk0
    obtain ⟨g, _, hg⟩ := bodyState_store o env i s l st hone hfresh k0
      (fun j hj => hbody j (by omega))
    rw [iterState_succ_store, hg]
    exact (push_frameCount o st.store g huse hfresh).1
  · simpa using hf
  · rw [h2]
    simp only [OpState.setLoopIndex]
    rw [iterState_succ_store, hstore]
  · rw [h2]
    simp only [OpState.setLoopIndex]
    rw [iterState_succ_store, hstore]
    exact hcount
  · rw [h2]
    simp only [OpState.setLoopIndex]
    rw [iterState_succ_store, hstore]
    exact hlatest

/-- Witness of C2 (amended): with `{count: "3"}` the body runs three times and
the store gains the one frame of the third execution. -/
theorem runLoop_count_witness :
    (exLoop "3" "").Until = "" ∧
    (exOp [exThrice]).runLoop exEnv 0 exThrice (exLoop "3" "")
        (OpState.init (exOp [exThrice])) =
      ({ store := { steps := [some [("req", "GET /"), ("loop", "2")]], stepMap := [],
                    bindVars := [], loopIndex := none, useMap := false },
         skipped := false,
         trace :=
           [Event.stepFn 0 (some 0), Event.dispatch Kind.http 0 none,
            Event.record (some [("req", "GET /"), ("loop", "0")]),
            Event.stepFn 0 (some 1), Event.dispatch Kind.http 0 none,
            Event.record (some [("req", "GET /"), ("loop", "1")]),
            Event.stepFn 0 (some 2), Event.dispatch Kind.http 0 none,
            Event.record (some [("req", "GET /"), ("loop", "2")])] }, .ok) ∧
    bodies (newEvents (OpState.init (exOp [exThrice]))
      ((exOp [exThrice]).runLoop exEnv 0 exThrice (exLoop "3" "")
        (OpState.init (exOp [exThrice]))).1) = [some 0, some 1, some 2] :=
  ⟨rfl, rfl,
    (runLoop_count (exOp [exThrice]) exEnv 0 exThrice (exLoop "3" "")
      (OpState.init (exOp [exThrice])) 3 rfl rfl (by decide)
      (fun _ _ => rfl)
      (fun j hj => by
        have : j = 0 ∨ j = 1 ∨ j = 2 := by omega
        rcases this with h | h | h <;> subst h <;> rfl)
      ⟨fun r hr req x _ => by
          have : r = exRunner := by
            have h : some exRunner = some r := hr
            exact (Option.some.inj h).symm
          subst this
          exact ⟨_, rfl⟩,
        fun r hr => by simp [exThrice, exHttp, exBlank] at hr,
        fun r hr => by simp [exThrice, exHttp, exBlank] at hr,
        fun r hr => by simp [exThrice, exHttp, exBlank] at hr,
        fun r hr => by simp [exThrice, exHttp, exBlank] at hr⟩
      (fun h => by simp [exOp] at h) rfl).2.1⟩

/-- C2 as stated fails: with count "0" the loop succeeds and the store gains no
frame; and in map mode with a repeated step key a loop of three iterations
succeeds and leaves the number of frames as it was. -/
theorem loop_gains_no_frame :
    (exEnv.evalCount (exLoop "0" "").Count (OpState.init (exOp [])).store.toMap = .ok 0 ∧
      ((exOp []).runLoop exEnv 0 { exHttp with loop := some (exLoop "0" "") } (exLoop "0" "")
        (OpState.init (exOp []))).2 = .ok ∧
      ((exOp []).runLoop exEnv 0 { exHttp with loop := some (exLoop "0" "") } (exLoop "0" "")
        (OpState.init (exOp []))).1.store.frameCount = 0) ∧
    (exTwinsState.store.frameCount = 1 ∧
      (exTwins.runLoop exEnv 1 { exThrice with key := "a" } (exLoop "3" "") exTwinsState).2 =
        .ok ∧
      (exTwins.runLoop exEnv 1 { exThrice with key := "a" } (exLoop "3" "")
        exTwinsState).1.store.stepMap = [("a", some [("req", "GET /"), ("loop", "2")])] ∧
      (exTwins.runLoop exEnv 1 { exThrice with key := "a" } (exLoop "3" "")
        exTwinsState).1.store.frameCount = 1) := by
  refine ⟨⟨rfl, rfl, rfl⟩, rfl, rfl, rfl, rfl⟩

/-! ## A whole run -/

theorem bodyState_skipped (o : Operator) (env : Oracles) (i : Nat) (s : Step) (l : Loop)
    (st : OpState) :
    ∀ k, (∀ j ≤ k, o.bodyOut env i s l j st = .ok) →
      (o.bodyState env i s l k st).skipped = st.skipped := by
  intro k
  induction k with
  | zero =>
    intro hok
    obtain ⟨evs, _, _, _, hend⟩ := bodyState_trace o env i s l 0 st
    have hout : o.bodyOut env i s l 0 st = .ok := hok 0 (Nat.le_refl 0)
    exact (hend.2.2.2.2.1 (by rw [hout]; simp)).2.1
  | succ k ih =>
    intro hok
    have hprev := ih (fun j hj => hok j (Nat.le_succ_of_le hj))
    obtain ⟨evs, _, _, _, hend⟩ := bodyState_trace o env i s l (k + 1) st
    have hout : o.bodyOut env i s l (k + 1) st = .ok := hok (k + 1) (Nat.le_refl _)
    have h1 := (hend.2.2.2.2.1 (by rw [hout]; simp)).2.1
    have h2 : (o.iterState env i s l (k + 1) st).skipped =
        (o.bodyState env i s l k st).skipped := by
      by_cases hu : l.Until = "" <;>
        simp [Operator.iterState, Operator.bodyState, hu, OpState.log]
    rw [h1]
    simp only [OpState.log, OpState.setLoopIndex]
    rw [h2, hprev]

theorem stepFn_pushes (o : Operator) (env : Oracles) (i : Nat) (s : Step) (st : OpState)
    (hone : s.recordsOne) (hfresh : o.Fresh st.store) (hl : st.store.loopAgain = false)
    (hok : (o.stepFn env i s st).2 = .ok) : Pushed o st (o.stepFn env i s st).1 := by
  obtain ⟨evs, hend⟩ := stepFn_end o env i s st
  obtain ⟨f, hf⟩ := (hend.2.2.2.2.2.1 hok).2 hone
  obtain ⟨_, hsk, s1, hs1, hst⟩ := hend.2.2.2.2.1 (by rw [hok]; simp)
  refine ⟨hsk, f, ?_⟩
  rw [hf] at hs1
  have hx : (st.log (Event.stepFn i st.store.loopIndex)).store = st.store := rfl
  rw [hx] at hs1
  simp only [Operator.replay, record_first o st.store f hfresh hl, Except.ok.injEq] at hs1
  rw [hst, ← hs1]

theorem runLoop_pushes (o : Operator) (env : Oracles) (i : Nat) (s : Step) (l : Loop)
    (st : OpState) (hone : s.recordsOne) (hfresh : o.Fresh st.store)
    (hcont : l.cont 0 = true) (hcount : ∀ snap c, env.evalCount l.Count snap = .ok c → 1 ≤ c)
    (hnil : st.store.loopIndex = none)
    (hok : (o.runLoop env i s l st).2 = .ok) : Pushed o st (o.runLoop env i s l st).1 := by
  cases hc : env.evalCount l.Count st.store.toMap with
  | error e =>
    exfalso
    unfold Operator.runLoop Operator.loopBody at hok
    rw [hc] at hok
    simp at hok
  | ok c =>
    have hc1 := hcount _ _ hc
    have key : ∀ k, (∀ j ≤ k, o.bodyOut env i s l j st = .ok) → ∀ st1 : OpState,
        st1.store = (o.bodyState env i s l k st).store →
        st1.skipped = (o.bodyState env i s l k st).skipped →
        Pushed o st (st1.setLoopIndex none) := by
      intro k hk st1 h1 h2
      obtain ⟨f, _, hstore⟩ := bodyState_store o env i s l st hone hfresh k hk
      refine ⟨by rw [← bodyState_skipped o env i s l st k hk, ← h2]; rfl, f, ?_⟩
      simp only [OpState.setLoopIndex]
      rw [h1, hstore]
      have hp : (o.push st.store f).loopIndex = none := by
        rw [← hnil]
        unfold Operator.push
        cases o.useMap with
        | false => rfl
        | true =>
          simp only [if_true]
          cases o.steps[st.store.stepMap.length]? <;> rfl
      cases hpush : o.push st.store f with
      | mk a b c1 d e =>
        rw [hpush] at hp
        simp only at hp
        subst hp
        rfl
    obtain ⟨k0, hgood, hexit⟩ := loop_exit o env i s l c st
    rcases hexit with ⟨hr, hstop⟩ | ⟨_, _, hrest⟩
    · have h1 := loopBody_done o env i s l c st _ _ hc hr
      by_cases hu : l.Until = ""
      · simp only [hu, if_true] at h1
        rw [runLoop_eq _ _ _ _ _ _ _ _ h1]
        cases k0 with
        | zero =>
          exfalso
          rcases hstop with h | h
          · rw [hcont] at h; simp at h
          · simp only [Nat.cast_zero] at h; omega
        | succ m =>
          exact key m (fun j hj => (hgood j (by omega)).2.2.1) _
            (iterState_succ_store o env i s l st m) (by
              simp [Operator.iterState, Operator.bodyState, hu])
      · exfalso
        simp only [hu, if_false] at h1
        unfold Operator.runLoop at hok
        rw [h1] at hok
        exact retryFailed_not_ok _ _ _ _ _ _ _ hok
    · rcases hrest with ⟨e, _, hr⟩ | ⟨m, _, hr⟩ | ⟨hbo, _, hrest⟩
      · exfalso
        have h1 := loopBody_ret o env i s l c st _ _ hc hr
        rw [runLoop_eq _ _ _ _ _ _ _ _ h1] at hok
        simp at hok
      · exfalso
        have h1 := loopBody_ret o env i s l c st _ _ hc hr
        rw [runLoop_eq _ _ _ _ _ _ _ _ h1] at hok
        simp at hok
      rcases hrest with ⟨e, _, hr⟩ | ⟨t, e, _, _, hr⟩ | ⟨t, _, _, hr⟩
      · exfalso
        have h1 := loopBody_ret o env i s l c st _ _ hc hr
        rw [runLoop_eq _ _ _ _ _ _ _ _ h1] at hok
        simp at hok
      · exfalso
        have h1 := loopBody_ret o env i s l c st _ _ hc hr
        rw [runLoop_eq _ _ _ _ _ _ _ _ h1] at hok
        simp at hok
      · have h1 := loopBody_satisfied o env i s l c st _ _ hc hr
        rw [runLoop_eq _ _ _ _ _ _ _ _ h1]
        refine key k0 (fun j hj => ?_) _ rfl rfl
        rcases Nat.lt_or_eq_of_le hj with h | h
        · exact (hgood j h).2.2.1
        · rw [h]; exact hbo

theorem nodup_getElem_not_mem_take (L : List String) (hn : L.Nodup) (i : Nat) (k : String)
    (hk : L[i]? = some k) : k ∉ L.take i := by
  have hi : i < L.length := by
    rcases Nat.lt_or_ge i L.length with h | h
    · exact h
    · rw [List.getElem?_eq_none h] at hk; simp at hk
  have hk1 : L[i] = k := by
    rw [List.getElem?_eq_getElem hi] at hk
    exact Option.some.inj hk
  have hsplit : L = L.take i ++ k :: L.drop (i + 1) := by
    rw [← hk1, ← List.drop_eq_getElem_cons hi, List.take_append_drop]
  rw [hsplit] at hn
  intro hmem
  have := (List.nodup_append.mp hn).2.2
  exact this hmem (List.mem_cons_self _ _)

theorem aligned_fresh (o : Operator) (i : Nat) (s : Store) (p : Step)
    (hal : StepAligned o i s) (hkeys : o.useMap = true → (o.steps.map Step.key).Nodup)
    (hp : o.steps[i]? = some p) : o.Fresh s := by
  intro hm
  obtain ⟨hu, _, hcnt, hmap⟩ := hal
  have hlen : s.stepMap.length = i := by
    unfold Store.frameCount at hcnt
    rw [hu, hm] at hcnt
    simpa using hcnt
  refine ⟨p, by rw [hlen]; exact hp, ?_⟩
  intro q hq heq
  have h1 : q.1 ∈ s.stepMap.map Prod.fst := List.mem_map_of_mem _ hq
  rw [hmap hm, List.map_take, heq] at h1
  exact nodup_getElem_not_mem_take _ (hkeys hm) i p.key (by simp [hp]) h1

theorem aligned_push (o : Operator) (i : Nat) (s : Store) (p : Step) (f : Frame)
    (bv : List (String × String))
    (hal : StepAligned o i s) (hkeys : o.useMap = true → (o.steps.map Step.key).Nodup)
    (hp : o.steps[i]? = some p) :
    StepAligned o (i + 1) { o.push s f with bindVars := bv } := by
  have hfresh := aligned_fresh o i s p hal hkeys hp
  obtain ⟨hu, hli, hcnt, hmap⟩ := hal
  have hfc := (push_frameCount o s f hu hfresh).1
  have huse : (o.push s f).useMap = s.useMap := by
    unfold Operator.push
    cases o.useMap with
    | false => rfl
    | true => simp only [if_true]; cases o.steps[s.stepMap.length]? <;> rfl
  have hloop : (o.push s f).loopIndex = s.loopIndex := by
    unfold Operator.push
    cases o.useMap with
    | false => rfl
    | true => simp only [if_true]; cases o.steps[s.stepMap.length]? <;> rfl
  refine ⟨by rw [← hu, ← huse], by rw [← hli, ← hloop], ?_, ?_⟩
  · have : Store.frameCount { o.push s f with bindVars := bv } = (o.push s f).frameCount := rfl
    rw [this, hfc, hcnt]
  · intro hm
    have hlen : s.stepMap.length = i := by
      unfold Store.frameCount at hcnt
      rw [hu, hm] at hcnt
      simpa using hcnt
    have hi : i < o.steps.length := by
      rcases Nat.lt_or_ge i o.steps.length with h | h
      · exact h
      · rw [List.getElem?_eq_none h] at hp; simp at hp
    have hp1 : o.steps[i] = p := by
      rw [List.getElem?_eq_getElem hi] at hp
      exact Option.some.inj hp
    have hpush : (o.push s f).stepMap = s.stepMap ++ [(p.key, f)] := by
      simp [Operator.push, hm, hlen, hp]
    show List.map Prod.fst (o.push s f).stepMap = _
    rw [hpush, List.map_append, hmap hm, List.take_succ, hp]
    simp

theorem runStep_pushes (o : Operator) (env : Oracles) (i : Nat) (s : Step) (st : OpState)
    (hone : s.recordsOne) (hloop : s.loopRuns env) (hfresh : o.Fresh st.store)
    (hnil : st.store.loopIndex = none)
    (hok : (o.runStep env i s st).2 = .ok) : Pushed o st (o.runStep env i s st).1 := by
  have hla : st.store.loopAgain = false := by simp [Store.loopAgain, hnil]
  have hbody : ∀ (h : (match s.loop with
        | some l => o.runLoop env i s l (st.log (Event.setCurrentIDs (o.ids ++ [s.key])))
        | none => o.stepFn env i s (st.log (Event.setCurrentIDs (o.ids ++ [s.key])))).2 = .ok),
      Pushed o st (match s.loop with
        | some l => o.runLoop env i s l (st.log (Event.setCurrentIDs (o.ids ++ [s.key])))
        | none => o.stepFn env i s (st.log (Event.setCurrentIDs (o.ids ++ [s.key])))).1 := by
    intro h
    cases hl : s.loop with
    | none =>
      rw [hl] at h
      exact stepFn_pushes o env i s _ hone hfresh hla h
    | some l =>
      rw [hl] at h
      obtain ⟨h1, h2⟩ := hloop l hl
      exact runLoop_pushes o env i s l _ hone hfresh h1 h2 hnil h
  unfold Operator.runStep at hok ⊢
  by_cases hc : s.cond = ""
  · simp only [hc, if_true] at hok ⊢
    exact hbody hok
  · simp only [hc, if_false] at hok ⊢
    cases hev : env.evalCond s.cond
        { store := (st.log (Event.setCurrentIDs (o.ids ++ [s.key]))).store,
          included := some o.included, current := none } with
    | error e => rw [hev] at hok; simp at hok
    | ok tf =>
      rw [hev] at hok
      cases tf with
      | true => exact hbody hok
      | false =>
        simp only
        unfold Operator.recordSt
        have hx : (st.log (Event.setCurrentIDs (o.ids ++ [s.key]))).store = st.store := rfl
        rw [hx, record_first o st.store none hfresh hla]
        exact ⟨rfl, none, rfl⟩

/-- Every step of the `for` statement that returns `nil` leaves one frame. -/
theorem runSteps_aligned (o : Operator) (env : Oracles)
    (hkeys : o.useMap = true → (o.steps.map Step.key).Nodup)
    (hone : ∀ s ∈ o.steps, s.recordsOne) (hloops : ∀ s ∈ o.steps, s.loopRuns env) :
    ∀ (ss : List Step) (i : Nat) (st : OpState), o.steps.drop i = ss →
      StepAligned o i st.store → (o.runSteps env i ss st).2 = .ok →
      StepAligned o (i + ss.length) (o.runSteps env i ss st).1.store ∧
        (o.runSteps env i ss st).1.skipped = st.skipped := by
  intro ss
  induction ss with
  | nil =>
    intro i st _ hal _
    exact ⟨hal, rfl⟩
  | cons s ss ih =>
    intro i st hdrop hal hok
    have hi : i < o.steps.length := by
      rcases Nat.lt_or_ge i o.steps.length with h | h
      · exact h
      · rw [List.drop_eq_nil_of_le h] at hdrop; simp at hdrop
    have hsi : o.steps[i]? = some s := by
      rw [List.drop_eq_getElem_cons hi] at hdrop
      rw [List.getElem?_eq_getElem hi]
      exact congrArg some (List.cons.inj hdrop).1
    have hdrop1 : o.steps.drop (i + 1) = ss := by
      rw [List.drop_eq_getElem_cons hi] at hdrop
      exact (List.cons.inj hdrop).2
    have hmem : s ∈ o.steps := List.getElem?_mem hsi
    simp only [Operator.runSteps] at hok ⊢
    cases hr : o.runStep env i s st with
    | mk st1 out =>
      rw [hr] at hok
      cases out with
      | error m => simp at hok
      | panic m => simp at hok
      | ok =>
        simp only at hok ⊢
        have hp := runStep_pushes o env i s st (hone s hmem) (hloops s hmem)
          (aligned_fresh o i st.store s hal hkeys hsi) hal.2.1 (by rw [hr])
        rw [hr] at hp
        obtain ⟨hsk, f, hst⟩ := hp
        have hal1 : StepAligned o (i + 1) st1.store := by
          rw [hst]
          exact aligned_push o i st.store s f _ hal hkeys hsi
        obtain ⟨h1, h2⟩ := ih (i + 1) st1 hdrop1 hal1 hok
        refine ⟨?_, by rw [h2, hsk]⟩
        have : i + (ss.length + 1) = i + 1 + ss.length := by omega
        rw [List.length_cons, this]
        exact h1

theorem runFuncs_ok (ev : Nat → Option String → Event) :
    ∀ (fs : List (Store → Option String)) (i : Nat) (st : OpState),
      (∀ f ∈ fs, ∀ x, f x = none) →
      (runFuncs ev i fs st).2 = .ok ∧ (runFuncs ev i fs st).1.store = st.store ∧
        (runFuncs ev i fs st).1.skipped = st.skipped := by
  intro fs
  induction fs with
  | nil => intro i st _; exact ⟨rfl, rfl, rfl⟩
  | cons f fs ih =>
    intro i st h
    simp only [runFuncs]
    rw [h f (List.mem_cons_self _ _) st.store]
    exact ih (i + 1) _ (fun g hg => h g (List.mem_cons_of_mem _ hg))

theorem runGuarded_ok (o : Operator) (env : Oracles) (st : OpState)
    (hb : (runFuncs Event.beforeFunc 0 o.beforeFuncs st).2 = .ok)
    (hs : (o.runSteps env 0 o.steps (runFuncs Event.beforeFunc 0 o.beforeFuncs st).1).2 = .ok) :
    o.runGuarded env st =
      runFuncs Event.afterFunc 0 o.afterFuncs
        (o.runSteps env 0 o.steps (runFuncs Event.beforeFunc 0 o.beforeFuncs st).1).1 := by
  unfold Operator.runGuarded
  cases hrb : runFuncs Event.beforeFunc 0 o.beforeFuncs st with
  | mk a b =>
    rw [hrb] at hb hs
    simp only at hb hs
    subst hb
    simp only
    cases hrs : o.runSteps env 0 o.steps a with
    | mk c d =>
      rw [hrs] at hs
      simp only at hs
      subst hs
      rfl

theorem init_aligned (o : Operator) : StepAligned o 0 (OpState.init o).store := by
  refine ⟨rfl, rfl, ?_, fun _ => rfl⟩
  unfold Store.frameCount OpState.init
  cases o.useMap <;> rfl

theorem exRunner_recordsOne (s : Step) (hh : ∀ r, s.httpRunner = some r → r = exRunner)
    (hd : s.dbRunner = none) (hg : s.grpcRunner = none) (he : s.execRunner = none)
    (hi : s.includeRunner = none) : s.recordsOne := by
  refine ⟨fun r hr req x _ => ?_, fun r hr => ?_, fun r hr => ?_, fun r hr => ?_, fun r hr => ?_⟩
  · rw [hh r hr]; exact ⟨_, rfl⟩
  · rw [hd] at hr; simp at hr
  · rw [hg] at hr; simp at hr
  · rw [he] at hr; simp at hr
  · rw [hi] at hr; simp at hr

/-- C1 (amended): for an operator without top-level `if`, run from the state
`New` leaves, whose beforeFuncs and afterFuncs return no error, whose steps
all return no error, whose runners record one frame per successful call,
whose loops run their body at least once and, in map mode, whose step keys are
pairwise distinct, `Run` returns `nil`, reports success to the captures (not
skipped) and leaves as many frames in the store as there are steps. -/
theorem Run_frames (o : Operator) (env : Oracles) (hcond : o.cond = "")
    (hkeys : o.useMap = true → (o.steps.map Step.key).Nodup)
    (hone : ∀ s ∈ o.steps, s.recordsOne) (hloops : ∀ s ∈ o.steps, s.loopRuns env)
    (hbefore : ∀ f ∈ o.beforeFuncs, ∀ x, f x = none)
    (hafter : ∀ f ∈ o.afterFuncs, ∀ x, f x = none)
    (hsteps : (o.runSteps env 0 o.steps
      (runFuncs Event.beforeFunc 0 o.beforeFuncs
        ((OpState.init o).log Event.captureStart)).1).2 = .ok) :
    (o.Run env (OpState.init o)).2 = .ok ∧
      Operator.Skipped (o.Run env (OpState.init o)).1 = false ∧
      (∃ pre, (o.Run env (OpState.init o)).1.trace =
        pre ++ [Event.captureSuccess, Event.close, Event.captureEnd]) ∧
      (o.Run env (OpState.init o)).1.store.frameCount = o.steps.length := by
  obtain ⟨hb1, hb2, hb3⟩ := runFuncs_ok Event.beforeFunc o.beforeFuncs 0
    ((OpState.init o).log Event.captureStart) hbefore
  have hg := runGuarded_ok o env _ hb1 hsteps
  have hal0 : StepAligned o 0 (runFuncs Event.beforeFunc 0 o.beforeFuncs
      ((OpState.init o).log Event.captureStart)).1.store := by
    rw [hb2]; exact init_aligned o
  obtain ⟨hs1, hs2⟩ := runSteps_aligned o env hkeys hone hloops o.steps 0 _ rfl hal0 hsteps
  obtain ⟨ha1, ha2, ha3⟩ := runFuncs_ok Event.afterFunc o.afterFuncs 0
    (o.runSteps env 0 o.steps (runFuncs Event.beforeFunc 0 o.beforeFuncs
      ((OpState.init o).log Event.captureStart)).1).1 hafter
  rw [← hg] at ha1 ha2 ha3
  have hsk : (o.runGuarded env ((OpState.init o).log Event.captureStart)).1.skipped = false := by
    rw [ha3, hs2, hb3]; rfl
  have hcnt : (o.runGuarded env ((OpState.init o).log Event.captureStart)).1.store.frameCount =
      o.steps.length := by
    rw [ha2, hs1.2.2.1]; simp
  unfold Operator.Run Operator.run Operator.runInternal
  simp only [hcond, if_true]
  cases hrg : o.runGuarded env ((OpState.init o).log Event.captureStart) with
  | mk a b =>
    rw [hrg] at ha1 hsk hcnt
    simp only at ha1 hsk hcnt
    subst ha1
    simp only [hsk, Bool.false_eq_true, if_false]
    refine ⟨trivial, ?_, ⟨a.trace, by simp [OpState.log]⟩, hcnt⟩
    simpa [Operator.Skipped, OpState.log] using hsk

/-- Witness of C1 (amended): the runbook with an http step, a test step and an
http step in an `until` loop leaves three frames. -/
theorem Run_frames_witness :
    exPing.cond = "" ∧ (exPing.Run exEnv (OpState.init exPing)).2 = .ok ∧
    (exPing.Run exEnv (OpState.init exPing)).1.store.steps =
      [some [("req", "GET /"), ("loop", "-")], none, some [("req", "GET /"), ("loop", "2")]] ∧
    (exPing.Run exEnv (OpState.init exPing)).1.store.frameCount = exPing.steps.length :=
  ⟨rfl, rfl, rfl,
    (Run_frames exPing exEnv rfl (fun h => by simp [exPing, exOp] at h)
      (fun s hs => by
        simp only [exPing, exOp, List.mem_cons, List.mem_singleton, List.not_mem_nil,
          or_false] at hs
        rcases hs with h | h | h <;> subst h
        · exact exRunner_recordsOne _ (fun r hr => (Option.some.inj hr).symm) rfl rfl rfl rfl
        · exact exRunner_recordsOne _ (fun r hr => by simp [exTestOnly, exBlank] at hr)
            rfl rfl rfl rfl
        · exact exRunner_recordsOne _ (fun r hr => (Option.some.inj hr).symm) rfl rfl rfl rfl)
      (fun s hs => by
        simp only [exPing, exOp, List.mem_cons, List.mem_singleton, List.not_mem_nil,
          or_false] at hs
        rcases hs with h | h | h <;> subst h
        · intro l hl; simp [exHttp, exBlank] at hl
        · intro l hl; simp [exTestOnly, exBlank] at hl
        · intro l hl
          have hl1 : l = exLoop "3" "third" := (Option.some.inj hl).symm
          subst hl1
          refine ⟨rfl, fun snap c hc => ?_⟩
          have h3 : exEnv.evalCount (exLoop "3" "third").Count snap = .ok 3 := rfl
          rw [h3] at hc
          have := Except.ok.inj hc
          omega)
      (fun f hf => by simp [exPing, exOp] at hf)
      (fun f hf => by simp [exPing, exOp] at hf)
      rfl).2.2.2⟩

/-- C1 as stated fails: a step whose loop count is 0 succeeds without a frame;
an afterFunc that fails makes `Run` fail although every step succeeded; and in
map mode two steps with the same key leave one frame. -/
theorem Run_frames_fail :
    (exIdle.cond = "" ∧ (exIdle.Run exEnv (OpState.init exIdle)).2 = .ok ∧
      (exIdle.Run exEnv (OpState.init exIdle)).1.store.frameCount = 0 ∧
      exIdle.steps.length = 1) ∧
    (exAfter.cond = "" ∧
      (exAfter.runSteps exEnv 0 exAfter.steps
        ((OpState.init exAfter).log Event.captureStart)).2 = .ok ∧
      (exAfter.Run exEnv (OpState.init exAfter)).2 =
        .error "failed to run op: after failed") ∧
    (exSameKey.cond = "" ∧ (exSameKey.Run exEnv (OpState.init exSameKey)).2 = .ok ∧
      (exSameKey.Run exEnv (OpState.init exSameKey)).1.store.frameCount = 1 ∧
      exSameKey.steps.length = 2) := by
  refine ⟨⟨rfl, rfl, rfl, rfl⟩, ⟨rfl, rfl, rfl⟩, rfl, rfl, rfl, rfl⟩

/-! ## The duplicate check of `New` -/

theorem addRunnerNames_cases :
    ∀ (ks keys : List String), ks.Nodup →
      (addRunnerNames keys ks = .ok (keys ++ ks) ∧ ∀ k ∈ ks, k ∉ keys) ∨
      (∃ k, k ∈ ks ∧ k ∈ keys ∧
        addRunnerNames keys ks = .error ("duplicate runner names: " ++ k)) := by
  intro ks
  induction ks with
  | nil =>
    intro keys _
    exact Or.inl ⟨by simp [addRunnerNames], fun k hk => by simp at hk⟩
  | cons k rest ih =>
    intro keys hn
    obtain ⟨hk, hrest⟩ := List.nodup_cons.mp hn
    by_cases hmem : k ∈ keys
    · exact Or.inr ⟨k, List.mem_cons_self _ _, hmem, by simp [addRunnerNames, hmem]⟩
    · rcases ih (keys ++ [k]) hrest with ⟨h1, h2⟩ | ⟨x, hx1, hx2, hx3⟩
      · refine Or.inl ⟨by simp [addRunnerNames, hmem, h1], ?_⟩
        intro x hx
        rcases List.mem_cons.mp hx with h | h
        · rw [h]; exact hmem
        · intro hxk
          exact h2 x h (List.mem_append_left _ hxk)
      · rcases List.mem_append.mp hx2 with h | h
        · exact Or.inr ⟨x, List.mem_cons_of_mem _ hx1, h, by simp [addRunnerNames, hmem, hx3]⟩
        · exfalso
          rw [List.mem_singleton] at h
          rw [h] at hx1
          exact hk hx1

theorem checkRunnerNames_cases (http db grpc : List String) (hd : db.Nodup) (hg : grpc.Nodup) :
    (checkRunnerNames http db grpc = .ok (http ++ db ++ grpc) ∧
        ¬ ∃ k, inTwo k http db grpc) ∨
      (∃ k, inTwo k http db grpc ∧
        checkRunnerNames http db grpc = .error ("duplicate runner names: " ++ k)) := by
  unfold checkRunnerNames
  rcases addRunnerNames_cases db http hd with ⟨h1, h2⟩ | ⟨x, hx1, hx2, hx3⟩
  · rw [h1]
    rcases addRunnerNames_cases grpc (http ++ db) hg with ⟨h3, h4⟩ | ⟨y, hy1, hy2, hy3⟩
    · refine Or.inl ⟨h3, ?_⟩
      rintro ⟨k, hk | hk | hk⟩
      · exact h2 k hk.2 hk.1
      · exact h4 k hk.2 (List.mem_append_left _ hk.1)
      · exact h4 k hk.2 (List.mem_append_right _ hk.1)
    · refine Or.inr ⟨y, ?_, hy3⟩
      rcases List.mem_append.mp hy2 with h | h
      · exact Or.inr (Or.inl ⟨h, hy1⟩)
      · exact Or.inr (Or.inr ⟨h, hy1⟩)
  · rw [hx3]
    exact Or.inr ⟨x, Or.inl ⟨hx2, hx1⟩, rfl⟩

theorem New_check_error (bk : Book) (b : Builders) (e : String)
    (h : checkRunnerNames (bk.httpRunners.map Prod.fst) (bk.dbRunners.map Prod.fst)
      (bk.grpcRunners.map Prod.fst) = .error e) :
    (∃ e1, New bk b = .error e1) ∧
      (bk.applied = none → (∃ r, bk.root = .ok r) → New bk b = .error e) := by
  unfold New
  rw [h]
  refine ⟨?_, ?_⟩
  · cases bk.applied with
    | some e0 => exact ⟨e0, rfl⟩
    | none =>
      cases bk.root with
      | error e0 => exact ⟨e0, rfl⟩
      | ok r => exact ⟨e, rfl⟩
  · rintro ha ⟨r, hr⟩
    rw [ha, hr]

/-- C10: for runner maps (their keys pairwise distinct within a map, as the
keys of a Go map are), the duplicate check of `New` passes exactly when no key
occurs in two of the three maps; when some key does, `New` fails, and once
`applyOptions` and `generateOperatorRoot` have succeeded the error is
'duplicate runner names: k' for a key `k` that occurs in two maps. -/
theorem New_duplicate_runner (bk : Book) (b : Builders)
    (hd : (bk.dbRunners.map Prod.fst).Nodup) (hg : (bk.grpcRunners.map Prod.fst).Nodup) :
    ((∃ keys, checkRunnerNames (bk.httpRunners.map Prod.fst) (bk.dbRunners.map Prod.fst)
          (bk.grpcRunners.map Prod.fst) = .ok keys) ↔
        ¬ ∃ k, inTwo k (bk.httpRunners.map Prod.fst) (bk.dbRunners.map Prod.fst)
          (bk.grpcRunners.map Prod.fst)) ∧
      ((∃ k, inTwo k (bk.httpRunners.map Prod.fst) (bk.dbRunners.map Prod.fst)
          (bk.grpcRunners.map Prod.fst)) →
        (∃ e, New bk b = .error e) ∧
        (bk.applied = none → (∃ r, bk.root = .ok r) →
          ∃ k, inTwo k (bk.httpRunners.map Prod.fst) (bk.dbRunners.map Prod.fst)
              (bk.grpcRunners.map Prod.fst) ∧
            New bk b = .error ("duplicate runner names: " ++ k))) := by
  rcases checkRunnerNames_cases (bk.httpRunners.map Prod.fst) (bk.dbRunners.map Prod.fst)
    (bk.grpcRunners.map Prod.fst) hd hg with ⟨h1, h2⟩ | ⟨k, hk, he⟩
  · refine ⟨⟨fun _ => h2, fun _ => ⟨_, h1⟩⟩, fun h => absurd h h2⟩
  · refine ⟨⟨?_, fun h => absurd ⟨k, hk⟩ h⟩, fun _ => ?_⟩
    · rintro ⟨keys, hkeys⟩
      rw [he] at hkeys
      simp at hkeys
    · obtain ⟨h1, h2⟩ := New_check_error bk b _ he
      exact ⟨h1, fun ha hr => ⟨k, hk, h2 ha hr⟩⟩

/-- Witness of C10: the key `req` names an http and a gRPC runner. -/
theorem New_duplicate_runner_witness :
    (exBook.dbRunners.map Prod.fst).Nodup ∧ (exBook.grpcRunners.map Prod.fst).Nodup ∧
    inTwo "req" (exBook.httpRunners.map Prod.fst) (exBook.dbRunners.map Prod.fst)
      (exBook.grpcRunners.map Prod.fst) ∧
    (∃ e, New exBook exBuilders = .error e) ∧
    New exBook exBuilders = .error "duplicate runner names: req" :=
  ⟨by decide, by decide, Or.inr (Or.inl ⟨by decide, by decide⟩),
    ((New_duplicate_runner exBook exBuilders (by decide) (by decide)).2
      ⟨"req", Or.inr (Or.inl ⟨by decide, by decide⟩)⟩).1, rfl⟩

/-! ## partOperators -/

theorem partFrom_eq {α : Type} (n i : Int) :
    ∀ (l : List α) (a : Nat),
      partFrom n i a l =
        ((List.range l.length).filter (fun k => shardHit (a + k) n i)).filterMap
          (fun k => l[k]?) := by
  intro l
  induction l with
  | nil => intro a; simp [partFrom]
  | cons o rest ih =>
    intro a
    have hshift : ∀ k, shardHit (a + 1 + k) n i = shardHit (a + (k + 1)) n i := by
      intro k
      have : a + 1 + k = a + (k + 1) := by omega
      rw [this]
    simp only [partFrom, List.length_cons, List.range_succ_eq_map, List.filter_cons,
      Nat.add_zero]
    rw [ih (a + 1)]
    have hrest : List.filterMap (fun k => (o :: rest)[k]?)
        (List.filter (fun k => shardHit (a + k) n i) (List.map Nat.succ (List.range rest.length))) =
        List.filterMap (fun k => rest[k]?)
          (List.filter (fun k => shardHit (a + 1 + k) n i) (List.range rest.length)) := by
      rw [List.filter_map, List.filterMap_map]
      congr 1
      · funext k
        simp
      · congr 1
        funext k
        simp only [Function.comp, Nat.succ_eq_add_one]
        exact (hshift k).symm
    by_cases h : shardHit a n i = true
    · simp only [h, if_true, List.filterMap_cons, List.getElem?_cons_zero]
      rw [hrest]
    · simp only [h, Bool.false_eq_true, if_false]
      rw [hrest]

theorem partFrom_sublist {α : Type} (n i : Int) :
    ∀ (l : List α) (a : Nat), (partFrom n i a l).Sublist l := by
  intro l
  induction l with
  | nil => intro a; exact List.Sublist.slnil
  | cons o rest ih =>
    intro a
    simp only [partFrom]
    by_cases h : shardHit a n i = true
    · simp only [h, if_true]
      exact (ih (a + 1)).cons₂ o
    · simp only [h, Bool.false_eq_true, if_false]
      exact (ih (a + 1)).cons o

/-- C20: for `n > 0` and every `i`, `partOperators(ops, n, i)` is the list of
the elements of `ops` at the positions `k` with `k mod n = i`, in their
original order (a sublist of `ops`); the input is only read. -/
theorem partOperators_spec {α : Type} (ops : List α) (n i : Int) (hn : 0 < n) :
    partOperators ops n i =
        ((List.range ops.length).filter (fun k : Nat => decide ((k : Int) % n = i))).filterMap
          (fun k : Nat => ops[k]?) ∧
      (partOperators ops n i).Sublist ops := by
  refine ⟨?_, partFrom_sublist n i ops 0⟩
  unfold partOperators
  rw [partFrom_eq]
  congr 1
  apply List.filter_congr
  intro k _
  have hn0 : n ≠ 0 := by omega
  simp [shardHit, hn0]

/-- Witness of C20: the second of three shards of five elements. -/
theorem partOperators_spec_witness :
    (0 : Int) < 3 ∧ partOperators ["a", "b", "c", "d", "e"] 3 1 = ["b", "e"] ∧
    partOperators ["a", "b", "c", "d", "e"] 3 1 =
      ((List.range 5).filter (fun k : Nat => decide ((k : Int) % 3 = 1))).filterMap
        (fun k : Nat => ["a", "b", "c", "d", "e"][k]?) :=
  ⟨by decide, by decide, (partOperators_spec ["a", "b", "c", "d", "e"] 3 1 (by decide)).1⟩

/-! ## sortOperators -/

theorem char_toNat_inj (a b : Char) (h : a.toNat = b.toNat) : a = b := by
  apply Char.ext
  cases ha : a.val with
  | mk x =>
    cases hb : b.val with
    | mk y =>
      simp only [Char.toNat, UInt32.toNat, ha, hb] at h
      congr
      exact BitVec.eq_of_toFin_eq (Fin.ext h)

theorem ltChars_irrefl : ∀ a : List Char, ltChars a a = false := by
  intro a
  induction a with
  | nil => rfl
  | cons c cs ih => simp [ltChars, ih]

theorem ltChars_trans :
    ∀ a b c : List Char, ltChars a b = true → ltChars b c = true → ltChars a c = true := by
  intro a
  induction a with
  | nil =>
    intro b c h1 h2
    cases b with
    | nil => simp [ltChars] at h1
    | cons y ys =>
      cases c with
      | nil => simp [ltChars] at h2
      | cons z zs => rfl
  | cons x xs ih =>
    intro b c h1 h2
    cases b with
    | nil => simp [ltChars] at h1
    | cons y ys =>
      cases c with
      | nil => simp [ltChars] at h2
      | cons z zs =>
        simp only [ltChars] at h1 h2 ⊢
        by_cases hxy : x.toNat < y.toNat
        · by_cases hyz : y.toNat < z.toNat
          · have : x.toNat < z.toNat := by omega
            simp [this]
          · simp only [hyz, if_false] at h2
            by_cases hzy : z.toNat < y.toNat
            · simp [hzy] at h2
            · have : x.toNat < z.toNat := by omega
              simp [this]
        · simp only [hxy, if_false] at h1
          by_cases hyx : y.toNat < x.toNat
          · simp [hyx] at h1
          · simp only [hyx, if_false] at h1
            have hxy2 : x.toNat = y.toNat := by omega
            by_cases hyz : y.toNat < z.toNat
            · have : x.toNat < z.toNat := by omega
              simp [this]
            · simp only [hyz, if_false] at h2
              by_cases hzy : z.toNat < y.toNat
              · simp [hzy] at h2
              · simp only [hzy, if_false] at h2
                have h3 : ¬ x.toNat < z.toNat := by omega
                have h4 : ¬ z.toNat < x.toNat := by omega
                simp only [h3, h4, if_false]
                exact ih ys zs h1 h2

theorem ltChars_connex :
    ∀ a b : List Char, ltChars a b = false → ltChars b a = false → a = b := by
  intro a
  induction a with
  | nil =>
    intro b h1 _
    cases b with
    | nil => rfl
    | cons y ys => simp [ltChars] at h1
  | cons x xs ih =>
    intro b h1 h2
    cases b with
    | nil => simp [ltChars] at h2
    | cons y ys =>
      simp only [ltChars] at h1 h2
      by_cases hxy : x.toNat < y.toNat
      · simp [hxy] at h1
      · by_cases hyx : y.toNat < x.toNat
        · simp [hyx] at h2
        · simp only [hxy, hyx, if_false] at h1 h2
          have : x = y := char_toNat_inj x y (by omega)
          rw [this, ih ys h1 h2]

theorem strLess_irrefl (a : String) : strLess a a = false :=
  ltChars_irrefl a.data

theorem strLess_trans (a b c : String) (h1 : strLess a b = true) (h2 : strLess b c = true) :
    strLess a c = true :=
  ltChars_trans _ _ _ h1 h2

theorem strLess_connex (a b : String) (h1 : strLess a b = false) (h2 : strLess b a = false) :
    a = b :=
  String.ext (ltChars_connex _ _ h1 h2)

theorem operatorLess_irrefl (a : Operator) : operatorLess a a = false := by
  simp [operatorLess, strLess_irrefl]

theorem operatorLess_same (a b : Operator) (hp : a.bookPath = b.bookPath)
    (hd : a.desc = b.desc) : operatorLess a b = false := by
  simp [operatorLess, hp, hd, strLess_irrefl]

theorem operatorLess_trans (a b c : Operator) (h1 : operatorLess a b = true)
    (h2 : operatorLess b c = true) : operatorLess a c = true := by
  unfold operatorLess at h1 h2 ⊢
  by_cases hab : a.bookPath = b.bookPath
  · by_cases hbc : b.bookPath = c.bookPath
    · simp only [hab, hbc, if_true] at h1 h2 ⊢
      exact strLess_trans _ _ _ h1 h2
    · simp only [hab, hbc, if_true, if_false] at h1 h2 ⊢
      exact h2
  · by_cases hbc : b.bookPath = c.bookPath
    · rw [if_neg hab] at h1
      have hac : ¬ a.bookPath = c.bookPath := fun h => hab (h.trans hbc.symm)
      rw [if_neg hac, ← hbc]
      exact h1
    · simp only [hab, hbc, if_false] at h1 h2
      have h3 := strLess_trans _ _ _ h1 h2
      have hac : a.bookPath ≠ c.bookPath := by
        intro h
        rw [h, strLess_irrefl] at h3
        simp at h3
      simp only [hac, if_false]
      exact h3

theorem operatorLess_connex (a b : Operator) (h1 : operatorLess a b = false)
    (h2 : operatorLess b a = false) : a.bookPath = b.bookPath ∧ a.desc = b.desc := by
  unfold operatorLess at h1 h2
  by_cases hab : a.bookPath = b.bookPath
  · simp only [hab, if_true] at h1 h2
    exact ⟨hab, strLess_connex _ _ h1 h2⟩
  · have hba : ¬ b.bookPath = a.bookPath := fun h => hab h.symm
    simp only [hab, hba, if_false] at h1 h2
    exact absurd (strLess_connex _ _ h1 h2) hab

theorem operatorLess_asymm (a b : Operator) (h : operatorLess a b = true) :
    operatorLess b a = false := by
  cases h2 : operatorLess b a with
  | false => rfl
  | true =>
    have := operatorLess_trans a b a h h2
    rw [operatorLess_irrefl] at this
    simp at this

theorem operatorLess_negtrans (a b c : Operator) (h1 : operatorLess b a = false)
    (h2 : operatorLess c b = false) : operatorLess c a = false := by
  cases h3 : operatorLess c a with
  | false => rfl
  | true =>
    exfalso
    cases h4 : operatorLess a b with
    | true =>
      have := operatorLess_trans c a b h3 h4
      rw [h2] at this
      simp at this
    | false =>
      obtain ⟨hp, hd⟩ := operatorLess_connex a b h4 h1
      have : operatorLess c b = operatorLess c a := by
        simp [operatorLess, hp, hd]
      rw [this, h3] at h2
      simp at h2

theorem stableInsert_perm {α : Type} (less : α → α → Bool) (a : α) :
    ∀ l : List α, (stableInsert less a l).Perm (a :: l) := by
  intro l
  induction l with
  | nil => exact List.Perm.refl _
  | cons b l ih =>
    simp only [stableInsert]
    by_cases h : less b a = true
    · simp only [h, if_true]
      exact (List.Perm.cons b ih).trans (List.Perm.swap a b l)
    · simp only [h, Bool.false_eq_true, if_false]
      exact List.Perm.refl _

theorem sliceStable_perm {α : Type} (less : α → α → Bool) :
    ∀ l : List α, (sliceStable less l).Perm l := by
  intro l
  induction l with
  | nil => exact List.Perm.refl _
  | cons a l ih =>
    simp only [sliceStable]
    exact (stableInsert_perm less a _).trans (List.Perm.cons a ih)

theorem stableInsert_sorted (a : Operator) :
    ∀ l : List Operator, l.Pairwise (fun x y => operatorLess y x = false) →
      (stableInsert operatorLess a l).Pairwise (fun x y => operatorLess y x = false) := by
  intro l
  induction l with
  | nil => intro _; simp [stableInsert]
  | cons b l ih =>
    intro hl
    obtain ⟨hb, hl1⟩ := List.pairwise_cons.mp hl
    simp only [stableInsert]
    by_cases h : operatorLess b a = true
    · simp only [h, if_true]
      refine List.pairwise_cons.mpr ⟨?_, ih hl1⟩
      intro y hy
      rcases List.mem_cons.mp ((stableInsert_perm operatorLess a l).mem_iff.mp hy) with h1 | h1
      · rw [h1]; exact operatorLess_asymm b a h
      · exact hb y h1
    · have hf : operatorLess b a = false := by simpa using h
      simp only [hf, Bool.false_eq_true, if_false]
      refine List.pairwise_cons.mpr ⟨?_, hl⟩
      intro y hy
      rcases List.mem_cons.mp hy with h1 | h1
      · rw [h1]; exact hf
      · exact operatorLess_negtrans a b y hf (hb y h1)

theorem sortOperators_sorted :
    ∀ ops : List Operator,
      (sortOperators ops).Pairwise (fun x y => operatorLess y x = false) := by
  intro ops
  induction ops with
  | nil => simp [sortOperators, sliceStable]
  | cons a l ih => exact stableInsert_sorted a _ ih

theorem stableInsert_filter (p : Operator → Bool) (a : Operator)
    (hp : ∀ b, p b = true → p a = true → operatorLess b a = false) :
    ∀ l : List Operator,
      (stableInsert operatorLess a l).filter p = (a :: l).filter p := by
  intro l
  induction l with
  | nil => rfl
  | cons b l ih =>
    simp only [stableInsert]
    by_cases h : operatorLess b a = true
    · simp only [h, if_true]
      by_cases hb : p b = true
      · by_cases ha : p a = true
        · have := hp b hb ha
          rw [h] at this
          simp at this
        · simp only [List.filter_cons, hb, if_true, ha, Bool.false_eq_true, if_false] at ih ⊢
          rw [ih]
      · simp only [List.filter_cons, hb, Bool.false_eq_true, if_false] at ih ⊢
        rw [ih]
    · simp only [h, Bool.false_eq_true, if_false]

theorem sortOperators_filter (p : Operator → Bool)
    (hp : ∀ a b, p b = true → p a = true → operatorLess b a = false) :
    ∀ ops : List Operator, (sortOperators ops).filter p = ops.filter p := by
  intro ops
  induction ops with
  | nil => rfl
  | cons a l ih =>
    have h1 := stableInsert_filter p a (hp a) (sortOperators l)
    have h2 : sortOperators (a :: l) = stableInsert operatorLess a (sortOperators l) := rfl
    rw [h2, h1]
    simp only [List.filter_cons]
    rw [ih]

theorem sortOperators_strict (ops : List Operator) (hn : (namesOf ops).Nodup) :
    (sortOperators ops).Pairwise (fun x y => operatorLess x y = true) := by
  have hperm := sliceStable_perm operatorLess ops
  have hn2 : (namesOf (sortOperators ops)).Nodup := by
    unfold namesOf at hn ⊢
    exact (List.Perm.nodup_iff (List.Perm.map _ hperm)).mpr hn
  have hne : (sortOperators ops).Pairwise
      (fun x y => (x.bookPath, x.desc) ≠ (y.bookPath, y.desc)) := by
    unfold namesOf at hn2
    exact (List.pairwise_map.mp hn2)
  refine ((sortOperators_sorted ops).and hne).imp ?_
  intro x y hxy
  obtain ⟨h1, h2⟩ := hxy
  cases h3 : operatorLess x y with
  | true => rfl
  | false =>
    exfalso
    obtain ⟨hp, hd⟩ := operatorLess_connex x y h3 h1
    exact h2 (by rw [hp, hd])

/-- C18: `sortOperators` returns a permutation of its input in ascending order
by `bookPath` and then `desc` (no later element is less than an earlier one);
the operators with one and the same `bookPath` and `desc` keep their relative
order; and two lists that are permutations of each other and whose
(`bookPath`, `desc`) pairs are pairwise distinct are sorted to the same list. -/
theorem sortOperators_spec (ops : List Operator) :
    (sortOperators ops).Perm ops ∧
      (sortOperators ops).Pairwise (fun x y => operatorLess y x = false) ∧
      (∀ path desc,
        (sortOperators ops).filter (fun o => decide (o.bookPath = path ∧ o.desc = desc)) =
          ops.filter (fun o => decide (o.bookPath = path ∧ o.desc = desc))) ∧
      (∀ ops2 : List Operator, ops.Perm ops2 → (namesOf ops).Nodup →
        sortOperators ops = sortOperators ops2) := by
  refine ⟨sliceStable_perm operatorLess ops, sortOperators_sorted ops, ?_, ?_⟩
  · intro path desc
    apply sortOperators_filter
    intro a b hb ha
    simp only [decide_eq_true_eq] at ha hb
    exact operatorLess_same b a (by rw [hb.1, ha.1]) (by rw [hb.2, ha.2])
  · intro ops2 hperm hn
    have hn2 : (namesOf ops2).Nodup := by
      unfold namesOf at hn ⊢
      exact (List.Perm.nodup_iff (List.Perm.map _ hperm)).mp hn
    have hp : (sortOperators ops).Perm (sortOperators ops2) :=
      ((sliceStable_perm operatorLess ops).trans hperm).trans
        (sliceStable_perm operatorLess ops2).symm
    exact @List.eq_of_perm_of_sorted _ (fun x y => operatorLess x y = true)
      ⟨fun a b h1 h2 => by
        have := operatorLess_asymm a b h1
        rw [h2] at this
        simp at this⟩ _ _ hp
      (sortOperators_strict ops hn) (sortOperators_strict ops2 hn2)

/-- One input of `sortOperators` and its result, by name. -/
theorem sortOperators_example :
    namesOf (sortOperators
      [exNamed "b.yml" "x", exNamed "a.yml" "y", exNamed "b.yml" "a", exNamed "a.yml" "x"]) =
      [("a.yml", "x"), ("a.yml", "y"), ("b.yml", "a"), ("b.yml", "x")] := by
  rfl

/-- Witness of C18: two orderings of two books are sorted to the same list. -/
theorem sortOperators_spec_witness :
    (namesOf [exNamed "b.yml" "x", exNamed "a.yml" "y"]).Nodup ∧
    namesOf (sortOperators [exNamed "b.yml" "x", exNamed "a.yml" "y"]) =
      [("a.yml", "y"), ("b.yml", "x")] ∧
    sortOperators [exNamed "b.yml" "x", exNamed "a.yml" "y"] =
      sortOperators [exNamed "a.yml" "y", exNamed "b.yml" "x"] :=
  ⟨by decide, rfl,
    (sortOperators_spec [exNamed "b.yml" "x", exNamed "a.yml" "y"]).2.2.2
      [exNamed "a.yml" "y", exNamed "b.yml" "x"]
      (List.Perm.swap (exNamed "a.yml" "y") (exNamed "b.yml" "x") []) (by decide)⟩

/-! ## The order of the list Load returns -/

theorem loadSharded_sorted (n i : Int) (ops : List Operator) :
    (loadSharded n i ops).Pairwise (fun x y => operatorLess y x = false) := by
  unfold loadSharded
  by_cases hn : n > 0
  · simp only [hn, if_true]
    exact (sortOperators_sorted ops).sublist (partFrom_sublist n i _ 0)
  · simp only [hn, if_false]
    exact sortOperators_sorted ops

/-- The order of `Load` away from sampling: when sampling does not take effect
(`runSample` is not positive, or not below the number of operators left after
sharding), the list `Load` returns is in ascending (`bookPath`, `desc`) order,
with or without sharding. -/
theorem loadOrder_sorted (draw : Nat → Nat → Nat) (n i sample : Int) (ops : List Operator)
    (h : sample ≤ 0 ∨ ((loadSharded n i ops).length : Int) ≤ sample) :
    loadOrder draw n i sample ops = loadSharded n i ops ∧
      (loadOrder draw n i sample ops).Pairwise (fun x y => operatorLess y x = false) := by
  have h1 : loadOrder draw n i sample ops = loadSharded n i ops := by
    unfold loadOrder
    by_cases hs : sample > 0
    · have h2 : ((loadSharded n i ops).length : Int) ≤ sample := by
        rcases h with h | h
        · omega
        · exact h
      simp [hs, sampleOperators, h2]
    · simp [hs]
  exact ⟨h1, by rw [h1]; exact loadSharded_sorted n i ops⟩

/-- The order of `Load` away from sampling, on three books: the first of two
shards, a sample size that is not below the shard size. -/
theorem loadOrder_sorted_witness :
    ((2 : Int) ≤ 0 ∨ ((loadSharded 2 0 exBooks).length : Int) ≤ 2) ∧
    namesOf (loadOrder exDraw 2 0 2 exBooks) = [("a.yml", "first"), ("c.yml", "third")] ∧
    (loadOrder exDraw 2 0 2 exBooks).Pairwise (fun x y => operatorLess y x = false) :=
  ⟨Or.inr (by decide), rfl, (loadOrder_sorted exDraw 2 0 2 exBooks (Or.inr (by decide))).2⟩

/-- C19, the code at the failing input: with `runSample = 2` over three books
and the draws 2 and 0, `Load` returns `c.yml` before `a.yml`, so the list that
`RunN` iterates is not in ascending (`bookPath`, `desc`) order. -/
theorem loadOrder_sample_unsorted :
    namesOf (loadOrder exDraw 0 0 2 exBooks) = [("c.yml", "third"), ("a.yml", "first")] ∧
    ¬ (loadOrder exDraw 0 0 2 exBooks).Pairwise (fun x y => operatorLess y x = false) := by
  refine ⟨rfl, ?_⟩
  have h : loadOrder exDraw 0 0 2 exBooks = [exNamed "c.yml" "third", exNamed "a.yml" "first"] :=
    rfl
  rw [h]
  intro hp
  have := (List.pairwise_cons.mp hp).1 (exNamed "a.yml" "first") (List.mem_singleton.mpr rfl)
  exact absurd this (by decide)

/-! ## What each part of a run adds to the log -/

theorem Grows.none (p : Event → Bool) (st : OpState) : Grows p st st :=
  ⟨[], by simp, by simp⟩

theorem Grows.of_trace {p : Event → Bool} {st st1 : OpState} (h : st1.trace = st.trace) :
    Grows p st st1 :=
  ⟨[], by simp [h], by simp⟩

theorem Grows.andThen {p : Event → Bool} {st st1 st2 : OpState} (h1 : Grows p st st1)
    (h2 : Grows p st1 st2) : Grows p st st2 := by
  obtain ⟨e1, ht1, hp1⟩ := h1
  obtain ⟨e2, ht2, hp2⟩ := h2
  refine ⟨e1 ++ e2, by rw [ht2, ht1, List.append_assoc], ?_⟩
  intro e he
  rcases List.mem_append.mp he with h | h
  · exact hp1 e h
  · exact hp2 e h

theorem Grows.event {p : Event → Bool} (st : OpState) (e : Event) (h : p e = true) :
    Grows p st (st.log e) :=
  ⟨[e], rfl, by simpa using h⟩

theorem Grows.mono {p q : Event → Bool} {st st1 : OpState} (h : Grows p st st1)
    (hpq : ∀ e, p e = true → q e = true) : Grows q st st1 := by
  obtain ⟨evs, ht, hp⟩ := h
  exact ⟨evs, ht, fun e he => hpq e (hp e he)⟩

theorem recordSt_grows (o : Operator) (i : Nat) (st : OpState) (v : Frame) :
    Grows (Event.ofStep i) st (o.recordSt st v).1 :=
  ⟨[Event.record v], recordSt_trace o st v, by simp [Event.ofStep]⟩

theorem recordAll_grows (o : Operator) (i : Nat) :
    ∀ (vs : List Frame) (st : OpState), Grows (Event.ofStep i) st (o.recordAll vs st).1 := by
  intro vs
  induction vs with
  | nil => intro st; exact Grows.none _ _
  | cons v vs ih =>
    intro st
    have h1 := recordSt_grows o i st v
    simp only [Operator.recordAll]
    cases hr : o.recordSt st v with
    | mk st1 out =>
      rw [hr] at h1
      cases out with
      | ok => exact h1.andThen (ih st1)
      | error m => exact h1
      | panic m => exact h1

theorem recordIfNot_grows (o : Operator) (i : Nat) (runned : Bool) (st : OpState) :
    Grows (Event.ofStep i) st (o.recordIfNot runned st).1 := by
  unfold Operator.recordIfNot
  cases runned
  · exact recordSt_grows o i st none
  · exact Grows.none _ _

theorem callRunner_grows (o : Operator) (kind : Kind) (i : Nat) (failed : String) (r : RunOut)
    (st : OpState) : Grows (Event.ofStep i) st (o.callRunner kind i failed r st).1 := by
  have h1 : Grows (Event.ofStep i) st (st.log (Event.dispatch kind i r.err)) :=
    Grows.event st _ (by simp [Event.ofStep])
  have h2 := recordAll_grows o i r.frames (st.log (Event.dispatch kind i r.err))
  unfold Operator.callRunner
  cases hr : o.recordAll r.frames (st.log (Event.dispatch kind i r.err)) with
  | mk st1 out =>
    rw [hr] at h2
    cases out with
    | ok =>
      cases r.err with
      | none => exact h1.andThen h2
      | some e => exact h1.andThen h2
    | error m => exact h1.andThen h2
    | panic m => exact h1.andThen h2

theorem expandParseRun_grows (o : Operator) (env : Oracles) (kind : Kind) (i : Nat)
    (failed : String) (parse : Payload → Except String Request) (wrapParse : Bool)
    (run : Request → Store → RunOut) (p : Payload) (st : OpState) :
    Grows (Event.ofStep i) st (o.expandParseRun env kind i failed parse wrapParse run p st).1 := by
  unfold Operator.expandParseRun
  cases env.evalExpand p st.store.toMap with
  | error e => exact Grows.none _ _
  | ok v =>
    cases v with
    | other x => exact Grows.none _ _
    | map m =>
      simp only
      cases parse m with
      | error e => cases wrapParse <;> exact Grows.none _ _
      | ok req => exact callRunner_grows o kind i failed _ st

theorem caseBoth_grows {α β : Type} (p : Event → Bool) (st : OpState) (r : Option α)
    (q : Option β) (hit : α → β → OpState × Flow) (rest : OpState × Flow)
    (h1 : ∀ x y, Grows p st (hit x y).1) (h2 : Grows p st rest.1) :
    Grows p st (caseBoth r q hit rest).1 := by
  unfold caseBoth
  cases r <;> cases q <;> simp only <;> first | exact h2 | exact h1 _ _

theorem dispatch_grows (o : Operator) (env : Oracles) (i : Nat) (s : Step) (st : OpState) :
    Grows (Event.ofStep i) st (o.dispatch env i s st).1 := by
  unfold Operator.dispatch
  refine caseBoth_grows _ st _ _ _ _ (fun r p => expandParseRun_grows o env _ i _ _ _ r p st) ?_
  refine caseBoth_grows _ st _ _ _ _ (fun r p => expandParseRun_grows o env _ i _ _ _ r p st) ?_
  refine caseBoth_grows _ st _ _ _ _ ?_ ?_
  · intro r p
    cases env.parseGrpcRequest p st.store.toMap with
    | error e => exact Grows.none _ _
    | ok req => exact callRunner_grows o _ i _ _ st
  refine caseBoth_grows _ st _ _ _ _ (fun r p => expandParseRun_grows o env _ i _ _ _ r p st) ?_
  exact caseBoth_grows _ st _ _ _ _ (fun r c => callRunner_grows o _ i _ _ st) (Grows.none _ _)

theorem dumpHook_grows (o : Operator) (i : Nat) (s : Step) (runned : Bool) (st : OpState) :
    Grows (Event.ofStep i) st (o.dumpHook i s runned st).1 := by
  unfold Operator.dumpHook
  cases s.dumpRunner with
  | none => exact Grows.none _ _
  | some dr =>
    simp only
    by_cases hc : s.dumpCond = ""
    · simp only [hc, if_true]; exact Grows.none _ _
    · simp only [hc, if_false]
      cases dr s.dumpCond st.store with
      | some e => exact Grows.event st _ (by simp [Event.ofStep])
      | none =>
        exact (Grows.event st (Event.dump i none) (by simp [Event.ofStep])).andThen
          (recordIfNot_grows o i runned _)

theorem bindHook_grows (o : Operator) (i : Nat) (s : Step) (runned : Bool) (st : OpState) :
    Grows (Event.ofStep i) st (o.bindHook i s runned st).1 := by
  unfold Operator.bindHook
  cases s.bindRunner with
  | none => exact Grows.none _ _
  | some br =>
    cases s.bindCond with
    | none => exact Grows.none _ _
    | some cond =>
      simp only
      have h0 : Grows (Event.ofStep i) st
          { st with store := { st.store with bindVars := (br cond st.store).1 } } :=
        Grows.of_trace rfl
      cases (br cond st.store).2 with
      | some e => exact h0.andThen (Grows.event _ _ (by simp [Event.ofStep]))
      | none =>
        exact (h0.andThen (Grows.event _ (Event.bind i none) (by simp [Event.ofStep]))).andThen
          (recordIfNot_grows o i runned _)

theorem testHook_grows (o : Operator) (i : Nat) (s : Step) (runned : Bool) (st : OpState) :
    Grows (Event.ofStep i) st (o.testHook i s runned st).1 := by
  unfold Operator.testHook
  cases s.testRunner with
  | none => exact Grows.none _ _
  | some tr =>
    simp only
    by_cases hc : s.testCond = ""
    · simp only [hc, if_true]; exact Grows.none _ _
    · simp only [hc, if_false]
      by_cases hs : o.skipTest = true
      · simp only [hs, if_true]; exact recordIfNot_grows o i runned st
      · simp only [hs]
        cases tr s.testCond runned st.store with
        | some e => exact Grows.event st _ (by simp [Event.ofStep])
        | none =>
          exact (Grows.event st (Event.test i none) (by simp [Event.ofStep])).andThen
            (recordIfNot_grows o i runned _)

theorem stepFn_grows (o : Operator) (env : Oracles) (i : Nat) (s : Step) (st : OpState) :
    Grows (Event.ofStep i) st (o.stepFn env i s st).1 := by
  have h0 : Grows (Event.ofStep i) st (st.log (Event.stepFn i st.store.loopIndex)) :=
    Grows.event st _ (by simp [Event.ofStep])
  have h1 := h0.andThen (dispatch_grows o env i s (st.log (Event.stepFn i st.store.loopIndex)))
  unfold Operator.stepFn
  cases hd : o.dispatch env i s (st.log (Event.stepFn i st.store.loopIndex)) with
  | mk st1 f1 =>
    rw [hd] at h1
    cases f1 with
    | ret out => exact h1
    | next r1 =>
      simp only
      have h2 := h1.andThen (dumpHook_grows o i s r1 st1)
      cases hd2 : o.dumpHook i s r1 st1 with
      | mk st2 f2 =>
        rw [hd2] at h2
        cases f2 with
        | ret out => exact h2
        | next r2 =>
          simp only
          have h3 := h2.andThen (bindHook_grows o i s r2 st2)
          cases hd3 : o.bindHook i s r2 st2 with
          | mk st3 f3 =>
            rw [hd3] at h3
            cases f3 with
            | ret out => exact h3
            | next r3 =>
              simp only
              have h4 := h3.andThen (testHook_grows o i s r3 st3)
              cases hd4 : o.testHook i s r3 st3 with
              | mk st4 f4 =>
                rw [hd4] at h4
                cases f4 with
                | ret out => exact h4
                | next r4 =>
                  simp only
                  unfold Operator.finish
                  cases r4 <;> exact h4

theorem loopIter_grows (o : Operator) (env : Oracles) (i : Nat) (s : Step) (l : Loop) (c : Int) :
    ∀ (fuel j : Nat) (b : Bool) (t : String) (st : OpState),
      Grows (Event.ofStep i) st (o.loopIter env i s l c fuel j b t st).1 := by
  intro fuel
  induction fuel with
  | zero => intro j b t st; exact Grows.none _ _
  | succ fuel ih =>
    intro j b t st
    simp only [Operator.loopIter]
    by_cases h1 : l.cont j = false
    · simp only [h1, if_true]; exact Grows.none _ _
    · simp only [h1, if_false]
      by_cases h2 : (j : Int) ≥ c
      · simp only [h2, if_true]; exact Grows.none _ _
      · simp only [h2, if_false]
        have hs : Grows (Event.ofStep i) st (o.stepFn env i s (st.setLoopIndex (some (j : Int)))).1 :=
          (show Grows (Event.ofStep i) st (st.setLoopIndex (some (j : Int))) from
            Grows.of_trace rfl).andThen (stepFn_grows o env i s _)
        cases hr : o.stepFn env i s (st.setLoopIndex (some (j : Int))) with
        | mk st1 out =>
          rw [hr] at hs
          cases out with
          | error e => exact hs
          | panic m => exact hs
          | ok =>
            simp only
            by_cases hu : l.Until = ""
            · simp only [hu, if_true]; exact hs.andThen (ih _ _ _ _)
            · simp only [hu, if_false]
              cases env.buildTree l.Until st1.store.withCurrent with
              | error e => exact hs
              | ok t1 =>
                simp only
                cases env.evalCond l.Until st1.store.withCurrent with
                | error e => exact hs
                | ok tf =>
                  simp only
                  cases tf with
                  | true =>
                    simp only [if_true]
                    exact hs.andThen (Grows.event _ _ (by simp [Event.ofStep]))
                  | false =>
                    simp only [Bool.false_eq_true, if_false]
                    exact (hs.andThen (Grows.event _ (Event.untilChecked st1.store.withCurrent false)
                      (by simp [Event.ofStep]))).andThen (ih _ _ _ _)

theorem retryFailed_grows (o : Operator) (env : Oracles) (i : Nat) (l : Loop) (c : Int)
    (t : String) (st : OpState) :
    Grows (Event.ofStep i) st (o.retryFailed env i l c t st).1 := by
  unfold Operator.retryFailed
  cases l.interval with
  | some iv => exact Grows.of_trace rfl
  | none => cases l.minInterval <;> cases l.maxInterval <;> exact Grows.of_trace rfl

theorem runLoop_grows (o : Operator) (env : Oracles) (i : Nat) (s : Step) (l : Loop)
    (st : OpState) : Grows (Event.ofStep i) st (o.runLoop env i s l st).1 := by
  have hb : Grows (Event.ofStep i) st (o.loopBody env i s l st).1 := by
    unfold Operator.loopBody
    cases env.evalCount l.Count st.store.toMap with
    | error e => exact Grows.none _ _
    | ok c =>
      simp only
      have h1 := loopIter_grows o env i s l c (c.toNat + 1) 0 (l.Until == "") "" st
      cases hr : o.loopIter env i s l c (c.toNat + 1) 0 (l.Until == "") "" st with
      | mk st1 ex =>
        rw [hr] at h1
        cases ex with
        | ret out => exact h1
        | done b t =>
          cases b with
          | true => exact h1
          | false => exact h1.andThen (retryFailed_grows o env i l c t st1)
  unfold Operator.runLoop
  exact hb.andThen (Grows.of_trace rfl)

/-- A step logs its `setCurrentIDs`, then only events of its own. -/
theorem runStep_grows (o : Operator) (env : Oracles) (i : Nat) (s : Step) (st : OpState) :
    Grows (Event.ofStep i) (st.log (Event.setCurrentIDs (o.ids ++ [s.key])))
      (o.runStep env i s st).1 := by
  have hbody : Grows (Event.ofStep i) (st.log (Event.setCurrentIDs (o.ids ++ [s.key])))
      (match s.loop with
        | some l => o.runLoop env i s l (st.log (Event.setCurrentIDs (o.ids ++ [s.key])))
        | none => o.stepFn env i s (st.log (Event.setCurrentIDs (o.ids ++ [s.key])))).1 := by
    cases s.loop with
    | some l => exact runLoop_grows o env i s l _
    | none => exact stepFn_grows o env i s _
  unfold Operator.runStep
  simp only
  by_cases hc : s.cond = ""
  · simp only [hc, if_true]; exact hbody
  · simp only [hc, if_false]
    cases env.evalCond s.cond
        { store := (st.log (Event.setCurrentIDs (o.ids ++ [s.key]))).store,
          included := some o.included, current := none } with
    | error e => exact Grows.none _ _
    | ok tf =>
      cases tf with
      | false => exact recordSt_grows o i _ none
      | true => exact hbody

/-! ## The log of a whole run -/

theorem ofStep_ofRun (i : Nat) (e : Event) (h : e.ofStep i = true) : e.ofRun = true := by
  cases e <;> simp_all [Event.ofStep, Event.ofRun]

theorem runStep_ofRun (o : Operator) (env : Oracles) (i : Nat) (s : Step) (st : OpState) :
    Grows Event.ofRun st (o.runStep env i s st).1 :=
  (Grows.event st (Event.setCurrentIDs (o.ids ++ [s.key])) rfl).andThen
    ((runStep_grows o env i s st).mono (ofStep_ofRun i))

theorem runSteps_ofRun (o : Operator) (env : Oracles) :
    ∀ (ss : List Step) (i : Nat) (st : OpState), Grows Event.ofRun st (o.runSteps env i ss st).1 := by
  intro ss
  induction ss with
  | nil => intro i st; exact Grows.none _ _
  | cons s ss ih =>
    intro i st
    have h1 := runStep_ofRun o env i s st
    simp only [Operator.runSteps]
    cases hr : o.runStep env i s st with
    | mk st1 out =>
      rw [hr] at h1
      cases out with
      | ok => exact h1.andThen (ih (i + 1) st1)
      | error m => exact h1
      | panic m => exact h1

theorem runFuncs_grows (p : Event → Bool) (ev : Nat → Option String → Event)
    (hev : ∀ i x, p (ev i x) = true) :
    ∀ (fs : List (Store → Option String)) (i : Nat) (st : OpState),
      Grows p st (runFuncs ev i fs st).1 := by
  intro fs
  induction fs with
  | nil => intro i st; exact Grows.none _ _
  | cons f fs ih =>
    intro i st
    simp only [runFuncs]
    cases f st.store with
    | some m => exact Grows.event st _ (hev i _)
    | none => exact (Grows.event st _ (hev i none)).andThen (ih (i + 1) _)

theorem runGuarded_ofRun (o : Operator) (env : Oracles) (st : OpState) :
    Grows Event.ofRun st (o.runGuarded env st).1 := by
  have h1 := runFuncs_grows Event.ofRun Event.beforeFunc (fun _ _ => rfl) o.beforeFuncs 0 st
  unfold Operator.runGuarded
  cases hb : runFuncs Event.beforeFunc 0 o.beforeFuncs st with
  | mk st1 out =>
    rw [hb] at h1
    cases out with
    | error m => exact h1
    | panic m => exact h1
    | ok =>
      simp only
      have h2 := h1.andThen (runSteps_ofRun o env o.steps 0 st1)
      cases hs : o.runSteps env 0 o.steps st1 with
      | mk st2 out2 =>
        rw [hs] at h2
        cases out2 with
        | error m => exact h2
        | panic m => exact h2
        | ok =>
          exact h2.andThen
            (runFuncs_grows Event.ofRun Event.afterFunc (fun _ _ => rfl) o.afterFuncs 0 st2)

theorem runInternal_ofRun (o : Operator) (env : Oracles) (st : OpState) :
    Grows Event.ofRun st (o.runInternal env st).1 := by
  unfold Operator.runInternal
  by_cases hc : o.cond = ""
  · simp only [hc, if_true]; exact runGuarded_ofRun o env st
  · simp only [hc, if_false]
    cases env.evalCond o.cond { store := st.store, included := some o.included, current := none } with
    | error e => exact Grows.none _ _
    | ok tf =>
      cases tf with
      | false => exact Grows.of_trace rfl
      | true => exact runGuarded_ofRun o env st

theorem run_ofRun (o : Operator) (env : Oracles) (st : OpState) :
    Grows Event.ofRun st (o.run env st).1 := by
  have h := runInternal_ofRun o env st
  unfold Operator.run
  cases hr : o.runInternal env st with
  | mk st1 out =>
    rw [hr] at h
    cases out <;> exact h

/-- The log of `o.run` entered after `captureStart`. -/
theorem run_body (o : Operator) (env : Oracles) (st : OpState) :
    ∃ body, (o.run env (st.log Event.captureStart)).1.trace =
        st.trace ++ Event.captureStart :: body ∧ ∀ e ∈ body, e.ofRun = true := by
  obtain ⟨body, ht, hp⟩ := run_ofRun o env (st.log Event.captureStart)
  refine ⟨body, ?_, hp⟩
  rw [ht]
  simp [OpState.log]

/-! ## The passes of the RunN loop -/

theorem runNFrom_cons (env : Oracles) (o : Operator) (st : OpState)
    (rest : List (Operator × OpState)) (res : RunNResult)
    (h : aborts env (o, st) = false) (hp : panics env (o, st) = false) :
    runNFrom env ((o, st) :: rest) res =
      (o.passState env st :: (runNFrom env rest (tallyPass env res (o, st))).1,
        (runNFrom env rest (tallyPass env res (o, st))).2) := by
  unfold aborts panics Operator.passOut at *
  simp only [runNFrom, Operator.passState, tallyPass]
  cases hr : o.run env (st.log Event.captureStart) with
  | mk st1 out =>
    rw [hr] at h hp
    cases out with
    | ok => by_cases hs : st1.skipped = true <;> simp [hs]
    | error e =>
      simp only [Bool.and_true, Bool.and_eq_false_imp] at h
      have hf : o.failFast = false := by simpa using h
      simp [hf]
    | panic m => simp at hp

theorem runNFrom_abort (env : Oracles) (o : Operator) (st : OpState)
    (rest : List (Operator × OpState)) (res : RunNResult) (e : String)
    (hf : o.failFast = true) (he : o.passOut env st = .error e) :
    runNFrom env ((o, st) :: rest) res =
      ([o.passState env st], tallyPass env res (o, st), .error e) := by
  unfold Operator.passOut at he
  simp only [runNFrom, Operator.passState, tallyPass]
  cases hr : o.run env (st.log Event.captureStart) with
  | mk st1 out =>
    rw [hr] at he
    simp only at he
    subst he
    simp [hf]

theorem runNFrom_panic (env : Oracles) (o : Operator) (st : OpState)
    (rest : List (Operator × OpState)) (res : RunNResult) (m : String)
    (he : o.passOut env st = .panic m) :
    runNFrom env ((o, st) :: rest) res = ([o.passState env st], res, .panic m) := by
  unfold Operator.passOut at he
  simp only [runNFrom, Operator.passState]
  cases hr : o.run env (st.log Event.captureStart) with
  | mk st1 out =>
    rw [hr] at he
    simp only at he
    subst he
    rfl

theorem runNFrom_append (env : Oracles) :
    ∀ (pre rest : List (Operator × OpState)) (res : RunNResult),
      (∀ p ∈ pre, aborts env p = false ∧ panics env p = false) →
      runNFrom env (pre ++ rest) res =
        (pre.map (fun p => p.1.passState env p.2) ++
            (runNFrom env rest (pre.foldl (tallyPass env) res)).1,
          (runNFrom env rest (pre.foldl (tallyPass env) res)).2) := by
  intro pre
  induction pre with
  | nil => intro rest res _; rfl
  | cons p pre ih =>
    intro rest res h
    obtain ⟨o, st⟩ := p
    have hp := h (o, st) (List.mem_cons_self _ _)
    rw [List.cons_append, runNFrom_cons env o st _ res hp.1 hp.2,
      ih rest _ (fun q hq => h q (List.mem_cons_of_mem _ hq))]
    rfl

theorem runNFrom_tally (env : Oracles) :
    ∀ (ops : List (Operator × OpState)) (res : RunNResult),
      (runNFrom env ops res).2.1.Total = res.Total ∧
      (runNFrom env ops res).1.length ≤ ops.length ∧
      ((∀ m, (runNFrom env ops res).2.2 ≠ .panic m) →
        (runNFrom env ops res).2.1.Success + (runNFrom env ops res).2.1.Failed +
            (runNFrom env ops res).2.1.Skipped =
          res.Success + res.Failed + res.Skipped + ((runNFrom env ops res).1.length : Int)) ∧
      ((runNFrom env ops res).2.2 = .ok → (runNFrom env ops res).1.length = ops.length) := by
  intro ops
  induction ops with
  | nil => intro res; simp [runNFrom]
  | cons p ops ih =>
    intro res
    obtain ⟨o, st⟩ := p
    simp only [runNFrom]
    cases hr : o.run env (st.log Event.captureStart) with
    | mk st1 out =>
      cases out with
      | panic m => simp
      | error e =>
        simp only
        by_cases hf : o.failFast = true
        · simp only [hf, if_true]
          refine ⟨trivial, by simp, fun _ => ?_, fun h => by simp at h⟩
          simp only [List.length_singleton, Nat.cast_one]
          omega
        · simp only [hf, Bool.false_eq_true, if_false]
          obtain ⟨h1, h2, h3, h4⟩ := ih { res with Failed := res.Failed + 1 }
          refine ⟨h1, by simpa using h2, fun hnp => ?_, fun hok => ?_⟩
          · have := h3 hnp
            simp only [List.length_cons, Nat.cast_add, Nat.cast_one] at this ⊢
            omega
          · simpa using h4 hok
      | ok =>
        simp only
        by_cases hs : st1.skipped = true
        · simp only [hs, if_true]
          obtain ⟨h1, h2, h3, h4⟩ := ih { res with Skipped := res.Skipped + 1 }
          refine ⟨h1, by simpa using h2, fun hnp => ?_, fun hok => ?_⟩
          · have := h3 hnp
            simp only [List.length_cons, Nat.cast_add, Nat.cast_one] at this ⊢
            omega
          · simpa using h4 hok
        · simp only [hs, Bool.false_eq_true, if_false]
          obtain ⟨h1, h2, h3, h4⟩ := ih { res with Success := res.Success + 1 }
          refine ⟨h1, by simpa using h2, fun hnp => ?_, fun hok => ?_⟩
          · have := h3 hnp
            simp only [List.length_cons, Nat.cast_add, Nat.cast_one] at this ⊢
            omega
          · simpa using h4 hok

theorem runNFrom_states (env : Oracles) :
    ∀ (ops : List (Operator × OpState)) (res : RunNResult),
      (runNFrom env ops res).1 =
        (ops.take (runNFrom env ops res).1.length).map (fun p => p.1.passState env p.2) := by
  intro ops
  induction ops with
  | nil => intro res; simp [runNFrom]
  | cons p ops ih =>
    intro res
    obtain ⟨o, st⟩ := p
    cases hout : o.passOut env st with
    | panic m => rw [runNFrom_panic env o st ops res m hout]; simp
    | error e =>
      by_cases hf : o.failFast = true
      · rw [runNFrom_abort env o st ops res e hf hout]; simp
      · have ha : aborts env (o, st) = false := by simp [aborts, hf]
        have hp : panics env (o, st) = false := by simp [panics, hout]
        rw [runNFrom_cons env o st ops res ha hp]
        simp only [List.length_cons, List.take_succ_cons, List.map_cons]
        rw [← ih]
    | ok =>
      have ha : aborts env (o, st) = false := by simp [aborts, hout]
      have hp : panics env (o, st) = false := by simp [panics, hout]
      rw [runNFrom_cons env o st ops res ha hp]
      simp only [List.length_cons, List.take_succ_cons, List.map_cons]
      rw [← ih]

theorem runNFrom_ok_iff (env : Oracles) :
    ∀ (ops : List (Operator × OpState)) (res : RunNResult),
      (∀ p ∈ ops, panics env p = false) →
      ((runNFrom env ops res).2.2 = .ok ↔ ∀ p ∈ ops, aborts env p = false) := by
  intro ops
  induction ops with
  | nil => intro res _; simp [runNFrom]
  | cons p ops ih =>
    intro res hnp
    obtain ⟨o, st⟩ := p
    have hp := hnp (o, st) (List.mem_cons_self _ _)
    by_cases ha : aborts env (o, st) = true
    · have ha2 := ha
      unfold aborts at ha2
      simp only [Bool.and_eq_true] at ha2
      cases hout : o.passOut env st with
      | ok => simp [hout] at ha2
      | panic m => simp [hout] at ha2
      | error e =>
        rw [runNFrom_abort env o st ops res e ha2.1 hout]
        constructor
        · intro h; simp at h
        · intro h
          have := h (o, st) (List.mem_cons_self _ _)
          rw [ha] at this
          simp at this
    · have ha1 : aborts env (o, st) = false := by simpa using ha
      rw [runNFrom_cons env o st ops res ha1 hp]
      simp only
      rw [ih _ (fun q hq => hnp q (List.mem_cons_of_mem _ hq))]
      constructor
      · intro h q hq
        rcases List.mem_cons.mp hq with rfl | hq
        · exact ha1
        · exact h q hq
      · intro h q hq
        exact h q (List.mem_cons_of_mem _ hq)

theorem RunN_started (env : Oracles) (ops : List (Operator × OpState)) (k : Nat) (o : Operator)
    (st : OpState) (hk : ops[k]? = some (o, st))
    (hs : k < (runNFrom env ops (clearResult ops)).1.length) :
    (RunN env ops).1[k]? = some ((o.passState env st).log Event.close) := by
  have h1 := runNFrom_states env ops (clearResult ops)
  have h2 : (runNFrom env ops (clearResult ops)).1[k]? = some (o.passState env st) := by
    rw [h1, List.getElem?_map, List.getElem?_take_of_lt hs, hk]
    rfl
  unfold RunN
  simp only [List.getElem?_map, List.getElem?_append_left hs, h2]
  rfl

theorem passState_trace (o : Operator) (env : Oracles) (st : OpState) (body : List Event)
    (hb : (o.run env (st.log Event.captureStart)).1.trace =
      st.trace ++ Event.captureStart :: body) :
    (∀ e, o.passOut env st = .error e →
      (o.passState env st).trace =
        st.trace ++ Event.captureStart :: (body ++ [Event.captureFailed e, Event.captureEnd])) ∧
    (o.passOut env st = .ok → Operator.Skipped (o.passState env st) = true →
      (o.passState env st).trace =
        st.trace ++ Event.captureStart :: (body ++ [Event.captureSkipped, Event.captureEnd])) ∧
    (o.passOut env st = .ok → Operator.Skipped (o.passState env st) = false →
      (o.passState env st).trace =
        st.trace ++ Event.captureStart :: (body ++ [Event.captureSuccess, Event.captureEnd])) := by
  unfold Operator.passOut Operator.passState Operator.Skipped
  cases hr : o.run env (st.log Event.captureStart) with
  | mk st1 out =>
    rw [hr] at hb
    simp only at hb
    cases out with
    | panic m => simp
    | error e => simp [OpState.log, hb]
    | ok =>
      by_cases hs : st1.skipped = true
      · simp [OpState.log, hb, hs]
      · simp [OpState.log, hb, hs]

theorem Run_trace (o : Operator) (env : Oracles) (st : OpState) (body : List Event)
    (hb : (o.run env (st.log Event.captureStart)).1.trace =
      st.trace ++ Event.captureStart :: body) :
    (∀ e, (o.Run env st).2 = .error e →
      (o.Run env st).1.trace = st.trace ++
        Event.captureStart :: (body ++ [Event.captureFailed e, Event.close, Event.captureEnd])) ∧
    ((o.Run env st).2 = .ok → Operator.Skipped (o.Run env st).1 = true →
      (o.Run env st).1.trace = st.trace ++
        Event.captureStart :: (body ++ [Event.captureSkipped, Event.close, Event.captureEnd])) ∧
    ((o.Run env st).2 = .ok → Operator.Skipped (o.Run env st).1 = false →
      (o.Run env st).1.trace = st.trace ++
        Event.captureStart :: (body ++ [Event.captureSuccess, Event.close, Event.captureEnd])) := by
  unfold Operator.Run Operator.Skipped
  cases hr : o.run env (st.log Event.captureStart) with
  | mk st1 out =>
    rw [hr] at hb
    simp only at hb
    cases out with
    | panic m => simp
    | error e => simp [OpState.log, hb]
    | ok =>
      by_cases hs : st1.skipped = true
      · simp [OpState.log, hb, hs]
      · simp [OpState.log, hb, hs]

/-! ## The life cycle reported to the captures -/

/-- C16: every `Run` call that returns, and every operator that `RunN` runs
(the one that ends the batch by `failFast` included), reports `captureStart`
first, then events of the run itself (`body`, no life-cycle capture among
them), then exactly one outcome, then `captureEnd`: `captureFailed` when the
run returned an error, `captureSkipped` when it returned nil with `Skipped()`
true, `captureSuccess` otherwise. In `Run` the deferred `Close` comes before
`captureEnd`, in `RunN` the operators are closed when the batch returns. -/
theorem capture_lifecycle (o : Operator) (env : Oracles) (st : OpState) :
    ∃ body, (∀ e ∈ body, e.ofRun = true) ∧
      (∀ e, (o.Run env st).2 = .error e →
        (o.Run env st).1.trace = st.trace ++
          Event.captureStart :: (body ++ [Event.captureFailed e, Event.close, Event.captureEnd])) ∧
      ((o.Run env st).2 = .ok → Operator.Skipped (o.Run env st).1 = true →
        (o.Run env st).1.trace = st.trace ++
          Event.captureStart :: (body ++ [Event.captureSkipped, Event.close, Event.captureEnd])) ∧
      ((o.Run env st).2 = .ok → Operator.Skipped (o.Run env st).1 = false →
        (o.Run env st).1.trace = st.trace ++
          Event.captureStart :: (body ++ [Event.captureSuccess, Event.close, Event.captureEnd])) ∧
      (∀ (ops : List (Operator × OpState)) (k : Nat), ops[k]? = some (o, st) →
        k < (runNFrom env ops (clearResult ops)).1.length →
        ∃ fin, (RunN env ops).1[k]? = some fin ∧
          (∀ e, o.passOut env st = .error e →
            fin.trace = st.trace ++ Event.captureStart ::
              (body ++ [Event.captureFailed e, Event.captureEnd, Event.close])) ∧
          (o.passOut env st = .ok → Operator.Skipped fin = true →
            fin.trace = st.trace ++ Event.captureStart ::
              (body ++ [Event.captureSkipped, Event.captureEnd, Event.close])) ∧
          (o.passOut env st = .ok → Operator.Skipped fin = false →
            fin.trace = st.trace ++ Event.captureStart ::
              (body ++ [Event.captureSuccess, Event.captureEnd, Event.close]))) := by
  obtain ⟨body, hb, hp⟩ := run_body o env st
  obtain ⟨r1, r2, r3⟩ := Run_trace o env st body hb
  refine ⟨body, hp, r1, r2, r3, ?_⟩
  intro ops k hk hs
  obtain ⟨p1, p2, p3⟩ := passState_trace o env st body hb
  refine ⟨_, RunN_started env ops k o st hk hs, ?_, ?_, ?_⟩
  · intro e he
    simp [OpState.log, p1 e he]
  · intro h1 h2
    simp [OpState.log, p2 h1 h2]
  · intro h1 h2
    simp [OpState.log, p3 h1 h2]

/-- An evaluation for C16: the life-cycle captures of the third runbook of the
batch, which ends the batch by `failFast`, and of a skipped `Run`. -/
theorem capture_lifecycle_example :
    ((RunN exEnv exBatch).1.map (fun s => s.trace.filter Event.lifecycle))[2]? =
        some [Event.captureStart,
          Event.captureFailed "failed to run op: invalid runner: \x27ping\x27.steps[0]", Event.captureEnd] ∧
      ((exSkippedOp.Run exEnv (OpState.init exSkippedOp)).1.trace.filter Event.lifecycle) =
        [Event.captureStart, Event.captureSkipped, Event.captureEnd] :=
  ⟨rfl, rfl⟩

/-! ## The tallies and the failFast abort of RunN -/

/-- C14 (amended): `RunN` leaves `Total = len(ops)`. When it returns nil,
`Total = Success + Failed + Skipped`. When it returns an error (a failing
operator with `failFast`), `Success + Failed + Skipped` is the number of
operators run so far, which is at most `Total`. -/
theorem RunN_tally (env : Oracles) (ops : List (Operator × OpState)) :
    (RunN env ops).2.1.Total = (ops.length : Int) ∧
    ((RunN env ops).2.2 = .ok →
      (RunN env ops).2.1.Total =
        (RunN env ops).2.1.Success + (RunN env ops).2.1.Failed + (RunN env ops).2.1.Skipped) ∧
    (∀ e, (RunN env ops).2.2 = .error e →
      (RunN env ops).2.1.Success + (RunN env ops).2.1.Failed + (RunN env ops).2.1.Skipped =
          ((runNFrom env ops (clearResult ops)).1.length : Int) ∧
        (runNFrom env ops (clearResult ops)).1.length ≤ ops.length) := by
  obtain ⟨h1, h2, h3, h4⟩ := runNFrom_tally env ops (clearResult ops)
  unfold RunN
  simp only
  refine ⟨by rw [h1]; rfl, fun hok => ?_, fun e he => ⟨?_, h2⟩⟩
  · have h5 := h3 (by rw [hok]; intro m hm; cases hm)
    have h6 := h4 hok
    rw [h1, h5, h6]
    simp [clearResult]
  · have h5 := h3 (by rw [he]; intro m hm; cases hm)
    rw [h5]
    simp [clearResult]

/-- C14 as stated fails: in a batch of four whose third runbook fails with
`failFast`, `RunN` returns the error with `Total = 4` and
`Success + Failed + Skipped = 3`. -/
theorem RunN_tally_fail :
    (RunN exEnv exBatch).2 =
        ({ Total := 4, Success := 0, Failed := 2, Skipped := 1 },
          .error "failed to run op: invalid runner: \x27ping\x27.steps[0]") ∧
      (4 : Int) ≠ 0 + 2 + 1 :=
  ⟨rfl, by decide⟩

theorem tallyPass_error (env : Oracles) (res : RunNResult) (o : Operator) (st : OpState)
    (e : String) (he : o.passOut env st = .error e) :
    tallyPass env res (o, st) = { res with Failed := res.Failed + 1 } := by
  unfold Operator.passOut at he
  unfold tallyPass
  cases hr : o.run env (st.log Event.captureStart) with
  | mk st1 out =>
    rw [hr] at he
    simp only at he
    subst he
    rfl

theorem drop_length_succ {α : Type} (pre : List α) (x : α) (post : List α) :
    (pre ++ x :: post).drop (pre.length + 1) = post := by
  induction pre with
  | nil => rfl
  | cons a pre ih => simp [ih]

/-- C15: `RunN` runs the operators in list order, each from its own state.
With the operators of `pre` run without ending the batch: when the next
operator fails and has `failFast`, `RunN` returns its error, the failure is
tallied and the operators of `post` are not run (they are closed only); when it
fails without `failFast`, the failure is tallied, the loop goes on with `post`,
and `RunN` returns nil unless an operator of `post` fails with `failFast`. -/
theorem RunN_failFast (env : Oracles) (pre post : List (Operator × OpState)) (o : Operator)
    (st : OpState) (hpre : ∀ p ∈ pre, aborts env p = false ∧ panics env p = false) :
    (∀ e, o.passOut env st = .error e → o.failFast = true →
      RunN env (pre ++ (o, st) :: post) =
        ((pre.map (fun p => p.1.passState env p.2) ++
            o.passState env st :: post.map Prod.snd).map (fun s => s.log Event.close),
          { pre.foldl (tallyPass env) (clearResult (pre ++ (o, st) :: post)) with
            Failed := (pre.foldl (tallyPass env) (clearResult (pre ++ (o, st) :: post))).Failed + 1 },
          .error e)) ∧
    (∀ e, o.passOut env st = .error e → o.failFast = false →
      (runNFrom env (pre ++ (o, st) :: post) (clearResult (pre ++ (o, st) :: post))).1 =
          pre.map (fun p => p.1.passState env p.2) ++ o.passState env st ::
            (runNFrom env post
              { pre.foldl (tallyPass env) (clearResult (pre ++ (o, st) :: post)) with
                Failed :=
                  (pre.foldl (tallyPass env) (clearResult (pre ++ (o, st) :: post))).Failed + 1 }).1 ∧
        (RunN env (pre ++ (o, st) :: post)).2 =
          (runNFrom env post
              { pre.foldl (tallyPass env) (clearResult (pre ++ (o, st) :: post)) with
                Failed :=
                  (pre.foldl (tallyPass env) (clearResult (pre ++ (o, st) :: post))).Failed + 1 }).2 ∧
        ((∀ p ∈ post, panics env p = false) →
          ((RunN env (pre ++ (o, st) :: post)).2.2 = .ok ↔ ∀ p ∈ post, aborts env p = false))) := by
  constructor
  · intro e he hf
    unfold RunN
    rw [runNFrom_append env pre _ _ hpre, runNFrom_abort env o st post _ e hf he,
      tallyPass_error env _ o st e he]
    simp only [List.length_append, List.length_map, List.length_singleton, drop_length_succ]
    simp
  · intro e he hf
    have ha : aborts env (o, st) = false := by simp [aborts, hf]
    have hp : panics env (o, st) = false := by simp [panics, he]
    have h1 : runNFrom env (pre ++ (o, st) :: post) (clearResult (pre ++ (o, st) :: post)) =
        (pre.map (fun p => p.1.passState env p.2) ++ o.passState env st ::
            (runNFrom env post
              { pre.foldl (tallyPass env) (clearResult (pre ++ (o, st) :: post)) with
                Failed :=
                  (pre.foldl (tallyPass env) (clearResult (pre ++ (o, st) :: post))).Failed + 1 }).1,
          (runNFrom env post
              { pre.foldl (tallyPass env) (clearResult (pre ++ (o, st) :: post)) with
                Failed :=
                  (pre.foldl (tallyPass env) (clearResult (pre ++ (o, st) :: post))).Failed + 1 }).2) := by
      rw [runNFrom_append env pre _ _ hpre, runNFrom_cons env o st post _ ha hp,
        tallyPass_error env _ o st e he]
    have h2 : (RunN env (pre ++ (o, st) :: post)).2 =
        (runNFrom env (pre ++ (o, st) :: post) (clearResult (pre ++ (o, st) :: post))).2 := rfl
    refine ⟨by rw [h1], by rw [h2, h1], fun hnp => ?_⟩
    rw [h2, h1]
    exact runNFrom_ok_iff env post _ hnp

/-- Witness of C15: in the batch of four the first runbook fails without
`failFast` and the second is skipped, so the batch goes on; the third fails
with `failFast`, so `RunN` returns its error and the fourth is closed without
having been started. -/
theorem RunN_failFast_witness :
    (∀ p ∈ [(exLoose, OpState.init exLoose), (exSkippedOp, OpState.init exSkippedOp)],
        aborts exEnv p = false ∧ panics exEnv p = false) ∧
      (RunN exEnv exBatch).2.2 = .error "failed to run op: invalid runner: \x27ping\x27.steps[0]" ∧
      ((RunN exEnv exBatch).1.map OpState.trace)[3]? = some [Event.close] :=
  ⟨by decide,
    congrArg (fun r => r.2.2)
      ((RunN_failFast exEnv
        [(exLoose, OpState.init exLoose), (exSkippedOp, OpState.init exSkippedOp)]
        [(exPing, OpState.init exPing)] exStrict (OpState.init exStrict) (by decide)).1
        "failed to run op: invalid runner: \x27ping\x27.steps[0]" rfl rfl),
    rfl⟩

/-! ## The steps in declared order, the first error -/

theorem runSteps_first (o : Operator) (env : Oracles) (st0 : OpState) :
    ∀ (ss : List Step) (i : Nat), i ≤ o.steps.length → o.steps.drop i = ss →
      (∀ k, i ≤ k → k < o.steps.length →
        (∀ j, i ≤ j → j < k → o.stepOut env st0 j = .ok) → o.stepOut env st0 k ≠ .ok →
        o.runSteps env i ss (o.afterSteps env st0 i) =
          (o.afterSteps env st0 (k + 1), o.stepOut env st0 k)) ∧
      ((∀ j, i ≤ j → j < o.steps.length → o.stepOut env st0 j = .ok) →
        o.runSteps env i ss (o.afterSteps env st0 i) =
          (o.afterSteps env st0 o.steps.length, .ok)) := by
  intro ss
  induction ss with
  | nil =>
    intro i hi hd
    have hlen : o.steps.length ≤ i := List.drop_eq_nil_iff.mp hd
    have hil : i = o.steps.length := Nat.le_antisymm hi hlen
    refine ⟨fun k h1 h2 => by omega, fun _ => ?_⟩
    simp only [Operator.runSteps]
    rw [hil]
  | cons s ss ih =>
    intro i hi hd
    have hget : o.steps[i]? = some s := by
      have h : (o.steps.drop i)[0]? = o.steps[i]? := by simp
      rw [hd] at h
      simpa using h.symm
    have hlt : i < o.steps.length := by
      rcases Nat.lt_or_ge i o.steps.length with h | h
      · exact h
      · rw [List.getElem?_eq_none h] at hget; cases hget
    have hd1 : o.steps.drop (i + 1) = ss := by
      have h : (o.steps.drop i).tail = o.steps.drop (i + 1) := by simp
      rw [hd] at h
      simpa using h.symm
    have hsi : o.afterSteps env st0 (i + 1) = (o.runStep env i s (o.afterSteps env st0 i)).1 := by
      simp [Operator.afterSteps, hget]
    have hso : o.stepOut env st0 i = (o.runStep env i s (o.afterSteps env st0 i)).2 := by
      simp [Operator.stepOut, hget]
    obtain ⟨ihA, ihB⟩ := ih (i + 1) hlt hd1
    simp only [Operator.runSteps]
    cases hr : o.runStep env i s (o.afterSteps env st0 i) with
    | mk st1 out =>
      rw [hr] at hsi hso
      simp only at hsi hso
      cases out with
      | ok =>
        simp only
        rw [← hsi]
        constructor
        · intro k h1 h2 hprev hne
          have hki : k ≠ i := by
            intro h
            rw [h] at hne
            exact hne hso
          exact ihA k (by omega) h2 (fun j hj1 hj2 => hprev j (by omega) hj2) hne
        · intro hall
          exact ihB (fun j hj1 hj2 => hall j (by omega) hj2)
      | error m =>
        simp only
        constructor
        · intro k h1 h2 hprev hne
          by_cases hki : k = i
          · rw [hki, hsi, hso]
          · have := hprev i (Nat.le_refl _) (by omega)
            rw [hso] at this
            cases this
        · intro hall
          have := hall i (Nat.le_refl _) hlt
          rw [hso] at this
          cases this
      | panic m =>
        simp only
        constructor
        · intro k h1 h2 hprev hne
          by_cases hki : k = i
          · rw [hki, hsi, hso]
          · have := hprev i (Nat.le_refl _) (by omega)
            rw [hso] at this
            cases this
        · intro hall
          have := hall i (Nat.le_refl _) hlt
          rw [hso] at this
          cases this

theorem ofStep_reads (i : Nat) (e : Event) (h : e.ofStep i = true) :
    e.started = none ∧ e.after = none ∧ ∀ j, e.stepIndex = some j → j = i := by
  cases e <;> simp_all [Event.ofStep, Event.started, Event.after, Event.stepIndex]

theorem started_ofStep (i : Nat) (evs : List Event) (h : ∀ e ∈ evs, e.ofStep i = true) :
    started evs = [] ∧ afters evs = [] ∧ ∀ j ∈ stepIndexes evs, j = i := by
  refine ⟨?_, ?_, ?_⟩
  · exact List.filterMap_eq_nil_iff.mpr (fun e he => (ofStep_reads i e (h e he)).1)
  · exact List.filterMap_eq_nil_iff.mpr (fun e he => (ofStep_reads i e (h e he)).2.1)
  · intro j hj
    obtain ⟨e, he, hej⟩ := List.mem_filterMap.mp hj
    exact (ofStep_reads i e (h e he)).2.2 j hej

theorem pairwise_le_of_const (k : Nat) (l : List Nat) (h : ∀ j ∈ l, j = k) :
    l.Pairwise (fun a b => a ≤ b) := by
  induction l with
  | nil => exact List.Pairwise.nil
  | cons a l ih =>
    refine List.Pairwise.cons ?_ (ih (fun j hj => h j (List.mem_cons_of_mem _ hj)))
    intro b hb
    rw [h a (List.mem_cons_self _ _), h b (List.mem_cons_of_mem _ hb)]

theorem StepsLog.step (o : Operator) (k : Nat) (s : Step) (evs e2 : List Event)
    (hs : o.steps[k]? = some s) (h : StepsLog o k evs) (h2 : ∀ e ∈ e2, e.ofStep k = true) :
    StepsLog o (k + 1) (evs ++ Event.setCurrentIDs (o.ids ++ [s.key]) :: e2) := by
  obtain ⟨h1, h3, h4, h5⟩ := h
  obtain ⟨g1, g2, g3⟩ := started_ofStep k e2 h2
  unfold StepsLog
  simp only [started, afters, stepIndexes] at h1 h3 h4 h5 g1 g2 g3 ⊢
  refine ⟨?_, ?_, ?_, ?_⟩
  · rw [List.filterMap_append, List.filterMap_cons, h1, List.take_succ, hs]
    simp [Event.started, g1]
  · rw [List.filterMap_append, List.filterMap_cons, h3]
    simp [Event.after, g2]
  · rw [List.filterMap_append, List.filterMap_cons]
    simp only [Event.stepIndex]
    rw [List.pairwise_append]
    refine ⟨h4, pairwise_le_of_const k _ g3, ?_⟩
    intro a ha b hb
    have := h5 a ha
    have := g3 b hb
    omega
  · intro j hj
    rw [List.filterMap_append, List.filterMap_cons] at hj
    simp only [Event.stepIndex] at hj
    rcases List.mem_append.mp hj with hj | hj
    · have := h5 j hj; omega
    · have := g3 j hj; omega

theorem afterSteps_log (o : Operator) (env : Oracles) (st : OpState) :
    ∀ k, k ≤ o.steps.length →
      ∃ evs, (o.afterSteps env st k).trace = st.trace ++ evs ∧ StepsLog o k evs := by
  intro k
  induction k with
  | zero =>
    intro _
    exact ⟨[], by simp [Operator.afterSteps],
      by simp [StepsLog, started, afters, stepIndexes]⟩
  | succ k ih =>
    intro hk
    obtain ⟨evs, ht, hl⟩ := ih (by omega)
    have hlt : k < o.steps.length := by omega
    have hget : o.steps[k]? = some o.steps[k] := List.getElem?_eq_getElem hlt
    obtain ⟨e2, ht2, hp2⟩ := runStep_grows o env k o.steps[k] (o.afterSteps env st k)
    refine ⟨evs ++ Event.setCurrentIDs (o.ids ++ [o.steps[k].key]) :: e2, ?_,
      StepsLog.step o k _ evs e2 hget hl hp2⟩
    simp only [Operator.afterSteps, hget]
    rw [ht2]
    simp [OpState.log, ht]

theorem runFuncs_log (ev : Nat → Option String → Event) :
    ∀ (fs : List (Store → Option String)) (i : Nat) (st : OpState),
      ∃ errs : List (Option String),
        (runFuncs ev i fs st).1.trace =
          st.trace ++ (errs.enumFrom i).map (fun p => ev p.1 p.2) := by
  intro fs
  induction fs with
  | nil => intro i st; exact ⟨[], by simp [runFuncs]⟩
  | cons f fs ih =>
    intro i st
    simp only [runFuncs]
    cases f st.store with
    | some m => exact ⟨[some m], by simp [OpState.log]⟩
    | none =>
      obtain ⟨errs, h⟩ := ih (i + 1) (st.log (ev i none))
      refine ⟨none :: errs, ?_⟩
      rw [h]
      simp [OpState.log]

theorem beforeFunc_reads (l : List (Nat × Option String)) :
    started (l.map (fun p => Event.beforeFunc p.1 p.2)) = [] ∧
      afters (l.map (fun p => Event.beforeFunc p.1 p.2)) = [] ∧
      stepIndexes (l.map (fun p => Event.beforeFunc p.1 p.2)) = [] := by
  refine ⟨?_, ?_, ?_⟩ <;>
  · refine List.filterMap_eq_nil_iff.mpr (fun e he => ?_)
    obtain ⟨p, _, rfl⟩ := List.mem_map.mp he
    rfl

theorem afterFunc_reads (l : List (Nat × Option String)) :
    started (l.map (fun p => Event.afterFunc p.1 p.2)) = [] ∧
      afters (l.map (fun p => Event.afterFunc p.1 p.2)) = l ∧
      stepIndexes (l.map (fun p => Event.afterFunc p.1 p.2)) = [] := by
  refine ⟨?_, ?_, ?_⟩
  · refine List.filterMap_eq_nil_iff.mpr (fun e he => ?_)
    obtain ⟨p, _, rfl⟩ := List.mem_map.mp he
    rfl
  · induction l with
    | nil => rfl
    | cons p l ih =>
      simp only [afters] at ih ⊢
      simp [List.filterMap_cons, Event.after, ih]
  · refine List.filterMap_eq_nil_iff.mpr (fun e he => ?_)
    obtain ⟨p, _, rfl⟩ := List.mem_map.mp he
    rfl

theorem StepsLog.before (o : Operator) (k : Nat) (bevs evs : List Event)
    (hb : started bevs = [] ∧ afters bevs = [] ∧ stepIndexes bevs = [])
    (h : StepsLog o k evs) : StepsLog o k (bevs ++ evs) := by
  obtain ⟨b1, b2, b3⟩ := hb
  obtain ⟨h1, h2, h3, h4⟩ := h
  unfold StepsLog
  simp only [started, afters, stepIndexes] at b1 b2 b3 h1 h2 h3 h4 ⊢
  simp only [List.filterMap_append, b1, b2, b3, List.nil_append]
  exact ⟨h1, h2, h3, h4⟩

theorem runInternal_open (o : Operator) (env : Oracles) (st : OpState)
    (hopen : o.cond = "" ∨
      env.evalCond o.cond { store := st.store, included := some o.included, current := none } =
        .ok true) :
    o.runInternal env st = o.runGuarded env st := by
  unfold Operator.runInternal
  by_cases hc : o.cond = ""
  · simp [hc]
  · rcases hopen with h | h
    · exact absurd h hc
    · simp [hc, h]

theorem runGuarded_cases (o : Operator) (env : Oracles) (st : OpState)
    (hb : (runFuncs Event.beforeFunc 0 o.beforeFuncs st).2 = .ok) :
    (∃ k, k < o.steps.length ∧ (∀ j < k, o.stepOut env (o.entry st) j = .ok) ∧
        o.stepOut env (o.entry st) k ≠ .ok ∧
        o.runGuarded env st =
          (o.afterSteps env (o.entry st) (k + 1), o.stepOut env (o.entry st) k)) ∨
      ((∀ j < o.steps.length, o.stepOut env (o.entry st) j = .ok) ∧
        o.runGuarded env st =
          runFuncs Event.afterFunc 0 o.afterFuncs
            (o.afterSteps env (o.entry st) o.steps.length)) := by
  obtain ⟨hA, hB⟩ := runSteps_first o env (o.entry st) o.steps 0 (Nat.zero_le _) rfl
  have h0 : o.afterSteps env (o.entry st) 0 = o.entry st := rfl
  rw [h0] at hA hB
  have hg : ∀ r, o.runSteps env 0 o.steps (o.entry st) = r →
      o.runGuarded env st =
        match r with
        | (st2, .error m) => (st2, .error m)
        | (st2, .panic m) => (st2, .panic m)
        | (st2, .ok) => runFuncs Event.afterFunc 0 o.afterFuncs st2 := by
    intro r hr
    unfold Operator.runGuarded
    unfold Operator.entry at hr
    cases hrb : runFuncs Event.beforeFunc 0 o.beforeFuncs st with
    | mk a b =>
      rw [hrb] at hb hr
      simp only at hb hr
      subst hb
      simp only
      rw [hr]
  by_cases hall : ∀ j < o.steps.length, o.stepOut env (o.entry st) j = .ok
  · right
    refine ⟨hall, ?_⟩
    rw [hg _ (hB (fun j _ hj => hall j hj))]
  · left
    classical
    have hex : ∃ k, k < o.steps.length ∧ o.stepOut env (o.entry st) k ≠ .ok := by
      by_contra hne
      apply hall
      intro j hj
      by_contra hj2
      exact hne ⟨j, hj, hj2⟩
    have hspec := Nat.find_spec hex
    have hmin : ∀ j < Nat.find hex, o.stepOut env (o.entry st) j = .ok := by
      intro j hj
      by_contra hj2
      exact Nat.find_min hex hj ⟨by omega, hj2⟩
    refine ⟨Nat.find hex, hspec.1, hmin, hspec.2, ?_⟩
    have hr := hA (Nat.find hex) (Nat.zero_le _) hspec.1 (fun j _ hj => hmin j hj) hspec.2
    rw [hg _ hr]
    cases hso : o.stepOut env (o.entry st) (Nat.find hex) with
    | ok => exact absurd hso hspec.2
    | error m => rfl
    | panic m => rfl

theorem entry_log (o : Operator) (st : OpState) :
    ∃ bevs, (o.entry st).trace = st.trace ++ bevs ∧
      (started bevs = [] ∧ afters bevs = [] ∧ stepIndexes bevs = []) := by
  obtain ⟨errs, h⟩ := runFuncs_log Event.beforeFunc o.beforeFuncs 0 st
  exact ⟨_, h, beforeFunc_reads _⟩

/-- What `runInternal` does once it enters the loop over the steps: it stops
after the first step that does not return nil, or runs all the steps and then
the `afterFuncs`. -/
theorem runInternal_steps (o : Operator) (env : Oracles) (st : OpState)
    (hopen : o.cond = "" ∨
      env.evalCond o.cond { store := st.store, included := some o.included, current := none } =
        .ok true)
    (hb : (runFuncs Event.beforeFunc 0 o.beforeFuncs st).2 = .ok) :
    (∃ k, k < o.steps.length ∧ (∀ j < k, o.stepOut env (o.entry st) j = .ok) ∧
        o.stepOut env (o.entry st) k ≠ .ok ∧
        o.runInternal env st =
          (o.afterSteps env (o.entry st) (k + 1), o.stepOut env (o.entry st) k) ∧
        StepsLog o (k + 1) (newEvents st (o.runInternal env st).1)) ∨
      ((∀ j < o.steps.length, o.stepOut env (o.entry st) j = .ok) ∧
        o.runInternal env st =
          runFuncs Event.afterFunc 0 o.afterFuncs
            (o.afterSteps env (o.entry st) o.steps.length) ∧
        ∃ evs errs, StepsLog o o.steps.length evs ∧
          newEvents st (o.runInternal env st).1 =
            evs ++ (List.enumFrom 0 errs).map (fun p => Event.afterFunc p.1 p.2)) := by
  rw [runInternal_open o env st hopen]
  obtain ⟨bevs, hbt, hbr⟩ := entry_log o st
  rcases runGuarded_cases o env st hb with ⟨k, hk, hprev, hne, hrun⟩ | ⟨hall, hrun⟩
  · left
    refine ⟨k, hk, hprev, hne, hrun, ?_⟩
    obtain ⟨evs, ht, hl⟩ := afterSteps_log o env (o.entry st) (k + 1) (by omega)
    rw [hrun]
    simp only
    rw [newEvents_append st _ (bevs ++ evs) (by rw [ht, hbt, List.append_assoc])]
    exact StepsLog.before o _ bevs evs hbr hl
  · right
    refine ⟨hall, hrun, ?_⟩
    obtain ⟨evs, ht, hl⟩ := afterSteps_log o env (o.entry st) o.steps.length (Nat.le_refl _)
    obtain ⟨errs, ha⟩ := runFuncs_log Event.afterFunc o.afterFuncs 0
      (o.afterSteps env (o.entry st) o.steps.length)
    refine ⟨bevs ++ evs, errs, StepsLog.before o _ bevs evs hbr hl, ?_⟩
    rw [hrun]
    exact newEvents_append st _ _ (by rw [ha, ht, hbt]; simp)

/-- C17: once `runInternal` enters the loop over the steps, the steps run in
declared order (the started steps are a prefix of `o.steps`, in order, and the
body executions and runner and hook calls come in the order of their steps).
If step `k` is the first to return an error, `runInternal` returns exactly
that error in the state step `k` left, the steps started are those up to `k`,
and no `afterFuncs` entry is called. The `afterFuncs` entries are called in
index order, and only when every step returned nil. -/
theorem runInternal_first_error (o : Operator) (env : Oracles) (st : OpState)
    (hopen : o.cond = "" ∨
      env.evalCond o.cond { store := st.store, included := some o.included, current := none } =
        .ok true)
    (hb : (runFuncs Event.beforeFunc 0 o.beforeFuncs st).2 = .ok) :
    (stepIndexes (newEvents st (o.runInternal env st).1)).Pairwise (fun a b => a ≤ b) ∧
    (∃ k, k ≤ o.steps.length ∧
      started (newEvents st (o.runInternal env st).1) =
        (o.steps.take k).map (fun s => o.ids ++ [s.key])) ∧
    (∀ k e, k < o.steps.length → (∀ j < k, o.stepOut env (o.entry st) j = .ok) →
      o.stepOut env (o.entry st) k = .error e →
      o.runInternal env st = (o.afterSteps env (o.entry st) (k + 1), .error e) ∧
        started (newEvents st (o.runInternal env st).1) =
          (o.steps.take (k + 1)).map (fun s => o.ids ++ [s.key]) ∧
        afters (newEvents st (o.runInternal env st).1) = []) ∧
    (afters (newEvents st (o.runInternal env st).1)).map Prod.fst =
      List.range (afters (newEvents st (o.runInternal env st).1)).length ∧
    (afters (newEvents st (o.runInternal env st).1) ≠ [] →
      ∀ j < o.steps.length, o.stepOut env (o.entry st) j = .ok) ∧
    ((∀ j < o.steps.length, o.stepOut env (o.entry st) j = .ok) →
      o.runInternal env st =
          runFuncs Event.afterFunc 0 o.afterFuncs
            (o.afterSteps env (o.entry st) o.steps.length) ∧
        started (newEvents st (o.runInternal env st).1) =
          o.steps.map (fun s => o.ids ++ [s.key])) := by
  rcases runInternal_steps o env st hopen hb with
    ⟨k, hk, hprev, hne, hrun, hl⟩ | ⟨hall, hrun, evs, errs, hl, hev⟩
  · obtain ⟨l1, l2, l3, l4⟩ := hl
    refine ⟨l3, ⟨k + 1, hk, l1⟩, ?_, by rw [l2]; rfl, fun h => absurd l2 h, ?_⟩
    · intro k2 e hk2 hprev2 herr
      have hkk : k2 = k := by
        rcases Nat.lt_trichotomy k2 k with h | h | h
        · have := hprev k2 h
          rw [herr] at this
          cases this
        · exact h
        · exact absurd (hprev2 k h) hne
      subst hkk
      rw [herr] at hrun
      exact ⟨hrun, l1, l2⟩
    · intro hall
      exact absurd (hall k hk) hne
  · obtain ⟨l1, l2, l3, l4⟩ := hl
    obtain ⟨a1, a2, a3⟩ := afterFunc_reads (List.enumFrom 0 errs)
    have hst : started (newEvents st (o.runInternal env st).1) =
        o.steps.map (fun s => o.ids ++ [s.key]) := by
      rw [hev]
      simp only [started] at l1 a1 ⊢
      rw [List.filterMap_append, l1, a1, List.take_length, List.append_nil]
    have haf : afters (newEvents st (o.runInternal env st).1) = List.enumFrom 0 errs := by
      rw [hev]
      simp only [afters] at l2 a2 ⊢
      rw [List.filterMap_append, l2, a2, List.nil_append]
    have hix : stepIndexes (newEvents st (o.runInternal env st).1) = stepIndexes evs := by
      rw [hev]
      simp only [stepIndexes] at a3 ⊢
      rw [List.filterMap_append, a3, List.append_nil]
    refine ⟨by rw [hix]; exact l3, ⟨o.steps.length, Nat.le_refl _, ?_⟩, ?_, ?_,
      fun _ => hall, fun _ => ⟨hrun, hst⟩⟩
    · rw [hst, List.take_length]
    · intro k e hk _ herr
      have := hall k hk
      rw [herr] at this
      cases this
    · rw [haf, List.enumFrom_map_fst, List.enumFrom_length, List.range_eq_range']

/-- Witness of C17: in a runbook of three steps whose second step fails,
`runInternal` returns the error of the second step, the first two steps are
started, in order, and the afterFunc is not called. -/
theorem runInternal_first_error_witness :
    (exBroken.cond = "" ∨
        exEnv.evalCond exBroken.cond
          { store := (OpState.init exBroken).store, included := some exBroken.included,
            current := none } = .ok true) ∧
      (runFuncs Event.beforeFunc 0 exBroken.beforeFuncs (OpState.init exBroken)).2 = .ok ∧
      (exBroken.runInternal exEnv (OpState.init exBroken)).2 =
        .error "invalid runner: \x27ping\x27.steps[1]" ∧
      started (newEvents (OpState.init exBroken)
          (exBroken.runInternal exEnv (OpState.init exBroken)).1) = [["op", "0"], ["op", "1"]] ∧
      afters (newEvents (OpState.init exBroken)
          (exBroken.runInternal exEnv (OpState.init exBroken)).1) = [] :=
  ⟨Or.inl rfl, rfl,
    congrArg Prod.snd
      ((runInternal_first_error exBroken exEnv (OpState.init exBroken) (Or.inl rfl) rfl).2.2.1
        1 "invalid runner: \x27ping\x27.steps[1]" (by decide) (by decide) rfl).1,
    ((runInternal_first_error exBroken exEnv (OpState.init exBroken) (Or.inl rfl) rfl).2.2.1
        1 "invalid runner: \x27ping\x27.steps[1]" (by decide) (by decide) rfl).2.1,
    ((runInternal_first_error exBroken exEnv (OpState.init exBroken) (Or.inl rfl) rfl).2.2.1
        1 "invalid runner: \x27ping\x27.steps[1]" (by decide) (by decide) rfl).2.2⟩

/-! ## AppendStep, section by section -/

theorem get_delete_ne (s : StepMap) (k k2 : String) (h : k ≠ k2) :
    (s.delete k2).get k = s.get k := by
  induction s with
  | nil => rfl
  | cons p s ih =>
    obtain ⟨k1, v⟩ := p
    unfold StepMap.delete at ih ⊢
    by_cases h1 : k1 = k2
    · subst h1
      have : k1 ≠ k := fun hh => h hh.symm
      simp [StepMap.get, this, ih]
    · by_cases h2 : k1 = k
      · subst h2
        simp [StepMap.get, h1]
      · simp [StepMap.get, h1, h2, ih]

theorem get_append (s extra : StepMap) (k : String) (h : extra.get k = none) :
    (s ++ extra).get k = s.get k := by
  induction s with
  | nil => simpa using h
  | cons p s ih =>
    obtain ⟨k1, v⟩ := p
    by_cases h1 : k1 = k
    · simp [StepMap.get, h1]
    · simp [StepMap.get, h1, ih]

theorem get_none_of_keys (extra : StepMap) (k : String) (h : ∀ p ∈ extra, p.1 ≠ k) :
    extra.get k = none := by
  induction extra with
  | nil => rfl
  | cons p extra ih =>
    obtain ⟨k1, v⟩ := p
    have h1 : k1 ≠ k := h (k1, v) (List.mem_cons_self _ _)
    simp only [StepMap.get, h1, if_false]
    exact ih (fun q hq => h q (List.mem_cons_of_mem _ hq))

theorem delete_append (s extra : StepMap) (k : String) (h : ∀ p ∈ extra, p.1 ≠ k) :
    (s ++ extra).delete k = s.delete k ++ extra := by
  unfold StepMap.delete
  rw [List.filter_append]
  congr 1
  exact List.filter_eq_self.mpr (fun p hp => by simpa using h p hp)

theorem sectionIfDesc_eq (b : Builders) (step : Step) (s : StepMap) :
    sectionIfDesc b step s =
      runBlocks [(ifSectionKey, setIf b), (descSectionKey, setDesc b)] (step, s) := by
  unfold sectionIfDesc
  simp only [bind, Except.bind, pure, Except.pure, runBlocks, keyBlock, setIf, setDesc]
  cases h1 : s.get ifSectionKey with
  | none =>
    simp only
    cases h2 : s.get descSectionKey with
    | none => rfl
    | some v => cases v <;> rfl
  | some v =>
    cases v with
    | str c =>
      simp only
      cases h2 : (s.delete ifSectionKey).get descSectionKey with
      | none => rfl
      | some v => cases v <;> rfl
    | bool t => rfl
    | map m => rfl
    | other x => rfl

theorem sectionLoop_eq (b : Builders) (step : Step) (s : StepMap) :
    sectionLoop b step s =
      runBlocks [(loopSectionKey, setLoop b), (deprecatedRetrySectionKey, setLoop b)] (step, s) := by
  unfold sectionLoop
  simp only [bind, Except.bind, pure, Except.pure, runBlocks, keyBlock, setLoop]
  cases h1 : s.get loopSectionKey with
  | none =>
    simp only
    cases h2 : s.get deprecatedRetrySectionKey with
    | none => rfl
    | some v => simp only; cases b.newLoop v <;> rfl
  | some v =>
    simp only
    cases b.newLoop v with
    | error e => rfl
    | ok r =>
      simp only
      cases h2 : (s.delete loopSectionKey).get deprecatedRetrySectionKey with
      | none => rfl
      | some v => simp only; cases b.newLoop v <;> rfl

theorem sectionHooks_eq (b : Builders) (step : Step) (s : StepMap) :
    sectionHooks b step s =
      runBlocks [(testRunnerKey, setTest b), (dumpRunnerKey, setDump b),
        (bindRunnerKey, setBind b)] (step, s) := by
  unfold sectionHooks
  simp only [bind, Except.bind, pure, Except.pure, runBlocks, keyBlock, setTest, setDump, setBind]
  cases (StepMap.get s testRunnerKey) with
  | none =>
    simp only
    cases (StepMap.get (s) dumpRunnerKey) with
    | none =>
      simp only
      cases (StepMap.get (s) bindRunnerKey) with
      | none => rfl
      | some v3 =>
        simp only
        cases b.newBindRunner with
        | error e => rfl
        | ok br =>
          simp only
          cases v3 with
          | map vv => simp only; cases bindStrings vv <;> rfl
          | str c3 => rfl
          | bool t3 => rfl
          | other x3 => rfl
    | some v2 =>
      simp only
      cases b.newDumpRunner with
      | error e => rfl
      | ok dr =>
        simp only
        cases v2 with
        | str c2 =>
          simp only
          cases (StepMap.get (StepMap.delete (s) dumpRunnerKey) bindRunnerKey) with
          | none => rfl
          | some v3 =>
            simp only
            cases b.newBindRunner with
            | error e => rfl
            | ok br =>
              simp only
              cases v3 with
              | map vv => simp only; cases bindStrings vv <;> rfl
              | str c3 => rfl
              | bool t3 => rfl
              | other x3 => rfl
        | bool t2 => rfl
        | map m2 => rfl
        | other x2 => rfl
  | some v =>
    simp only
    cases b.newTestRunner with
    | error e => rfl
    | ok tr =>
      simp only
      cases v with
      | bool t =>
        cases t
        · simp only
          cases (StepMap.get (StepMap.delete s testRunnerKey) dumpRunnerKey) with
          | none =>
            simp only
            cases (StepMap.get (StepMap.delete s testRunnerKey) bindRunnerKey) with
            | none => rfl
            | some v3 =>
              simp only
              cases b.newBindRunner with
              | error e => rfl
              | ok br =>
                simp only
                cases v3 with
                | map vv => simp only; cases bindStrings vv <;> rfl
                | str c3 => rfl
                | bool t3 => rfl
                | other x3 => rfl
          | some v2 =>
            simp only
            cases b.newDumpRunner with
            | error e => rfl
            | ok dr =>
              simp only
              cases v2 with
              | str c2 =>
                simp only
                cases (StepMap.get (StepMap.delete (StepMap.delete s testRunnerKey) dumpRunnerKey) bindRunnerKey) with
                | none => rfl
                | some v3 =>
                  simp only
                  cases b.newBindRunner with
                  | error e => rfl
                  | ok br =>
                    simp only
                    cases v3 with
                    | map vv => simp only; cases bindStrings vv <;> rfl
                    | str c3 => rfl
                    | bool t3 => rfl
                    | other x3 => rfl
              | bool t2 => rfl
              | map m2 => rfl
              | other x2 => rfl
        · simp only
          cases (StepMap.get (StepMap.delete s testRunnerKey) dumpRunnerKey) with
          | none =>
            simp only
            cases (StepMap.get (StepMap.delete s testRunnerKey) bindRunnerKey) with
            | none => rfl
            | some v3 =>
              simp only
              cases b.newBindRunner with
              | error e => rfl
              | ok br =>
                simp only
                cases v3 with
                | map vv => simp only; cases bindStrings vv <;> rfl
                | str c3 => rfl
                | bool t3 => rfl
                | other x3 => rfl
          | some v2 =>
            simp only
            cases b.newDumpRunner with
            | error e => rfl
            | ok dr =>
              simp only
              cases v2 with
              | str c2 =>
                simp only
                cases (StepMap.get (StepMap.delete (StepMap.delete s testRunnerKey) dumpRunnerKey) bindRunnerKey) with
                | none => rfl
                | some v3 =>
                  simp only
                  cases b.newBindRunner with
                  | error e => rfl
                  | ok br =>
                    simp only
                    cases v3 with
                    | map vv => simp only; cases bindStrings vv <;> rfl
                    | str c3 => rfl
                    | bool t3 => rfl
                    | other x3 => rfl
              | bool t2 => rfl
              | map m2 => rfl
              | other x2 => rfl
      | str c =>
        simp only
        cases (StepMap.get (StepMap.delete s testRunnerKey) dumpRunnerKey) with
        | none =>
          simp only
          cases (StepMap.get (StepMap.delete s testRunnerKey) bindRunnerKey) with
          | none => rfl
          | some v3 =>
            simp only
            cases b.newBindRunner with
            | error e => rfl
            | ok br =>
              simp only
              cases v3 with
              | map vv => simp only; cases bindStrings vv <;> rfl
              | str c3 => rfl
              | bool t3 => rfl
              | other x3 => rfl
        | some v2 =>
          simp only
          cases b.newDumpRunner with
          | error e => rfl
          | ok dr =>
            simp only
            cases v2 with
            | str c2 =>
              simp only
              cases (StepMap.get (StepMap.delete (StepMap.delete s testRunnerKey) dumpRunnerKey) bindRunnerKey) with
              | none => rfl
              | some v3 =>
                simp only
                cases b.newBindRunner with
                | error e => rfl
                | ok br =>
                  simp only
                  cases v3 with
                  | map vv => simp only; cases bindStrings vv <;> rfl
                  | str c3 => rfl
                  | bool t3 => rfl
                  | other x3 => rfl
            | bool t2 => rfl
            | map m2 => rfl
            | other x2 => rfl
      | map m1 => rfl
      | other x1 => rfl

theorem runBlocks_append (l1 l2 : List (String × (Step → Raw → Except String Step)))
    (r : Step × StepMap) :
    runBlocks (l1 ++ l2) r =
      match runBlocks l1 r with
      | .error e => .error e
      | .ok r1 => runBlocks l2 r1 := by
  induction l1 generalizing r with
  | nil => rfl
  | cons kf l1 ih =>
    obtain ⟨k, f⟩ := kf
    simp only [List.cons_append, runBlocks]
    cases keyBlock k f r with
    | error e => rfl
    | ok r1 => exact ih r1

/-- `AppendStep` is the sections before `pop`, one key after the other, then
the dispatch of the popped entry, then the `append`. -/
theorem AppendStep_eq (o : Operator) (b : Builders) (key : String) (s : StepMap) :
    o.AppendStep b key s =
      match runBlocks (sectionBlocks b) (Step.new key, s) with
      | .error e => .error e
      | .ok r =>
        match sectionDispatch o b r.1 r.2 with
        | .error e => .error e
        | .ok step4 => .ok { o with steps := o.steps ++ [step4] } := by
  have hb : sectionBlocks b =
      [(ifSectionKey, setIf b), (descSectionKey, setDesc b)] ++
        ([(loopSectionKey, setLoop b), (deprecatedRetrySectionKey, setLoop b)] ++
          [(testRunnerKey, setTest b), (dumpRunnerKey, setDump b), (bindRunnerKey, setBind b)]) :=
    rfl
  rw [hb, runBlocks_append, ← sectionIfDesc_eq]
  unfold Operator.AppendStep
  simp only [bind, Except.bind, pure, Except.pure]
  cases sectionIfDesc b (Step.new key) s with
  | error e => rfl
  | ok r1 =>
    obtain ⟨step1, s1⟩ := r1
    simp only
    rw [runBlocks_append, ← sectionLoop_eq]
    cases sectionLoop b step1 s1 with
    | error e => rfl
    | ok r2 =>
      obtain ⟨step2, s2⟩ := r2
      simp only
      rw [← sectionHooks_eq]
      cases sectionHooks b step2 s2 with
      | error e => rfl
      | ok r3 =>
        obtain ⟨step3, s3⟩ := r3
        simp only
        cases sectionDispatch o b step3 s3 <;> rfl

theorem keyBlock_ok (k : String) (f : Step → Raw → Except String Step) (r r1 : Step × StepMap)
    (h : keyBlock k f r = .ok r1) :
    r1.2 = r.2.delete k ∧ (r.2.get k = none → r1.1 = r.1) ∧
      ∀ v, r.2.get k = some v → f r.1 v = .ok r1.1 := by
  unfold keyBlock at h
  cases hg : r.2.get k with
  | none =>
    rw [hg] at h
    simp only [Except.ok.injEq] at h
    subst h
    refine ⟨?_, fun _ => rfl, fun v hv => by cases hv⟩
    unfold StepMap.delete
    symm
    refine List.filter_eq_self.mpr (fun p hp => ?_)
    by_contra hne
    have hk : p.1 = k := by simpa using hne
    have : ∀ (l : StepMap), p ∈ l → l.get k ≠ none := by
      intro l
      induction l with
      | nil => intro hm; cases hm
      | cons q l ih =>
        intro hm
        obtain ⟨k1, v1⟩ := q
        by_cases h1 : k1 = k
        · simp [StepMap.get, h1]
        · simp only [StepMap.get, h1, if_false]
          rcases List.mem_cons.mp hm with rfl | hm
          · exact absurd hk h1
          · exact ih hm
    exact this r.2 hp hg
  | some v =>
    rw [hg] at h
    simp only at h
    cases hf : f r.1 v with
    | error e => rw [hf] at h; cases h
    | ok st1 =>
      rw [hf] at h
      simp only [Except.ok.injEq] at h
      subst h
      refine ⟨rfl, fun hn => (by cases hn), fun w hw => ?_⟩
      cases hw
      exact hf

theorem runBlocks_ok (P : Step → Prop) :
    ∀ (bl : List (String × (Step → Raw → Except String Step))) (r r1 : Step × StepMap),
      (∀ kf ∈ bl, ∀ st v st1, kf.2 st v = .ok st1 → P st → P st1) →
      (bl.map Prod.fst).Nodup → runBlocks bl r = .ok r1 → P r.1 →
      r1.2 = (bl.map Prod.fst).foldl StepMap.delete r.2 ∧ P r1.1 ∧
        ∀ kf ∈ bl, ∀ v, r.2.get kf.1 = some v → ∃ st st1, kf.2 st v = .ok st1 := by
  intro bl
  induction bl with
  | nil =>
    intro r r1 _ _ h hp
    simp only [runBlocks, Except.ok.injEq] at h
    subst h
    exact ⟨rfl, hp, fun kf hkf => by cases hkf⟩
  | cons kf bl ih =>
    intro r r1 hP hnd h hp
    obtain ⟨k, f⟩ := kf
    simp only [runBlocks] at h
    cases hk : keyBlock k f r with
    | error e => rw [hk] at h; cases h
    | ok r0 =>
      rw [hk] at h
      simp only at h
      obtain ⟨k1, k2, k3⟩ := keyBlock_ok k f r r0 hk
      have hnd2 : k ∉ bl.map Prod.fst ∧ (bl.map Prod.fst).Nodup := List.nodup_cons.mp hnd
      have hp0 : P r0.1 := by
        cases hg : r.2.get k with
        | none => rw [k2 hg]; exact hp
        | some v => exact hP (k, f) (List.mem_cons_self _ _) r.1 v r0.1 (k3 v hg) hp
      obtain ⟨i1, i2, i3⟩ := ih r0 r1
        (fun kf hkf => hP kf (List.mem_cons_of_mem _ hkf)) hnd2.2 h hp0
      refine ⟨?_, i2, ?_⟩
      · rw [i1, k1]
        rfl
      · intro kf hkf v hv
        rcases List.mem_cons.mp hkf with rfl | hkf
        · exact ⟨r.1, r0.1, k3 v hv⟩
        · have hne : kf.1 ≠ k := by
            intro he
            exact hnd2.1 (he ▸ List.mem_map_of_mem Prod.fst hkf)
          refine i3 kf hkf v ?_
          rw [k1, get_delete_ne r.2 kf.1 k hne]
          exact hv

theorem sectionClient_ok (o : Operator) (b : Builders) (step : Step) (k : String) (v : Raw)
    (step4 : Step) (hb : step.bare) (h : sectionClient o b step k v = .ok step4) :
    (∃ vv, v = .map vv) ∧ step4.key = step.key ∧ step4.runnerKey = step.runnerKey ∧
      ((lookupRunner o.httpRunners k).isSome → step4.kinds = [Kind.http]) ∧
      (lookupRunner o.httpRunners k = none → (lookupRunner o.dbRunners k).isSome →
        step4.kinds = [Kind.db]) ∧
      (lookupRunner o.httpRunners k = none → lookupRunner o.dbRunners k = none →
        (lookupRunner o.grpcRunners k).isSome ∧ step4.kinds = [Kind.grpc]) := by
  obtain ⟨b1, b2, b3, b4, b5, b6, b7, b8, b9, b10⟩ := hb
  unfold sectionClient at h
  simp only [bind, Except.bind, pure, Except.pure] at h
  cases h1 : lookupRunner o.httpRunners k <;> cases h2 : lookupRunner o.dbRunners k <;>
    cases h3 : lookupRunner o.grpcRunners k <;> cases v <;>
    simp only [h1, h2, h3] at h <;>
    first
    | (simp at h; done)
    | (simp at h; subst h; simp [Step.kinds, b1, b2, b3, b4, b5, b6, b7, b8, b9, b10])

theorem sectionDispatch_ok (o : Operator) (b : Builders) (step : Step) (s : StepMap)
    (step4 : Step) (hb : step.bare) (h : sectionDispatch o b step s = .ok step4) :
    step4.key = step.key ∧ (pop s = none → step4 = step) ∧
      ∀ k v, pop s = some (k, v) →
        step4.runnerKey = k ∧ step4.kinds.length = 1 ∧
        (k = includeRunnerKey →
          step4.kinds = [Kind.incl] ∧ ∃ c, b.parseIncludeConfig v = .ok c) ∧
        (k ≠ includeRunnerKey → ∃ vv, v = .map vv) ∧
        (k = execRunnerKey → step4.kinds = [Kind.exec]) ∧
        (k ≠ includeRunnerKey → k ≠ execRunnerKey →
          ((lookupRunner o.httpRunners k).isSome → step4.kinds = [Kind.http]) ∧
          (lookupRunner o.httpRunners k = none → (lookupRunner o.dbRunners k).isSome →
            step4.kinds = [Kind.db]) ∧
          (lookupRunner o.httpRunners k = none → lookupRunner o.dbRunners k = none →
            (lookupRunner o.grpcRunners k).isSome ∧ step4.kinds = [Kind.grpc])) := by
  have hne : execRunnerKey ≠ includeRunnerKey := by decide
  unfold sectionDispatch at h
  simp only [bind, Except.bind, pure, Except.pure, throw, throwThe, MonadExceptOf.throw] at h
  cases hp : pop s with
  | none =>
    rw [hp] at h
    simp only [Except.ok.injEq] at h
    subst h
    exact ⟨rfl, fun _ => rfl, fun k v hkv => by cases hkv⟩
  | some kv =>
    obtain ⟨k, v⟩ := kv
    rw [hp] at h
    simp only at h
    obtain ⟨b1, b2, b3, b4, b5, b6, b7, b8, b9, b10⟩ := hb
    by_cases hi : k = includeRunnerKey
    · simp only [hi, if_true] at h
      cases hir : b.newIncludeRunner with
      | error e => rw [hir] at h; cases h
      | ok ir =>
        rw [hir] at h
        simp only at h
        cases hc : b.parseIncludeConfig v with
        | error e => rw [hc] at h; cases h
        | ok c =>
          rw [hc] at h
          simp only [Except.ok.injEq] at h
          subst h
          refine ⟨rfl, fun hn => (by cases hn), ?_⟩
          intro k2 v2 hkv
          simp only [Option.some.injEq, Prod.mk.injEq] at hkv
          obtain ⟨rfl, rfl⟩ := hkv
          refine ⟨hi.symm, by simp [Step.kinds, b1, b2, b3, b4, b5, b6, b7, b8],
            fun _ => ⟨by simp [Step.kinds, b1, b2, b3, b4, b5, b6, b7, b8], c, hc⟩,
            fun hn => absurd hi hn, fun he => absurd (hi.symm.trans he).symm hne,
            fun hn => absurd hi hn⟩
    · simp only [hi, if_false] at h
      by_cases he : k = execRunnerKey
      · simp only [he, if_true] at h
        cases her : b.newExecRunner with
        | error e => rw [her] at h; cases h
        | ok er =>
          rw [her] at h
          simp only at h
          cases v with
          | map vv =>
            simp only [Except.ok.injEq] at h
            subst h
            refine ⟨rfl, fun hn => (by cases hn), ?_⟩
            intro k2 v2 hkv
            simp only [Option.some.injEq, Prod.mk.injEq] at hkv
            obtain ⟨rfl, rfl⟩ := hkv
            exact ⟨he.symm, by simp [Step.kinds, b1, b2, b3, b4, b5, b6, b9, b10],
              fun h2 => absurd h2 hi, fun _ => ⟨vv, rfl⟩,
              fun _ => by simp [Step.kinds, b1, b2, b3, b4, b5, b6, b9, b10],
              fun _ h2 => absurd he h2⟩
          | str c => cases h
          | bool t => cases h
          | other x => cases h
      · simp only [he, if_false] at h
        obtain ⟨c1, c2, c3, c4, c5, c6⟩ := sectionClient_ok o b { step with runnerKey := k } k v
          step4 ⟨b1, b2, b3, b4, b5, b6, b7, b8, b9, b10⟩ h
        refine ⟨c2, fun hn => (by cases hn), ?_⟩
        intro k2 v2 hkv
        simp only [Option.some.injEq, Prod.mk.injEq] at hkv
        obtain ⟨rfl, rfl⟩ := hkv
        have hlen : step4.kinds.length = 1 := by
          cases h1 : lookupRunner o.httpRunners k with
          | some r => rw [c4 (by simp [h1])]; rfl
          | none =>
            cases h2 : lookupRunner o.dbRunners k with
            | some r => rw [c5 h1 (by simp [h2])]; rfl
            | none => rw [(c6 h1 h2).2]; rfl
        exact ⟨c3, hlen, fun h2 => absurd h2 hi, fun _ => c1, fun h2 => absurd h2 he,
          fun _ _ => ⟨c4, c5, c6⟩⟩

theorem setIf_ok (b : Builders) (st st1 : Step) (v : Raw) (h : setIf b st v = .ok st1) :
    (∃ c, v = .str c) ∧ (st.bare → st1.bare) ∧ st1.key = st.key := by
  cases v with
  | str c =>
    simp only [setIf, Except.ok.injEq] at h
    subst h
    exact ⟨⟨_, rfl⟩, fun hb => hb, rfl⟩
  | bool t => cases h
  | map m => cases h
  | other x => cases h

theorem setDesc_ok (b : Builders) (st st1 : Step) (v : Raw) (h : setDesc b st v = .ok st1) :
    (∃ c, v = .str c) ∧ (st.bare → st1.bare) ∧ st1.key = st.key := by
  cases v with
  | str c =>
    simp only [setDesc, Except.ok.injEq] at h
    subst h
    exact ⟨⟨_, rfl⟩, fun hb => hb, rfl⟩
  | bool t => cases h
  | map m => cases h
  | other x => cases h

theorem setLoop_ok (b : Builders) (st st1 : Step) (v : Raw) (h : setLoop b st v = .ok st1) :
    (∃ r, b.newLoop v = .ok r) ∧ (st.bare → st1.bare) ∧ st1.key = st.key := by
  unfold setLoop at h
  cases hl : b.newLoop v with
  | error e => rw [hl] at h; cases h
  | ok r =>
    rw [hl] at h
    simp only [Except.ok.injEq] at h
    subst h
    exact ⟨⟨r, rfl⟩, fun hb => hb, rfl⟩

theorem setTest_ok (b : Builders) (st st1 : Step) (v : Raw) (h : setTest b st v = .ok st1) :
    ((∃ t, v = .bool t) ∨ ∃ c, v = .str c) ∧ (st.bare → st1.bare) ∧ st1.key = st.key := by
  unfold setTest at h
  cases hr : b.newTestRunner with
  | error e => rw [hr] at h; cases h
  | ok tr =>
    rw [hr] at h
    cases v with
    | bool t =>
      cases t <;> simp only [Except.ok.injEq] at h <;> subst h <;>
        exact ⟨Or.inl ⟨_, rfl⟩, fun hb => hb, rfl⟩
    | str c =>
      simp only [Except.ok.injEq] at h
      subst h
      exact ⟨Or.inr ⟨_, rfl⟩, fun hb => hb, rfl⟩
    | map m => cases h
    | other x => cases h

theorem setDump_ok (b : Builders) (st st1 : Step) (v : Raw) (h : setDump b st v = .ok st1) :
    (∃ c, v = .str c) ∧ (st.bare → st1.bare) ∧ st1.key = st.key := by
  unfold setDump at h
  cases hr : b.newDumpRunner with
  | error e => rw [hr] at h; cases h
  | ok dr =>
    rw [hr] at h
    cases v with
    | str c =>
      simp only [Except.ok.injEq] at h
      subst h
      exact ⟨⟨_, rfl⟩, fun hb => hb, rfl⟩
    | bool t => cases h
    | map m => cases h
    | other x => cases h

theorem setBind_ok (b : Builders) (st st1 : Step) (v : Raw) (h : setBind b st v = .ok st1) :
    (∃ vv cond, v = .map vv ∧ bindStrings vv = some cond) ∧ (st.bare → st1.bare) ∧
      st1.key = st.key := by
  unfold setBind at h
  cases hr : b.newBindRunner with
  | error e => rw [hr] at h; cases h
  | ok br =>
    rw [hr] at h
    cases v with
    | map vv =>
      simp only at h
      cases hbs : bindStrings vv with
      | none => rw [hbs] at h; cases h
      | some cond =>
        rw [hbs] at h
        simp only [Except.ok.injEq] at h
        subst h
        exact ⟨⟨vv, cond, rfl, hbs⟩, fun hb => hb, rfl⟩
    | bool t => cases h
    | str c => cases h
    | other x => cases h

/-- What a successful `AppendStep` has done: every section before `pop` has
accepted its value, the step is still without dispatch when `pop` is called on
the remaining entries, and the dispatched step is appended. -/
theorem AppendStep_ok (o : Operator) (b : Builders) (key : String) (s : StepMap) (o1 : Operator)
    (h : o.AppendStep b key s = .ok o1) :
    ∃ step3 step4, step3.bare ∧ step3.key = key ∧
      sectionDispatch o b step3 s.remaining = .ok step4 ∧
      o1 = { o with steps := o.steps ++ [step4] } ∧
      (∀ v, s.get ifSectionKey = some v → ∃ c, v = .str c) ∧
      (∀ v, s.get descSectionKey = some v → ∃ c, v = .str c) ∧
      (∀ v, s.get loopSectionKey = some v → ∃ r, b.newLoop v = .ok r) ∧
      (∀ v, s.get deprecatedRetrySectionKey = some v → ∃ r, b.newLoop v = .ok r) ∧
      (∀ v, s.get testRunnerKey = some v → (∃ t, v = .bool t) ∨ ∃ c, v = .str c) ∧
      (∀ v, s.get dumpRunnerKey = some v → ∃ c, v = .str c) ∧
      (∀ v, s.get bindRunnerKey = some v → ∃ vv cond, v = .map vv ∧ bindStrings vv = some cond) := by
  rw [AppendStep_eq] at h
  cases hr : runBlocks (sectionBlocks b) (Step.new key, s) with
  | error e => rw [hr] at h; cases h
  | ok r =>
    rw [hr] at h
    simp only at h
    cases hd : sectionDispatch o b r.1 r.2 with
    | error e => rw [hd] at h; cases h
    | ok step4 =>
      rw [hd] at h
      simp only [Except.ok.injEq] at h
      have hkeep : ∀ kf ∈ sectionBlocks b, ∀ st v st1, kf.2 st v = .ok st1 →
          (st.bare ∧ st.key = key) → (st1.bare ∧ st1.key = key) := by
        intro kf hkf st v st1 hf hp
        simp only [sectionBlocks, List.mem_cons, List.mem_singleton, List.not_mem_nil,
          or_false] at hkf
        rcases hkf with rfl | rfl | rfl | rfl | rfl | rfl | rfl
        · obtain ⟨_, h2, h3⟩ := setIf_ok b st st1 v hf
          exact ⟨h2 hp.1, h3.trans hp.2⟩
        · obtain ⟨_, h2, h3⟩ := setDesc_ok b st st1 v hf
          exact ⟨h2 hp.1, h3.trans hp.2⟩
        · obtain ⟨_, h2, h3⟩ := setLoop_ok b st st1 v hf
          exact ⟨h2 hp.1, h3.trans hp.2⟩
        · obtain ⟨_, h2, h3⟩ := setLoop_ok b st st1 v hf
          exact ⟨h2 hp.1, h3.trans hp.2⟩
        · obtain ⟨_, h2, h3⟩ := setTest_ok b st st1 v hf
          exact ⟨h2 hp.1, h3.trans hp.2⟩
        · obtain ⟨_, h2, h3⟩ := setDump_ok b st st1 v hf
          exact ⟨h2 hp.1, h3.trans hp.2⟩
        · obtain ⟨_, h2, h3⟩ := setBind_ok b st st1 v hf
          exact ⟨h2 hp.1, h3.trans hp.2⟩
      have hbare : (Step.new key).bare ∧ (Step.new key).key = key :=
        ⟨⟨rfl, rfl, rfl, rfl, rfl, rfl, rfl, rfl, rfl, rfl⟩, rfl⟩
      obtain ⟨r1, r2, r3⟩ := runBlocks_ok (fun st => st.bare ∧ st.key = key) (sectionBlocks b)
        (Step.new key, s) r hkeep
        (show reservedKeys.Nodup by decide) hr hbare
      have hrem : r.2 = s.remaining := r1
      rw [hrem] at hd
      refine ⟨r.1, step4, r2.1, r2.2, hd, h.symm, ?_, ?_, ?_, ?_, ?_, ?_, ?_⟩
      · intro v hv
        obtain ⟨st, st1, hf⟩ := r3 (ifSectionKey, setIf b) (by simp [sectionBlocks]) v hv
        exact (setIf_ok b st st1 v hf).1
      · intro v hv
        obtain ⟨st, st1, hf⟩ := r3 (descSectionKey, setDesc b) (by simp [sectionBlocks]) v hv
        exact (setDesc_ok b st st1 v hf).1
      · intro v hv
        obtain ⟨st, st1, hf⟩ := r3 (loopSectionKey, setLoop b) (by simp [sectionBlocks]) v hv
        exact (setLoop_ok b st st1 v hf).1
      · intro v hv
        obtain ⟨st, st1, hf⟩ :=
          r3 (deprecatedRetrySectionKey, setLoop b) (by simp [sectionBlocks]) v hv
        exact (setLoop_ok b st st1 v hf).1
      · intro v hv
        obtain ⟨st, st1, hf⟩ := r3 (testRunnerKey, setTest b) (by simp [sectionBlocks]) v hv
        exact (setTest_ok b st st1 v hf).1
      · intro v hv
        obtain ⟨st, st1, hf⟩ := r3 (dumpRunnerKey, setDump b) (by simp [sectionBlocks]) v hv
        exact (setDump_ok b st st1 v hf).1
      · intro v hv
        obtain ⟨st, st1, hf⟩ := r3 (bindRunnerKey, setBind b) (by simp [sectionBlocks]) v hv
        exact (setBind_ok b st st1 v hf).1

theorem keyBlock_extra (k : String) (f : Step → Raw → Except String Step) (st : Step)
    (s extra : StepMap) (h : ∀ p ∈ extra, p.1 ≠ k) :
    keyBlock k f (st, s ++ extra) =
      match keyBlock k f (st, s) with
      | .error e => .error e
      | .ok r1 => .ok (r1.1, r1.2 ++ extra) := by
  unfold keyBlock
  simp only
  rw [get_append s extra k (get_none_of_keys extra k h), delete_append s extra k h]
  cases s.get k with
  | none => rfl
  | some v => simp only; cases f st v <;> rfl

theorem runBlocks_extra (extra : StepMap) :
    ∀ (bl : List (String × (Step → Raw → Except String Step))) (st : Step) (s : StepMap),
      (∀ kf ∈ bl, ∀ p ∈ extra, p.1 ≠ kf.1) →
      runBlocks bl (st, s ++ extra) =
        match runBlocks bl (st, s) with
        | .error e => .error e
        | .ok r1 => .ok (r1.1, r1.2 ++ extra) := by
  intro bl
  induction bl with
  | nil => intro st s _; rfl
  | cons kf bl ih =>
    intro st s h
    obtain ⟨k, f⟩ := kf
    simp only [runBlocks]
    rw [keyBlock_extra k f st s extra (h (k, f) (List.mem_cons_self _ _))]
    cases keyBlock k f (st, s) with
    | error e => rfl
    | ok r1 =>
      obtain ⟨st1, s1⟩ := r1
      exact ih st1 s1 (fun kf hkf => h kf (List.mem_cons_of_mem _ hkf))

theorem sectionDispatch_extra (o : Operator) (b : Builders) (st : Step) (s extra : StepMap)
    (h : s ≠ []) : sectionDispatch o b st (s ++ extra) = sectionDispatch o b st s := by
  cases s with
  | nil => exact absurd rfl h
  | cons p s => rfl

theorem AppendStep_extra (o : Operator) (b : Builders) (key : String) (s extra : StepMap)
    (h1 : ∀ p ∈ extra, p.1 ∉ reservedKeys) (h2 : s.remaining ≠ []) :
    o.AppendStep b key (s ++ extra) = o.AppendStep b key s := by
  rw [AppendStep_eq, AppendStep_eq]
  have hk : ∀ kf ∈ sectionBlocks b, ∀ p ∈ extra, p.1 ≠ kf.1 := by
    intro kf hkf p hp he
    apply h1 p hp
    rw [he]
    exact List.mem_map_of_mem Prod.fst hkf
  rw [runBlocks_extra extra (sectionBlocks b) (Step.new key) s hk]
  cases hr : runBlocks (sectionBlocks b) (Step.new key, s) with
  | error e => rfl
  | ok r =>
    obtain ⟨r1, _, _⟩ := runBlocks_ok (fun _ => True) (sectionBlocks b) (Step.new key, s) r
      (fun _ _ _ _ _ _ _ => trivial) (show reservedKeys.Nodup by decide) hr trivial
    have hrem : r.2 = s.remaining := r1
    simp only
    rw [sectionDispatch_extra o b r.1 r.2 extra (by rw [hrem]; exact h2)]

theorem stepFn_new (o : Operator) (env : Oracles) (i : Nat) (key : String) (st : OpState) :
    (o.stepFn env i (Step.new key) st).2 =
      .error ("invalid runner: " ++ o.stepName st.store i) := by
  simp [Operator.stepFn, Operator.dispatch, caseBoth, Step.new, Operator.dumpHook,
    Operator.bindHook, Operator.testHook, Operator.finish, OpState.log]

/-! ## What AppendStep accepts and rejects -/

/-- C11 (amended): `AppendStep` has no check on the number of entries left
after the reserved keys are extracted. A step-map without entries is accepted
and appends a step without dispatch and without hook, which fails when it is
run (`invalid runner`); whenever no entry is left the appended step has no
dispatch kind; and when an entry is left, further non-reserved entries that
`pop` does not visit first change nothing: they are ignored, not rejected. -/
theorem AppendStep_arity (o : Operator) (b : Builders) (key : String) :
    o.AppendStep b key [] = .ok { o with steps := o.steps ++ [Step.new key] } ∧
    (∀ env i st, (o.stepFn env i (Step.new key) st).2 =
      .error ("invalid runner: " ++ o.stepName st.store i)) ∧
    (∀ s o1, o.AppendStep b key s = .ok o1 → s.remaining = [] →
      ∃ step, o1.steps = o.steps ++ [step] ∧ step.kinds = []) ∧
    (∀ s extra, (∀ p ∈ extra, p.1 ∉ reservedKeys) → s.remaining ≠ [] →
      o.AppendStep b key (s ++ extra) = o.AppendStep b key s) := by
  refine ⟨rfl, fun env i st => stepFn_new o env i key st, ?_,
    fun s extra h1 h2 => AppendStep_extra o b key s extra h1 h2⟩
  intro s o1 h hrem
  obtain ⟨step3, step4, hb, _, hd, ho, _⟩ := AppendStep_ok o b key s o1 h
  obtain ⟨_, d2, _⟩ := sectionDispatch_ok o b step3 s.remaining step4 hb hd
  have h4 : step4 = step3 := d2 (by rw [hrem]; rfl)
  refine ⟨step4, by rw [ho], ?_⟩
  rw [h4]
  obtain ⟨b1, b2, b3, b4, b5, b6, b7, b8, b9, b10⟩ := hb
  simp [Step.kinds, b1, b3, b5, b7, b9]

/-- C11 as stated fails: `AppendStep` accepts the empty step-map, and it
accepts a step-map with the two dispatch entries `exec` and `req`, of which it
keeps the first. -/
theorem AppendStep_accepts :
    appendedKeys ((exOp []).AppendStep exBuilders "0" []) = some [""] ∧
      appendedKeys ((exOp []).AppendStep exBuilders "0"
        [("exec", Raw.map [("command", Raw.str "ls")]),
          ("req", Raw.map [("/", Raw.str "get")])]) = some ["exec"] :=
  ⟨rfl, rfl⟩

/-- What `AppendStep` rejects, whatever the include parser is. -/
theorem AppendStep_rejects (o : Operator) (b : Builders) (key : String) (s : StepMap)
    (hbad : (∃ v, s.get testRunnerKey = some v ∧ (∀ t, v ≠ .bool t) ∧ ∀ c, v ≠ .str c) ∨
      (∃ v, s.get bindRunnerKey = some v ∧
        ∀ vv cond, v = .map vv → bindStrings vv ≠ some cond) ∨
      (∃ v e, (s.get loopSectionKey = some v ∨ s.get deprecatedRetrySectionKey = some v) ∧
        b.newLoop v = .error e) ∨
      (∃ v, (s.get ifSectionKey = some v ∨ s.get descSectionKey = some v ∨
        s.get dumpRunnerKey = some v) ∧ ∀ c, v ≠ .str c) ∨
      (∃ k v, pop s.remaining = some (k, v) ∧ k ≠ includeRunnerKey ∧ ∀ vv, v ≠ .map vv) ∨
      (∃ k v e, pop s.remaining = some (k, v) ∧ k = includeRunnerKey ∧
        b.parseIncludeConfig v = .error e) ∨
      (∃ k v, pop s.remaining = some (k, v) ∧ k ≠ includeRunnerKey ∧ k ≠ execRunnerKey ∧
        lookupRunner o.httpRunners k = none ∧ lookupRunner o.dbRunners k = none ∧
        lookupRunner o.grpcRunners k = none)) :
    ∃ e, o.AppendStep b key s = .error e := by
  cases hr : o.AppendStep b key s with
  | error e => exact ⟨e, rfl⟩
  | ok o1 =>
    exfalso
    obtain ⟨step3, step4, hb, _, hd, _, vif, vdesc, vloop, vretry, vtest, vdump, vbind⟩ :=
      AppendStep_ok o b key s o1 hr
    obtain ⟨_, _, d3⟩ := sectionDispatch_ok o b step3 s.remaining step4 hb hd
    rcases hbad with ⟨v, hv, h1, h2⟩ | ⟨v, hv, h1⟩ | ⟨v, e, hv, h1⟩ | ⟨v, hv, h1⟩ |
      ⟨k, v, hp, hk, h1⟩ | ⟨k, v, e, hp, hk, h1⟩ | ⟨k, v, hp, hk, hk2, l1, l2, l3⟩
    · rcases vtest v hv with ⟨t, ht⟩ | ⟨c, hc⟩
      · exact h1 t ht
      · exact h2 c hc
    · obtain ⟨vv, cond, e1, e2⟩ := vbind v hv
      exact h1 vv cond e1 e2
    · rcases hv with hv | hv
      · obtain ⟨r, hr2⟩ := vloop v hv
        rw [h1] at hr2
        cases hr2
      · obtain ⟨r, hr2⟩ := vretry v hv
        rw [h1] at hr2
        cases hr2
    · rcases hv with hv | hv | hv
      · obtain ⟨c, hc⟩ := vif v hv
        exact h1 c hc
      · obtain ⟨c, hc⟩ := vdesc v hv
        exact h1 c hc
      · obtain ⟨c, hc⟩ := vdump v hv
        exact h1 c hc
    · obtain ⟨vv, hvv⟩ := (d3 k v hp).2.2.2.1 hk
      exact h1 vv hvv
    · obtain ⟨_, c, hc⟩ := (d3 k v hp).2.2.1 hk
      rw [h1] at hc
      cases hc
    · have := ((d3 k v hp).2.2.2.2.2 hk hk2).2.2 l1 l2
      rw [l3] at this
      simp at this

theorem parseIncludeConfig_map (v : Raw) (h : ∀ vv, v ≠ .map vv) :
    parseIncludeConfig v = .error "invalid include config" := by
  cases v with
  | map m => exact absurd rfl (h m)
  | str c => rfl
  | bool t => rfl
  | other x => rfl

/-- C12: `AppendStep` returns an error when the step-map has a `test` value
that is neither bool nor string, a `bind` value that is not a map of strings,
a `loop` or `retry` value that `newLoop` rejects, an `if`, `desc` or `dump`
value that is not a string, a dispatch entry whose value is not a map, or a
dispatch key that is neither `include`, `exec` nor a key of a runner map. For
`exec` and the runner keys the map is required by `AppendStep` itself; the
value of `include` goes to `parseIncludeConfig`, taken here as the spec gives
it (`specBuilders`). With any include parser, an `include` value that the
parser rejects and every other case of the list give an error. When
`AppendStep` returns nil the operator is the one before with exactly one step
appended, whose key is the given key; an error leaves no new operator. -/
theorem AppendStep_invalid (o : Operator) (b : Builders) (key : String) (s : StepMap) :
    ((∃ v, s.get testRunnerKey = some v ∧ (∀ t, v ≠ .bool t) ∧ ∀ c, v ≠ .str c) ∨
      (∃ v, s.get bindRunnerKey = some v ∧
        ∀ vv cond, v = .map vv → bindStrings vv ≠ some cond) ∨
      (∃ v e, (s.get loopSectionKey = some v ∨ s.get deprecatedRetrySectionKey = some v) ∧
        b.newLoop v = .error e) ∨
      (∃ v, (s.get ifSectionKey = some v ∨ s.get descSectionKey = some v ∨
        s.get dumpRunnerKey = some v) ∧ ∀ c, v ≠ .str c) ∨
      (∃ k v, pop s.remaining = some (k, v) ∧ ∀ vv, v ≠ .map vv) ∨
      (∃ k v, pop s.remaining = some (k, v) ∧ k ≠ includeRunnerKey ∧ k ≠ execRunnerKey ∧
        lookupRunner o.httpRunners k = none ∧ lookupRunner o.dbRunners k = none ∧
        lookupRunner o.grpcRunners k = none) →
      ∃ e, o.AppendStep (specBuilders b) key s = .error e) ∧
    ((∃ v, s.get testRunnerKey = some v ∧ (∀ t, v ≠ .bool t) ∧ ∀ c, v ≠ .str c) ∨
      (∃ v, s.get bindRunnerKey = some v ∧
        ∀ vv cond, v = .map vv → bindStrings vv ≠ some cond) ∨
      (∃ v e, (s.get loopSectionKey = some v ∨ s.get deprecatedRetrySectionKey = some v) ∧
        b.newLoop v = .error e) ∨
      (∃ v, (s.get ifSectionKey = some v ∨ s.get descSectionKey = some v ∨
        s.get dumpRunnerKey = some v) ∧ ∀ c, v ≠ .str c) ∨
      (∃ k v, pop s.remaining = some (k, v) ∧ k ≠ includeRunnerKey ∧ ∀ vv, v ≠ .map vv) ∨
      (∃ k v e, pop s.remaining = some (k, v) ∧ k = includeRunnerKey ∧
        b.parseIncludeConfig v = .error e) ∨
      (∃ k v, pop s.remaining = some (k, v) ∧ k ≠ includeRunnerKey ∧ k ≠ execRunnerKey ∧
        lookupRunner o.httpRunners k = none ∧ lookupRunner o.dbRunners k = none ∧
        lookupRunner o.grpcRunners k = none) →
      ∃ e, o.AppendStep b key s = .error e) ∧
    (∀ o1, o.AppendStep b key s = .ok o1 →
      ∃ step, step.key = key ∧ o1 = { o with steps := o.steps ++ [step] }) := by
  refine ⟨?_, AppendStep_rejects o b key s, ?_⟩
  · intro hbad
    apply AppendStep_rejects o (specBuilders b) key s
    rcases hbad with h | h | h | h | ⟨k, v, hp, h1⟩ | h
    · exact Or.inl h
    · exact Or.inr (Or.inl h)
    · exact Or.inr (Or.inr (Or.inl h))
    · exact Or.inr (Or.inr (Or.inr (Or.inl h)))
    · by_cases hk : k = includeRunnerKey
      · exact Or.inr (Or.inr (Or.inr (Or.inr (Or.inr (Or.inl
          ⟨k, v, _, hp, hk, parseIncludeConfig_map v h1⟩)))))
      · exact Or.inr (Or.inr (Or.inr (Or.inr (Or.inl ⟨k, v, hp, hk, h1⟩))))
    · exact Or.inr (Or.inr (Or.inr (Or.inr (Or.inr (Or.inr h)))))
  · intro o1 h
    obtain ⟨step3, step4, hb, hkey, hd, ho, _⟩ := AppendStep_ok o b key s o1 h
    obtain ⟨d1, _, _⟩ := sectionDispatch_ok o b step3 s.remaining step4 hb hd
    exact ⟨step4, d1.trans hkey, ho⟩

/-- An instance of C12: an `include` entry whose value is a string and a
`test` entry whose value is a map are rejected. -/
theorem AppendStep_invalid_witness :
    (∃ e, (exOp []).AppendStep (specBuilders exBuilders) "0"
        [("include", Raw.str "other.yml")] = .error e) ∧
      (∃ e, (exOp []).AppendStep exBuilders "0" [("test", Raw.map [])] = .error e) :=
  ⟨(AppendStep_invalid (exOp []) exBuilders "0" [("include", Raw.str "other.yml")]).1
      (Or.inr (Or.inr (Or.inr (Or.inr (Or.inl
        ⟨"include", Raw.str "other.yml", rfl, fun _ h => Raw.noConfusion h⟩))))),
    (AppendStep_invalid (exOp []) exBuilders "0" [("test", Raw.map [])]).2.1
      (Or.inl ⟨Raw.map [], rfl, fun _ h => Raw.noConfusion h, fun _ h => Raw.noConfusion h⟩)⟩

/-- An evaluation for C12: a `test` value that is a map, a dispatch key that
names no runner, and `include` and `exec` entries whose value is a string. -/
theorem AppendStep_invalid_example :
    (exOp []).AppendStep exBuilders "0" [("test", Raw.map [])] =
        .error "invalid test condition: value" ∧
      (exOp []).AppendStep exBuilders "0" [("db", Raw.map [])] =
        .error "cannot find client: db" ∧
      (exOp []).AppendStep (specBuilders exBuilders) "0" [("include", Raw.str "other.yml")] =
        .error "invalid include config" ∧
      (exOp []).AppendStep (specBuilders exBuilders) "0" [("exec", Raw.str "ls")] =
        .error "invalid exec command: value" ∧
      appendedKeys ((exOp []).AppendStep (specBuilders exBuilders) "0"
        [("include", Raw.map [("path", Raw.str "other.yml")])]) = some ["include"] :=
  ⟨rfl, rfl, rfl, rfl, rfl⟩

/-- C13: a step that `AppendStep` appends has at most one dispatch kind set
(runner and payload both set), none when no entry is left after the reserved
keys are extracted, and exactly one otherwise: `include` or `exec` for these
keys, and for any other key the first of HTTP, DB and gRPC whose runner map has
the key. -/
theorem AppendStep_kinds (o : Operator) (b : Builders) (key : String) (s : StepMap)
    (o1 : Operator) (h : o.AppendStep b key s = .ok o1) :
    ∃ step, o1.steps = o.steps ++ [step] ∧ step.kinds.length ≤ 1 ∧
      (s.remaining = [] → step.kinds = []) ∧
      (s.remaining ≠ [] → step.kinds.length = 1) ∧
      ∀ k v, pop s.remaining = some (k, v) →
        (k = includeRunnerKey → step.kinds = [Kind.incl]) ∧
        (k = execRunnerKey → step.kinds = [Kind.exec]) ∧
        (k ≠ includeRunnerKey → k ≠ execRunnerKey →
          ((lookupRunner o.httpRunners k).isSome → step.kinds = [Kind.http]) ∧
          (lookupRunner o.httpRunners k = none → (lookupRunner o.dbRunners k).isSome →
            step.kinds = [Kind.db]) ∧
          (lookupRunner o.httpRunners k = none → lookupRunner o.dbRunners k = none →
            (lookupRunner o.grpcRunners k).isSome ∧ step.kinds = [Kind.grpc])) := by
  obtain ⟨step3, step4, hb, _, hd, ho, _⟩ := AppendStep_ok o b key s o1 h
  obtain ⟨_, d2, d3⟩ := sectionDispatch_ok o b step3 s.remaining step4 hb hd
  have hnone : s.remaining = [] → step4.kinds = [] := by
    intro hrem
    have h4 : step4 = step3 := d2 (by rw [hrem]; rfl)
    rw [h4]
    obtain ⟨b1, b2, b3, b4, b5, b6, b7, b8, b9, b10⟩ := hb
    simp [Step.kinds, b1, b3, b5, b7, b9]
  have hsome : s.remaining ≠ [] → step4.kinds.length = 1 := by
    intro hrem
    cases hp : s.remaining with
    | nil => exact absurd hp hrem
    | cons p rest =>
      obtain ⟨k, v⟩ := p
      exact (d3 k v (by rw [hp]; rfl)).2.1
  refine ⟨step4, by rw [ho], ?_, hnone, hsome, ?_⟩
  · by_cases hrem : s.remaining = []
    · rw [hnone hrem]; exact Nat.zero_le _
    · rw [hsome hrem]
  · intro k v hp
    obtain ⟨_, _, e1, _, e2, e3⟩ := d3 k v hp
    exact ⟨fun hk => (e1 hk).1, e2, e3⟩

/-- Witness of C13: the key `req` is in the HTTP, DB and gRPC runner maps, and
the appended step is an HTTP step. -/
theorem AppendStep_kinds_witness :
    appendedKinds (exOverlap.AppendStep exBuilders "0"
        [("desc", Raw.str "ping"), ("req", Raw.map [("/", Raw.str "get")])]) =
        some [[Kind.http]] ∧
      ∃ o1, exOverlap.AppendStep exBuilders "0"
          [("desc", Raw.str "ping"), ("req", Raw.map [("/", Raw.str "get")])] = .ok o1 ∧
        ∃ step, o1.steps = exOverlap.steps ++ [step] ∧ step.kinds.length ≤ 1 :=
  ⟨rfl, _, rfl,
    (AppendStep_kinds exOverlap exBuilders "0"
      [("desc", Raw.str "ping"), ("req", Raw.map [("/", Raw.str "get")])] _ rfl).imp
      (fun _ hs => ⟨hs.1, hs.2.1⟩)⟩

/-! ## The shards of partOperators -/

theorem filterMap_getElem_length {α : Type} (ops : List α) :
    ∀ (l : List Nat), (∀ k ∈ l, k < ops.length) →
      (l.filterMap (fun k => ops[k]?)).length = l.length := by
  intro l
  induction l with
  | nil => intro _; rfl
  | cons a l ih =>
    intro h
    have ha : a < ops.length := h a (List.mem_cons_self _ _)
    rw [List.filterMap_cons, List.getElem?_eq_getElem ha]
    simp only [List.length_cons]
    rw [ih (fun k hk => h k (List.mem_cons_of_mem _ hk))]

theorem filterMap_range_self (L : Nat) :
    ∀ (l : List Nat), (∀ k ∈ l, k < L) → l.filterMap (fun k => (List.range L)[k]?) = l := by
  intro l
  induction l with
  | nil => intro _; rfl
  | cons a l ih =>
    intro h
    have ha : a < L := h a (List.mem_cons_self _ _)
    have hg : (List.range L)[a]? = some a := by
      rw [List.getElem?_eq_getElem (by simpa using ha)]
      simp
    rw [List.filterMap_cons, hg]
    simp only
    rw [ih (fun k hk => h k (List.mem_cons_of_mem _ hk))]

theorem partOperators_range (L : Nat) (n i : Int) :
    partOperators (List.range L) n i = (List.range L).filter (fun k => shardHit k n i) := by
  unfold partOperators
  rw [partFrom_eq]
  simp only [List.length_range, Nat.zero_add]
  apply filterMap_range_self
  intro k hk
  exact List.mem_range.mp (List.mem_filter.mp hk).1

theorem partOperators_positions {α : Type} (ops : List α) (n i : Int) :
    partOperators ops n i =
      (partOperators (List.range ops.length) n i).filterMap (fun k => ops[k]?) := by
  rw [partOperators_range]
  unfold partOperators
  rw [partFrom_eq]
  simp only [Nat.zero_add]

theorem shardHit_iff (k n i : Nat) (hn : 0 < n) :
    shardHit k (n : Int) (i : Int) = true ↔ k % n = i := by
  have hn0 : (n : Int) ≠ 0 := by omega
  simp only [shardHit, hn0, if_false, decide_eq_true_eq]
  constructor
  · intro h
    have : ((k % n : Nat) : Int) = (i : Int) := by rw [← h]; simp
    exact_mod_cast this
  · intro h
    rw [← h]
    simp

theorem shard_length_succ (L n i : Nat) (hn : 0 < n) :
    ((List.range (L + 1)).filter (fun k => shardHit k (n : Int) (i : Int))).length =
      ((List.range L).filter (fun k => shardHit k (n : Int) (i : Int))).length +
        if L % n = i then 1 else 0 := by
  rw [List.range_succ, List.filter_append, List.length_append]
  congr 1
  by_cases h : L % n = i
  · simp [h, (shardHit_iff L n i hn).mpr h]
  · have : shardHit L (n : Int) (i : Int) = false := by
      cases hs : shardHit L (n : Int) (i : Int) with
      | false => rfl
      | true => exact absurd ((shardHit_iff L n i hn).mp hs) h
    simp [h, this]

theorem shard_length {α : Type} (ops : List α) (n i : Nat) (hn : 0 < n) (hi : i < n) :
    (partOperators ops (n : Int) (i : Int)).length =
      ops.length / n + if i < ops.length % n then 1 else 0 := by
  rw [partOperators_positions, partOperators_range,
    filterMap_getElem_length ops _ (fun k hk => List.mem_range.mp (List.mem_filter.mp hk).1)]
  have hc := Nat.count_modEq_card ops.length hn i
  rw [Nat.mod_eq_of_lt hi] at hc
  rw [← hc]
  generalize ops.length = L
  induction L with
  | zero => simp
  | succ L ih =>
    rw [shard_length_succ L n i hn, ih, Nat.count_succ]
    congr 1
    have : (L ≡ i [MOD n]) ↔ L % n = i := by
      unfold Nat.ModEq
      rw [Nat.mod_eq_of_lt hi]
    by_cases h : L % n = i
    · simp [h, this.mpr h]
    · simp [h, mt this.mp h]

theorem shard_length_sum (n : Nat) (hn : 0 < n) :
    ∀ L : Nat, ∑ i in Finset.range n,
      ((List.range L).filter (fun k => shardHit k (n : Int) (i : Int))).length = L := by
  intro L
  induction L with
  | zero => simp
  | succ L ih =>
    simp only [shard_length_succ L n _ hn]
    rw [Finset.sum_add_distrib, ih, Finset.sum_ite_eq]
    simp [Nat.mod_lt L hn]

theorem shardHit_outside (k : Nat) (n : Nat) (i : Int) (h : i < 0 ∨ (n : Int) ≤ i) :
    shardHit k (n : Int) i = false := by
  unfold shardHit
  by_cases hn : (n : Int) = 0
  · simp [hn]
  · simp only [hn, if_false, decide_eq_false_iff_not]
    intro he
    have hpos : (0 : Int) < n := by omega
    have h1 : 0 ≤ (k : Int) % n := Int.emod_nonneg _ hn
    have h2 : (k : Int) % n < n := Int.emod_lt_of_pos _ hpos
    omega

/-- C27: for `n > 0` the shards `partOperators(ops, n, 0)`, ...,
`partOperators(ops, n, n-1)` partition `ops`: a shard holds the elements at
the positions of the shard of the position list, every position is in exactly
one shard, the sizes add up to `len(ops)` and differ by at most one, and the
shard is empty for `i < 0` and for `i ≥ n`. -/
theorem partOperators_partition {α : Type} (ops : List α) (n : Nat) (hn : 0 < n) :
    (∀ i : Int, partOperators ops (n : Int) i =
      (partOperators (List.range ops.length) (n : Int) i).filterMap (fun k => ops[k]?)) ∧
    (∀ k, k < ops.length →
      ∃! i : Int, k ∈ partOperators (List.range ops.length) (n : Int) i) ∧
    (∑ i in Finset.range n, (partOperators ops (n : Int) (i : Int)).length = ops.length) ∧
    (∀ i j : Nat, i < n → j < n →
      (partOperators ops (n : Int) (i : Int)).length ≤
        (partOperators ops (n : Int) (j : Int)).length + 1) ∧
    (∀ i : Int, i < 0 ∨ (n : Int) ≤ i → partOperators ops (n : Int) i = []) := by
  have hn0 : (n : Int) ≠ 0 := by omega
  refine ⟨fun i => partOperators_positions ops n i, ?_, ?_, ?_, ?_⟩
  · intro k hk
    refine ⟨((k % n : Nat) : Int), ?_, ?_⟩
    · simp only [partOperators_range]
      exact List.mem_filter.mpr ⟨List.mem_range.mpr hk, (shardHit_iff k n (k % n) hn).mpr rfl⟩
    · intro i hi
      rw [partOperators_range] at hi
      have := (List.mem_filter.mp hi).2
      simp only [shardHit, hn0, if_false, decide_eq_true_eq] at this
      rw [← this]
      simp
  · have h := shard_length_sum n hn ops.length
    rw [← h]
    apply Finset.sum_congr rfl
    intro i _
    rw [partOperators_positions, partOperators_range,
      filterMap_getElem_length ops _ (fun k hk => List.mem_range.mp (List.mem_filter.mp hk).1)]
  · intro i j hi hj
    rw [shard_length ops n i hn hi, shard_length ops n j hn hj]
    split_ifs <;> omega
  · intro i hi
    rw [partOperators_positions, partOperators_range]
    have : (List.range ops.length).filter (fun k => shardHit k (n : Int) i) = [] :=
      List.filter_eq_nil_iff.mpr (fun k _ => by simp [shardHit_outside k n i hi])
    rw [this]
    rfl

/-- Witness of C27: five elements in three shards. -/
theorem partOperators_partition_witness :
    (0 < 3) ∧
      [partOperators [10, 11, 12, 13, 14] 3 0, partOperators [10, 11, 12, 13, 14] 3 1,
        partOperators [10, 11, 12, 13, 14] 3 2, partOperators [10, 11, 12, 13, 14] 3 3] =
        [[10, 13], [11, 14], [12], []] ∧
      ∑ i in Finset.range 3,
        (partOperators [10, 11, 12, 13, 14] ((3 : Nat) : Int) (i : Int)).length = 5 :=
  ⟨by decide, by decide, (partOperators_partition [10, 11, 12, 13, 14] 3 (by decide)).2.2.1⟩

/-! ## runbook.AppendStep on a command line -/

theorem joinLoop_eq (quote : String → String) :
    ∀ (tokens cmd : List String),
      joinLoop quote tokens cmd =
        cmd ++ tokens.map (fun i =>
          if containsSpace (trimNewline i) then quote (trimNewline i) else trimNewline i) := by
  intro tokens
  induction tokens with
  | nil => intro cmd; simp [joinLoop]
  | cons i rest ih =>
    intro cmd
    simp only [joinLoop, List.map_cons]
    by_cases h : containsSpace (trimNewline i) = true
    · simp only [h, if_true]
      rw [ih]
      simp
    · simp only [h, Bool.false_eq_true, if_false]
      rw [ih]
      simp

theorem trimNewlineChars_snoc : ∀ cs : List Char, trimNewlineChars (cs ++ ['\n']) = cs := by
  intro cs
  induction cs with
  | nil => rfl
  | cons c cs ih =>
    cases cs with
    | nil => rfl
    | cons d cs =>
      have : c :: d :: cs ++ ['\n'] = c :: d :: (cs ++ ['\n']) := rfl
      rw [this, trimNewlineChars]
      exact congrArg (c :: ·) ih

theorem trimNewlineChars_keep :
    ∀ cs : List Char, cs.getLast? ≠ some '\n' → trimNewlineChars cs = cs := by
  intro cs
  induction cs with
  | nil => intro _; rfl
  | cons c cs ih =>
    intro h
    cases cs with
    | nil =>
      have hc : c ≠ '\n' := by
        intro he
        apply h
        rw [he]
        rfl
      simp [trimNewlineChars, hc]
    | cons d cs =>
      rw [trimNewlineChars]
      have h2 : (d :: cs).getLast? ≠ some '\n' := by
        intro he
        apply h
        rw [List.getLast?_cons_cons]
        exact he
      rw [ih h2]

/-- C21 (amended): for a non-empty token list whose first token does not start
with `curl`, `AppendStep` appends exactly one step `{exec: {command: c}}` and
leaves `Runners` and `Desc` as they are, where `c` is the pieces of the tokens
joined by single spaces and followed by a newline; the piece of a token is the
token with one trailing newline cut off, quoted (`%#v`) if it then contains a
space character and copied verbatim otherwise. With no token `AppendStep`
returns the error `no argument` and leaves the runbook as it is. -/
theorem runbook_AppendStep_cmd (rb : Runbook) (cu : Curl) (quote : String → String)
    (t : String) (rest : List String) (h : hasPrefix t "curl" = false) :
    rb.AppendStep cu quote (t :: rest) =
        ({ rb with
            Steps := rb.Steps ++
              [[(execRunnerKey, Raw.map [("command", Raw.str
                (joinStrings " " ((t :: rest).map (fun i =>
                  if containsSpace (trimNewline i) then quote (trimNewline i)
                  else trimNewline i)) ++ "\n"))])]] },
          .ok) ∧
      (rb.AppendStep cu quote (t :: rest)).1.Runners = rb.Runners ∧
      rb.AppendStep cu quote [] = (rb, .error "no argument") ∧
      (∀ cs : List Char, trimNewline (String.mk (cs ++ ['\n'])) = String.mk cs) ∧
      (∀ s : String, s.data.getLast? ≠ some '\n' → trimNewline s = s) := by
  have h1 : rb.AppendStep cu quote (t :: rest) = rb.cmdToStep quote (t :: rest) := by
    simp [Runbook.AppendStep, h]
  refine ⟨?_, ?_, rfl, ?_, ?_⟩
  · rw [h1]
    unfold Runbook.cmdToStep joinCommands
    rw [joinLoop_eq]
    rfl
  · rw [h1]
    rfl
  · intro cs
    unfold trimNewline
    rw [trimNewlineChars_snoc]
  · intro s hs
    unfold trimNewline
    rw [trimNewlineChars_keep s.data hs]

/-- Witness of C21 (amended): `echo "hello world"` from three tokens. -/
theorem runbook_AppendStep_cmd_witness :
    hasPrefix "echo" "curl" = false ∧
      ((NewRunbook "x").AppendStep exCurl exQuote ["echo", "hello world\n", "x"]).1.Steps =
        [[(execRunnerKey, Raw.map [("command", Raw.str "echo \"hello world\" x\n")])]] :=
  ⟨rfl,
    congrArg (fun r => r.1.Steps)
      (runbook_AppendStep_cmd (NewRunbook "x") exCurl exQuote "echo" ["hello world\n", "x"]
        rfl).1⟩

/-- C21 as stated fails: a token with a tab, which is whitespace, is not
quoted. -/
theorem joinCommands_tab :
    ('\t').isWhitespace = true ∧ "a\tb".data.contains '\t' = true ∧
      joinCommands exQuote ["echo", "a\tb"] = "echo a\tb\n" :=
  ⟨rfl, rfl, rfl⟩

/-! ## setRunner -/

theorem scanRunners_str (d : String) :
    ∀ (L : List (String × String)) (hc gc dc : Nat),
      scanRunners d (strRunners L) hc gc dc =
        match L.find? (fun q => q.2 == d) with
        | some p => .found p.1
        | none =>
          .counts (hc + classCount .http L) (gc + classCount .grpc L)
            (dc + classCount .db L) := by
  intro L
  induction L with
  | nil => intro hc gc dc; simp [strRunners, scanRunners, classCount]
  | cons p L ih =>
    intro hc gc dc
    obtain ⟨k, v⟩ := p
    have hs : strRunners ((k, v) :: L) = (Raw.str k, Raw.str v) :: strRunners L := rfl
    rw [hs]
    simp only [scanRunners, List.find?_cons]
    by_cases hv : v = d
    · simp [hv]
    · have hb : (v == d) = false := by simpa using hv
      simp only [hv, if_false, hb]
      by_cases h1 : hasPrefix v "http" = true
      · simp only [h1, if_true]
        rw [ih]
        cases L.find? (fun q => q.2 == d) with
        | some q => rfl
        | none =>
          simp only [classCount, List.countP_cons, dsnClass, h1, if_true]
          simp
          omega
      · simp only [h1, Bool.false_eq_true, if_false]
        by_cases h2 : hasPrefix v "grpc" = true
        · simp only [h2, if_true]
          rw [ih]
          cases L.find? (fun q => q.2 == d) with
          | some q => rfl
          | none =>
            simp only [classCount, List.countP_cons, dsnClass, h1, h2, if_true,
              Bool.false_eq_true, if_false]
            simp
            omega
        · simp only [h2, Bool.false_eq_true, if_false]
          rw [ih]
          cases L.find? (fun q => q.2 == d) with
          | some q => rfl
          | none =>
            simp only [classCount, List.countP_cons, dsnClass, h1, h2,
              Bool.false_eq_true, if_false]
            simp
            omega

theorem newKey_eq (L : List (String × String)) (d : String) :
    (if hasPrefix d "http" then runnerKey "req" (classCount .http L)
      else if hasPrefix d "grpc" then runnerKey "greq" (classCount .grpc L)
      else runnerKey "db" (classCount .db L)) = newKey L d := by
  unfold newKey dsnClass
  by_cases h1 : hasPrefix d "http" = true
  · simp [h1, classPrefix]
  · by_cases h2 : hasPrefix d "grpc" = true
    · simp [h1, h2, classPrefix]
    · simp [h1, h2, classPrefix]

theorem find_none_iff (L : List (String × String)) (d : String) :
    L.find? (fun q => q.2 == d) = none ↔ d ∉ L.map Prod.snd := by
  rw [List.find?_eq_none]
  constructor
  · intro h hm
    obtain ⟨p, hp, hpd⟩ := List.mem_map.mp hm
    exact h p hp (by simp [hpd])
  · intro h p hp hpd
    apply h
    have : p.2 = d := by simpa using hpd
    rw [← this]
    exact List.mem_map_of_mem Prod.snd hp

/-- What `setRunner` does on a runbook whose runner keys and DSNs are strings. -/
theorem setRunner_str (rb : Runbook) (L : List (String × String))
    (hR : rb.Runners = strRunners L) (d : String) :
    (∀ p, L.find? (fun q => q.2 == d) = some p → rb.setRunner d = (rb, .ok p.1)) ∧
      (d ∉ L.map Prod.snd →
        rb.setRunner d =
          ({ rb with Runners := strRunners (L ++ [(newKey L d, d)]) }, .ok (newKey L d))) := by
  constructor
  · intro p hp
    unfold Runbook.setRunner
    rw [hR, scanRunners_str, hp]
  · intro hd
    have hf := (find_none_iff L d).mpr hd
    unfold Runbook.setRunner
    rw [hR, scanRunners_str, hf]
    simp only [Nat.zero_add]
    rw [newKey_eq]
    simp [strRunners]

theorem find_snoc (L : List (String × String)) (k d : String) (hd : d ∉ L.map Prod.snd) :
    (L ++ [(k, d)]).find? (fun q => q.2 == d) = some (k, d) := by
  rw [List.find?_append, (find_none_iff L d).mpr hd]
  simp

/-- C22 (amended): on a runbook whose runner keys and values are strings, if
`d` is already the value of a runner then `setRunner(d)` returns the key of
the first such runner and leaves `Runners` as it is; otherwise it appends
exactly one runner `(key, d)`, where `key` is the prefix of the class of `d`
(`req` for a DSN starting with http, `greq` for grpc, `db` otherwise) when no
runner of that class exists, else the prefix followed by the number of runners
of that class plus one. A second call with the same DSN returns the same key
and changes nothing. -/
theorem setRunner_spec (rb : Runbook) (L : List (String × String))
    (hR : rb.Runners = strRunners L) (d : String) :
    (d ∈ L.map Prod.snd →
      ∃ p, L.find? (fun q => q.2 == d) = some p ∧ p ∈ L ∧ p.2 = d ∧
        rb.setRunner d = (rb, .ok p.1)) ∧
    (d ∉ L.map Prod.snd →
      rb.setRunner d =
        ({ rb with Runners := rb.Runners ++ [(Raw.str (newKey L d), Raw.str d)] },
          .ok (newKey L d)) ∧
      newKey L d =
        (if classCount (dsnClass d) L = 0 then classPrefix (dsnClass d)
          else classPrefix (dsnClass d) ++ toString (classCount (dsnClass d) L + 1))) ∧
    (rb.setRunner d).1.setRunner d = ((rb.setRunner d).1, (rb.setRunner d).2) := by
  obtain ⟨s1, s2⟩ := setRunner_str rb L hR d
  refine ⟨?_, ?_, ?_⟩
  · intro hd
    cases hf : L.find? (fun q => q.2 == d) with
    | none => exact absurd hd ((find_none_iff L d).mp hf)
    | some p =>
      refine ⟨p, rfl, List.mem_of_find?_eq_some hf, ?_, s1 p hf⟩
      simpa using List.find?_some hf
  · intro hd
    refine ⟨?_, ?_⟩
    · rw [s2 hd, hR]
      simp [strRunners]
    · unfold newKey runnerKey
      by_cases h0 : classCount (dsnClass d) L = 0
      · simp [h0]
      · have : classCount (dsnClass d) L > 0 := Nat.pos_of_ne_zero h0
        simp [h0, this]
  · cases hf : L.find? (fun q => q.2 == d) with
    | some p =>
      rw [s1 p hf]
      exact s1 p hf
    | none =>
      have hd := (find_none_iff L d).mp hf
      rw [s2 hd]
      exact (setRunner_str _ (L ++ [(newKey L d, d)]) rfl d).1 _ (find_snoc L _ d hd)

/-- Witness of C22 (amended): next to `req` and `greq`, a second http DSN gets
the key `req2`, and asking again returns `req2`. -/
theorem setRunner_spec_witness :
    (setRunners (NewRunbook "x") ["http://a", "grpc://b"]).Runners =
        strRunners [("req", "http://a"), ("greq", "grpc://b")] ∧
      ((setRunners (NewRunbook "x") ["http://a", "grpc://b"]).setRunner "https://c").2 =
        .ok "req2" ∧
      ((setRunners (NewRunbook "x") ["http://a", "grpc://b"]).setRunner "https://c").1.setRunner
          "https://c" =
        (((setRunners (NewRunbook "x") ["http://a", "grpc://b"]).setRunner "https://c").1,
          ((setRunners (NewRunbook "x") ["http://a", "grpc://b"]).setRunner "https://c").2) :=
  ⟨rfl, rfl,
    (setRunner_spec (setRunners (NewRunbook "x") ["http://a", "grpc://b"])
      [("req", "http://a"), ("greq", "grpc://b")] rfl "https://c").2.2⟩

/-- C22 as stated fails: the runner values are strings, `http://x` is the
value of a runner, and `setRunner` panics on the key of that runner, which is
not a string. -/
theorem setRunner_odd_key :
    exOddKey.setRunner "http://x" =
      (exOddKey, .error "interface conversion: interface {} is not string") :=
  rfl

/-! ## The keys setRunner hands out -/

theorem digitVal_digitChar (k : Nat) (hk : k < 10) : digitVal (Nat.digitChar k) = k := by
  interval_cases k <;> rfl

theorem foldl_toDigitsCore :
    ∀ (fuel n : Nat) (ds : List Char), n < fuel →
      (Nat.toDigitsCore 10 fuel n ds).foldl (fun a c => a * 10 + digitVal c) 0 =
        ds.foldl (fun a c => a * 10 + digitVal c) n := by
  intro fuel
  induction fuel with
  | zero => intro n ds h; omega
  | succ fuel ih =>
    intro n ds h
    simp only [Nat.toDigitsCore]
    by_cases h0 : n / 10 = 0
    · simp only [h0, if_true, List.foldl_cons, Nat.zero_mul, Nat.zero_add]
      rw [digitVal_digitChar _ (Nat.mod_lt _ (by decide))]
      have : n % 10 = n := by omega
      rw [this]
    · simp only [h0, if_false]
      rw [ih (n / 10) _ (by omega)]
      simp only [List.foldl_cons]
      rw [digitVal_digitChar _ (Nat.mod_lt _ (by decide))]
      have : n / 10 * 10 + n % 10 = n := by omega
      rw [this]

theorem parseDec_toString (n : Nat) : parseDec (toString n).data = n := by
  have h : (toString n).data = Nat.toDigitsCore 10 (n + 1) n [] := rfl
  rw [h]
  unfold parseDec
  rw [foldl_toDigitsCore (n + 1) n [] (by omega)]
  rfl

theorem runnerKey_data (pfx : String) (m : Nat) :
    (runnerKey pfx m).data = pfx.data ++ (if m > 0 then (toString (m + 1)).data else []) := by
  unfold runnerKey
  by_cases h : m > 0
  · simp [h, String.data_append]
  · simp [h]

theorem runnerKey_inj (c c2 : DsnClass) (m m2 : Nat)
    (h : runnerKey (classPrefix c) m = runnerKey (classPrefix c2) m2) : c = c2 ∧ m = m2 := by
  have hd := congrArg String.data h
  rw [runnerKey_data, runnerKey_data] at hd
  have hc : c = c2 := by
    have hh := congrArg List.head? hd
    cases c <;> cases c2 <;> first | rfl | (exfalso; revert hh; simp [classPrefix])
  subst hc
  refine ⟨rfl, ?_⟩
  have hs := List.append_cancel_left hd
  by_cases h1 : m > 0 <;> by_cases h2 : m2 > 0
  · simp only [h1, h2, if_true] at hs
    have := congrArg parseDec hs
    rw [parseDec_toString, parseDec_toString] at this
    omega
  · simp only [h1, h2, if_true, if_false] at hs
    have := congrArg parseDec hs
    rw [parseDec_toString] at this
    simp [parseDec] at this
  · simp only [h1, h2, if_true, if_false] at hs
    have := congrArg parseDec hs
    rw [parseDec_toString] at this
    simp [parseDec] at this
  · omega

theorem classCount_append (c : DsnClass) (L : List (String × String)) (k d : String) :
    classCount c (L ++ [(k, d)]) = classCount c L + if dsnClass d = c then 1 else 0 := by
  unfold classCount
  rw [List.countP_append]
  by_cases h : dsnClass d = c <;> simp [h]

theorem Built.facts (L : List (String × String)) (h : Built L) :
    (L.map Prod.snd).Nodup ∧ (L.map Prod.fst).Nodup ∧
      ∀ p ∈ L, ∃ m, m < classCount (dsnClass p.2) L ∧
        p.1 = runnerKey (classPrefix (dsnClass p.2)) m := by
  induction h with
  | nil => exact ⟨List.nodup_nil, List.nodup_nil, fun p hp => by cases hp⟩
  | snoc L d _ hd ih =>
    obtain ⟨i1, i2, i3⟩ := ih
    have hform : ∀ p ∈ L ++ [(newKey L d, d)], ∃ m,
        m < classCount (dsnClass p.2) (L ++ [(newKey L d, d)]) ∧
          p.1 = runnerKey (classPrefix (dsnClass p.2)) m := by
      intro p hp
      rcases List.mem_append.mp hp with hp | hp
      · obtain ⟨m, hm, hk⟩ := i3 p hp
        refine ⟨m, ?_, hk⟩
        rw [classCount_append]
        omega
      · have hp2 : p = (newKey L d, d) := by simpa using hp
        subst hp2
        refine ⟨classCount (dsnClass d) L, ?_, rfl⟩
        rw [classCount_append]
        simp
    refine ⟨?_, ?_, hform⟩
    · rw [List.map_append]
      refine List.nodup_append.mpr ⟨i1, by simp, ?_⟩
      intro x hx hx2
      have : x = d := by simpa using hx2
      rw [this] at hx
      exact hd hx
    · rw [List.map_append]
      refine List.nodup_append.mpr ⟨i2, by simp, ?_⟩
      intro x hx hx2
      have hxk : x = newKey L d := by simpa using hx2
      obtain ⟨p, hp, hpx⟩ := List.mem_map.mp hx
      obtain ⟨m, hm, hk⟩ := i3 p hp
      have hkey : runnerKey (classPrefix (dsnClass p.2)) m =
          runnerKey (classPrefix (dsnClass d)) (classCount (dsnClass d) L) := by
        rw [← hk, hpx, hxk]
        rfl
      obtain ⟨hc, hmm⟩ := runnerKey_inj _ _ _ _ hkey
      rw [hc] at hm
      omega

theorem setRunners_built :
    ∀ (dsns : List String) (rb : Runbook) (L : List (String × String)),
      rb.Runners = strRunners L → Built L →
      ∃ L2, (setRunners rb dsns).Runners = strRunners L2 ∧ Built L2 := by
  intro dsns
  induction dsns with
  | nil => intro rb L hR hB; exact ⟨L, hR, hB⟩
  | cons d dsns ih =>
    intro rb L hR hB
    obtain ⟨s1, s2⟩ := setRunner_str rb L hR d
    have hstep : setRunners rb (d :: dsns) = setRunners (rb.setRunner d).1 dsns := rfl
    rw [hstep]
    cases hf : L.find? (fun q => q.2 == d) with
    | some p =>
      rw [s1 p hf]
      exact ih rb L hR hB
    | none =>
      have hd := (find_none_iff L d).mp hf
      rw [s2 hd]
      exact ih _ (L ++ [(newKey L d, d)]) rfl (Built.snoc L d hB hd)

/-- C26: after any sequence of `setRunner` calls on a new runbook, the runner
keys and DSNs are strings, the keys are pairwise distinct and the DSNs are
pairwise distinct, so two runners with the same key have the same DSN; and a
further `setRunner` call does not panic. -/
theorem setRunners_distinct (desc : String) (dsns : List String) :
    ∃ L, (setRunners (NewRunbook desc) dsns).Runners = strRunners L ∧
      (L.map Prod.fst).Nodup ∧ (L.map Prod.snd).Nodup ∧
      (∀ p ∈ L, ∀ q ∈ L, p.1 = q.1 → p = q) ∧
      ∀ d, ∃ key, ((setRunners (NewRunbook desc) dsns).setRunner d).2 = .ok key := by
  obtain ⟨L, hR, hB⟩ := setRunners_built dsns (NewRunbook desc) [] rfl Built.nil
  obtain ⟨f1, f2, _⟩ := Built.facts L hB
  refine ⟨L, hR, f2, f1, ?_, ?_⟩
  · intro p hp q hq hpq
    exact List.inj_on_of_nodup_map f2 hp hq hpq
  · intro d
    obtain ⟨s1, s2⟩ := setRunner_str _ L hR d
    cases hf : L.find? (fun q => q.2 == d) with
    | some p => exact ⟨p.1, by rw [s1 p hf]⟩
    | none => exact ⟨newKey L d, by rw [s2 ((find_none_iff L d).mp hf)]⟩

/-- An evaluation for C26: seven calls, one of them for a DSN seen before. -/
theorem setRunners_example :
    (setRunners (NewRunbook "x")
        ["http://a", "grpc://b", "http://c", "pg://d", "http://a", "mysql://e",
          "https://f"]).Runners =
      strRunners [("req", "http://a"), ("greq", "grpc://b"), ("req2", "http://c"),
        ("db", "pg://d"), ("db2", "mysql://e"), ("req3", "https://f")] :=
  rfl

/-! ## record in list mode and in map mode -/

theorem listed_record (o : Operator) (s : Store) (j : Option Int) (v : Frame)
    (h : again j = true → s.steps ≠ []) :
    o.listed.record { s with loopIndex := j } v =
      .ok { s with loopIndex := j, steps := applyCall s.steps (j, v) } := by
  unfold Operator.record Operator.listed Operator.recortAsListed applyCall
  have hl : Store.loopAgain { s with loopIndex := j } = again j := by
    unfold Store.loopAgain again
    cases j <;> rfl
  simp only [Bool.false_eq_true, if_false, hl]
  by_cases ha : again j = true
  · have hne : s.steps.length ≠ 0 := by
      intro h0
      exact h ha (List.length_eq_zero.mp h0)
    simp only [ha, if_true, hne, if_false, Store.recortAsListed, List.dropLast_eq_take]
  · simp only [ha, Bool.false_eq_true, if_false, Store.recortAsListed]

theorem zip_take_snoc (K : List String) (F : List Frame) (v : Frame) (k : String)
    (hK : K[F.length]? = some k) :
    List.zip (K.take (F.length + 1)) (F ++ [v]) = List.zip (K.take F.length) F ++ [(k, v)] := by
  have hlt : F.length < K.length := by
    rcases Nat.lt_or_ge F.length K.length with h | h
    · exact h
    · rw [List.getElem?_eq_none h] at hK; cases hK
  rw [List.take_succ, hK]
  simp only [Option.toList]
  rw [List.zip_append]
  · rfl
  · rw [List.length_take]
    omega

theorem zip_take_fresh (K : List String) (hk : K.Nodup) (F : List Frame) (k : String)
    (hK : K[F.length]? = some k) : ∀ q ∈ List.zip (K.take F.length) F, q.1 ≠ k := by
  intro q hq he
  have h1 : q.1 ∈ K.take F.length := (List.of_mem_zip (a := q.1) (b := q.2) hq).1
  rw [he] at h1
  exact nodup_getElem_not_mem_take K hk F.length k hK h1

theorem zip_take_length (K : List String) (F : List Frame) (h : F.length ≤ K.length) :
    (List.zip (K.take F.length) F).length = F.length := by
  rw [List.length_zip, List.length_take]
  omega

theorem mapped_record (o : Operator) (hk : (o.steps.map Step.key).Nodup) (s : Store)
    (j : Option Int) (v : Frame) (F : List Frame)
    (hs : s.stepMap = List.zip ((o.steps.map Step.key).take F.length) F)
    (h1 : again j = false → F.length < o.steps.length)
    (h2 : again j = true → F ≠ [] ∧ F.length ≤ o.steps.length) :
    o.mapped.record { s with loopIndex := j } v =
      .ok { s with
        loopIndex := j,
        stepMap := List.zip ((o.steps.map Step.key).take (applyCall F (j, v)).length)
          (applyCall F (j, v)) } := by
  have hl : Store.loopAgain { s with loopIndex := j } = again j := by
    unfold Store.loopAgain again
    cases j <;> rfl
  have hkey : ∀ n (hn : n < o.steps.length),
      (o.steps.map Step.key)[n]? = some (o.steps[n]).key := by
    intro n hn
    rw [List.getElem?_map, List.getElem?_eq_getElem hn]
    rfl
  have hrec : ∀ (t : Store) (F1 : List Frame), F1.length < o.steps.length →
      t.stepMap = List.zip ((o.steps.map Step.key).take F1.length) F1 →
      (match o.steps[t.stepMap.length]? with
        | some p => Except.ok (t.recortAsMapped p.key v)
        | none => (Except.error "index out of range" : Except String Store)) =
        .ok { t with
          stepMap := List.zip ((o.steps.map Step.key).take (F1 ++ [v]).length) (F1 ++ [v]) } := by
    intro t F1 hlt ht
    have hK := hkey F1.length hlt
    have hfresh := zip_take_fresh (o.steps.map Step.key) hk F1 _ hK
    have hzl := zip_take_length (o.steps.map Step.key) F1 (by simp; omega)
    have htl : t.stepMap.length = F1.length := by rw [ht]; exact hzl
    rw [htl, List.getElem?_eq_getElem hlt]
    simp only [Store.recortAsMapped]
    rw [ht, mapAssign_fresh _ _ _ hfresh, ← zip_take_snoc (o.steps.map Step.key) F1 v _ hK]
    simp
  unfold Operator.record Operator.mapped Operator.recortAsMapped applyCall
  simp only [if_true]
  by_cases ha : again j = true
  · obtain ⟨hne, hle⟩ := h2 ha
    obtain ⟨F0, f, rfl⟩ : ∃ F0 f, F = F0 ++ [f] := by
      rcases List.eq_nil_or_concat F with h | ⟨F0, f, h⟩
      · exact absurd h hne
      · exact ⟨F0, f, by simpa using h⟩
    have hlen : (F0 ++ [f]).length = F0.length + 1 := by simp
    rw [hlen] at hs hle
    have hlt : F0.length < o.steps.length := by omega
    have hK := hkey F0.length hlt
    have hz := zip_take_snoc (o.steps.map Step.key) F0 f _ hK
    have hfresh := zip_take_fresh (o.steps.map Step.key) hk F0 _ hK
    have hzl := zip_take_length (o.steps.map Step.key) F0 (by simp; omega)
    rw [hz] at hs
    have hsl : s.stepMap.length = F0.length + 1 := by rw [hs]; simp [hzl]
    have hdel : Operator.deletePrevious
        { o with useMap := true } { s with loopIndex := j } =
        .ok { s with
          loopIndex := j,
          stepMap := List.zip ((o.steps.map Step.key).take F0.length) F0 } := by
      unfold Operator.deletePrevious
      simp only [hl, ha, if_true]
      have h0 : s.stepMap.length ≠ 0 := by omega
      simp only [h0, if_false, hsl, Nat.add_sub_cancel]
      rw [List.getElem?_eq_getElem hlt]
      simp only
      rw [hs, mapDelete_last _ _ _ hfresh]
      simp
    rw [hdel]
    simp only [ha, if_true, List.dropLast_concat]
    exact hrec { s with loopIndex := j, stepMap := (List.take F0.length (o.steps.map Step.key)).zip F0 }
      F0 hlt rfl
  · have ha2 : again j = false := by simpa using ha
    have hlt := h1 ha2
    have hdel : Operator.deletePrevious
        { o with useMap := true } { s with loopIndex := j } =
        .ok { s with loopIndex := j } := by
      unfold Operator.deletePrevious
      simp only [hl, ha2, Bool.false_eq_true, if_false]
    rw [hdel]
    simp only [ha2, Bool.false_eq_true, if_false]
    exact hrec { s with loopIndex := j } F hlt hs

theorem applyCall_length (F : List Frame) (c : Option Int × Frame) (h : again c.1 = true → F ≠ []) :
    (applyCall F c).length = F.length + (if again c.1 then 0 else 1) ∧ applyCall F c ≠ [] := by
  unfold applyCall
  by_cases ha : again c.1 = true
  · have hne := h ha
    have hl : F.length ≠ 0 := fun h0 => hne (List.length_eq_zero.mp h0)
    simp only [ha, if_true, List.length_append, List.length_dropLast, List.length_singleton]
    exact ⟨by omega, by simp⟩
  · simp only [ha, Bool.false_eq_true, if_false, List.length_append, List.length_singleton]
    exact ⟨trivial, by simp⟩

theorem recordCalls_agree (o : Operator) (hk : (o.steps.map Step.key).Nodup) :
    ∀ (calls : List (Option Int × Frame)) (F : List Frame) (sL sM : Store),
      sL.steps = F → sM.stepMap = List.zip ((o.steps.map Step.key).take F.length) F →
      F.length + adds calls ≤ o.steps.length → (F = [] → startsFresh calls = true) →
      ∃ rL rM, o.listed.recordCalls calls sL = .ok rL ∧ o.mapped.recordCalls calls sM = .ok rM ∧
        rL.steps = calls.foldl applyCall F ∧
        rM.stepMap = List.zip ((o.steps.map Step.key).take rL.steps.length) rL.steps ∧
        rL.steps.length = F.length + adds calls := by
  intro calls
  induction calls with
  | nil =>
    intro F sL sM hL hM _ _
    refine ⟨sL, sM, rfl, rfl, hL, by rw [hL]; exact hM, by rw [hL]; simp [adds]⟩
  | cons c rest ih =>
    intro F sL sM hL hM hb hfirst
    obtain ⟨j, v⟩ := c
    have hne : again j = true → F ≠ [] := by
      intro ha hF
      have := hfirst hF
      simp [startsFresh, ha] at this
    obtain ⟨hlen, hnil⟩ := applyCall_length F (j, v) hne
    have hadds : adds ((j, v) :: rest) = adds rest + (if again j then 0 else 1) := by
      unfold adds
      rw [List.countP_cons]
      by_cases ha : again j = true <;> simp [ha]
    have h1 : again j = false → F.length < o.steps.length := by
      intro ha
      rw [hadds] at hb
      simp only [ha, Bool.false_eq_true, if_false] at hb
      omega
    have h2 : again j = true → F ≠ [] ∧ F.length ≤ o.steps.length := by
      intro ha
      exact ⟨hne ha, by omega⟩
    have hlist := listed_record o sL j v (by rw [hL]; exact hne)
    have hmap := mapped_record o hk sM j v F hM h1 h2
    have hb2 : (applyCall F (j, v)).length + adds rest ≤ o.steps.length := by
      rw [hlen]
      rw [hadds] at hb
      simp only at hb ⊢
      omega
    obtain ⟨rL, rM, e1, e2, e3, e4, e5⟩ := ih (applyCall F (j, v)) _ _
      (show Store.steps { sL with loopIndex := j, steps := applyCall sL.steps (j, v) } =
        applyCall F (j, v) by rw [← hL])
      (show Store.stepMap { sM with
          loopIndex := j,
          stepMap := List.zip ((o.steps.map Step.key).take (applyCall F (j, v)).length)
            (applyCall F (j, v)) } = _ from rfl)
      hb2 (fun h => absurd h hnil)
    refine ⟨rL, rM, ?_, ?_, e3, e4, ?_⟩
    · simp only [Operator.recordCalls, hlist]
      exact e1
    · simp only [Operator.recordCalls, hmap]
      exact e2
    · rw [e5, hlen, hadds]
      simp only
      omega

/-- C23 (amended): for an operator with pairwise distinct step keys and every
sequence of `record` calls that does not start with a call made with
loopIndex > 0 and in which at most `len(steps)` calls are made with loopIndex
nil or 0, map mode and list mode agree: neither panics, the list-mode frames
are those the specification describes (a call with loopIndex nil or 0 adds a
frame, a call with loopIndex > 0 replaces the latest frame, so their number is
the number of adding calls), the keys of the map-mode `stepMap` are the keys of
the first `m` steps, `m` the number of list-mode frames, and its frames are
the list-mode frames, position by position. -/
theorem record_modes_agree (o : Operator) (hk : (o.steps.map Step.key).Nodup)
    (calls : List (Option Int × Frame)) (h1 : startsFresh calls = true)
    (hb : adds calls ≤ o.steps.length) :
    ∃ sL sM, o.listed.recordCalls calls (emptyStore false) = .ok sL ∧
      o.mapped.recordCalls calls (emptyStore true) = .ok sM ∧
      sL.steps = framesOf calls ∧ sL.steps.length = adds calls ∧
      sM.stepMap.map Prod.fst = (o.steps.take sL.steps.length).map Step.key ∧
      sM.stepMap.map Prod.snd = sL.steps := by
  obtain ⟨rL, rM, e1, e2, e3, e4, e5⟩ := recordCalls_agree o hk calls [] (emptyStore false)
    (emptyStore true) rfl rfl (by simpa using hb) (fun _ => h1)
  have hle : rL.steps.length ≤ (o.steps.map Step.key).length := by
    rw [e5, List.length_map]
    simpa using hb
  have hlt : ((o.steps.map Step.key).take rL.steps.length).length = rL.steps.length := by
    rw [List.length_take]
    omega
  refine ⟨rL, rM, e1, e2, e3, by simpa using e5, ?_, ?_⟩
  · rw [e4, List.map_fst_zip _ _ (by rw [hlt]), List.map_take]
  · rw [e4, List.map_snd_zip _ _ (by rw [hlt])]

/-- Witness of C23 (amended): three steps, a plain record and two records of
a loop step. -/
theorem record_modes_agree_witness :
    (exPing.steps.map Step.key).Nodup ∧
      startsFresh [(none, some [("a", "1")]), (some 0, none), (some 1, some [("b", "2")])] =
        true ∧
      ∃ sL sM,
        exPing.listed.recordCalls
          [(none, some [("a", "1")]), (some 0, none), (some 1, some [("b", "2")])]
          (emptyStore false) = .ok sL ∧
        exPing.mapped.recordCalls
          [(none, some [("a", "1")]), (some 0, none), (some 1, some [("b", "2")])]
          (emptyStore true) = .ok sM ∧
        sL.steps = [some [("a", "1")], some [("b", "2")]] ∧
        sM.stepMap = [("0", some [("a", "1")]), ("1", some [("b", "2")])] :=
  ⟨by decide, rfl,
    (record_modes_agree exPing (by decide)
      [(none, some [("a", "1")]), (some 0, none), (some 1, some [("b", "2")])] rfl
      (by decide)).imp
      (fun _ h => h.imp (fun _ h2 => ⟨h2.1, h2.2.1, by
        have := h2.1
        injection this with e
        rw [← e]
        rfl, by
        have := h2.2.1
        injection this with e
        rw [← e]
        rfl⟩))⟩

/-- C23 as stated fails: on an operator with one step, two `record` calls with
loopIndex nil leave two frames in list mode and panic in map mode, where
`steps[len(stepMap)]` is out of range. -/
theorem record_modes_diverge :
    (exOp [exHttp]).listed.recordCalls [(none, none), (none, none)] (emptyStore false) =
        .ok { emptyStore false with steps := [none, none] } ∧
      (exOp [exHttp]).mapped.recordCalls [(none, none), (none, none)] (emptyStore true) =
        .error "index out of range" :=
  ⟨rfl, rfl⟩

/-! ## The reportportal command -/

theorem trimSuffix_slash (cs : List Char) : trimSuffix (String.mk (cs ++ ['/'])) "/" = String.mk cs := by
  unfold trimSuffix
  have h : ("/" : String).data = ['/'] := rfl
  have hs : (['/'] : List Char).isSuffixOf (cs ++ ['/']) = true :=
    List.isSuffixOf_iff_suffix.mpr ⟨cs, rfl⟩
  simp only [h, hs, if_true, List.length_append, List.length_singleton, Nat.add_sub_cancel,
    List.take_left']

theorem trimSuffix_keep (s : String) (h : s.data.getLast? ≠ some '/') : trimSuffix s "/" = s := by
  unfold trimSuffix
  have hd : ("/" : String).data = ['/'] := rfl
  have hs : (['/'] : List Char).isSuffixOf s.data = false := by
    cases hb : (['/'] : List Char).isSuffixOf s.data with
    | false => rfl
    | true =>
      exfalso
      obtain ⟨t, ht⟩ := List.isSuffixOf_iff_suffix.mp hb
      apply h
      rw [← ht]
      simp
  simp only [hd, hs, Bool.false_eq_true, if_false]

/-- C24: `RunE` takes endpoint, token and project each from its flag when the
flag is not empty and from `RP_ENDPOINT`, `RP_TOKEN`, `RP_PROJECT` otherwise.
If one of them is empty it returns the error for the first that is (endpoint,
then token, then project) and has done nothing: the file is not checked and no
request is sent. If none is empty and the file does not exist it returns
`file not found: <file>` right after the check; otherwise it goes on with
`sendToReportPortal` on the three settings. -/
theorem RunE_required (w : RpWorld) (fl : RpFlags) (xmlFile : String) (rest : List String) :
    (∀ flag name, flag ≠ "" → flagOrEnv w flag name = flag) ∧
    (∀ name, flagOrEnv w "" name = w.getenv name) ∧
    (flagOrEnv w fl.rpEndpoint "RP_ENDPOINT" = "" →
      RunE w fl (xmlFile :: rest) =
        ([], some
          "endpoint is required: use --endpoint flag or RP_ENDPOINT environment variable")) ∧
    (flagOrEnv w fl.rpEndpoint "RP_ENDPOINT" ≠ "" → flagOrEnv w fl.rpToken "RP_TOKEN" = "" →
      RunE w fl (xmlFile :: rest) =
        ([], some "token is required: use --token flag or RP_TOKEN environment variable")) ∧
    (flagOrEnv w fl.rpEndpoint "RP_ENDPOINT" ≠ "" → flagOrEnv w fl.rpToken "RP_TOKEN" ≠ "" →
      flagOrEnv w fl.rpProject "RP_PROJECT" = "" →
      RunE w fl (xmlFile :: rest) =
        ([], some
          "project is required: use --project flag or RP_PROJECT environment variable")) ∧
    (flagOrEnv w fl.rpEndpoint "RP_ENDPOINT" ≠ "" → flagOrEnv w fl.rpToken "RP_TOKEN" ≠ "" →
      flagOrEnv w fl.rpProject "RP_PROJECT" ≠ "" →
      (w.statNotExist xmlFile = true →
        RunE w fl (xmlFile :: rest) =
          ([RpEvent.stat xmlFile], some ("file not found: " ++ xmlFile))) ∧
      (w.statNotExist xmlFile = false →
        RunE w fl (xmlFile :: rest) =
          (RpEvent.stat xmlFile ::
              (sendToReportPortal w (flagOrEnv w fl.rpEndpoint "RP_ENDPOINT")
                (flagOrEnv w fl.rpToken "RP_TOKEN") (flagOrEnv w fl.rpProject "RP_PROJECT")
                xmlFile
                (if fl.rpLaunchName = "" then trimSuffix (w.base xmlFile) (w.ext xmlFile)
                  else fl.rpLaunchName)
                fl.rpDescription).1,
            (sendToReportPortal w (flagOrEnv w fl.rpEndpoint "RP_ENDPOINT")
                (flagOrEnv w fl.rpToken "RP_TOKEN") (flagOrEnv w fl.rpProject "RP_PROJECT")
                xmlFile
                (if fl.rpLaunchName = "" then trimSuffix (w.base xmlFile) (w.ext xmlFile)
                  else fl.rpLaunchName)
                fl.rpDescription).2))) := by
  refine ⟨fun flag name h => by simp [flagOrEnv, h], fun name => by simp [flagOrEnv], ?_, ?_, ?_,
    ?_⟩
  · intro h1
    simp [RunE, h1]
  · intro h1 h2
    simp [RunE, h1, h2]
  · intro h1 h2 h3
    simp [RunE, h1, h2, h3]
  · intro h1 h2 h3
    constructor
    · intro h4
      simp [RunE, h1, h2, h3, h4]
    · intro h4
      simp [RunE, h1, h2, h3, h4]

/-- An evaluation for C24: without a project the command fails before the file
is checked; with the three settings and a missing file it fails on the file;
the token comes from `RP_TOKEN`. -/
theorem RunE_required_example :
    RunE exWorld { exFlags with rpProject := "" } ["report.xml"] =
        ([], some
          "project is required: use --project flag or RP_PROJECT environment variable") ∧
      RunE exWorld exFlags ["missing.xml"] =
        ([RpEvent.stat "missing.xml"], some "file not found: missing.xml") ∧
      flagOrEnv exWorld exFlags.rpToken "RP_TOKEN" = "secret" :=
  ⟨rfl, rfl, rfl⟩

theorem prepareUpload_ok (w : RpWorld)
    (endpoint token project xmlFile launchName description content json : String)
    (h1 : w.openFile xmlFile = .ok content) (h2 : w.createFormFile (w.base xmlFile) = none)
    (h3 : w.copy content = none)
    (h4 : w.marshal
      { Name := launchName, Description := description,
        Attributes := [{ Key := "source", Value := "runn" },
          { Key := "type", Value := "junit-import" }] } = .ok json)
    (h5 : w.writeField "launchImportRq" json = none) (h6 : w.closeWriter = none)
    (h7 : w.newRequest "POST"
      (trimSuffix endpoint "/" ++ "/api/v1/plugin/" ++ project ++ "/junit/import") = none) :
    prepareUpload w endpoint token project xmlFile launchName description =
      .ok
        { method := "POST",
          url := trimSuffix endpoint "/" ++ "/api/v1/plugin/" ++ project ++ "/junit/import",
          headers := [("Content-Type", w.contentType), ("Authorization", "Bearer " ++ token)],
          body := w.formBody (w.base xmlFile) content json } := by
  unfold prepareUpload
  rw [h1]
  simp only
  rw [h2]
  simp only
  rw [h3]
  simp only
  rw [h4]
  simp only
  rw [h5]
  simp only
  rw [h6]
  simp only
  rw [h7]

theorem prepareUpload_inv (w : RpWorld)
    (endpoint token project xmlFile launchName description : String) (req : HttpRequest)
    (hp : prepareUpload w endpoint token project xmlFile launchName description = .ok req) :
    ∃ content json, w.openFile xmlFile = .ok content ∧
      w.createFormFile (w.base xmlFile) = none ∧ w.copy content = none ∧
      w.marshal
        { Name := launchName, Description := description,
          Attributes := [{ Key := "source", Value := "runn" },
            { Key := "type", Value := "junit-import" }] } = .ok json ∧
      w.writeField "launchImportRq" json = none ∧ w.closeWriter = none ∧
      w.newRequest "POST"
        (trimSuffix endpoint "/" ++ "/api/v1/plugin/" ++ project ++ "/junit/import") = none ∧
      req =
        { method := "POST",
          url := trimSuffix endpoint "/" ++ "/api/v1/plugin/" ++ project ++ "/junit/import",
          headers := [("Content-Type", w.contentType), ("Authorization", "Bearer " ++ token)],
          body := w.formBody (w.base xmlFile) content json } := by
  unfold prepareUpload at hp
  cases h1 : w.openFile xmlFile with
  | error e => rw [h1] at hp; cases hp
  | ok content =>
    rw [h1] at hp
    simp only at hp
    cases h2 : w.createFormFile (w.base xmlFile) with
    | some e => rw [h2] at hp; cases hp
    | none =>
      rw [h2] at hp
      simp only at hp
      cases h3 : w.copy content with
      | some e => rw [h3] at hp; cases hp
      | none =>
        rw [h3] at hp
        simp only at hp
        cases h4 : w.marshal
            { Name := launchName, Description := description,
              Attributes := [{ Key := "source", Value := "runn" },
                { Key := "type", Value := "junit-import" }] } with
        | error e => rw [h4] at hp; cases hp
        | ok json =>
          rw [h4] at hp
          simp only at hp
          cases h5 : w.writeField "launchImportRq" json with
          | some e => rw [h5] at hp; cases hp
          | none =>
            rw [h5] at hp
            simp only at hp
            cases h6 : w.closeWriter with
            | some e => rw [h6] at hp; cases hp
            | none =>
              rw [h6] at hp
              simp only at hp
              cases h7 : w.newRequest "POST"
                  (trimSuffix endpoint "/" ++ "/api/v1/plugin/" ++ project ++
                    "/junit/import") with
              | some e => rw [h7] at hp; cases hp
              | none =>
                rw [h7] at hp
                simp only [Except.ok.injEq] at hp
                exact ⟨content, json, rfl, rfl, h3, rfl, h5, rfl, rfl, hp.symm⟩

theorem sent_upload (endpoint project xmlFile launchName : String) (req : HttpRequest)
    (tl : List RpEvent) (h : sent tl = []) :
    sent (RpEvent.opened xmlFile :: uploadBanner endpoint project xmlFile launchName ++
      RpEvent.send req :: tl) = [req] := by
  simp only [sent] at h
  simp [sent, uploadBanner, h]

theorem sendToReportPortal_sent (w : RpWorld)
    (endpoint token project xmlFile launchName description : String) (req : HttpRequest)
    (hp : prepareUpload w endpoint token project xmlFile launchName description = .ok req) :
    sent (sendToReportPortal w endpoint token project xmlFile launchName description).1 =
      [req] := by
  unfold sendToReportPortal
  rw [hp]
  simp only
  cases hs : w.send req with
  | error e => exact sent_upload _ _ _ _ _ [] rfl
  | ok resp =>
    simp only
    cases hb : resp.body with
    | error e => exact sent_upload _ _ _ _ _ [] rfl
    | ok body =>
      simp only
      split_ifs
      · exact sent_upload _ _ _ _ _ [_] rfl
      · exact sent_upload _ _ _ _ _ [] rfl

/-- C25: when the file opens and the multipart form and the request are built
without error, `sendToReportPortal` sends exactly one request: a POST to the
endpoint with one trailing `/` cut off followed by
`/api/v1/plugin/<project>/junit/import`, with the headers `Content-Type` and
`Authorization: Bearer <token>`. These conditions are also necessary: if one
of the steps before fails, its error is returned and nothing is sent. Once
the response is read the function returns nil exactly when the status `s`
satisfies `200 ≤ s < 300`, and otherwise the error
`failed to upload: HTTP <s>: <body>` with the status in decimal. -/
theorem sendToReportPortal_spec (w : RpWorld)
    (endpoint token project xmlFile launchName description : String) :
    (∀ content json, w.openFile xmlFile = .ok content →
      w.createFormFile (w.base xmlFile) = none → w.copy content = none →
      w.marshal
        { Name := launchName, Description := description,
          Attributes := [{ Key := "source", Value := "runn" },
            { Key := "type", Value := "junit-import" }] } = .ok json →
      w.writeField "launchImportRq" json = none → w.closeWriter = none →
      w.newRequest "POST"
        (trimSuffix endpoint "/" ++ "/api/v1/plugin/" ++ project ++ "/junit/import") = none →
      sent (sendToReportPortal w endpoint token project xmlFile launchName description).1 =
        [{ method := "POST",
           url := trimSuffix endpoint "/" ++ "/api/v1/plugin/" ++ project ++ "/junit/import",
           headers := [("Content-Type", w.contentType), ("Authorization", "Bearer " ++ token)],
           body := w.formBody (w.base xmlFile) content json }] ∧
      (∀ resp body,
        w.send
          { method := "POST",
            url := trimSuffix endpoint "/" ++ "/api/v1/plugin/" ++ project ++ "/junit/import",
            headers := [("Content-Type", w.contentType),
              ("Authorization", "Bearer " ++ token)],
            body := w.formBody (w.base xmlFile) content json } = .ok resp →
        resp.body = .ok body →
        ((sendToReportPortal w endpoint token project xmlFile launchName description).2 =
            none ↔ (200 ≤ resp.StatusCode ∧ resp.StatusCode < 300)) ∧
        (¬ (200 ≤ resp.StatusCode ∧ resp.StatusCode < 300) →
          (sendToReportPortal w endpoint token project xmlFile launchName description).2 =
            some ("failed to upload: HTTP " ++ toString resp.StatusCode ++ ": " ++ body)))) ∧
    (∀ req, RpEvent.send req ∈
        (sendToReportPortal w endpoint token project xmlFile launchName description).1 →
      ∃ content json, w.openFile xmlFile = .ok content ∧
        w.createFormFile (w.base xmlFile) = none ∧ w.copy content = none ∧
        w.marshal
          { Name := launchName, Description := description,
            Attributes := [{ Key := "source", Value := "runn" },
              { Key := "type", Value := "junit-import" }] } = .ok json ∧
        w.writeField "launchImportRq" json = none ∧ w.closeWriter = none ∧
        w.newRequest "POST"
          (trimSuffix endpoint "/" ++ "/api/v1/plugin/" ++ project ++ "/junit/import") =
          none ∧
        req =
          { method := "POST",
            url := trimSuffix endpoint "/" ++ "/api/v1/plugin/" ++ project ++ "/junit/import",
            headers := [("Content-Type", w.contentType),
              ("Authorization", "Bearer " ++ token)],
            body := w.formBody (w.base xmlFile) content json }) ∧
    (∀ e, prepareUpload w endpoint token project xmlFile launchName description = .error e →
      sendToReportPortal w endpoint token project xmlFile launchName description =
        ([RpEvent.opened xmlFile], some e)) ∧
    (∀ cs : List Char, trimSuffix (String.mk (cs ++ ['/'])) "/" = String.mk cs) ∧
    (∀ s : String, s.data.getLast? ≠ some '/' → trimSuffix s "/" = s) := by
  refine ⟨?_, ?_, ?_, trimSuffix_slash, trimSuffix_keep⟩
  · intro content json h1 h2 h3 h4 h5 h6 h7
    have hp := prepareUpload_ok w endpoint token project xmlFile launchName description
      content json h1 h2 h3 h4 h5 h6 h7
    refine ⟨sendToReportPortal_sent w endpoint token project xmlFile launchName description _ hp,
      ?_⟩
    intro resp body hs hb
    by_cases hst : 200 ≤ resp.StatusCode ∧ resp.StatusCode < 300
    · have hval : (sendToReportPortal w endpoint token project xmlFile launchName
          description).2 = none := by
        unfold sendToReportPortal
        rw [hp]
        simp only [hs, hb]
        rw [if_pos hst]
      rw [hval]
      exact ⟨⟨fun _ => hst, fun _ => rfl⟩, fun h => absurd hst h⟩
    · have hval : (sendToReportPortal w endpoint token project xmlFile launchName
          description).2 =
          some ("failed to upload: HTTP " ++ toString resp.StatusCode ++ ": " ++ body) := by
        unfold sendToReportPortal
        rw [hp]
        simp only [hs, hb]
        rw [if_neg hst]
      rw [hval]
      exact ⟨⟨fun h => (by cases h), fun h => absurd h hst⟩, fun _ => rfl⟩
  · intro req hreq
    cases hp : prepareUpload w endpoint token project xmlFile launchName description with
    | error e =>
      unfold sendToReportPortal at hreq
      rw [hp] at hreq
      simp at hreq
    | ok r =>
      have hs := sendToReportPortal_sent w endpoint token project xmlFile launchName
        description r hp
      have hmem : req ∈ sent
          (sendToReportPortal w endpoint token project xmlFile launchName description).1 := by
        unfold sent
        exact List.mem_filterMap.mpr ⟨_, hreq, rfl⟩
      rw [hs, List.mem_singleton] at hmem
      rw [hmem]
      exact prepareUpload_inv w endpoint token project xmlFile launchName description r hp
  · intro e hp
    unfold sendToReportPortal
    rw [hp]

/-- Witness of C25: in the example world the file opens and the form is built,
so one request goes out, to the endpoint without its trailing slash and with
the bearer token; the status 201 gives nil and the status 500 the error with
the status and the body. -/
theorem sendToReportPortal_spec_witness :
    sent (sendToReportPortal exWorld "http://rp/" "secret" "demo" "report.xml" "report" "").1 =
        [{ method := "POST", url := "http://rp/api/v1/plugin/demo/junit/import",
           headers := [("Content-Type", "multipart/form-data"),
             ("Authorization", "Bearer secret")],
           body := "report.xml<testsuite/>report" }] ∧
      (sendToReportPortal exWorld "http://rp/" "secret" "demo" "report.xml" "report" "").2 =
        none ∧
      (sendToReportPortal exWorld "http://rp/" "secret" "other" "report.xml" "report" "").2 =
        some "failed to upload: HTTP 500: boom" :=
  ⟨((sendToReportPortal_spec exWorld "http://rp/" "secret" "demo" "report.xml" "report" "").1
      "<testsuite/>" "report" rfl rfl rfl rfl rfl rfl rfl).1,
    (((sendToReportPortal_spec exWorld "http://rp/" "secret" "demo" "report.xml" "report" "").1
      "<testsuite/>" "report" rfl rfl rfl rfl rfl rfl rfl).2
        { StatusCode := 201, body := .ok "created" } "created" rfl rfl).1.mpr (by decide),
    (((sendToReportPortal_spec exWorld "http://rp/" "secret" "other" "report.xml" "report" "").1
      "<testsuite/>" "report" rfl rfl rfl rfl rfl rfl rfl).2
        { StatusCode := 500, body := .ok "boom" } "boom" rfl rfl).2 (by decide)⟩

/-- An evaluation for C25: the request the example world receives, and the
error for the status 500. -/
theorem sendToReportPortal_example :
    (prepareUpload exWorld "http://rp/" "secret" "demo" "report.xml" "report" "").toOption.map
        (fun r => (r.url, r.headers)) =
      some ("http://rp/api/v1/plugin/demo/junit/import",
        [("Content-Type", "multipart/form-data"), ("Authorization", "Bearer secret")]) ∧
      (sendToReportPortal exWorld "http://rp/" "secret" "demo" "report.xml" "report" "").2 =
        none ∧
      (sendToReportPortal exWorld "http://rp/" "secret" "other" "report.xml" "report" "").2 =
        some "failed to upload: HTTP 500: boom" :=
  ⟨rfl, rfl, rfl⟩

end Runn
